import Mathlib

/-!
# File Sector Manager (fsm.c): shallow embedding

The disk image is a map from byte addresses to 32-bit words (every access of
fsm.c to directory entries and index blocks is word-granular; file payload is
copied in whole blocks).  The inode table region is kept as a separate map
from inode numbers to inode records, the Sector Space Manager as the list of
the answers it is going to give plus a log of the sectors handed back to it.
-/

namespace Fsm

/-! ## Constants -/

/-- The null pointer sentinel, (unsigned int)(-1). -/
def NIL : Nat := 4294967295

/-- Modulus of unsigned int arithmetic. -/
def U32 : Nat := 4294967296

def INODE_DIRECT_PTRS : Nat := 10

def BITS_PER_BYTE : Nat := 8

/-- Number of 32-bit slots in a block: BLOCK_SIZE / 4. -/
def PTRS_PER_BLOCK (bs : Nat) : Nat := bs / 4

def S_INDIRECT_BLOCKS (bs : Nat) : Nat := PTRS_PER_BLOCK bs

def D_INDIRECT_BLOCKS (bs : Nat) : Nat := PTRS_PER_BLOCK bs * PTRS_PER_BLOCK bs

def T_INDIRECT_BLOCKS (bs : Nat) : Nat :=
  PTRS_PER_BLOCK bs * PTRS_PER_BLOCK bs * PTRS_PER_BLOCK bs

def S_INDIRECT_SIZE (bs : Nat) : Nat := (INODE_DIRECT_PTRS + S_INDIRECT_BLOCKS bs) * bs

def D_INDIRECT_SIZE (bs : Nat) : Nat := S_INDIRECT_SIZE bs + D_INDIRECT_BLOCKS bs * bs

def is_not_null (_ptr : Nat) : Bool := _ptr != NIL

def is_null (_ptr : Nat) : Bool := _ptr == NIL

/-! ## Data model -/

/-- The inode record. -/
structure Inode where
  fileType : Int
  fileSize : Nat
  dataBlocks : Nat
  linkCount : Nat
  directPtr : List Nat
  sIndirect : Nat
  dIndirect : Nat
  tIndirect : Nat
deriving DecidableEq, Repr

/-- Modelled from the spec: inode_init of the Inode Store (inode.c is not part of
the sources), "zero fields, set all pointer slots to NIL". -/
def inode_init : Inode :=
  { fileType := 0, fileSize := 0, dataBlocks := 0, linkCount := 0,
    directPtr := List.replicate INODE_DIRECT_PTRS NIL,
    sIndirect := NIL, dIndirect := NIL, tIndirect := NIL }

/-- Modelled from the spec: inode_init_ptrs of the Inode Store, "reset only the
pointer slots to NIL". -/
def inode_init_ptrs (i : Inode) : Inode :=
  { i with directPtr := List.replicate INODE_DIRECT_PTRS NIL,
           sIndirect := NIL, dIndirect := NIL, tIndirect := NIL }

/-- The state fsm.c works on: disk image, inode table, the process-wide working
inode slot, the inode map and the Sector Space Manager. -/
structure FsState where
  /-- word stored at a byte address of the disk image -/
  disk : Nat → Nat
  /-- inode table: the record persisted for an inode number -/
  itable : Nat → Inode
  /-- the global working slot inode -/
  inode : Inode
  /-- inode_map.id -/
  mapId : Nat
  /-- inode_map.iMapOffset[0] and [1] -/
  iMapOffset : Nat × Nat
  /-- inode bitmap, one flag per inode number: true when the inode is taken -/
  iMap : List Bool
  /-- the answers ssm_allocate_sectors is going to give, in call order -/
  ssmOut : List Nat
  /-- the sector indices passed to ssm_deallocate_sectors, in call order -/
  ssmFreed : List Nat
  /-- the inode numbers passed to deallocate_inode, in call order -/
  inodeFreed : List Nat

/-! ## Disk image I/O -/

/-- The word buffer fread gives for a block at byte offset off. -/
def readBlock (d : Nat → Nat) (off : Nat) : Nat → Nat :=
  fun j => d (off + 4 * j)

/-- The disk after fwrite of the first cnt words of buf at byte offset off. -/
def writeWords (d : Nat → Nat) (off cnt : Nat) (buf : Nat → Nat) : Nat → Nat :=
  fun a => if off ≤ a ∧ (a - off) % 4 = 0 ∧ (a - off) / 4 < cnt then buf ((a - off) / 4) else d a

/-- The disk after fwrite of one block. -/
def writeBlock (bs : Nat) (d : Nat → Nat) (off : Nat) (buf : Nat → Nat) : Nat → Nat :=
  writeWords d off (bs / 4) buf

/-- Assignment buf[i] = v on a word buffer. -/
def bufSet (buf : Nat → Nat) (i v : Nat) : Nat → Nat :=
  fun k => if k = i then v else buf k

/-- The values of j in for (j = start; j < BLOCK_SIZE / 4; j += 4), start = 4 * k0. -/
def slotIdx (bs k0 : Nat) : List Nat :=
  ((List.range ((bs / 4 + 3) / 4)).drop k0).map (fun k => 4 * k)

/-! ## External collaborators -/

/-- Modelled from the spec: ssm_allocate_sectors of the Sector Space Manager
(ssm.c is not part of the sources), "returns a byte offset ..., or NIL on
exhaustion".  The answers are taken from the list ssmOut. -/
def ssm_allocate_sectors (s : FsState) : Nat × FsState :=
  match s.ssmOut with
  | [] => (NIL, s)
  | x :: xs => (x, { s with ssmOut := xs })

/-- Modelled from the spec: ssm_deallocate_sectors(sector_index), recorded in
the log ssmFreed. -/
def ssm_deallocate_sectors (s : FsState) (sectorNum : Nat) : FsState :=
  { s with ssmFreed := s.ssmFreed ++ [sectorNum] }

/-- Modelled from the spec: inode_read(&inode, n, disk) into the working slot. -/
def inode_read (s : FsState) (n : Nat) : FsState :=
  { s with inode := s.itable n }

/-- Modelled from the spec: inode_write(&inode, n, disk) of the working slot. -/
def inode_write (s : FsState) (n : Nat) : FsState :=
  { s with itable := fun k => if k = n then s.inode else s.itable k }

/-- Modelled from the spec: get_inode of the Inode Store, which leaves the
(byte_index, bit_index) of the next free inode in iMapOffset, NIL when the
bitmap has no free bit. -/
def get_inode (s : FsState) : FsState :=
  let n := s.iMap.indexOf false
  if n < s.iMap.length then { s with iMapOffset := (n / BITS_PER_BYTE, n % BITS_PER_BYTE) }
  else { s with iMapOffset := (NIL, NIL) }

/-- Modelled from the spec: allocate_inode of the Inode Store marks the inode
at iMapOffset as taken. -/
def allocate_inode (s : FsState) : FsState :=
  { s with iMap := s.iMap.set (BITS_PER_BYTE * s.iMapOffset.1 + s.iMapOffset.2) true }

/-- Modelled from the spec: deallocate_inode(n) of the Inode Store. -/
def deallocate_inode (s : FsState) (n : Nat) : FsState :=
  { s with iMap := s.iMap.set n false, inodeFreed := s.inodeFreed ++ [n] }

/-! ## Open and close -/

/-- fs_open_file(_inodeNum, _inode): the result, the record left in *_inode
and the state. -/
def fs_open_file (s : FsState) (_inodeNum : Nat) (_inode : Inode) : Bool × Inode × FsState :=
  if is_null _inodeNum then (false, _inode, s)
  else
    let rec_ := s.itable _inodeNum
    let s1 := { s with mapId := _inodeNum }
    if rec_.fileType ≤ 0 then (false, inode_init, { s1 with mapId := NIL })
    else (true, rec_, s1)

/-- The call fs_open_file(n, &inode) on the working slot. -/
def open_inode (s : FsState) (n : Nat) : Bool × FsState :=
  let r := fs_open_file s n s.inode
  (r.1, { r.2.2 with inode := r.2.1 })

def fs_close_file (s : FsState) : Bool × FsState :=
  (true, { s with mapId := NIL, inode := inode_init })

/-! ## File Data Engine: read -/

/-- The output buffer after fread(buffer, BLOCK_SIZE, 1) from byte offset off,
the cursor buffer standing at word position pos. -/
def copyIn (bs : Nat) (d : Nat → Nat) (off : Nat) (out : Nat → Nat) (pos : Nat) : Nat → Nat :=
  fun k => if pos ≤ k ∧ k < pos + bs / 4 then d (off + 4 * (k - pos)) else out k

/-- read_from_single_indirect_blocks: the output buffer afterwards. -/
def read_from_single_indirect_blocks (bs : Nat) (d : Nat → Nat) (out : Nat → Nat) (pos : Nat)
    (_diskOffset : Nat) : Nat → Nat :=
  let indirectBlock := readBlock d _diskOffset
  ((List.range (bs / 4)).foldl
    (fun (acc : (Nat → Nat) × Nat) i =>
      if is_not_null (indirectBlock i) then
        (copyIn bs d (indirectBlock i) acc.1 acc.2, acc.2 + bs / 4)
      else acc)
    (out, pos)).1

def read_from_double_indirect_blocks (bs : Nat) (d : Nat → Nat) (out : Nat → Nat) (pos : Nat)
    (_diskOffset : Nat) : Nat → Nat :=
  let indirectBlock := readBlock d _diskOffset
  ((List.range (bs / 4)).foldl
    (fun (acc : (Nat → Nat) × Nat) i =>
      if is_not_null (indirectBlock i) then
        (read_from_single_indirect_blocks bs d acc.1 acc.2 (indirectBlock i),
          acc.2 + bs / 4 * S_INDIRECT_BLOCKS bs)
      else acc)
    (out, pos)).1

def read_from_triple_indirect_blocks (bs : Nat) (d : Nat → Nat) (out : Nat → Nat) (pos : Nat)
    (_diskOffset : Nat) : Nat → Nat :=
  let indirectBlock := readBlock d _diskOffset
  ((List.range (bs / 4)).foldl
    (fun (acc : (Nat → Nat) × Nat) i =>
      if is_not_null (indirectBlock i) then
        (read_from_double_indirect_blocks bs d acc.1 acc.2 (indirectBlock i),
          acc.2 + bs / 4 * D_INDIRECT_BLOCKS bs)
      else acc)
    (out, pos)).1

/-- The direct-pointer loop of fs_read_from_file: buffer and cursor afterwards. -/
def read_direct (bs : Nat) (d : Nat → Nat) (ino : Inode) (out : Nat → Nat) :
    (Nat → Nat) × Nat :=
  (List.range INODE_DIRECT_PTRS).foldl
    (fun (acc : (Nat → Nat) × Nat) i =>
      if is_not_null (ino.directPtr.getD i NIL) then
        (copyIn bs d (ino.directPtr.getD i NIL) acc.1 acc.2, acc.2 + bs / 4)
      else acc)
    (out, 0)

/-- fs_read_from_file(_inodeNum, _buffer): result, buffer afterwards, state. -/
def fs_read_from_file (bs : Nat) (s : FsState) (_inodeNum : Nat) (_buffer : Nat → Nat) :
    Bool × (Nat → Nat) × FsState :=
  let o := open_inode s _inodeNum
  if !o.1 then (false, _buffer, o.2)
  else
    let s1 := o.2
    let r0 := read_direct bs s1.disk s1.inode _buffer
    let r1 : (Nat → Nat) × Nat :=
      if is_not_null s1.inode.sIndirect then
        (read_from_single_indirect_blocks bs s1.disk r0.1 r0.2 s1.inode.sIndirect,
          r0.2 + bs / 4 * S_INDIRECT_BLOCKS bs)
      else r0
    let r2 : (Nat → Nat) × Nat :=
      if is_not_null s1.inode.dIndirect then
        (read_from_double_indirect_blocks bs s1.disk r1.1 r1.2 s1.inode.dIndirect,
          r1.2 + bs / 4 * D_INDIRECT_BLOCKS bs)
      else r1
    let r3 : Nat → Nat :=
      if is_not_null s1.inode.tIndirect then
        read_from_triple_indirect_blocks bs s1.disk r2.1 r2.2 s1.inode.tIndirect
      else r2.1
    (true, r3, s1)

/-! ## Indirect-Block Engine: allocation -/

/-- The disk after fwrite(&address, sizeof(unsigned int), 1) at byte offset a. -/
def writeWord (d : Nat → Nat) (a v : Nat) : Nat → Nat :=
  fun x => if x = a then v else d x

/-- The allocation loop of aloc_single_indirect: cursor diskOffset and state. -/
def aloc_single_loop : Nat → Nat → FsState → Nat × FsState
  | 0, diskOffset, s => (diskOffset, s)
  | k + 1, diskOffset, s =>
    let r := ssm_allocate_sectors s
    if is_not_null r.1 then
      aloc_single_loop k (diskOffset + 4) { r.2 with disk := writeWord r.2.disk diskOffset r.1 }
    else aloc_single_loop k diskOffset r.2

/-- aloc_single_indirect(_blockCount): the loop runs while i < _blockCount and
i < PTRS_PER_BLOCK. -/
def aloc_single_indirect (bs : Nat) (s : FsState) (_blockCount : Int) : Nat × FsState :=
  let r := ssm_allocate_sectors s
  if is_not_null r.1 then
    let s1 := { r.2 with disk := writeBlock bs r.2.disk r.1 (fun _ => NIL) }
    (r.1, (aloc_single_loop (min _blockCount.toNat (PTRS_PER_BLOCK bs)) r.1 s1).2)
  else (NIL, r.2)

/-- The loop of aloc_double_indirect; k iterations are left, blockCount is the
running long long counter, _blockCount the argument handed down unchanged. -/
def aloc_double_loop (bs : Nat) (_blockCount : Int) : Nat → Int → Nat → FsState → FsState
  | 0, _, _, s => s
  | k + 1, blockCount, diskOffset, s =>
    let r := aloc_single_indirect bs s _blockCount
    let s1 := { r.2 with disk := writeWord r.2.disk diskOffset r.1 }
    if blockCount - (S_INDIRECT_BLOCKS bs : Int) < 0 then s1
    else aloc_double_loop bs _blockCount k (blockCount - (S_INDIRECT_BLOCKS bs : Int))
      (diskOffset + 4) s1

def aloc_double_indirect (bs : Nat) (s : FsState) (_blockCount : Int) : Nat × FsState :=
  let r := ssm_allocate_sectors s
  if is_not_null r.1 then
    let s1 := { r.2 with disk := writeBlock bs r.2.disk r.1 (fun _ => NIL) }
    (r.1, aloc_double_loop bs _blockCount (PTRS_PER_BLOCK bs) _blockCount r.1 s1)
  else (NIL, r.2)

def aloc_triple_loop (bs : Nat) (_blockCount : Int) : Nat → Int → Nat → FsState → FsState
  | 0, _, _, s => s
  | k + 1, blockCount, diskOffset, s =>
    let r := aloc_double_indirect bs s _blockCount
    let s1 := { r.2 with disk := writeWord r.2.disk diskOffset r.1 }
    if blockCount - (D_INDIRECT_BLOCKS bs : Int) < 0 then s1
    else aloc_triple_loop bs _blockCount k (blockCount - (D_INDIRECT_BLOCKS bs : Int))
      (diskOffset + 4) s1

def aloc_triple_indirect (bs : Nat) (s : FsState) (_blockCount : Int) : Nat × FsState :=
  let r := ssm_allocate_sectors s
  if is_not_null r.1 then
    let s1 := { r.2 with disk := writeBlock bs r.2.disk r.1 (fun _ => NIL) }
    (r.1, aloc_triple_loop bs _blockCount (PTRS_PER_BLOCK bs) _blockCount r.1 s1)
  else (NIL, r.2)

/-! ## File Data Engine: write -/

/-- The test (x - c > 0) for an unsigned int x and one of the block-count
constants c of fsm_constants.h, a header missing from the sources.  With wide = false
the constant is of a type no wider than unsigned int, the difference wraps and
the test is x != c; with wide = true the constant is of a wider signed type and
the test is x > c. -/
def subPos (wide : Bool) (x c : Nat) : Bool :=
  if wide then decide (c < x) else decide (x ≠ c)

/-- The unsigned int left by x -= c. -/
def subU32 (x c : Nat) : Nat := (x + U32 - c % U32) % U32

/-- The block of the caller's buffer at word position pos. -/
def bufAt (buf : Nat → Nat) (pos : Nat) : Nat → Nat := fun j => buf (pos + j)

/-- The loop of write_to_file_direct over the pointer indices is; pos is the
buffer cursor. -/
def write_to_file_direct (bs : Nat) (buf : Nat → Nat) : List Nat → Nat → FsState → Nat × FsState
  | [], pos, s => (pos, s)
  | i :: is, pos, s =>
    let diskOffset := s.inode.directPtr.getD i NIL
    if is_null diskOffset then
      let r := ssm_allocate_sectors s
      if is_null r.1 then (pos, r.2)
      else
        write_to_file_direct bs buf is (pos + bs / 4)
          { r.2 with inode := { r.2.inode with directPtr := r.2.inode.directPtr.set i r.1 },
                     disk := writeBlock bs r.2.disk r.1 (bufAt buf pos) }
    else
      write_to_file_direct bs buf is (pos + bs / 4)
        { s with disk := writeBlock bs s.disk diskOffset (bufAt buf pos) }

/-- The loop of write_to_single_indirect_blocks over the slot indices is. -/
def write_single_loop (bs : Nat) (indirectBlock buf : Nat → Nat) :
    List Nat → Nat → (Nat → Nat) → (Nat → Nat)
  | [], _, d => d
  | i :: is, pos, d =>
    if is_null (indirectBlock i) then d
    else write_single_loop bs indirectBlock buf is (pos + bs / 4)
      (writeBlock bs d (indirectBlock i) (bufAt buf pos))

/-- write_to_single_indirect_blocks(_baseOffset, _buffer, _sIndirectPtrs): the
disk afterwards; pos is the position of _buffer. -/
def write_to_single_indirect_blocks (bs : Nat) (d : Nat → Nat) (_baseOffset : Nat)
    (buf : Nat → Nat) (pos : Nat) (_sIndirectPtrs : Nat) : Nat → Nat :=
  write_single_loop bs (readBlock d _baseOffset) buf (List.range _sIndirectPtrs) pos d

def write_double_loop (bs : Nat) (wide : Bool) (indirectBlock buf : Nat → Nat) :
    List Nat → Nat → Nat → (Nat → Nat) → (Nat → Nat)
  | [], _, _, d => d
  | i :: is, pos, dIndirectPtrs, d =>
    if is_null (indirectBlock i) then d
    else if subPos wide dIndirectPtrs (S_INDIRECT_BLOCKS bs) then
      write_double_loop bs wide indirectBlock buf is (pos + bs / 4 * S_INDIRECT_BLOCKS bs)
        (subU32 dIndirectPtrs (S_INDIRECT_BLOCKS bs))
        (write_to_single_indirect_blocks bs d (indirectBlock i) buf pos (S_INDIRECT_BLOCKS bs))
    else if dIndirectPtrs = S_INDIRECT_BLOCKS bs then
      write_to_single_indirect_blocks bs d (indirectBlock i) buf pos (S_INDIRECT_BLOCKS bs)
    else
      write_to_single_indirect_blocks bs d (indirectBlock i) buf pos dIndirectPtrs

def write_to_double_indirect_blocks (bs : Nat) (wide : Bool) (d : Nat → Nat) (_baseOffset : Nat)
    (buf : Nat → Nat) (pos : Nat) (_dIndirectPtrs : Nat) : Nat → Nat :=
  write_double_loop bs wide (readBlock d _baseOffset) buf (List.range (PTRS_PER_BLOCK bs)) pos
    _dIndirectPtrs d

def write_triple_loop (bs : Nat) (wide : Bool) (indirectBlock buf : Nat → Nat) :
    List Nat → Nat → Nat → (Nat → Nat) → (Nat → Nat)
  | [], _, _, d => d
  | i :: is, pos, tIndirectPtrs, d =>
    if is_null (indirectBlock i) then d
    else if subPos wide tIndirectPtrs (D_INDIRECT_BLOCKS bs) then
      write_triple_loop bs wide indirectBlock buf is (pos + bs / 4 * D_INDIRECT_BLOCKS bs)
        (subU32 tIndirectPtrs (D_INDIRECT_BLOCKS bs))
        (write_to_double_indirect_blocks bs wide d (indirectBlock i) buf pos
          (D_INDIRECT_BLOCKS bs))
    else if tIndirectPtrs = D_INDIRECT_BLOCKS bs then
      write_to_double_indirect_blocks bs wide d (indirectBlock i) buf pos (D_INDIRECT_BLOCKS bs)
    else
      write_to_double_indirect_blocks bs wide d (indirectBlock i) buf pos tIndirectPtrs

def write_to_triple_indirect_blocks (bs : Nat) (wide : Bool) (d : Nat → Nat) (_baseOffset : Nat)
    (buf : Nat → Nat) (pos : Nat) (_tIndirectPtrs : Nat) : Nat → Nat :=
  write_triple_loop bs wide (readBlock d _baseOffset) buf (List.range (PTRS_PER_BLOCK bs)) pos
    _tIndirectPtrs d

/-- The unsigned int block count set from the long long fileSize: the quotient
by BLOCK_SIZE, plus one when there is a remainder. -/
def blocksFor (bs : Nat) (fileSize : Int) : Nat :=
  let q := ((fileSize / (bs : Int)) % (U32 : Int)).toNat
  if fileSize % (bs : Int) > 0 then (q + 1) % U32 else q

def write_to_file_using_single_indirect_blocks (bs : Nat) (s : FsState) (buf : Nat → Nat)
    (pos : Nat) (fileSize : Int) : FsState :=
  let sIndirectPtrs := blocksFor bs fileSize
  let r := aloc_single_indirect bs s (sIndirectPtrs : Int)
  let s1 := { r.2 with inode := { r.2.inode with sIndirect := r.1 } }
  let d1 := write_to_single_indirect_blocks bs s1.disk s1.inode.sIndirect buf pos sIndirectPtrs
  { s1 with disk := d1 }

def write_to_file_using_double_indirect_blocks (bs : Nat) (wide : Bool) (s : FsState)
    (buf : Nat → Nat) (pos : Nat) (fileSize : Int) : FsState :=
  let sIndirectPtrs := S_INDIRECT_BLOCKS bs
  let r := aloc_single_indirect bs s (sIndirectPtrs : Int)
  let s1 := { r.2 with inode := { r.2.inode with sIndirect := r.1 } }
  let d1 := write_to_single_indirect_blocks bs s1.disk s1.inode.sIndirect buf pos sIndirectPtrs
  let s2 := { s1 with disk := d1 }
  let pos2 := pos + bs / 4 * S_INDIRECT_BLOCKS bs
  let fileSize2 : Int := fileSize + ((INODE_DIRECT_PTRS * bs : Nat) : Int) - (S_INDIRECT_SIZE bs : Int)
  let dIndirectPtrs := blocksFor bs fileSize2
  let r2 := aloc_double_indirect bs s2 (dIndirectPtrs : Int)
  let s3 := { r2.2 with inode := { r2.2.inode with dIndirect := r2.1 } }
  let d3 := write_to_double_indirect_blocks bs wide s3.disk s3.inode.dIndirect buf pos2
    dIndirectPtrs
  { s3 with disk := d3 }

def write_to_file_using_triple_indirect_blocks (bs : Nat) (wide : Bool) (s : FsState)
    (buf : Nat → Nat) (pos : Nat) (fileSize : Int) : FsState :=
  let sIndirectPtrs := S_INDIRECT_BLOCKS bs
  let dIndirectPtrs := D_INDIRECT_BLOCKS bs
  let r := aloc_single_indirect bs s (sIndirectPtrs : Int)
  let s1 := { r.2 with inode := { r.2.inode with sIndirect := r.1 } }
  let r2 := aloc_double_indirect bs s1 (dIndirectPtrs : Int)
  let s2 := { r2.2 with inode := { r2.2.inode with dIndirect := r2.1 } }
  let d2 := write_to_single_indirect_blocks bs s2.disk s2.inode.sIndirect buf pos sIndirectPtrs
  let s3 := { s2 with disk := d2 }
  let pos2 := pos + bs / 4 * S_INDIRECT_BLOCKS bs
  let d3 := write_to_double_indirect_blocks bs wide s3.disk s3.inode.dIndirect buf pos2
    dIndirectPtrs
  let s4 := { s3 with disk := d3 }
  let pos3 := pos2 + bs / 4 * D_INDIRECT_BLOCKS bs
  let fileSize2 : Int := fileSize + ((INODE_DIRECT_PTRS * bs : Nat) : Int) - (D_INDIRECT_SIZE bs : Int)
  let tIndirectPtrs := blocksFor bs fileSize2
  let r3 := aloc_triple_indirect bs s4 (tIndirectPtrs : Int)
  let s5 := { r3.2 with inode := { r3.2.inode with tIndirect := r3.1 } }
  let d5 := write_to_triple_indirect_blocks bs wide s5.disk s5.inode.tIndirect buf pos3
    tIndirectPtrs
  { s5 with disk := d5 }

/-- The loop of fs_write_to_file that counts the direct pointers needed: the
long long fileSize and directPtrs afterwards; k iterations are left. -/
def countDirect (bs : Nat) : Nat → Int → Nat → Int × Nat
  | 0, fileSize, directPtrs => (fileSize, directPtrs)
  | k + 1, fileSize, directPtrs =>
    if fileSize - (bs : Int) ≤ 0 then (fileSize - (bs : Int), directPtrs + 1)
    else countDirect bs k (fileSize - (bs : Int)) (directPtrs + 1)

/-- fs_write_to_file(_inodeNum, _buffer, _fileSize). -/
def fs_write_to_file (bs : Nat) (wide : Bool) (s : FsState) (_inodeNum : Nat) (_buffer : Nat → Nat)
    (_fileSize : Int) : Bool × FsState :=
  let o := open_inode s _inodeNum
  if !o.1 then (false, o.2)
  else
    let fsz := (_fileSize % (U32 : Int)).toNat
    let s1 := { o.2 with inode := { o.2.inode with fileSize := fsz, dataBlocks := fsz / bs } }
    let c := countDirect bs INODE_DIRECT_PTRS _fileSize 0
    let fileSize := c.1
    let w := write_to_file_direct bs _buffer (List.range c.2) 0 s1
    let s2 := w.2
    let s3 :=
      if fileSize > 0 then
        if fileSize + ((INODE_DIRECT_PTRS * bs : Nat) : Int) - (D_INDIRECT_SIZE bs : Int) > 0 then
          write_to_file_using_triple_indirect_blocks bs wide s2 _buffer w.1 fileSize
        else if fileSize + ((INODE_DIRECT_PTRS * bs : Nat) : Int) - (S_INDIRECT_SIZE bs : Int) > 0 then
          write_to_file_using_double_indirect_blocks bs wide s2 _buffer w.1 fileSize
        else
          write_to_file_using_single_indirect_blocks bs s2 _buffer w.1 fileSize
      else s2
    (true, inode_write s3 _inodeNum)

/-! ## Directory Engine: insertion -/

/-- The buffer after the four assignments that fill the entry at word j. -/
def putEntry (buffer : Nat → Nat) (j : Nat) (_name : Nat × Nat) (_inodeNumF : Nat) : Nat → Nat :=
  bufSet (bufSet (bufSet (bufSet buffer (j + 3) 1) j _name.1) (j + 1) _name.2) (j + 2) _inodeNumF

/-- The first j of for (j = 0; j < BLOCK_SIZE / 4; j += 4) with buffer[j + 3] == 0. -/
def freeSlot (bs : Nat) (buffer : Nat → Nat) : Option Nat :=
  (slotIdx bs 0).find? (fun j => buffer (j + 3) == 0)

/-- The loop of create_file_in_avail_direct_loc over the pointer indices. -/
def create_file_in_avail_direct_loop (bs : Nat) (_inodeNumF : Nat) (_file_name : Nat × Nat) :
    List Nat → FsState → Bool × FsState
  | [], s => (false, s)
  | i :: is, s =>
    if is_not_null (s.inode.directPtr.getD i NIL) then
      let diskOffset := s.inode.directPtr.getD i NIL
      let disk_buffer := readBlock s.disk diskOffset
      match freeSlot bs disk_buffer with
      | some j =>
        let s1 := { s with
          inode := { s.inode with linkCount := (s.inode.linkCount + 1) % U32 },
          disk := writeBlock bs s.disk diskOffset (putEntry disk_buffer j _file_name _inodeNumF) }
        (true, (fs_close_file s1).2)
      | none => create_file_in_avail_direct_loop bs _inodeNumF _file_name is s
    else create_file_in_avail_direct_loop bs _inodeNumF _file_name is s

def create_file_in_avail_direct_loc (bs : Nat) (s : FsState) (_inodeNumF : Nat)
    (_file_name : Nat × Nat) : Bool × FsState :=
  create_file_in_avail_direct_loop bs _inodeNumF _file_name (List.range INODE_DIRECT_PTRS) s

/-- The loop of add_file_to_single_indirect_no_alloc over the slots of the
index block. -/
def add_file_to_single_indirect_no_alloc_loop (bs : Nat) (indirectBlock : Nat → Nat)
    (_inodeNumF : Nat) (_name : Nat × Nat) : List Nat → FsState → Bool × FsState
  | [], s => (false, s)
  | i :: is, s =>
    if is_not_null (indirectBlock i) then
      let diskOffset := indirectBlock i
      let buffer := readBlock s.disk diskOffset
      match freeSlot bs buffer with
      | some j =>
        let s1 := { s with
          inode := { s.inode with linkCount := (s.inode.linkCount + 1) % U32 },
          disk := writeBlock bs s.disk diskOffset (putEntry buffer j _name _inodeNumF) }
        (true, (fs_close_file s1).2)
      | none => add_file_to_single_indirect_no_alloc_loop bs indirectBlock _inodeNumF _name is s
    else add_file_to_single_indirect_no_alloc_loop bs indirectBlock _inodeNumF _name is s

def add_file_to_single_indirect_no_alloc (bs : Nat) (s : FsState) (indirectBlock : Nat → Nat)
    (_inodeNumF : Nat) (_name : Nat × Nat) : Bool × FsState :=
  add_file_to_single_indirect_no_alloc_loop bs indirectBlock _inodeNumF _name
    (List.range (bs / 4)) s

/-- The buffer after memset(buffer, 0, BLOCK_SIZE) and the four assignments of
a first entry. -/
def firstEntry (_name : Nat × Nat) (_inodeNumF : Nat) : Nat → Nat :=
  putEntry (fun _ => 0) 0 _name _inodeNumF

/-- add_file_to_single_indirect.  With _allocate == False the status of
add_file_to_single_indirect_no_alloc is stored in a local and the function ends
in return False. -/
def add_file_to_single_indirect (bs : Nat) (s : FsState) (_inodeNumF : Nat) (_name : Nat × Nat)
    (_sIndirectOffset : Nat) (_allocate : Bool) : Bool × FsState :=
  let indirectBlock := readBlock s.disk _sIndirectOffset
  if _allocate = false then
    (false, (add_file_to_single_indirect_no_alloc bs s indirectBlock _inodeNumF _name).2)
  else
    match (List.range (bs / 4)).find? (fun i => is_null (indirectBlock i)) with
    | none => (false, s)
    | some i =>
      let r := ssm_allocate_sectors s
      if is_null r.1 then (false, r.2)
      else
        let d1 := writeBlock bs r.2.disk _sIndirectOffset (bufSet indirectBlock i r.1)
        let fsz := (r.2.inode.fileSize + bs) % U32
        let ino := { r.2.inode with
          linkCount := (r.2.inode.linkCount + 1) % U32, fileSize := fsz, dataBlocks := fsz / bs }
        let d2 := writeBlock bs d1 r.1 (firstEntry _name _inodeNumF)
        (true, (fs_close_file { r.2 with inode := ino, disk := d2 }).2)

/-- First loop of add_file_to_double_indirect: the slots that are not NIL. -/
def add_double_scan (bs : Nat) (_inodeNumF : Nat) (_name : Nat × Nat) (_allocate : Bool)
    (indirectBlock : Nat → Nat) : List Nat → FsState → Bool × FsState
  | [], s => (false, s)
  | i :: is, s =>
    if is_not_null (indirectBlock i) then
      let r := add_file_to_single_indirect bs s _inodeNumF _name (indirectBlock i) _allocate
      if r.1 then (true, r.2)
      else add_double_scan bs _inodeNumF _name _allocate indirectBlock is r.2
    else add_double_scan bs _inodeNumF _name _allocate indirectBlock is s

/-- Second loop of add_file_to_double_indirect: the slots that are NIL get a
new index block. -/
def add_double_grow (bs : Nat) (_inodeNumF : Nat) (_name : Nat × Nat) (_allocate : Bool)
    (_dIndirectOffset : Nat) : List Nat → (Nat → Nat) → FsState → Bool × FsState
  | [], _, s => (false, s)
  | i :: is, indirectBlock, s =>
    if is_null (indirectBlock i) then
      let r := ssm_allocate_sectors s
      if is_null r.1 then (false, r.2)
      else
        let ib := bufSet indirectBlock i r.1
        let d1 := writeBlock bs r.2.disk _dIndirectOffset ib
        let d2 := writeBlock bs d1 r.1 (fun _ => NIL)
        let r2 := add_file_to_single_indirect bs { r.2 with disk := d2 } _inodeNumF _name r.1
          _allocate
        if r2.1 then (true, r2.2)
        else add_double_grow bs _inodeNumF _name _allocate _dIndirectOffset is ib r2.2
    else add_double_grow bs _inodeNumF _name _allocate _dIndirectOffset is indirectBlock s

def add_file_to_double_indirect (bs : Nat) (s : FsState) (_inodeNumF : Nat) (_name : Nat × Nat)
    (_dIndirectOffset : Nat) (_allocate : Bool) : Bool × FsState :=
  let indirectBlock := readBlock s.disk _dIndirectOffset
  let r := add_double_scan bs _inodeNumF _name _allocate indirectBlock (List.range (bs / 4)) s
  if r.1 then (true, r.2)
  else if _allocate = true then
    add_double_grow bs _inodeNumF _name _allocate _dIndirectOffset (List.range (bs / 4))
      indirectBlock r.2
  else (false, r.2)

def add_triple_scan (bs : Nat) (_inodeNumF : Nat) (_name : Nat × Nat) (_allocate : Bool)
    (indirectBlock : Nat → Nat) : List Nat → FsState → Bool × FsState
  | [], s => (false, s)
  | i :: is, s =>
    if is_not_null (indirectBlock i) then
      let r := add_file_to_double_indirect bs s _inodeNumF _name (indirectBlock i) _allocate
      if r.1 then (true, r.2)
      else add_triple_scan bs _inodeNumF _name _allocate indirectBlock is r.2
    else add_triple_scan bs _inodeNumF _name _allocate indirectBlock is s

def add_triple_grow (bs : Nat) (_inodeNumF : Nat) (_name : Nat × Nat) (_allocate : Bool)
    (_tIndirectOffset : Nat) : List Nat → (Nat → Nat) → FsState → Bool × FsState
  | [], _, s => (false, s)
  | i :: is, indirectBlock, s =>
    if is_null (indirectBlock i) then
      let r := ssm_allocate_sectors s
      if is_null r.1 then (false, r.2)
      else
        let ib := bufSet indirectBlock i r.1
        let d1 := writeBlock bs r.2.disk _tIndirectOffset ib
        let d2 := writeBlock bs d1 r.1 (fun _ => NIL)
        let r2 := add_file_to_double_indirect bs { r.2 with disk := d2 } _inodeNumF _name r.1
          _allocate
        if r2.1 then (true, r2.2)
        else add_triple_grow bs _inodeNumF _name _allocate _tIndirectOffset is ib r2.2
    else add_triple_grow bs _inodeNumF _name _allocate _tIndirectOffset is indirectBlock s

def add_file_to_triple_indirect (bs : Nat) (s : FsState) (_inodeNumF : Nat) (_name : Nat × Nat)
    (_tIndirectOffset : Nat) (_allocate : Bool) : Bool × FsState :=
  let indirectBlock := readBlock s.disk _tIndirectOffset
  let r := add_triple_scan bs _inodeNumF _name _allocate indirectBlock (List.range (bs / 4)) s
  if r.1 then (true, r.2)
  else if _allocate = true then
    add_triple_grow bs _inodeNumF _name _allocate _tIndirectOffset (List.range (bs / 4))
      indirectBlock r.2
  else (false, r.2)

def create_file_in_avail_indirect_loc (bs : Nat) (s : FsState) (_inodeNumF : Nat)
    (_file_name : Nat × Nat) (_allocate : Bool) : Bool × FsState :=
  let r1 : Bool × FsState :=
    if is_not_null s.inode.sIndirect then
      add_file_to_single_indirect bs s _inodeNumF _file_name s.inode.sIndirect _allocate
    else (false, s)
  if r1.1 then (true, r1.2)
  else
    let r2 : Bool × FsState :=
      if is_not_null r1.2.inode.dIndirect then
        add_file_to_double_indirect bs r1.2 _inodeNumF _file_name r1.2.inode.dIndirect _allocate
      else (false, r1.2)
    if r2.1 then (true, r2.2)
    else
      let r3 : Bool × FsState :=
        if is_not_null r2.2.inode.tIndirect then
          add_file_to_triple_indirect bs r2.2 _inodeNumF _file_name r2.2.inode.tIndirect _allocate
        else (false, r2.2)
      if r3.1 then (true, r3.2) else (false, r3.2)

/-- The three pointer kinds of the enum PointerType. -/
inductive PointerType where
  | SINGLE
  | DOUBLE
  | TRIPLE
deriving DecidableEq, Repr

def getIndirect (t : PointerType) (i : Inode) : Nat :=
  match t with
  | .SINGLE => i.sIndirect
  | .DOUBLE => i.dIndirect
  | .TRIPLE => i.tIndirect

def setIndirect (t : PointerType) (i : Inode) (v : Nat) : Inode :=
  match t with
  | .SINGLE => { i with sIndirect := v }
  | .DOUBLE => { i with dIndirect := v }
  | .TRIPLE => { i with tIndirect := v }

def create_file_in_unavail_indirect_loc (bs : Nat) (s : FsState) (_type : PointerType)
    (_inodeNumF : Nat) (_file_name : Nat × Nat) (_inodeNumD : Nat) : Bool × FsState :=
  if is_null (getIndirect _type s.inode) then
    let r := ssm_allocate_sectors s
    let s1 := { r.2 with inode := setIndirect _type r.2.inode r.1 }
    if is_null r.1 then (false, s1)
    else
      let s2 := inode_write { s1 with disk := writeBlock bs s1.disk r.1 (fun _ => NIL) } _inodeNumD
      let w :=
        match _type with
        | .SINGLE => add_file_to_single_indirect bs s2 _inodeNumF _file_name r.1 true
        | .DOUBLE => add_file_to_double_indirect bs s2 _inodeNumF _file_name r.1 true
        | .TRIPLE => add_file_to_triple_indirect bs s2 _inodeNumF _file_name r.1 true
      if w.1 then (true, w.2) else (false, w.2)
  else (false, s)

def create_file_in_unavail_direct_loc (bs : Nat) (s : FsState) (_inodeNumF _inodeNumD : Nat)
    (_file_name : Nat × Nat) : Bool × FsState :=
  match (List.range INODE_DIRECT_PTRS).find? (fun i => is_null (s.inode.directPtr.getD i NIL)) with
  | none => (false, s)
  | some i =>
    let r := ssm_allocate_sectors s
    if is_null r.1 then (false, r.2)
    else
      let fsz := (r.2.inode.fileSize + bs) % U32
      let ino := { r.2.inode with
        directPtr := r.2.inode.directPtr.set i r.1,
        linkCount := (r.2.inode.linkCount + 1) % U32, fileSize := fsz, dataBlocks := fsz / bs }
      let d1 := writeBlock bs r.2.disk r.1 (firstEntry _file_name _inodeNumF)
      (true, (fs_close_file (inode_write { r.2 with inode := ino, disk := d1 } _inodeNumD)).2)

/-- create_file(_inodeNumF, _name, _inodeNumParentDir): the insertion of an entry
into a directory. -/
def create_file (bs : Nat) (s : FsState) (_inodeNumF : Nat) (_name : Nat × Nat)
    (_inodeNumParentDir : Nat) : Bool × FsState :=
  let o := open_inode s _inodeNumParentDir
  if !o.1 then (false, o.2)
  else
    let a1 := create_file_in_avail_direct_loc bs o.2 _inodeNumF _name
    if a1.1 then (true, a1.2)
    else
    let a2 := create_file_in_avail_indirect_loc bs a1.2 _inodeNumF _name false
    if a2.1 then (true, a2.2)
    else
    let a3 := create_file_in_unavail_direct_loc bs a2.2 _inodeNumF _inodeNumParentDir _name
    if a3.1 then (true, a3.2)
    else
    let a4 := create_file_in_avail_indirect_loc bs a3.2 _inodeNumF _name false
    if a4.1 then (true, a4.2)
    else
    let a5 := create_file_in_avail_indirect_loc bs a4.2 _inodeNumF _name true
    if a5.1 then (true, a5.2)
    else
    let a6 := create_file_in_unavail_indirect_loc bs a5.2 .SINGLE _inodeNumF _name
      _inodeNumParentDir
    if a6.1 then (true, a6.2)
    else
    let a7 := create_file_in_unavail_indirect_loc bs a6.2 .DOUBLE _inodeNumF _name
      _inodeNumParentDir
    if a7.1 then (true, a7.2)
    else
    let a8 := create_file_in_unavail_indirect_loc bs a7.2 .TRIPLE _inodeNumF _name
      _inodeNumParentDir
    if a8.1 then (true, a8.2) else (false, a8.2)

/-- The word a little-endian machine holds after strcpy writes the bytes of a
string of at most three characters (and the closing zero byte) over the low
bytes of old. -/
def strcpyWord (bytes : List Nat) (old : Nat) : Nat :=
  let k := bytes.length + 1
  (old / 256 ^ k) * 256 ^ k + (bytes.enum.map (fun p => p.2 * 256 ^ p.1)).sum

/-- fs_create_file(_isDirectory, _name, _inodeNumParentDir).  junk is what the
local array name holds before the first strcpy. -/
def fs_create_file (bs : Nat) (s : FsState) (junk : Nat × Nat) (_isDirectory : Int)
    (_name : Nat × Nat) (_inodeNumParentDir : Nat) : Nat × FsState :=
  let s0 := get_inode s
  if is_null s0.iMapOffset.1 then (NIL, s0)
  else
    let inodeNum := (BITS_PER_BYTE * s0.iMapOffset.1 + s0.iMapOffset.2) % U32
    let s1 := inode_read s0 inodeNum
    let s2 := { s1 with inode := { inode_init with fileType := if _isDirectory = 1 then 2 else 1 } }
    let s3 := allocate_inode (inode_write s2 inodeNum)
    let s4 :=
      if _isDirectory = 1 then
        let dot : Nat × Nat := (strcpyWord [46] junk.1, junk.2)
        let c1 := create_file bs s3 inodeNum dot inodeNum
        let dotdot : Nat × Nat := (strcpyWord [46, 46] dot.1, dot.2)
        (create_file bs c1.2 _inodeNumParentDir dotdot inodeNum).2
      else s3
    (inodeNum, (create_file bs s4 inodeNum _name _inodeNumParentDir).2)

/-! ## Directory Engine: removal of an entry -/

/-- The first j of for (j = 0; j < BLOCK_SIZE / 4; j += 4) whose entry is in use
and carries the inode number. -/
def matchSlot (bs : Nat) (buffer : Nat → Nat) (_inodeNumF : Nat) : Option Nat :=
  (slotIdx bs 0).find? (fun j => buffer (j + 3) == 1 && buffer (j + 2) == _inodeNumF)

/-- The buffer after memset(&buffer[j], 0, 4 * sizeof(unsigned int)). -/
def clearEntry (buffer : Nat → Nat) (j : Nat) : Nat → Nat :=
  fun k => if j ≤ k ∧ k < j + 4 then 0 else buffer k

/-- The test k == BLOCK_SIZE / 4 after for (k = 0; k < BLOCK_SIZE / 4; k += 4)
that breaks at the first entry in use. -/
def noEntryInUse (bs : Nat) (buffer : Nat → Nat) : Bool :=
  (slotIdx bs 0).all (fun k => buffer (k + 3) != 1) && (bs / 4 % 4 == 0)

/-- The test k == BLOCK_SIZE / 4 after for (k = 0; k < BLOCK_SIZE / 4; k++) that
breaks at the first slot that is not NIL. -/
def allSlotsNil (bs : Nat) (indirectBlock : Nat → Nat) : Bool :=
  (List.range (bs / 4)).all (fun k => is_null (indirectBlock k))

/-- The index block after the loop that sets the first slot equal to off to NIL. -/
def clearSlotOf (bs : Nat) (indirectBlock : Nat → Nat) (off : Nat) : Nat → Nat :=
  match (List.range (bs / 4)).find? (fun k => indirectBlock k == off) with
  | some k => bufSet indirectBlock k NIL
  | none => indirectBlock

/-- The unsigned int left by x -= 1. -/
def decU32 (x : Nat) : Nat := (x + U32 - 1) % U32

def remove_file_from_single_indirect_loop (bs : Nat) (_inodeNumF _inodeNumD : Nat)
    (_dIndirectOffset _sIndirectOffset : Nat) (indirectBlock : Nat → Nat) :
    List Nat → FsState → Bool × FsState
  | [], s => (false, s)
  | i :: is, s =>
    if is_not_null (indirectBlock i) then
      let diskOffset := indirectBlock i
      let buffer := readBlock s.disk diskOffset
      match matchSlot bs buffer _inodeNumF with
      | some j =>
        let buffer1 := clearEntry buffer j
        let s1 := { s with inode := { s.inode with linkCount := decU32 s.inode.linkCount },
                           disk := writeBlock bs s.disk diskOffset buffer1 }
        if noEntryInUse bs buffer1 then
          let s2 := ssm_deallocate_sectors s1 (indirectBlock i / bs)
          let s3 := inode_write
            { s2 with inode := { s2.inode with dataBlocks := decU32 s2.inode.dataBlocks } }
            _inodeNumD
          let ib := bufSet indirectBlock i NIL
          let s4 := { s3 with disk := writeBlock bs s3.disk _sIndirectOffset ib }
          if allSlotsNil bs ib then
            let s5 := ssm_deallocate_sectors s4 (_sIndirectOffset / bs)
            if is_not_null _dIndirectOffset then
              let pb := clearSlotOf bs (readBlock s5.disk _dIndirectOffset) _sIndirectOffset
              (true, { s5 with disk := writeBlock bs s5.disk _dIndirectOffset pb })
            else
              (true, inode_write { s5 with inode := { s5.inode with sIndirect := NIL } }
                _inodeNumD)
          else (true, s4)
        else (true, s1)
      | none =>
        remove_file_from_single_indirect_loop bs _inodeNumF _inodeNumD _dIndirectOffset
          _sIndirectOffset indirectBlock is s
    else
      remove_file_from_single_indirect_loop bs _inodeNumF _inodeNumD _dIndirectOffset
        _sIndirectOffset indirectBlock is s

def remove_file_from_single_indirect (bs : Nat) (s : FsState) (_inodeNumF _inodeNumD : Nat)
    (_dIndirectOffset _sIndirectOffset : Nat) : Bool × FsState :=
  remove_file_from_single_indirect_loop bs _inodeNumF _inodeNumD _dIndirectOffset
    _sIndirectOffset (readBlock s.disk _sIndirectOffset) (List.range (bs / 4)) s

def remove_file_from_double_indirect_loop (bs : Nat) (_inodeNumF _inodeNumD : Nat)
    (_tIndirectOffset _dIndirectOffset : Nat) (indirectBlock : Nat → Nat) :
    List Nat → FsState → Bool × FsState
  | [], s => (false, s)
  | i :: is, s =>
    if is_not_null (indirectBlock i) then
      let r := remove_file_from_single_indirect bs s _inodeNumF _inodeNumD _dIndirectOffset
        (indirectBlock i)
      if r.1 then
        let s1 := r.2
        if allSlotsNil bs (readBlock s1.disk _dIndirectOffset) then
          let s2 := ssm_deallocate_sectors s1 (_dIndirectOffset / bs)
          if is_not_null _tIndirectOffset then
            let pb := clearSlotOf bs (readBlock s2.disk _tIndirectOffset) _dIndirectOffset
            (true, { s2 with disk := writeBlock bs s2.disk _tIndirectOffset pb })
          else
            (true, inode_write { s2 with inode := { s2.inode with dIndirect := NIL } } _inodeNumD)
        else (true, s1)
      else
        remove_file_from_double_indirect_loop bs _inodeNumF _inodeNumD _tIndirectOffset
          _dIndirectOffset indirectBlock is r.2
    else
      remove_file_from_double_indirect_loop bs _inodeNumF _inodeNumD _tIndirectOffset
        _dIndirectOffset indirectBlock is s

def remove_file_from_double_indirect (bs : Nat) (s : FsState) (_inodeNumF _inodeNumD : Nat)
    (_tIndirectOffset _dIndirectOffset : Nat) : Bool × FsState :=
  remove_file_from_double_indirect_loop bs _inodeNumF _inodeNumD _tIndirectOffset
    _dIndirectOffset (readBlock s.disk _dIndirectOffset) (List.range (bs / 4)) s

def remove_file_from_triple_indirect_loop (bs : Nat) (_inodeNumF _inodeNumD : Nat)
    (_tIndirectOffset : Nat) (indirectBlock : Nat → Nat) :
    List Nat → FsState → Bool × FsState
  | [], s => (false, s)
  | i :: is, s =>
    if is_not_null (indirectBlock i) then
      let r := remove_file_from_double_indirect bs s _inodeNumF _inodeNumD _tIndirectOffset
        (indirectBlock i)
      if r.1 then
        let s1 := r.2
        if allSlotsNil bs (readBlock s1.disk _tIndirectOffset) then
          let s2 := ssm_deallocate_sectors s1 (_tIndirectOffset / bs)
          (true, inode_write { s2 with inode := { s2.inode with tIndirect := NIL } } _inodeNumD)
        else (true, s1)
      else
        remove_file_from_triple_indirect_loop bs _inodeNumF _inodeNumD _tIndirectOffset
          indirectBlock is r.2
    else
      remove_file_from_triple_indirect_loop bs _inodeNumF _inodeNumD _tIndirectOffset
        indirectBlock is s

def remove_file_from_triple_indirect (bs : Nat) (s : FsState) (_inodeNumF _inodeNumD : Nat)
    (_tIndirectOffset : Nat) : Bool × FsState :=
  remove_file_from_triple_indirect_loop bs _inodeNumF _inodeNumD _tIndirectOffset
    (readBlock s.disk _tIndirectOffset) (List.range (bs / 4)) s

def remove_file_from_dir_indirect_pointers (bs : Nat) (s : FsState) (_inodeNumF _inodeNumD : Nat) :
    Bool × FsState :=
  let r1 : Bool × FsState :=
    if is_not_null s.inode.sIndirect then
      remove_file_from_single_indirect bs s _inodeNumF _inodeNumD NIL s.inode.sIndirect
    else (false, s)
  if r1.1 then (true, r1.2)
  else
    let r2 : Bool × FsState :=
      if is_not_null r1.2.inode.dIndirect then
        remove_file_from_double_indirect bs r1.2 _inodeNumF _inodeNumD NIL r1.2.inode.dIndirect
      else (r1.1, r1.2)
    if r2.1 then (true, r2.2)
    else
      if is_not_null r2.2.inode.tIndirect then
        let r3 := remove_file_from_triple_indirect bs r2.2 _inodeNumF _inodeNumD
          r2.2.inode.tIndirect
        if r3.1 then (true, r3.2) else (r3.1, r3.2)
      else (r2.1, r2.2)

/-- The direct-pointer loop of fs_remove_file_from_dir; none when no direct
block holds the entry. -/
def remove_from_dir_direct_loop (bs : Nat) (_inodeNumF _inodeNumD : Nat) :
    List Nat → FsState → Option FsState
  | [], _ => none
  | i :: is, s =>
    if is_not_null (s.inode.directPtr.getD i NIL) then
      let diskOffset := s.inode.directPtr.getD i NIL
      let buffer := readBlock s.disk diskOffset
      match matchSlot bs buffer _inodeNumF with
      | some j =>
        let buffer1 := clearEntry buffer j
        let ino1 := { s.inode with linkCount := decU32 s.inode.linkCount }
        let ino2 := if ino1.linkCount = 0 then inode_init_ptrs { ino1 with fileSize := 0 } else ino1
        let s1 := { s with inode := ino2, disk := writeBlock bs s.disk diskOffset buffer1 }
        if noEntryInUse bs buffer1 then
          let s2 := ssm_deallocate_sectors s1 (s1.inode.directPtr.getD i NIL / bs)
          let ino3 := { s2.inode with directPtr := s2.inode.directPtr.set i NIL,
                                      dataBlocks := decU32 s2.inode.dataBlocks }
          some (inode_write { s2 with inode := ino3 } _inodeNumD)
        else some s1
      | none => remove_from_dir_direct_loop bs _inodeNumF _inodeNumD is s
    else remove_from_dir_direct_loop bs _inodeNumF _inodeNumD is s

/-- fs_remove_file_from_dir(_inodeNumF, _inodeNumD). -/
def fs_remove_file_from_dir (bs : Nat) (s : FsState) (_inodeNumF _inodeNumD : Nat) :
    Bool × FsState :=
  let o := open_inode s _inodeNumD
  if !o.1 then (false, o.2)
  else if o.2.inode.fileType = 2 then
    match remove_from_dir_direct_loop bs _inodeNumF _inodeNumD (List.range INODE_DIRECT_PTRS) o.2 with
    | some s1 => (true, s1)
    | none =>
      let r := remove_file_from_dir_indirect_pointers bs o.2 _inodeNumF _inodeNumD
      if r.1 then (true, r.2) else (false, r.2)
  else (false, o.2)

/-! ## Removal of a file -/

/-- The loop for (j = 8; j < BLOCK_SIZE / 4; j += 4) that calls fs_remove_file
(here rm) on every entry in use of the buffer. -/
def remove_children (rm : FsState → Nat → Nat → Option (Bool × FsState)) (buffer : Nat → Nat)
    (dirNum : Nat) : List Nat → FsState → Option FsState
  | [], s => some s
  | j :: js, s =>
    if buffer (j + 3) = 1 then
      match rm s (buffer (j + 2)) dirNum with
      | none => none
      | some r => remove_children rm buffer dirNum js r.2
    else remove_children rm buffer dirNum js s

/-- The body run for one data block at diskOffset: the children when the file
is a directory, then the deallocation of the block. -/
def remove_data_block (bs : Nat) (rm : FsState → Nat → Nat → Option (Bool × FsState))
    (fileType : Int) (dirNum : Nat) (diskOffset : Nat) (s : FsState) : Option FsState :=
  let r : Option FsState :=
    if fileType = 2 then
      remove_children rm (readBlock s.disk diskOffset) dirNum (slotIdx bs 2) s
    else some s
  match r with
  | none => none
  | some s1 => some (ssm_deallocate_sectors s1 (diskOffset / bs))

def remove_file_single_indirect_loop (bs : Nat)
    (rm : FsState → Nat → Nat → Option (Bool × FsState)) (_fileType : Int) (_inodeNumD : Nat)
    (indirectBlock : Nat → Nat) : List Nat → FsState → Option FsState
  | [], s => some s
  | i :: is, s =>
    if is_not_null (indirectBlock i) then
      match remove_data_block bs rm _fileType _inodeNumD (indirectBlock i) s with
      | none => none
      | some s1 => remove_file_single_indirect_loop bs rm _fileType _inodeNumD indirectBlock is s1
    else remove_file_single_indirect_loop bs rm _fileType _inodeNumD indirectBlock is s

def remove_file_single_indirect_blocks (bs : Nat)
    (rm : FsState → Nat → Nat → Option (Bool × FsState)) (s : FsState) (_fileType : Int)
    (_inodeNumD : Nat) (_diskOffset : Nat) : Option FsState :=
  match remove_file_single_indirect_loop bs rm _fileType _inodeNumD
      (readBlock s.disk _diskOffset) (List.range (bs / 4)) s with
  | none => none
  | some s1 => some (ssm_deallocate_sectors s1 (_diskOffset / bs))

def remove_file_double_indirect_loop (bs : Nat)
    (rm : FsState → Nat → Nat → Option (Bool × FsState)) (_fileType : Int) (_inodeNumD : Nat)
    (indirectBlock : Nat → Nat) : List Nat → FsState → Option FsState
  | [], s => some s
  | i :: is, s =>
    if is_not_null (indirectBlock i) then
      match remove_file_single_indirect_blocks bs rm s _fileType _inodeNumD (indirectBlock i) with
      | none => none
      | some s1 => remove_file_double_indirect_loop bs rm _fileType _inodeNumD indirectBlock is s1
    else remove_file_double_indirect_loop bs rm _fileType _inodeNumD indirectBlock is s

def remove_file_double_indirect_blocks (bs : Nat)
    (rm : FsState → Nat → Nat → Option (Bool × FsState)) (s : FsState) (_fileType : Int)
    (_inodeNumD : Nat) (_diskOffset : Nat) : Option FsState :=
  match remove_file_double_indirect_loop bs rm _fileType _inodeNumD
      (readBlock s.disk _diskOffset) (List.range (bs / 4)) s with
  | none => none
  | some s1 => some (ssm_deallocate_sectors s1 (_diskOffset / bs))

def remove_file_triple_indirect_loop (bs : Nat)
    (rm : FsState → Nat → Nat → Option (Bool × FsState)) (_fileType : Int) (_inodeNumD : Nat)
    (indirectBlock : Nat → Nat) : List Nat → FsState → Option FsState
  | [], s => some s
  | i :: is, s =>
    if is_not_null (indirectBlock i) then
      match remove_file_double_indirect_blocks bs rm s _fileType _inodeNumD (indirectBlock i) with
      | none => none
      | some s1 => remove_file_triple_indirect_loop bs rm _fileType _inodeNumD indirectBlock is s1
    else remove_file_triple_indirect_loop bs rm _fileType _inodeNumD indirectBlock is s

def remove_file_triple_indirect_blocks (bs : Nat)
    (rm : FsState → Nat → Nat → Option (Bool × FsState)) (s : FsState) (_fileType : Int)
    (_inodeNumD : Nat) (_diskOffset : Nat) : Option FsState :=
  match remove_file_triple_indirect_loop bs rm _fileType _inodeNumD
      (readBlock s.disk _diskOffset) (List.range (bs / 4)) s with
  | none => none
  | some s1 => some (ssm_deallocate_sectors s1 (_diskOffset / bs))

def remove_file_indirect_blocks (bs : Nat)
    (rm : FsState → Nat → Nat → Option (Bool × FsState)) (s : FsState) (_type : PointerType)
    (indirect : Nat) (fileType : Int) (_inodeNum _inodeNumD : Nat) : Option FsState :=
  let remove_func :=
    match _type with
    | .SINGLE => remove_file_single_indirect_blocks bs rm
    | .DOUBLE => remove_file_double_indirect_blocks bs rm
    | .TRIPLE => remove_file_triple_indirect_blocks bs rm
  if is_not_null indirect then
    if fileType = 1 then remove_func s fileType _inodeNumD indirect
    else if fileType = 2 then remove_func s fileType _inodeNum indirect
    else some s
  else some s

/-- The direct-pointer loop of fs_remove_file over the copied pointers. -/
def remove_file_direct_loop (bs : Nat) (rm : FsState → Nat → Nat → Option (Bool × FsState))
    (fileType : Int) (_inodeNum : Nat) (directPtrs : List Nat) : List Nat → FsState → Option FsState
  | [], s => some s
  | i :: is, s =>
    if is_not_null (directPtrs.getD i NIL) then
      match remove_data_block bs rm fileType _inodeNum (directPtrs.getD i NIL) s with
      | none => none
      | some s1 => remove_file_direct_loop bs rm fileType _inodeNum directPtrs is s1
    else remove_file_direct_loop bs rm fileType _inodeNum directPtrs is s

/-- One activation of fs_remove_file, the recursive calls going to rm. -/
def fs_remove_file_body (bs : Nat) (rm : FsState → Nat → Nat → Option (Bool × FsState))
    (s : FsState) (_inodeNum _inodeNumD : Nat) : Option (Bool × FsState) :=
  let o := open_inode s _inodeNum
  if !o.1 then some (false, o.2)
  else
    let directPtrs := o.2.inode.directPtr
    let sIndirect := o.2.inode.sIndirect
    let dIndirect := o.2.inode.dIndirect
    let tIndirect := o.2.inode.tIndirect
    let fileType := o.2.inode.fileType
    (remove_file_direct_loop bs rm fileType _inodeNum directPtrs
      (List.range INODE_DIRECT_PTRS) o.2).bind fun s1 =>
    (remove_file_indirect_blocks bs rm s1 .SINGLE sIndirect fileType _inodeNum _inodeNumD).bind
      fun s2 =>
    (remove_file_indirect_blocks bs rm s2 .DOUBLE dIndirect fileType _inodeNum _inodeNumD).bind
      fun s3 =>
    (remove_file_indirect_blocks bs rm s3 .TRIPLE tIndirect fileType _inodeNum _inodeNumD).bind
      fun s4 =>
    let o2 := open_inode s4 _inodeNum
    if !o2.1 then some (false, o2.2)
    else
      let s5 := inode_write { o2.2 with inode := inode_init } _inodeNum
      let s6 := deallocate_inode s5 _inodeNum
      some (true, (fs_remove_file_from_dir bs s6 _inodeNum _inodeNumD).2)

/-- fs_remove_file(_inodeNum, _inodeNumD); the first argument bounds the depth
of the recursion, none is given when the bound is used up. -/
def fs_remove_file (bs : Nat) : Nat → FsState → Nat → Nat → Option (Bool × FsState)
  | 0, _, _, _ => none
  | fuel + 1, s, _inodeNum, _inodeNumD =>
    fs_remove_file_body bs (fs_remove_file bs fuel) s _inodeNum _inodeNumD

/-! ## Rename -/

/-- The buffer after buffer[j] = _name[0]; buffer[j + 1] = _name[1]. -/
def renameEntry (buffer : Nat → Nat) (j : Nat) (_name : Nat × Nat) : Nat → Nat :=
  bufSet (bufSet buffer j _name.1) (j + 1) _name.2

/-- The body run for one data block of a directory by the rename loops. -/
def rename_in_block (bs : Nat) (s : FsState) (_inodeNumF : Nat) (_name : Nat × Nat)
    (diskOffset : Nat) : Bool × FsState :=
  let buffer := readBlock s.disk diskOffset
  match matchSlot bs buffer _inodeNumF with
  | some j => (true, { s with disk := writeBlock bs s.disk diskOffset (renameEntry buffer j _name) })
  | none => (false, s)

def rename_file_in_single_indirect_loop (bs : Nat) (_inodeNumF : Nat) (_name : Nat × Nat)
    (indirectBlock : Nat → Nat) : List Nat → FsState → Bool × FsState
  | [], s => (false, s)
  | i :: is, s =>
    if is_not_null (indirectBlock i) then
      let r := rename_in_block bs s _inodeNumF _name (indirectBlock i)
      if r.1 then (true, r.2)
      else rename_file_in_single_indirect_loop bs _inodeNumF _name indirectBlock is r.2
    else rename_file_in_single_indirect_loop bs _inodeNumF _name indirectBlock is s

def rename_file_in_single_indirect (bs : Nat) (s : FsState) (_inodeNumF : Nat)
    (_name : Nat × Nat) (_sIndirectOffset : Nat) : Bool × FsState :=
  rename_file_in_single_indirect_loop bs _inodeNumF _name (readBlock s.disk _sIndirectOffset)
    (List.range (bs / 4)) s

def rename_file_in_double_indirect_loop (bs : Nat) (_inodeNumF : Nat) (_name : Nat × Nat)
    (indirectBlock : Nat → Nat) : List Nat → FsState → Bool × FsState
  | [], s => (false, s)
  | i :: is, s =>
    if is_not_null (indirectBlock i) then
      let r := rename_file_in_single_indirect bs s _inodeNumF _name (indirectBlock i)
      if r.1 then (true, r.2)
      else rename_file_in_double_indirect_loop bs _inodeNumF _name indirectBlock is r.2
    else rename_file_in_double_indirect_loop bs _inodeNumF _name indirectBlock is s

def rename_file_in_double_indirect (bs : Nat) (s : FsState) (_inodeNumF : Nat)
    (_name : Nat × Nat) (_dIndirectOffset : Nat) : Bool × FsState :=
  rename_file_in_double_indirect_loop bs _inodeNumF _name (readBlock s.disk _dIndirectOffset)
    (List.range (bs / 4)) s

def rename_file_in_triple_indirect_loop (bs : Nat) (_inodeNumF : Nat) (_name : Nat × Nat)
    (indirectBlock : Nat → Nat) : List Nat → FsState → Bool × FsState
  | [], s => (false, s)
  | i :: is, s =>
    if is_not_null (indirectBlock i) then
      let r := rename_file_in_double_indirect bs s _inodeNumF _name (indirectBlock i)
      if r.1 then (true, r.2)
      else rename_file_in_triple_indirect_loop bs _inodeNumF _name indirectBlock is r.2
    else rename_file_in_triple_indirect_loop bs _inodeNumF _name indirectBlock is s

def rename_file_in_triple_indirect (bs : Nat) (s : FsState) (_inodeNumF : Nat)
    (_name : Nat × Nat) (_tIndirectOffset : Nat) : Bool × FsState :=
  rename_file_in_triple_indirect_loop bs _inodeNumF _name (readBlock s.disk _tIndirectOffset)
    (List.range (bs / 4)) s

/-- The direct-pointer loop for (i = 0; i < 10; i++) of fs_rename_file. -/
def rename_direct_loop (bs : Nat) (_inodeNumF : Nat) (_name : Nat × Nat) :
    List Nat → FsState → Bool × FsState
  | [], s => (false, s)
  | i :: is, s =>
    if is_not_null (s.inode.directPtr.getD i NIL) then
      let r := rename_in_block bs s _inodeNumF _name (s.inode.directPtr.getD i NIL)
      if r.1 then (true, r.2)
      else rename_direct_loop bs _inodeNumF _name is r.2
    else rename_direct_loop bs _inodeNumF _name is s

/-- fs_rename_file(_inodeNumF, _name, _inodeNumD). -/
def fs_rename_file (bs : Nat) (s : FsState) (_inodeNumF : Nat) (_name : Nat × Nat)
    (_inodeNumD : Nat) : Bool × FsState :=
  let o := open_inode s _inodeNumD
  if o.1 then
    if o.2.inode.fileType = 2 then
      let r0 := rename_direct_loop bs _inodeNumF _name (List.range 10) o.2
      if r0.1 then (true, r0.2)
      else
        let r1 : Bool × FsState :=
          if is_not_null r0.2.inode.sIndirect then
            rename_file_in_single_indirect bs r0.2 _inodeNumF _name r0.2.inode.sIndirect
          else (false, r0.2)
        if r1.1 then (true, r1.2)
        else
          let r2 : Bool × FsState :=
            if is_not_null r1.2.inode.dIndirect then
              rename_file_in_double_indirect bs r1.2 _inodeNumF _name r1.2.inode.dIndirect
            else (false, r1.2)
          if r2.1 then (true, r2.2)
          else
            let r3 : Bool × FsState :=
              if is_not_null r2.2.inode.tIndirect then
                rename_file_in_triple_indirect bs r2.2 _inodeNumF _name r2.2.inode.tIndirect
              else (false, r2.2)
            if r3.1 then (true, r3.2) else (false, r3.2)
    else (false, o.2)
  else (false, o.2)

/-! ## fs_make -/

/-- Modelled from the spec: the state left by init_fsm_constants, init_fsm_maps
and init_file_sector_mgr (their callees in inode.c and ssm.c are not part of
the sources): zeroed disk image, blank inode records, an inode bitmap of
INODE_BLOCKS bytes with every inode free, and a Sector Space Manager whose
coming answers are ssm. -/
def initState (INODE_BLOCKS : Nat) (ssm : List Nat) : FsState :=
  { disk := fun _ => 0, itable := fun _ => inode_init, inode := inode_init, mapId := NIL,
    iMapOffset := (NIL, NIL), iMap := List.replicate (BITS_PER_BYTE * INODE_BLOCKS) false,
    ssmOut := ssm, ssmFreed := [], inodeFreed := [] }

/-- The loop of fs_make that takes 32 sectors at a time for the inode table. -/
def make_inode_sectors : Nat → FsState → FsState
  | 0, s => s
  | k + 1, s => make_inode_sectors k (ssm_allocate_sectors s).2

/-- The statements of fs_make that follow a fs_create_file for the boot or
super block: open the inode, set its first direct pointer, write it back. -/
def make_set_direct (s : FsState) (n : Nat) (ptr : Nat) : FsState :=
  let o := open_inode s n
  inode_write { o.2 with inode := { o.2.inode with directPtr := o.2.inode.directPtr.set 0 ptr } } n

/-- fs_make; name is what its uninitialised local array name holds, junk what
the local array of fs_create_file holds. -/
def fs_make (bs INODE_BLOCKS : Nat) (ssm : List Nat) (name junk : Nat × Nat) : Bool × FsState :=
  let s0 := initState INODE_BLOCKS ssm
  let s1 := (ssm_allocate_sectors s0).2
  let s2 := make_inode_sectors (INODE_BLOCKS / 32) s1
  let s3 := make_set_direct (fs_create_file bs s2 junk 0 name NIL).2 0 0
  let s4 := make_set_direct (fs_create_file bs s3 junk 0 name NIL).2 1 (bs * 1)
  (true, (fs_create_file bs s4 junk 1 name NIL).2)

/-! ## Directory contents, as the specification describes them

A directory entry is four words (name_lo, name_hi, inode_num, in_use_flag); an
entry is named by the byte address of its first word.  The lists below give
the entries reachable from an inode in scan order: direct blocks by pointer
index, then the single-, double- and triple-indirect trees. -/

/-- The entries of the data block at byte offset off, by slot. -/
def blockEntries (bs : Nat) (off : Nat) : List Nat :=
  (slotIdx bs 0).map (fun j => off + 4 * j)

/-- The slots of the index block at byte offset off that are not NIL, in slot
order. -/
def liveSlots (bs : Nat) (d : Nat → Nat) (off : Nat) : List Nat :=
  ((List.range (bs / 4)).map (fun i => d (off + 4 * i))).filter is_not_null

/-- The direct pointers of an inode that are not NIL, in index order. -/
def liveDirect (ino : Inode) : List Nat :=
  ((List.range INODE_DIRECT_PTRS).map (fun i => ino.directPtr.getD i NIL)).filter is_not_null

/-- The entries under the single-indirect index block at off. -/
def singleEntries (bs : Nat) (d : Nat → Nat) (off : Nat) : List Nat :=
  (liveSlots bs d off).flatMap (blockEntries bs)

/-- The entries under the double-indirect index block at off. -/
def doubleEntries (bs : Nat) (d : Nat → Nat) (off : Nat) : List Nat :=
  (liveSlots bs d off).flatMap (singleEntries bs d)

/-- The entries under the triple-indirect index block at off. -/
def tripleEntries (bs : Nat) (d : Nat → Nat) (off : Nat) : List Nat :=
  (liveSlots bs d off).flatMap (doubleEntries bs d)

/-- The entries of the direct blocks of an inode. -/
def directEntries (bs : Nat) (ino : Inode) : List Nat :=
  (liveDirect ino).flatMap (blockEntries bs)

/-- All entries reachable from a directory inode, in scan order. -/
def dirEntries (bs : Nat) (d : Nat → Nat) (ino : Inode) : List Nat :=
  directEntries bs ino
    ++ (if is_not_null ino.sIndirect then singleEntries bs d ino.sIndirect else [])
    ++ (if is_not_null ino.dIndirect then doubleEntries bs d ino.dIndirect else [])
    ++ (if is_not_null ino.tIndirect then tripleEntries bs d ino.tIndirect else [])

/-- The data blocks under a single-, double- and triple-indirect index block. -/
def singleData (bs : Nat) (d : Nat → Nat) (off : Nat) : List Nat := liveSlots bs d off

def doubleData (bs : Nat) (d : Nat → Nat) (off : Nat) : List Nat :=
  (liveSlots bs d off).flatMap (singleData bs d)

def tripleData (bs : Nat) (d : Nat → Nat) (off : Nat) : List Nat :=
  (liveSlots bs d off).flatMap (doubleData bs d)

/-- The byte offsets of all data blocks reachable from an inode, in scan order. -/
def dataBlocksOf (bs : Nat) (d : Nat → Nat) (ino : Inode) : List Nat :=
  liveDirect ino
    ++ (if is_not_null ino.sIndirect then singleData bs d ino.sIndirect else [])
    ++ (if is_not_null ino.dIndirect then doubleData bs d ino.dIndirect else [])
    ++ (if is_not_null ino.tIndirect then tripleData bs d ino.tIndirect else [])

/-- The index blocks at and under a double- and a triple-indirect index block. -/
def doubleIndex (bs : Nat) (d : Nat → Nat) (off : Nat) : List Nat :=
  off :: liveSlots bs d off

def tripleIndex (bs : Nat) (d : Nat → Nat) (off : Nat) : List Nat :=
  off :: (liveSlots bs d off).flatMap (doubleIndex bs d)

/-- The byte offsets of all index blocks reachable from an inode. -/
def indexBlocksOf (bs : Nat) (d : Nat → Nat) (ino : Inode) : List Nat :=
  (if is_not_null ino.sIndirect then [ino.sIndirect] else [])
    ++ (if is_not_null ino.dIndirect then doubleIndex bs d ino.dIndirect else [])
    ++ (if is_not_null ino.tIndirect then tripleIndex bs d ino.tIndirect else [])

/-- The entry at byte address a has in_use_flag == 1. -/
def entryInUse (d : Nat → Nat) (a : Nat) : Bool := d (a + 12) == 1

/-- The entry at byte address a is in use and carries inode_num f. -/
def entryIs (d : Nat → Nat) (f : Nat) (a : Nat) : Bool := d (a + 12) == 1 && d (a + 8) == f

/-- The number of entries in use reachable from a directory inode. -/
def inUseCount (bs : Nat) (d : Nat → Nat) (ino : Inode) : Nat :=
  (dirEntries bs d ino).countP (entryInUse d)

/-- The disk with the two name words of the entry at a overwritten. -/
def setName (d : Nat → Nat) (a : Nat) (_name : Nat × Nat) : Nat → Nat :=
  fun x => if x = a then _name.1 else if x = a + 4 then _name.2 else d x

/-- The block tree of an inode is well formed: every data block and every index
block reachable from it lies at a multiple of BLOCK_SIZE, and no index block is
also a data block. -/
def TreeWellFormed (bs : Nat) (d : Nat → Nat) (ino : Inode) : Prop :=
  (∀ b ∈ dataBlocksOf bs d ino, b % bs = 0) ∧
  (∀ x ∈ indexBlocksOf bs d ino, x % bs = 0 ∧ x ∉ dataBlocksOf bs d ino)

instance (bs : Nat) (d : Nat → Nat) (ino : Inode) : Decidable (TreeWellFormed bs d ino) := by
  unfold TreeWellFormed
  infer_instance

/-- The disks d and d' hold the same words in every index block of the list xs. -/
def AgreeOn (bs : Nat) (d d' : Nat → Nat) (xs : List Nat) : Prop :=
  ∀ x ∈ xs, ∀ i, i < bs / 4 → d' (x + 4 * i) = d (x + 4 * i)

/-- The blocks at and under a single-, double- and triple-indirect index block
in the order in which a depth-first release visits them: the blocks below an
index block first, then the index block itself. -/
def singleFree (bs : Nat) (d : Nat → Nat) (off : Nat) : List Nat :=
  liveSlots bs d off ++ [off]

def doubleFree (bs : Nat) (d : Nat → Nat) (off : Nat) : List Nat :=
  (liveSlots bs d off).flatMap (singleFree bs d) ++ [off]

def tripleFree (bs : Nat) (d : Nat → Nat) (off : Nat) : List Nat :=
  (liveSlots bs d off).flatMap (doubleFree bs d) ++ [off]

/-- All blocks reachable from an inode, data and index blocks, in depth-first
release order. -/
def freeOrder (bs : Nat) (d : Nat → Nat) (ino : Inode) : List Nat :=
  liveDirect ino
    ++ (if is_not_null ino.sIndirect then singleFree bs d ino.sIndirect else [])
    ++ (if is_not_null ino.dIndirect then doubleFree bs d ino.dIndirect else [])
    ++ (if is_not_null ino.tIndirect then tripleFree bs d ino.tIndirect else [])

/-- The state after ssm_deallocate_sectors has been called on the sectors of L
in turn. -/
def freeAll (s : FsState) (L : List Nat) : FsState :=
  { s with ssmFreed := s.ssmFreed ++ L }

/-- The disk with the four words of the entry at a set to zero. -/
def clearAt (d : Nat → Nat) (a : Nat) : Nat → Nat :=
  fun x => if x = a ∨ x = a + 4 ∨ x = a + 8 ∨ x = a + 12 then 0 else d x

/-- What a successful removal of the entry at e leaves of the state s: outside
the index blocks X the disk is s.disk with the entry cleared, the sectors
released are among A, and only the inode record of the directory p may have
been rewritten. -/
def EntryRemoved (bs : Nat) (X A : List Nat) (p e : Nat) (s r : FsState) : Prop :=
  (∀ a, (∀ x ∈ X, a < x ∨ x + bs ≤ a) → r.disk a = clearAt s.disk e a) ∧
  (∃ seg, r.ssmFreed = s.ssmFreed ++ seg ∧ ∀ y ∈ seg, y ∈ A) ∧
  (∀ k, k ≠ p → r.itable k = s.itable k) ∧
  r.ssmOut = s.ssmOut ∧ r.iMap = s.iMap ∧ r.inodeFreed = s.inodeFreed

/-- The sectors fs_remove_file_from_dir may hand back for a directory inode: the
sectors of its data and index blocks, and the sector computed from a NIL
pointer. -/
def dirSectors (bs : Nat) (d : Nat → Nat) (ino : Inode) : List Nat :=
  (dataBlocksOf bs d ino ++ indexBlocksOf bs d ino).map (fun b => b / bs) ++ [NIL / bs]

/-- The outcome of a rename whose scan ends with o: the name words of the entry
found are overwritten, or nothing is written when no entry is found. -/
def renameResult (s : FsState) (_name : Nat × Nat) (o : Option Nat) : Bool × FsState :=
  match o with
  | some a => (true, { s with disk := setName s.disk a _name })
  | none => (false, s)

/-! ## States used as concrete inputs -/

/-- A file system made on 64-byte blocks with 32 inode blocks; the Sector Space
Manager gives sector 0 for the boot and super block, sector 2 for the inode
table and sectors 34, 35, ... afterwards. -/
def madeState (free : Nat) : FsState :=
  (fs_make 64 32 (0 :: 128 :: (List.range free).map (fun k => 2176 + 64 * k)) (0, 0) (0, 0)).2

/-- The state madeState with a directory (inode 3) created in the root and
three regular files (inodes 4, 5, 6) created in that directory. -/
def treeState : FsState :=
  let s1 := (fs_create_file 64 (madeState 8) (0, 0) 1 (100, 0) 2).2
  let s2 := (fs_create_file 64 s1 (0, 0) 0 (97, 0) 3).2
  let s3 := (fs_create_file 64 s2 (0, 0) 0 (98, 0) 3).2
  (fs_create_file 64 s3 (0, 0) 0 (99, 0) 3).2

/-- The state madeState with a regular file (inode 3) created in the root and
eleven blocks written to it: ten direct blocks and one block under the
single-indirect index block. -/
def fileState : FsState :=
  (fs_write_to_file 64 false (fs_create_file 64 (madeState 14) (0, 0) 0 (97, 0) 2).2 3
    (fun k => k + 1) 704).2

/-- A file system made on 32-byte blocks (two entries per data block, eight
pointers per index block) with 32 inode blocks; the Sector Space Manager gives
sector 0 for the boot and super block, sector 2 for the inode table and sectors
34, 35, ... afterwards. -/
def madeState32 (free : Nat) : FsState :=
  (fs_make 32 32 (0 :: 64 :: (List.range free).map (fun k => 1088 + 32 * k)) (0, 0) (0, 0)).2

/-- The state after k regular files have been created in the root directory of
a file system on 32-byte blocks. -/
def createMany : Nat → FsState → FsState
  | 0, s => s
  | k + 1, s => createMany k (fs_create_file 32 s (0, 0) 0 (97, 0) 2).2

/-- A root directory on 32-byte blocks with the files 3, ..., 21: its ten
direct blocks are full and file 21 has the first slot of the data block 1440
under the single-indirect index block 1408; the second slot of 1440 is free. -/
def bigDirState (free : Nat) : FsState := createMany 19 (madeState32 (11 + free))

/-- The state madeState with a regular file (inode 3) created in the root. -/
def newFileState (free : Nat) : FsState :=
  (fs_create_file 64 (madeState free) (0, 0) 0 (97, 0) 2).2

/-- The state after fs_remove_file(f, 2) for a regular file f (one level of
recursion). -/
def removed (bs : Nat) (s : FsState) (f : Nat) : FsState :=
  ((fs_remove_file bs 1 s f 2).map (fun r => r.2)).getD s

/-- The root directory of madeState after the files 3, 4, 5 have been created
in it (file 5 takes a second direct block) and file 5 has been removed again. -/
def shrunkState : FsState :=
  let s1 := (fs_create_file 64 (madeState 4) (0, 0) 0 (97, 0) 2).2
  let s2 := (fs_create_file 64 s1 (0, 0) 0 (98, 0) 2).2
  removed 64 (fs_create_file 64 s2 (0, 0) 0 (99, 0) 2).2 5

/-- The state after k rounds of fs_remove_file(21, 2) followed by a
fs_create_file in the root. -/
def churn : Nat → FsState → FsState
  | 0, s => s
  | k + 1, s => churn k (fs_create_file 32 (removed 32 s 21) (0, 0) 0 (97, 0) 2).2

/-- The state bigDirState after file 22 has been created in the root and
removed again. -/
def recreatedState : FsState :=
  removed 32 (fs_create_file 32 (bigDirState 3) (0, 0) 0 (98, 0) 2).2 22

/-- The root directory of madeState after fs_remove_file_from_dir(2, 2) has
cleared its entry '.'; the entry '..' (inode_num NIL) is the only one left. -/
def dotlessState : FsState := (fs_remove_file_from_dir 64 (madeState 1) 2 2).2

/-- The root directory of bigDirState after file 21 has been removed and
created again eight times and then the files 21 and 20 have been removed: the
files 3, ..., 19 are left, file 19 alone in the last direct block. -/
def wornState : FsState := removed 32 (removed 32 (churn 8 (bigDirState 30)) 21) 20

/-- The state r differs from s at most in the disk image and in the answers
left in the Sector Space Manager. -/
def AlocFrame (s r : FsState) : Prop :=
  r.inode = s.inode ∧ r.itable = s.itable ∧ r.mapId = s.mapId ∧ r.iMapOffset = s.iMapOffset ∧
  r.iMap = s.iMap ∧ r.ssmFreed = s.ssmFreed ∧ r.inodeFreed = s.inodeFreed

/-- The state r differs from s at most in the disk image, in the pointers of
the working inode and in the answers left in the Sector Space Manager. -/
def WriteFrame (s r : FsState) : Prop :=
  r.inode.fileType = s.inode.fileType ∧ r.inode.fileSize = s.inode.fileSize ∧
  r.inode.dataBlocks = s.inode.dataBlocks ∧ r.inode.linkCount = s.inode.linkCount ∧
  r.itable = s.itable ∧ r.mapId = s.mapId ∧ r.iMapOffset = s.iMapOffset ∧
  r.iMap = s.iMap ∧ r.ssmFreed = s.ssmFreed ∧ r.inodeFreed = s.inodeFreed

/-- The state r differs from s at most in the disk image, the working inode,
the answers left in the Sector Space Manager and the record of inode p. -/
def InsFrame (p : Nat) (s r : FsState) : Prop :=
  (∀ k, k ≠ p → r.itable k = s.itable k) ∧ r.iMap = s.iMap ∧ r.iMapOffset = s.iMapOffset ∧
  r.ssmFreed = s.ssmFreed ∧ r.inodeFreed = s.inodeFreed

/-- The inode record after create_file_in_unavail_direct_loc has put a new data
block at offset x under direct pointer i. -/
def grownInode (bs : Nat) (ino : Inode) (i x : Nat) : Inode :=
  { ino with
    directPtr := ino.directPtr.set i x, linkCount := (ino.linkCount + 1) % U32,
    fileSize := (ino.fileSize + bs) % U32, dataBlocks := (ino.fileSize + bs) % U32 / bs }

/-- The block at b lies at a multiple of BLOCK_SIZE and is none of the blocks
of the list Pr. -/
def Away (bs : Nat) (Pr : List Nat) (b : Nat) : Prop := b % bs = 0 ∧ b ∉ Pr

/-- Every answer in the list that is not NIL is a block away from Pr. -/
def SsmAway (bs : Nat) (Pr : List Nat) (L : List Nat) : Prop := ∀ a ∈ L, a ≠ NIL → Away bs Pr a

/-- The state r holds the same words as s in every block of Pr, and the
answers left in the Sector Space Manager of r are answers that were left in
s. -/
def Touch (bs : Nat) (Pr : List Nat) (s r : FsState) : Prop :=
  AgreeOn bs s.disk r.disk Pr ∧ ∀ a ∈ r.ssmOut, a ∈ s.ssmOut

/-- The working inode of r is that of s, or it has been reset by
fs_close_file. -/
def SameOrInit (s r : FsState) : Prop := r.inode = s.inode ∨ r.inode = inode_init

/-- The state create_file leaves when it has put a new data block at offset x
under direct pointer i of the directory p. -/
def grownState (bs : Nat) (s : FsState) (f : Nat) (name : Nat × Nat) (p i x : Nat)
    (rest : List Nat) : FsState :=
  (fs_close_file (inode_write
    { s with
      mapId := p, ssmOut := rest, inode := grownInode bs (s.itable p) i x,
      disk := writeBlock bs s.disk x (firstEntry name f) } p)).2

/-- The state create_file leaves when it has filled slot j of the data block
at offset b. -/
def filledState (bs : Nat) (s : FsState) (f : Nat) (name : Nat × Nat) (b j : Nat) : FsState :=
  { s with
    mapId := NIL, inode := inode_init,
    disk := writeBlock bs s.disk b (putEntry (readBlock s.disk b) j name f) }

/-- The inode record fs_create_file writes for a new directory before it
inserts the entries. -/
def dirInode : Inode := { inode_init with fileType := 2 }

/-- The state of fs_create_file(1, _, _) after allocate_inode, n being the
number of the inode reserved. -/
def reservedState (s : FsState) (n : Nat) : FsState :=
  allocate_inode (inode_write { inode_read (get_inode s) n with inode := dirInode } n)

/-- The words of the first data block of a new directory n with parent p. -/
def dirBlock (dot dotdot : Nat × Nat) (n p : Nat) : Nat → Nat :=
  putEntry (firstEntry dot n) 4 dotdot p

/-! ### Write then read: the shape of the block tree of a written file -/

/-- Address a lies inside one of the blocks A lo, …, A (hi - 1). -/
def Inside (bs : Nat) (A : Nat → Nat) (lo hi a : Nat) : Prop :=
  ∃ j, lo ≤ j ∧ j < hi ∧ A j ≤ a ∧ a < A j + bs

/-- Disk d' differs from disk d only inside the blocks A lo, …, A (hi - 1). -/
def ChangedIn (bs : Nat) (A : Nat → Nat) (lo hi : Nat) (d d' : Nat → Nat) : Prop :=
  ∀ a, ¬ Inside bs A lo hi a → d' a = d a

/-- The first n answers A 0, …, A (n - 1) of the Sector Space Manager are
offsets of blocks, none of them NIL, no two the same. -/
def GoodAns (bs : Nat) (A : Nat → Nat) (n : Nat) : Prop :=
  (∀ j, j < n → A j ≠ NIL ∧ A j % bs = 0) ∧ ∀ i j, i < n → j < n → i ≠ j → A i ≠ A j

/-- An index block at A o whose first K slots hold the blocks A (o + 1 + i * g),
each the root of a subtree described by C that took g answers, and whose other
slots are NIL. -/
def Node (bs : Nat) (C : (Nat → Nat) → Nat → Prop) (g K : Nat) (A : Nat → Nat)
    (d : Nat → Nat) (o : Nat) : Prop :=
  (∀ i, i < bs / 4 → d (A o + 4 * i) = if i < K then A (o + 1 + i * g) else NIL) ∧
  ∀ i, i < K → C d (o + 1 + i * g)

/-- The data block number k below a node with K children of N data blocks each. -/
def nodeAdr (adr : Nat → Nat → Option Nat) (g N K : Nat) (o k : Nat) : Option Nat :=
  if k / N < K then adr (o + 1 + k / N * g) (k % N) else none

/-- A data block is its own and only data block. -/
def leafAdr (A : Nat → Nat) (o _k : Nat) : Option Nat := some (A o)

/-- The tree below a single-indirect index block with m data blocks. -/
def Tree1 (bs m : Nat) (A : Nat → Nat) : (Nat → Nat) → Nat → Prop :=
  Node bs (fun _ _ => True) 1 m A

/-- The tree below a double-indirect index block: K single-indirect blocks
with m data blocks each. -/
def Tree2 (bs K m : Nat) (A : Nat → Nat) : (Nat → Nat) → Nat → Prop :=
  Node bs (Tree1 bs m A) (1 + m) K A

/-- The tree below a triple-indirect index block: K3 double-indirect blocks
of K single-indirect blocks with m data blocks each. -/
def Tree3 (bs K3 K m : Nat) (A : Nat → Nat) : (Nat → Nat) → Nat → Prop :=
  Node bs (Tree2 bs K m A) (1 + K * (1 + m)) K3 A

/-- The offset of data block k below the single-indirect block at A o. -/
def adr1 (m : Nat) (A : Nat → Nat) : Nat → Nat → Option Nat :=
  nodeAdr (leafAdr A) 1 1 m

def adr2 (bs K m : Nat) (A : Nat → Nat) : Nat → Nat → Option Nat :=
  nodeAdr (adr1 m A) (1 + m) (bs / 4) K

def adr3 (bs K3 K m : Nat) (A : Nat → Nat) : Nat → Nat → Option Nat :=
  nodeAdr (adr2 bs K m A) (1 + K * (1 + m)) (bs / 4 * (bs / 4)) K3

/-- The property C of the subtree at A o depends only on the g blocks
A o, …, A (o + g - 1). -/
def Lives (bs : Nat) (A : Nat → Nat) (g : Nat) (C : (Nat → Nat) → Nat → Prop) : Prop :=
  ∀ d d' o, (∀ a, Inside bs A o (o + g) a → d' a = d a) → C d o → C d' o

/-- Answer number k of the list L of answers of the Sector Space Manager. -/
def ans (L : List Nat) (k : Nat) : Nat := L.getD k NIL

/-- The first cnt data blocks below A o hold the buffer from word pos on. -/
def DataAt (bs : Nat) (adr : Nat → Nat → Option Nat) (buf : Nat → Nat) (pos cnt : Nat)
    (d : Nat → Nat) (o : Nat) : Prop :=
  ∀ k x, k < cnt → adr o k = some x → ∀ w, w < bs / 4 →
    d (x + 4 * w) = buf (pos + k * (bs / 4) + w)

/-- The number of blocks of BLOCK_SIZE bytes that n bytes take. -/
def blocksOf (bs n : Nat) : Nat := (n + bs - 1) / bs

/-- The number of sectors that fs_write_to_file takes from the Sector Space
Manager for n bytes written to a file without blocks, when no answer is NIL:
one per direct block, then the index blocks and data blocks that
aloc_single_indirect, aloc_double_indirect and aloc_triple_indirect take. -/
def sectorsFor (bs n : Nat) : Nat :=
  if blocksOf bs n ≤ 10 then blocksOf bs n
  else if blocksOf bs n ≤ 10 + bs / 4 then 10 + (1 + (blocksOf bs n - 10))
  else if blocksOf bs n ≤ 10 + bs / 4 + bs / 4 * (bs / 4) then
    10 + (1 + bs / 4)
      + (1 + min (bs / 4) ((blocksOf bs n - (10 + bs / 4)) / (bs / 4) + 1)
        * (1 + min (blocksOf bs n - (10 + bs / 4)) (bs / 4)))
  else
    10 + (1 + bs / 4) + (1 + bs / 4 * (1 + bs / 4))
      + (1 + min (bs / 4)
          ((blocksOf bs n - (10 + bs / 4 + bs / 4 * (bs / 4))) / (bs / 4 * (bs / 4)) + 1)
        * (1 + min (bs / 4)
            ((blocksOf bs n - (10 + bs / 4 + bs / 4 * (bs / 4))) / (bs / 4) + 1)
          * (1 + min (blocksOf bs n - (10 + bs / 4 + bs / 4 * (bs / 4))) (bs / 4))))

/-- The offsets that the next k requests to the Sector Space Manager give when
its coming answers are L, in the order given; the requests answered NIL (or
not answered because L has run out) give none. -/
def granted (L : List Nat) (k : Nat) : List Nat := (L.take k).filter is_not_null

/-- A file system on 32-byte blocks (eight pointers per index block) with a
regular file (inode 3) created in the root, its pointers all NIL; the Sector
Space Manager has 38 sectors left. -/
def newFileState32 : FsState := (fs_create_file 32 (madeState32 40) (0, 0) 0 (97, 0) 2).2

/-- Word e of the slice that receives the data block at byte offset b is to
hold v, the word e of that block. -/
def InBlock (bs : Nat) (d : Nat → Nat) (b e v : Nat) : Prop := e < bs / 4 ∧ v = d (b + 4 * e)

/-- Word e of the region that receives the blocks under the index block at c
is to hold v: the i-th slot of c that is not NIL has its own region at i * W,
described by G. -/
def Under (bs : Nat) (d : Nat → Nat) (W : Nat) (G : Nat → Nat → Nat → Prop) (c e v : Nat) :
    Prop :=
  ∃ i e', i < (liveSlots bs d c).length ∧ G ((liveSlots bs d c).getD i NIL) e' v ∧
    e = i * W + e'

/-- The entry for f under the single-indirect index block at S: the data block
in slot i is the first that holds an entry in use for f, at word j, and no
other entry of that block is in use. -/
def LastEntryAt (bs : Nat) (d : Nat → Nat) (f S i j : Nat) : Prop :=
  i < bs / 4 ∧ d (S + 4 * i) ≠ NIL ∧
  (∀ k, k < i → d (S + 4 * k) ≠ NIL → matchSlot bs (readBlock d (d (S + 4 * k))) f = none) ∧
  matchSlot bs (readBlock d (d (S + 4 * i))) f = some j ∧
  noEntryInUse bs (clearEntry (readBlock d (d (S + 4 * i))) j) = true

/-- The state r is the state s with the disk image d, the sectors of the list
freed released in that order, the record ino in the working slot and the
record pers persisted for the directory p. -/
def StateIs (r s : FsState) (d : Nat → Nat) (freed : List Nat) (ino pers : Inode) (p : Nat) :
    Prop :=
  r.disk = d ∧ r.ssmFreed = s.ssmFreed ++ freed ∧ r.inode = ino ∧ r.itable p = pers ∧
  (∀ k, k ≠ p → r.itable k = s.itable k) ∧
  r.ssmOut = s.ssmOut ∧ r.iMap = s.iMap ∧ r.inodeFreed = s.inodeFreed ∧ r.mapId = s.mapId ∧
  r.iMapOffset = s.iMapOffset

/-- The disk image d' is the image d with the blocks of the list B rewritten:
each pair of B gives the byte offset of a block and the words that block now
holds; every address outside these blocks holds what it held in d. -/
def DiskPatch (bs : Nat) (d' d : Nat → Nat) (B : List (Nat × (Nat → Nat))) : Prop :=
  (∀ q ∈ B, ∀ k, k < bs / 4 → d' (q.1 + 4 * k) = q.2 k) ∧
  (∀ x, (∀ q ∈ B, x < q.1 ∨ q.1 + bs ≤ x) → d' x = d x)

/-- The index block at X has no slot other than slot k that is not NIL: the
test of the loop that looks for a slot in use, after slot k has been set to
NIL. -/
def onlySlot (bs : Nat) (d : Nat → Nat) (X k : Nat) : Bool :=
  allSlotsNil bs (bufSet (readBlock d X) k NIL)

/-- The entry for f under the double-indirect index block at D: the
single-indirect block in slot c is the first under which an entry in use for
f is found, in the data block of its slot i, at word j, and no other entry of
that data block is in use. -/
def LastEntryAt2 (bs : Nat) (d : Nat → Nat) (f D c i j : Nat) : Prop :=
  c < bs / 4 ∧ d (D + 4 * c) ≠ NIL ∧
  (∀ k, k < c → d (D + 4 * k) ≠ NIL →
    ∀ b ∈ liveSlots bs d (d (D + 4 * k)), matchSlot bs (readBlock d b) f = none) ∧
  LastEntryAt bs d f (d (D + 4 * c)) i j

/-- The entry for f under the triple-indirect index block at T: the
double-indirect block in slot a is the first under which an entry in use for
f is found; under it the entry lies as LastEntryAt2 says. -/
def LastEntryAt3 (bs : Nat) (d : Nat → Nat) (f T a c i j : Nat) : Prop :=
  a < bs / 4 ∧ d (T + 4 * a) ≠ NIL ∧
  (∀ k, k < a → d (T + 4 * k) ≠ NIL →
    ∀ b ∈ doubleData bs d (d (T + 4 * k)), matchSlot bs (readBlock d b) f = none) ∧
  LastEntryAt2 bs d f (d (T + 4 * a)) c i j

/-- The blocks of the list lie at multiples of BLOCK_SIZE, none at NIL, and no
two of them are the same block. -/
def Apart (bs : Nat) (L : List Nat) : Prop := (∀ x ∈ L, x ≠ NIL ∧ x % bs = 0) ∧ L.Nodup

/-- What a removal leaves of the state s when it has released the sectors of
the list freed, in that order, and rewritten the blocks of B: nothing else of
the disk image has changed, the inode of the directory p has been persisted,
no other inode record and nothing of the allocators has changed. -/
def Released (bs : Nat) (r s : FsState) (freed : List Nat) (B : List (Nat × (Nat → Nat)))
    (p : Nat) : Prop :=
  r.ssmFreed = s.ssmFreed ++ freed ∧ DiskPatch bs r.disk s.disk B ∧ r.itable p = r.inode ∧
  (∀ k, k ≠ p → r.itable k = s.itable k) ∧
  r.ssmOut = s.ssmOut ∧ r.iMap = s.iMap ∧ r.inodeFreed = s.inodeFreed

instance (bs : Nat) (d : Nat → Nat) (f S i j : Nat) : Decidable (LastEntryAt bs d f S i j) := by
  unfold LastEntryAt
  infer_instance

instance (bs : Nat) (d : Nat → Nat) (f D c i j : Nat) :
    Decidable (LastEntryAt2 bs d f D c i j) := by
  unfold LastEntryAt2
  infer_instance

instance (bs : Nat) (d : Nat → Nat) (f T a c i j : Nat) :
    Decidable (LastEntryAt3 bs d f T a c i j) := by
  unfold LastEntryAt3
  infer_instance

instance (bs : Nat) (L : List Nat) : Decidable (Apart bs L) := by
  unfold Apart
  infer_instance

/-- A disk image on 16-byte blocks (four words, one directory entry per block)
with a triple-indirect index block at 64 whose slot 0 holds the
double-indirect block 128, whose slot 0 holds the single-indirect block 192,
whose slot 0 holds the data block 256 with the one entry (inode_num 7, in
use); every other slot of the three index blocks is NIL.  Inode 2 is a
directory with tIndirect = 64, inode 3 one with sIndirect = 192, inode 4 one
with dIndirect = 128. -/
def cascadeState : FsState :=
  { disk := fun a =>
      if a = 64 then 128 else if a = 68 ∨ a = 72 ∨ a = 76 then NIL
      else if a = 128 then 192 else if a = 132 ∨ a = 136 ∨ a = 140 then NIL
      else if a = 192 then 256 else if a = 196 ∨ a = 200 ∨ a = 204 then NIL
      else if a = 264 then 7 else if a = 268 then 1 else 0,
    itable := fun k =>
      if k = 2 then { inode_init with fileType := 2, tIndirect := 64 }
      else if k = 3 then { inode_init with fileType := 2, sIndirect := 192 }
      else if k = 4 then { inode_init with fileType := 2, dIndirect := 128 }
      else inode_init,
    inode := inode_init, mapId := NIL, iMapOffset := (NIL, NIL), iMap := [], ssmOut := [],
    ssmFreed := [], inodeFreed := [] }

/-- The state r is the state s after the sectors of L have gone to
ssm_deallocate_sectors in turn; the working inode slot and inode_map.id may
differ, nothing else does. -/
def FreedOnly (s : FsState) (L : List Nat) (r : FsState) : Prop :=
  r.disk = s.disk ∧ r.itable = s.itable ∧ r.iMap = s.iMap ∧ r.ssmOut = s.ssmOut ∧
  r.ssmFreed = s.ssmFreed ++ L ∧ r.inodeFreed = s.inodeFreed ∧ r.iMapOffset = s.iMapOffset

/-- Every entry in use of the data block at b that the loop of fs_remove_file
visits (word 8 onwards) names an inode that does not open: NIL, or a record
with fileType 0 or less. -/
def ChildrenFail (bs : Nat) (s : FsState) (b : Nat) : Prop :=
  ∀ j ∈ slotIdx bs 2, s.disk (b + 4 * (j + 3)) = 1 →
    s.disk (b + 4 * (j + 2)) = NIL ∨ (s.itable (s.disk (b + 4 * (j + 2)))).fileType ≤ 0

instance (bs : Nat) (s : FsState) (b : Nat) : Decidable (ChildrenFail bs s b) := by
  unfold ChildrenFail
  infer_instance

/-- Two stand-ins for the recursive call leave the same state on every call;
the Booleans they return may differ. -/
def SameStates (rm rm2 : FsState → Nat → Nat → Option (Bool × FsState)) : Prop :=
  ∀ t c q, (rm t c q).map Prod.snd = (rm2 t c q).map Prod.snd

/-- The state madeState with a directory (inode 3) created in the root and two
regular files (inodes 4, 5) created in that directory, the records of the
inodes 4 and 5 reset afterwards: the two entries of the directory 3 are in use
and name inodes whose fileType is 0. -/
def staleDirState : FsState :=
  let s1 := (fs_create_file 64 (madeState 8) (0, 0) 1 (100, 0) 2).2
  let s2 := (fs_create_file 64 s1 (0, 0) 0 (97, 0) 3).2
  let s3 := (fs_create_file 64 s2 (0, 0) 0 (98, 0) 3).2
  { s3 with itable := fun k => if k = 4 ∨ k = 5 then inode_init else s3.itable k }

/-- The spec's variant of create_file: the same sequence of attempts with the
second create_file_in_avail_indirect_loc(..., False) call, the one after the
direct-block allocation attempt, deleted. -/
def create_file_one_scan (bs : Nat) (s : FsState) (_inodeNumF : Nat) (_name : Nat × Nat)
    (_inodeNumParentDir : Nat) : Bool × FsState :=
  let o := open_inode s _inodeNumParentDir
  if !o.1 then (false, o.2)
  else
    let a1 := create_file_in_avail_direct_loc bs o.2 _inodeNumF _name
    if a1.1 then (true, a1.2)
    else
    let a2 := create_file_in_avail_indirect_loc bs a1.2 _inodeNumF _name false
    if a2.1 then (true, a2.2)
    else
    let a3 := create_file_in_unavail_direct_loc bs a2.2 _inodeNumF _inodeNumParentDir _name
    if a3.1 then (true, a3.2)
    else
    let a5 := create_file_in_avail_indirect_loc bs a3.2 _inodeNumF _name true
    if a5.1 then (true, a5.2)
    else
    let a6 := create_file_in_unavail_indirect_loc bs a5.2 .SINGLE _inodeNumF _name
      _inodeNumParentDir
    if a6.1 then (true, a6.2)
    else
    let a7 := create_file_in_unavail_indirect_loc bs a6.2 .DOUBLE _inodeNumF _name
      _inodeNumParentDir
    if a7.1 then (true, a7.2)
    else
    let a8 := create_file_in_unavail_indirect_loc bs a7.2 .TRIPLE _inodeNumF _name
      _inodeNumParentDir
    if a8.1 then (true, a8.2) else (false, a8.2)

/-- A step that returns False, leaves the state as it was or leaves the working
inode closed (reset), and neither consults nor changes the answers of the Sector
Space Manager. -/
def Quiet (g : FsState → Bool × FsState) : Prop :=
  ∀ s, (g s).1 = false ∧ ((g s).2 = s ∨ (g s).2.inode = inode_init) ∧
    ∀ L, g { s with ssmOut := L } = (false, { (g s).2 with ssmOut := L })

/-- A block of sixteen words laid out as a directory block: the entries '.'
(inode 3) and '..' (inode 2) in the first two slots and an entry in use with
inode_num 3 in the third slot. -/
def loopBuf : Nat → Nat := fun k =>
  if k = 0 then 46 else if k = 2 then 3 else if k = 3 then 1
  else if k = 4 then 11822 else if k = 6 then 2 else if k = 7 then 1
  else if k = 8 then 120 else if k = 10 then 3 else if k = 11 then 1 else 0

/-- The state madeState with a directory (inode 3) created in the root. -/
def dirState : FsState := (fs_create_file 64 (madeState 4) (0, 0) 1 (100, 0) 2).2

/-- The state dirState after fs_write_to_file(3, loopBuf, 64): the data block
of the directory 3 is overwritten with loopBuf. -/
def loopState : FsState := (fs_write_to_file 64 false dirState 3 loopBuf 64).2

/-- The state after fs_remove_file(f, p) for a regular file f (one level of
recursion). -/
def removedFrom (bs : Nat) (s : FsState) (f p : Nat) : FsState :=
  ((fs_remove_file bs 1 s f p).map (fun r => r.2)).getD s

/-- The state madeState with a directory (inode 3) created in the root, five
regular files (inodes 4, ..., 8) created in that directory, and the files 6 and
7 removed from it again: the second data block of the directory 3 holds one
entry in use, the one for file 8 in its third slot. -/
def smallDir : FsState :=
  let s1 := (fs_create_file 64 (madeState 8) (0, 0) 1 (100, 0) 2).2
  let s2 := (fs_create_file 64 s1 (0, 0) 0 (97, 0) 3).2
  let s3 := (fs_create_file 64 s2 (0, 0) 0 (98, 0) 3).2
  let s4 := (fs_create_file 64 s3 (0, 0) 0 (99, 0) 3).2
  let s5 := (fs_create_file 64 s4 (0, 0) 0 (100, 0) 3).2
  let s6 := (fs_create_file 64 s5 (0, 0) 0 (101, 0) 3).2
  removedFrom 64 (removedFrom 64 s6 6 3) 7 3

/-- The state newFileState 11 (a regular file, inode 3, without blocks; ten
sectors left in the Sector Space Manager) on a disk image where a read of the
word at byte offset NIL delivers v. -/
def nilWordState (v : Nat) : FsState :=
  { newFileState 11 with disk := fun a => if a = NIL then v else (newFileState 11).disk a }

/-- The state madeState with a regular file (inode 3) created in the root and
one block written to it whose first four words are zero. -/
def zeroFile : FsState :=
  (fs_write_to_file 64 false (newFileState 3) 3 (fun k => if k < 4 then 0 else k + 1) 64).2

/-- The state madeState with a regular file (inode 3) created in the root and
eleven blocks written to it, three sectors being left in the Sector Space
Manager. -/
def writtenOnce : FsState :=
  (fs_write_to_file 64 false (newFileState 16) 3 (fun k => k + 1) 704).2

/-- The root directory of madeState after the files 3, 4, 5 have been created
in it: file 5 is the only entry of the second direct block, at offset 2240. -/
def threeFilesState : FsState :=
  let s1 := (fs_create_file 64 (madeState 4) (0, 0) 0 (97, 0) 2).2
  let s2 := (fs_create_file 64 s1 (0, 0) 0 (98, 0) 2).2
  (fs_create_file 64 s2 (0, 0) 0 (99, 0) 2).2

/-- A pointer value is NIL or satisfies ok. -/
def Good (ok : Nat → Prop) (p : Nat) : Prop := p = NIL ∨ ok p

/-- Every pointer field of the inode record is NIL or satisfies ok. -/
def InodeOk (ok : Nat → Prop) (i : Inode) : Prop :=
  (∀ p ∈ i.directPtr, Good ok p) ∧ Good ok i.sIndirect ∧ Good ok i.dIndirect ∧
  Good ok i.tIndirect

/-- Every answer the Sector Space Manager is going to give and every pointer
field of the working inode and of every inode record is NIL or satisfies ok. -/
def PtrInv (ok : Nat → Prop) (s : FsState) : Prop :=
  (∀ a ∈ s.ssmOut, Good ok a) ∧ InodeOk ok s.inode ∧ ∀ k, InodeOk ok (s.itable k)

/-- The cases of fs_open_file, for use in the proofs below. -/
theorem fs_open_file_cases (s : FsState) (n : Nat) (out : Inode) :
    ((fs_open_file s n out).1 = true ↔ (n ≠ NIL ∧ 0 < (s.itable n).fileType)) ∧
    ((fs_open_file s n out).1 = true → (fs_open_file s n out).2.1 = s.itable n) ∧
    (n ≠ NIL → (s.itable n).fileType ≤ 0 →
      (fs_open_file s n out).1 = false ∧ (fs_open_file s n out).2.1 = inode_init) ∧
    (n = NIL → ∀ t : Nat → Inode,
      fs_open_file { s with itable := t } n out = (false, out, { s with itable := t })) := by
  unfold fs_open_file is_null
  by_cases hn : n = NIL
  · simp [hn]
  · by_cases hf : (s.itable n).fileType ≤ 0
    · simp [hn, hf]
    · simp [hn, hf]
      omega

/-- C2: fs_open_file returns True exactly when the number is not NIL and the
stored record has fileType > 0; on success the output holds the stored record;
on fileType <= 0 the output is the initial inode; on NIL nothing is read and
the output and the state are left as they were. -/
theorem fs_open_file_spec (s : FsState) (n : Nat) (out : Inode) :
    ((fs_open_file s n out).1 = true ↔ (n ≠ NIL ∧ 0 < (s.itable n).fileType)) ∧
    ((fs_open_file s n out).1 = true → (fs_open_file s n out).2.1 = s.itable n) ∧
    (n ≠ NIL → (s.itable n).fileType ≤ 0 →
      (fs_open_file s n out).1 = false ∧ (fs_open_file s n out).2.1 = inode_init) ∧
    (n = NIL → ∀ t : Nat → Inode,
      fs_open_file { s with itable := t } n out = (false, out, { s with itable := t })) := by
  unfold fs_open_file is_null
  by_cases hn : n = NIL
  · simp [hn]
  · by_cases hf : (s.itable n).fileType ≤ 0
    · simp [hn, hf]
    · simp [hn, hf]
      omega

/-! ### fs_create_file and fs_write_to_file: what the result reports -/

theorem open_inode_nil (s : FsState) : open_inode s NIL = (false, s) := by
  simp [open_inode, fs_open_file, is_null]

theorem create_file_nil_parent (bs : Nat) (s : FsState) (f : Nat) (name : Nat × Nat) :
    create_file bs s f name NIL = (false, s) := by
  simp [create_file, open_inode_nil]

theorem get_inode_disk (s : FsState) : (get_inode s).disk = s.disk := by
  simp only [get_inode]
  split <;> rfl

set_option maxRecDepth 100000 in
/-- C5 (code evaluated at the failing input): right after fs_make the root
directory (inode 2) holds two entries in use while its persisted linkCount
is 1. -/
theorem linkCount_after_fs_make :
    ((madeState 1).itable 2).fileType = 2 ∧
    ((madeState 1).itable 2).linkCount = 1 ∧
    inUseCount 64 (madeState 1).disk ((madeState 1).itable 2) = 2 := by
  decide

set_option maxRecDepth 100000 in
/-- C6 (code evaluated at the failing input): directory 3 holds the files 4, 5
(slots 2, 3 of its first block) and 6 (slot 0 of its second block);
fs_remove_file(3, 2) returns True, clears inode 4 and leaves inode 6 with
fileType 1. -/
theorem fs_remove_file_skips_child :
    (treeState.itable 3).fileType = 2 ∧
    (dirEntries 64 treeState.disk (treeState.itable 3)).any (entryIs treeState.disk 6) = true ∧
    (treeState.itable 6).fileType = 1 ∧
    (fs_remove_file 64 3 treeState 3 2).map (fun r => r.1) = some true ∧
    (fs_remove_file 64 3 treeState 3 2).map (fun r => (r.2.itable 6).fileType) = some 1 ∧
    (fs_remove_file 64 3 treeState 3 2).map (fun r => (r.2.itable 4).fileType) = some 0 := by
  decide

/-! ### Rename: the scan and its frame -/

theorem mem_slotIdx (bs j : Nat) (hbs : bs % 16 = 0) (h : j ∈ slotIdx bs 0) :
    j % 4 = 0 ∧ j + 4 ≤ bs / 4 := by
  simp only [slotIdx, List.drop_zero, List.mem_map, List.mem_range] at h
  obtain ⟨k, hk, rfl⟩ := h
  omega

theorem writeBlock_renameEntry (bs : Nat) (d : Nat → Nat) (off j : Nat) (name : Nat × Nat)
    (hj : j + 4 ≤ bs / 4) :
    writeBlock bs d off (renameEntry (readBlock d off) j name) = setName d (off + 4 * j) name := by
  funext a
  simp only [writeBlock, writeWords, renameEntry, bufSet, readBlock, setName]
  by_cases h1 : off ≤ a ∧ (a - off) % 4 = 0 ∧ (a - off) / 4 < bs / 4
  · rw [if_pos h1]
    by_cases h2 : (a - off) / 4 = j + 1
    · rw [if_pos h2, if_neg (by omega), if_pos (by omega)]
    · rw [if_neg h2]
      by_cases h3 : (a - off) / 4 = j
      · rw [if_pos h3, if_pos (by omega)]
      · rw [if_neg h3, if_neg (by omega), if_neg (by omega)]
        congr 1; omega
  · rw [if_neg h1]
    rw [if_neg (by omega), if_neg (by omega)]

theorem matchSlot_eq (bs : Nat) (d : Nat → Nat) (off f : Nat) :
    (blockEntries bs off).find? (entryIs d f)
      = (matchSlot bs (readBlock d off) f).map (fun j => off + 4 * j) := by
  simp only [blockEntries, matchSlot, List.find?_map]
  congr 1

theorem rename_in_block_eq (bs : Nat) (hbs : bs % 16 = 0) (s : FsState) (f : Nat)
    (name : Nat × Nat) (off : Nat) :
    rename_in_block bs s f name off
      = renameResult s name ((blockEntries bs off).find? (entryIs s.disk f)) := by
  rw [matchSlot_eq]
  cases hm : matchSlot bs (readBlock s.disk off) f with
  | none => simp [rename_in_block, hm, renameResult]
  | some j =>
    have hj := mem_slotIdx bs j hbs (List.mem_of_find?_eq_some hm)
    simp [rename_in_block, hm, renameResult, writeBlock_renameEntry bs s.disk off j name hj.2]

theorem rename_single_loop_eq (bs : Nat) (hbs : bs % 16 = 0) (f : Nat) (name : Nat × Nat)
    (ib : Nat → Nat) (is : List Nat) (s : FsState) :
    rename_file_in_single_indirect_loop bs f name ib is s
      = renameResult s name
        ((((is.map ib).filter is_not_null).flatMap (blockEntries bs)).find? (entryIs s.disk f)) := by
  induction is with
  | nil => simp [rename_file_in_single_indirect_loop, renameResult]
  | cons i is ih =>
    simp only [rename_file_in_single_indirect_loop, List.map_cons, List.filter_cons]
    by_cases hn : is_not_null (ib i) = true
    · simp only [hn, if_true, List.flatMap_cons, List.find?_append]
      rw [rename_in_block_eq bs hbs]
      cases hfind : (blockEntries bs (ib i)).find? (entryIs s.disk f) with
      | none => simpa [renameResult] using ih
      | some a => simp [renameResult]
    · simp only [hn]
      simpa using ih

theorem rename_single_eq (bs : Nat) (hbs : bs % 16 = 0) (s : FsState) (f : Nat)
    (name : Nat × Nat) (off : Nat) :
    rename_file_in_single_indirect bs s f name off
      = renameResult s name ((singleEntries bs s.disk off).find? (entryIs s.disk f)) := by
  rw [rename_file_in_single_indirect, rename_single_loop_eq bs hbs]
  rfl

theorem rename_double_loop_eq (bs : Nat) (hbs : bs % 16 = 0) (f : Nat) (name : Nat × Nat)
    (ib : Nat → Nat) (is : List Nat) (s : FsState) :
    rename_file_in_double_indirect_loop bs f name ib is s
      = renameResult s name
        ((((is.map ib).filter is_not_null).flatMap (singleEntries bs s.disk)).find? (entryIs s.disk f)) := by
  induction is with
  | nil => simp [rename_file_in_double_indirect_loop, renameResult]
  | cons i is ih =>
    simp only [rename_file_in_double_indirect_loop, List.map_cons, List.filter_cons]
    by_cases hn : is_not_null (ib i) = true
    · simp only [hn, if_true, List.flatMap_cons, List.find?_append]
      rw [rename_single_eq bs hbs]
      cases hfind : (singleEntries bs s.disk (ib i)).find? (entryIs s.disk f) with
      | none => simpa [renameResult] using ih
      | some a => simp [renameResult]
    · simp only [hn]
      simpa using ih

theorem rename_double_eq (bs : Nat) (hbs : bs % 16 = 0) (s : FsState) (f : Nat)
    (name : Nat × Nat) (off : Nat) :
    rename_file_in_double_indirect bs s f name off
      = renameResult s name ((doubleEntries bs s.disk off).find? (entryIs s.disk f)) := by
  rw [rename_file_in_double_indirect, rename_double_loop_eq bs hbs]
  rfl

theorem rename_triple_loop_eq (bs : Nat) (hbs : bs % 16 = 0) (f : Nat) (name : Nat × Nat)
    (ib : Nat → Nat) (is : List Nat) (s : FsState) :
    rename_file_in_triple_indirect_loop bs f name ib is s
      = renameResult s name
        ((((is.map ib).filter is_not_null).flatMap (doubleEntries bs s.disk)).find? (entryIs s.disk f)) := by
  induction is with
  | nil => simp [rename_file_in_triple_indirect_loop, renameResult]
  | cons i is ih =>
    simp only [rename_file_in_triple_indirect_loop, List.map_cons, List.filter_cons]
    by_cases hn : is_not_null (ib i) = true
    · simp only [hn, if_true, List.flatMap_cons, List.find?_append]
      rw [rename_double_eq bs hbs]
      cases hfind : (doubleEntries bs s.disk (ib i)).find? (entryIs s.disk f) with
      | none => simpa [renameResult] using ih
      | some a => simp [renameResult]
    · simp only [hn]
      simpa using ih

theorem rename_triple_eq (bs : Nat) (hbs : bs % 16 = 0) (s : FsState) (f : Nat)
    (name : Nat × Nat) (off : Nat) :
    rename_file_in_triple_indirect bs s f name off
      = renameResult s name ((tripleEntries bs s.disk off).find? (entryIs s.disk f)) := by
  rw [rename_file_in_triple_indirect, rename_triple_loop_eq bs hbs]
  rfl

theorem rename_direct_loop_eq (bs : Nat) (hbs : bs % 16 = 0) (f : Nat) (name : Nat × Nat)
    (is : List Nat) (s : FsState) :
    rename_direct_loop bs f name is s
      = renameResult s name
        ((((is.map (fun i => s.inode.directPtr.getD i NIL)).filter is_not_null).flatMap
          (blockEntries bs)).find? (entryIs s.disk f)) := by
  induction is with
  | nil => simp [rename_direct_loop, renameResult]
  | cons i is ih =>
    simp only [rename_direct_loop, List.map_cons, List.filter_cons]
    by_cases hn : is_not_null (s.inode.directPtr.getD i NIL) = true
    · simp only [hn, if_true, List.flatMap_cons, List.find?_append]
      rw [rename_in_block_eq bs hbs]
      cases hfind : (blockEntries bs (s.inode.directPtr.getD i NIL)).find? (entryIs s.disk f) with
      | none => simpa [renameResult] using ih
      | some a => simp [renameResult]
    · simp only [hn]
      simpa using ih

theorem open_inode_disk (s : FsState) (d : Nat) : (open_inode s d).2.disk = s.disk := by
  simp only [open_inode, fs_open_file]
  split_ifs <;> rfl

/-- The part of fs_rename_file that follows the direct-pointer loop. -/
theorem rename_indirect_eq (bs : Nat) (hbs : bs % 16 = 0) (s1 : FsState) (f : Nat)
    (name : Nat × Nat) :
    (let r1 : Bool × FsState :=
        if is_not_null s1.inode.sIndirect then
          rename_file_in_single_indirect bs s1 f name s1.inode.sIndirect
        else (false, s1)
      if r1.1 then (true, r1.2)
      else
        let r2 : Bool × FsState :=
          if is_not_null r1.2.inode.dIndirect then
            rename_file_in_double_indirect bs r1.2 f name r1.2.inode.dIndirect
          else (false, r1.2)
        if r2.1 then (true, r2.2)
        else
          let r3 : Bool × FsState :=
            if is_not_null r2.2.inode.tIndirect then
              rename_file_in_triple_indirect bs r2.2 f name r2.2.inode.tIndirect
            else (false, r2.2)
          if r3.1 then (true, r3.2) else (false, r3.2))
      = renameResult s1 name
          (((if is_not_null s1.inode.sIndirect then singleEntries bs s1.disk s1.inode.sIndirect
              else [])
            ++ (if is_not_null s1.inode.dIndirect then doubleEntries bs s1.disk s1.inode.dIndirect
              else [])
            ++ (if is_not_null s1.inode.tIndirect then tripleEntries bs s1.disk s1.inode.tIndirect
              else [])).find? (entryIs s1.disk f)) := by
  simp only [List.find?_append]
  have e1 : (if is_not_null s1.inode.sIndirect then
          rename_file_in_single_indirect bs s1 f name s1.inode.sIndirect
        else (false, s1)) = renameResult s1 name
          ((if is_not_null s1.inode.sIndirect then singleEntries bs s1.disk s1.inode.sIndirect
              else []).find? (entryIs s1.disk f)) := by
    split_ifs
    · exact rename_single_eq bs hbs _ _ _ _
    · simp [renameResult]
  have e2 : (if is_not_null s1.inode.dIndirect then
          rename_file_in_double_indirect bs s1 f name s1.inode.dIndirect
        else (false, s1)) = renameResult s1 name
          ((if is_not_null s1.inode.dIndirect then doubleEntries bs s1.disk s1.inode.dIndirect
              else []).find? (entryIs s1.disk f)) := by
    split_ifs
    · exact rename_double_eq bs hbs _ _ _ _
    · simp [renameResult]
  have e3 : (if is_not_null s1.inode.tIndirect then
          rename_file_in_triple_indirect bs s1 f name s1.inode.tIndirect
        else (false, s1)) = renameResult s1 name
          ((if is_not_null s1.inode.tIndirect then tripleEntries bs s1.disk s1.inode.tIndirect
              else []).find? (entryIs s1.disk f)) := by
    split_ifs
    · exact rename_triple_eq bs hbs _ _ _ _
    · simp [renameResult]
  rw [e1]
  generalize ((if is_not_null s1.inode.sIndirect then singleEntries bs s1.disk s1.inode.sIndirect
              else []).find? (entryIs s1.disk f)) = o1 at *
  cases o1 with
  | some a => simp [renameResult]
  | none =>
    simp only [renameResult, Bool.false_eq_true, if_false, Option.none_or]
    rw [e2]
    generalize ((if is_not_null s1.inode.dIndirect then doubleEntries bs s1.disk s1.inode.dIndirect
              else []).find? (entryIs s1.disk f)) = o2 at *
    cases o2 with
    | some a => simp [renameResult]
    | none =>
      simp only [renameResult, Bool.false_eq_true, if_false, Option.none_or]
      rw [e3]
      generalize ((if is_not_null s1.inode.tIndirect then tripleEntries bs s1.disk s1.inode.tIndirect
              else []).find? (entryIs s1.disk f)) = o3 at *
      cases o3 <;> simp [renameResult]

/-- fs_rename_file as a search of the entries in scan order. -/
theorem fs_rename_file_eq (bs : Nat) (hbs : bs % 16 = 0) (s : FsState) (f : Nat)
    (name : Nat × Nat) (d : Nat) :
    fs_rename_file bs s f name d =
      if (open_inode s d).1 = true ∧ (open_inode s d).2.inode.fileType = 2 then
        renameResult (open_inode s d).2 name
          ((dirEntries bs s.disk ((open_inode s d).2.inode)).find? (entryIs s.disk f))
      else (false, (open_inode s d).2) := by
  have hdisk := open_inode_disk s d
  generalize hs1 : (open_inode s d).2 = s1 at hdisk
  unfold fs_rename_file
  simp only [hs1]
  by_cases ho : (open_inode s d).1 = true
  · by_cases ht : s1.inode.fileType = 2
    · simp only [ho, ht, and_self, if_true]
      rw [rename_direct_loop_eq bs hbs]
      have e10 : List.range 10 = List.range INODE_DIRECT_PTRS := rfl
      rw [e10, ← hdisk]
      simp only [dirEntries, List.append_assoc]
      rw [List.find?_append]
      change _ = renameResult s1 name ((List.find? (entryIs s1.disk f)
        ((((List.range INODE_DIRECT_PTRS).map (fun i => s1.inode.directPtr.getD i NIL)).filter
          is_not_null).flatMap (blockEntries bs))).or _)
      generalize (List.find? (entryIs s1.disk f)
        ((((List.range INODE_DIRECT_PTRS).map (fun i => s1.inode.directPtr.getD i NIL)).filter
          is_not_null).flatMap (blockEntries bs))) = o0
      cases o0 with
      | some a => simp [renameResult]
      | none =>
        simp only [renameResult, Bool.false_eq_true, if_false, Option.none_or]
        have := rename_indirect_eq bs hbs s1 f name
        simp only [List.append_assoc, renameResult] at this
        exact this
    · simp [ho, ht]
  · simp [ho]

theorem open_inode_ok (s : FsState) (d : Nat) (h : (open_inode s d).1 = true) :
    (open_inode s d).2 = { s with mapId := d, inode := s.itable d } := by
  simp only [open_inode, fs_open_file] at h ⊢
  split_ifs at h ⊢
  simp_all

theorem open_inode_frame (s : FsState) (d : Nat) :
    (open_inode s d).2.itable = s.itable ∧ (open_inode s d).2.ssmOut = s.ssmOut ∧
    (open_inode s d).2.ssmFreed = s.ssmFreed ∧ (open_inode s d).2.iMap = s.iMap ∧
    (open_inode s d).2.inodeFreed = s.inodeFreed := by
  simp only [open_inode, fs_open_file]
  split_ifs <;> simp

theorem renameResult_frame (s : FsState) (name : Nat × Nat) (o : Option Nat) :
    (renameResult s name o).2.itable = s.itable ∧ (renameResult s name o).2.ssmOut = s.ssmOut ∧
    (renameResult s name o).2.ssmFreed = s.ssmFreed ∧ (renameResult s name o).2.iMap = s.iMap ∧
    (renameResult s name o).2.inodeFreed = s.inodeFreed ∧
    (renameResult s name o).2.inode = s.inode ∧ (renameResult s name o).2.mapId = s.mapId := by
  cases o
  · simp [renameResult]
  · simp [renameResult]

/-- The result of fs_rename_file in the two cases of its search. -/
theorem fs_rename_file_cases (bs : Nat) (hbs : bs % 16 = 0) (s : FsState) (f : Nat)
    (name : Nat × Nat) (d : Nat) :
    ((fs_rename_file bs s f name d).1 = true ∧ (open_inode s d).1 = true ∧
      (s.itable d).fileType = 2 ∧
      ∃ a, (dirEntries bs s.disk (s.itable d)).find? (entryIs s.disk f) = some a ∧
        fs_rename_file bs s f name d =
          (true, { (open_inode s d).2 with disk := setName s.disk a name })) ∨
    ((fs_rename_file bs s f name d) = (false, (open_inode s d).2) ∧
      ¬ ((open_inode s d).1 = true ∧ (s.itable d).fileType = 2 ∧
        ∃ a, (dirEntries bs s.disk (s.itable d)).find? (entryIs s.disk f) = some a)) := by
  rw [fs_rename_file_eq bs hbs]
  by_cases ho : (open_inode s d).1 = true
  · have hs1 := open_inode_ok s d ho
    have hino : (open_inode s d).2.inode = s.itable d := by rw [hs1]
    have hdisk := open_inode_disk s d
    rw [hino]
    by_cases ht : (s.itable d).fileType = 2
    · simp only [ho, ht, and_self, if_true, true_and]
      cases hfind : (dirEntries bs s.disk (s.itable d)).find? (entryIs s.disk f) with
      | some a =>
        left
        simp [renameResult, hdisk]
      | none =>
        right
        simp [renameResult]
    · right
      simp [ho, ht]
  · right
    simp [ho]

/-- C8: when fs_rename_file returns True (BLOCK_SIZE a multiple of 16), the
first entry in scan order that is in use and carries inode_num f gets name[0]
and name[1] as its two name words; its inode_num and in_use_flag words and every
other word of the disk image are unchanged, and so are the inode table, the
answers and the log of the Sector Space Manager and the inode bitmap. -/
theorem fs_rename_file_frame (bs : Nat) (hbs : bs % 16 = 0) (s : FsState) (f : Nat)
    (name : Nat × Nat) (d : Nat) (h : (fs_rename_file bs s f name d).1 = true) :
    ∃ a, (dirEntries bs s.disk (s.itable d)).find? (entryIs s.disk f) = some a ∧
      (fs_rename_file bs s f name d).2.disk a = name.1 ∧
      (fs_rename_file bs s f name d).2.disk (a + 4) = name.2 ∧
      (fs_rename_file bs s f name d).2.disk (a + 8) = s.disk (a + 8) ∧
      (fs_rename_file bs s f name d).2.disk (a + 12) = s.disk (a + 12) ∧
      (∀ x, x ≠ a → x ≠ a + 4 → (fs_rename_file bs s f name d).2.disk x = s.disk x) ∧
      (fs_rename_file bs s f name d).2.itable = s.itable ∧
      (fs_rename_file bs s f name d).2.ssmOut = s.ssmOut ∧
      (fs_rename_file bs s f name d).2.ssmFreed = s.ssmFreed ∧
      (fs_rename_file bs s f name d).2.iMap = s.iMap := by
  rcases fs_rename_file_cases bs hbs s f name d with ⟨_, _, _, a, hfind, heq⟩ | ⟨heq, _⟩
  · refine ⟨a, hfind, ?_⟩
    have hfr := open_inode_frame s d
    rw [heq]
    simp only [setName]
    refine ⟨by simp, by simp, by simp, by simp, ?_, hfr.1, hfr.2.1, hfr.2.2.1, hfr.2.2.2.1⟩
    intro x h1 h2
    simp [h1, h2]
  · rw [heq] at h
    simp at h

/-- C9: fs_rename_file returns True exactly when the directory opens with
fileType 2 and an entry reachable from it (direct, single-, double- or
triple-indirect) is in use with inode_num f; when it returns False the disk
image and the inode table are unchanged. -/
theorem fs_rename_file_iff (bs : Nat) (hbs : bs % 16 = 0) (s : FsState) (f : Nat)
    (name : Nat × Nat) (d : Nat) :
    ((fs_rename_file bs s f name d).1 = true ↔
      ((fs_open_file s d s.inode).1 = true ∧ (fs_open_file s d s.inode).2.1.fileType = 2 ∧
        ∃ a ∈ dirEntries bs s.disk (s.itable d), s.disk (a + 12) = 1 ∧ s.disk (a + 8) = f)) ∧
    ((fs_rename_file bs s f name d).1 = false →
      (fs_rename_file bs s f name d).2.disk = s.disk ∧
      (fs_rename_file bs s f name d).2.itable = s.itable) := by
  have hex : (∃ a, (dirEntries bs s.disk (s.itable d)).find? (entryIs s.disk f) = some a) ↔
      ∃ a ∈ dirEntries bs s.disk (s.itable d), s.disk (a + 12) = 1 ∧ s.disk (a + 8) = f := by
    constructor
    · rintro ⟨a, ha⟩
      refine ⟨a, List.mem_of_find?_eq_some ha, ?_⟩
      have := List.find?_some ha
      simpa [entryIs] using this
    · rintro ⟨a, hmem, h1, h2⟩
      cases hfind : (dirEntries bs s.disk (s.itable d)).find? (entryIs s.disk f) with
      | some b => exact ⟨b, rfl⟩
      | none =>
        rw [List.find?_eq_none] at hfind
        exact absurd (by simp [entryIs, h1, h2]) (hfind a hmem)
  have hopen : (fs_open_file s d s.inode).1 = (open_inode s d).1 := rfl
  have hty : (fs_open_file s d s.inode).1 = true →
      (fs_open_file s d s.inode).2.1 = s.itable d := (fs_open_file_cases s d s.inode).2.1
  rcases fs_rename_file_cases bs hbs s f name d with ⟨h1, ho, ht, a, hfind, _⟩ | ⟨heq, hneg⟩
  · refine ⟨⟨fun _ => ⟨ho, ?_, hex.mp ⟨a, hfind⟩⟩, fun _ => h1⟩, ?_⟩
    · rw [hty ho]; exact ht
    · intro hf; rw [h1] at hf; exact absurd hf (by simp)
  · refine ⟨⟨fun h => ?_, fun h => ?_⟩, fun _ => ?_⟩
    · rw [heq] at h; simp at h
    · exfalso
      apply hneg
      refine ⟨h.1, ?_, hex.mpr h.2.2⟩
      rw [← hty h.1]; exact h.2.1
    · rw [heq]
      exact ⟨open_inode_disk s d, (open_inode_frame s d).1⟩

theorem dirEntries_eq_flatMap (bs : Nat) (d : Nat → Nat) (ino : Inode) :
    dirEntries bs d ino = (dataBlocksOf bs d ino).flatMap (blockEntries bs) := by
  simp only [dirEntries, dataBlocksOf, directEntries, List.flatMap_append]
  congr 1
  · congr 1
    · congr 1
      split_ifs <;> simp [singleEntries, singleData]
    · split_ifs
      · simp only [doubleEntries, doubleData, List.flatMap_assoc]
        rfl
      · simp
  · split_ifs
    · simp only [tripleEntries, tripleData, doubleEntries, doubleData, List.flatMap_assoc]
      rfl
    · simp

theorem liveSlots_congr (bs : Nat) (d d' : Nat → Nat) (x : Nat)
    (h : ∀ i, i < bs / 4 → d' (x + 4 * i) = d (x + 4 * i)) :
    liveSlots bs d' x = liveSlots bs d x := by
  unfold liveSlots
  congr 1
  apply List.map_congr_left
  intro i hi
  exact h i (List.mem_range.mp hi)

theorem flatMap_congr_mem {α β : Type} (l : List α) (f g : α → List β)
    (h : ∀ x ∈ l, f x = g x) : l.flatMap f = l.flatMap g := by
  induction l with
  | nil => rfl
  | cons a l ih =>
    simp only [List.flatMap_cons]
    rw [h a (List.mem_cons_self _ _), ih (fun x hx => h x (List.mem_cons_of_mem _ hx))]

theorem find?_congr_mem {α : Type} (l : List α) (p q : α → Bool)
    (h : ∀ x ∈ l, p x = q x) : l.find? p = l.find? q := by
  induction l with
  | nil => rfl
  | cons a l ih =>
    simp only [List.find?_cons]
    rw [h a (List.mem_cons_self _ _), ih (fun x hx => h x (List.mem_cons_of_mem _ hx))]

theorem singleEntries_congr (bs : Nat) (d d' : Nat → Nat) (x : Nat)
    (h : AgreeOn bs d d' [x]) : singleEntries bs d' x = singleEntries bs d x := by
  unfold singleEntries
  rw [liveSlots_congr bs d d' x (h x (List.mem_singleton.mpr rfl))]

theorem doubleEntries_congr (bs : Nat) (d d' : Nat → Nat) (x : Nat)
    (h : AgreeOn bs d d' (doubleIndex bs d x)) : doubleEntries bs d' x = doubleEntries bs d x := by
  unfold doubleEntries
  rw [liveSlots_congr bs d d' x (h x (List.mem_cons_self _ _))]
  apply flatMap_congr_mem
  intro y hy
  apply singleEntries_congr
  intro z hz
  rw [List.mem_singleton] at hz
  subst hz
  exact h z (List.mem_cons_of_mem _ hy)

theorem doubleIndex_congr (bs : Nat) (d d' : Nat → Nat) (x : Nat)
    (h : AgreeOn bs d d' [x]) : doubleIndex bs d' x = doubleIndex bs d x := by
  unfold doubleIndex
  rw [liveSlots_congr bs d d' x (h x (List.mem_singleton.mpr rfl))]

theorem tripleEntries_congr (bs : Nat) (d d' : Nat → Nat) (x : Nat)
    (h : AgreeOn bs d d' (tripleIndex bs d x)) : tripleEntries bs d' x = tripleEntries bs d x := by
  unfold tripleEntries
  rw [liveSlots_congr bs d d' x (h x (List.mem_cons_self _ _))]
  apply flatMap_congr_mem
  intro y hy
  apply doubleEntries_congr
  intro z hz
  apply h z
  unfold tripleIndex
  apply List.mem_cons_of_mem
  rw [List.mem_flatMap]
  exact ⟨y, hy, hz⟩

theorem dirEntries_congr (bs : Nat) (d d' : Nat → Nat) (ino : Inode)
    (h : AgreeOn bs d d' (indexBlocksOf bs d ino)) : dirEntries bs d' ino = dirEntries bs d ino := by
  unfold dirEntries
  have h1 : (if is_not_null ino.sIndirect then singleEntries bs d' ino.sIndirect else [])
      = (if is_not_null ino.sIndirect then singleEntries bs d ino.sIndirect else []) := by
    split_ifs with hS
    · apply singleEntries_congr
      intro z hz
      apply h z
      simp only [indexBlocksOf, hS, if_true, List.mem_append]
      exact Or.inl (Or.inl hz)
    · rfl
  have h2 : (if is_not_null ino.dIndirect then doubleEntries bs d' ino.dIndirect else [])
      = (if is_not_null ino.dIndirect then doubleEntries bs d ino.dIndirect else []) := by
    split_ifs with hD
    · apply doubleEntries_congr
      intro z hz
      apply h z
      simp only [indexBlocksOf, hD, if_true, List.mem_append]
      exact Or.inl (Or.inr hz)
    · rfl
  have h3 : (if is_not_null ino.tIndirect then tripleEntries bs d' ino.tIndirect else [])
      = (if is_not_null ino.tIndirect then tripleEntries bs d ino.tIndirect else []) := by
    split_ifs with hT
    · apply tripleEntries_congr
      intro z hz
      apply h z
      simp only [indexBlocksOf, hT, if_true, List.mem_append]
      exact Or.inr hz
    · rfl
  rw [h1, h2, h3]

theorem aligned_disjoint (bs x b : Nat) (hx : x % bs = 0) (hb : b % bs = 0) (hne : x ≠ b) :
    x + bs ≤ b ∨ b + bs ≤ x := by
  obtain ⟨k1, rfl⟩ := Nat.dvd_of_mod_eq_zero hx
  obtain ⟨k2, rfl⟩ := Nat.dvd_of_mod_eq_zero hb
  rcases Nat.lt_trichotomy k1 k2 with h | h | h
  · left
    calc bs * k1 + bs = bs * (k1 + 1) := by ring
      _ ≤ bs * k2 := Nat.mul_le_mul_left _ h
  · exact absurd (by rw [h]) hne
  · right
    calc bs * k2 + bs = bs * (k2 + 1) := by ring
      _ ≤ bs * k1 := Nat.mul_le_mul_left _ h

theorem mem_dirEntries (bs : Nat) (d : Nat → Nat) (ino : Inode) (e : Nat)
    (h : e ∈ dirEntries bs d ino) :
    ∃ b ∈ dataBlocksOf bs d ino, ∃ j ∈ slotIdx bs 0, e = b + 4 * j := by
  rw [dirEntries_eq_flatMap, List.mem_flatMap] at h
  obtain ⟨b, hb, he⟩ := h
  simp only [blockEntries, List.mem_map] at he
  obtain ⟨j, hj, rfl⟩ := he
  exact ⟨b, hb, j, hj, rfl⟩

theorem setName_idem (d : Nat → Nat) (e : Nat) (name : Nat × Nat) :
    setName (setName d e name) e name = setName d e name := by
  funext x
  simp only [setName]
  split_ifs <;> rfl

theorem setName_same (d : Nat → Nat) (e : Nat) (name : Nat × Nat)
    (h1 : d e = name.1) (h2 : d (e + 4) = name.2) : setName d e name = d := by
  funext x
  simp only [setName]
  split_ifs with h h'
  · rw [h, h1]
  · rw [h', h2]
  · rfl

/-- In a well-formed tree a rename of the entry e reads back the same entries. -/
theorem scan_after_setName (bs : Nat) (hbs : bs % 16 = 0) (d : Nat → Nat) (ino : Inode)
    (f e : Nat) (name : Nat × Nat) (hwf : TreeWellFormed bs d ino)
    (he : e ∈ dirEntries bs d ino) :
    (dirEntries bs (setName d e name) ino).find? (entryIs (setName d e name) f)
      = (dirEntries bs d ino).find? (entryIs d f) := by
  obtain ⟨b, hb, j, hj, rfl⟩ := mem_dirEntries bs d ino e he
  have hjs := mem_slotIdx bs j hbs hj
  have hb16 : b % 16 = 0 := by
    have := hwf.1 b hb
    obtain ⟨k, rfl⟩ := Nat.dvd_of_mod_eq_zero this
    obtain ⟨m, hm⟩ := Nat.dvd_of_mod_eq_zero hbs
    rw [hm, Nat.mul_assoc]
    exact Nat.mul_mod_right _ _
  have hagree : AgreeOn bs d (setName d (b + 4 * j) name) (indexBlocksOf bs d ino) := by
    intro x hx i hi
    have hxa := hwf.2 x hx
    have hne : x ≠ b := fun hh => hxa.2 (hh ▸ hb)
    have hdj := aligned_disjoint bs x b hxa.1 (hwf.1 b hb) hne
    simp only [setName]
    rw [if_neg (by omega), if_neg (by omega)]
  rw [dirEntries_congr bs d _ ino hagree]
  apply find?_congr_mem
  intro y hy
  obtain ⟨b', hb', j', hj', rfl⟩ := mem_dirEntries bs d ino y hy
  have hjs' := mem_slotIdx bs j' hbs hj'
  have hb16' : b' % 16 = 0 := by
    have := hwf.1 b' hb'
    obtain ⟨k, rfl⟩ := Nat.dvd_of_mod_eq_zero this
    obtain ⟨m, hm⟩ := Nat.dvd_of_mod_eq_zero hbs
    rw [hm, Nat.mul_assoc]
    exact Nat.mul_mod_right _ _
  simp only [entryIs, setName]
  rw [if_neg (by omega), if_neg (by omega), if_neg (by omega), if_neg (by omega)]

theorem open_inode_fst (s s' : FsState) (d : Nat) (h : s.itable = s'.itable) :
    (open_inode s d).1 = (open_inode s' d).1 := by
  simp only [open_inode, fs_open_file, h]
  split_ifs <;> rfl

/-- The disk and the inode table after fs_rename_file, in its two cases. -/
theorem fs_rename_file_proj (bs : Nat) (hbs : bs % 16 = 0) (s : FsState) (f : Nat)
    (name : Nat × Nat) (d : Nat) :
    ((open_inode s d).1 = true ∧ (s.itable d).fileType = 2 ∧
      ∃ a, (dirEntries bs s.disk (s.itable d)).find? (entryIs s.disk f) = some a ∧
        (fs_rename_file bs s f name d).2.disk = setName s.disk a name ∧
        (fs_rename_file bs s f name d).2.itable = s.itable) ∨
    (¬ ((open_inode s d).1 = true ∧ (s.itable d).fileType = 2 ∧
        ∃ a, (dirEntries bs s.disk (s.itable d)).find? (entryIs s.disk f) = some a) ∧
      (fs_rename_file bs s f name d).2.disk = s.disk ∧
      (fs_rename_file bs s f name d).2.itable = s.itable) := by
  rcases fs_rename_file_cases bs hbs s f name d with ⟨_, ho, ht, a, hfind, heq⟩ | ⟨heq, hneg⟩
  · left
    refine ⟨ho, ht, a, hfind, ?_, ?_⟩
    · rw [heq]
    · rw [heq]; exact (open_inode_frame s d).1
  · right
    refine ⟨hneg, ?_, ?_⟩
    · rw [heq]; exact open_inode_disk s d
    · rw [heq]; exact (open_inode_frame s d).1

/-- C10: renaming the entry of f to the name words it already carries leaves
the disk image and the inode table unchanged; and on a directory whose block
tree is well formed, renaming twice to the same name leaves the same disk
image and inode table as renaming once (BLOCK_SIZE a multiple of 16). -/
theorem fs_rename_file_idempotent (bs : Nat) (hbs : bs % 16 = 0) (s : FsState) (f : Nat)
    (name : Nat × Nat) (d : Nat) :
    (∀ e, (dirEntries bs s.disk (s.itable d)).find? (entryIs s.disk f) = some e →
      s.disk e = name.1 → s.disk (e + 4) = name.2 →
      (fs_rename_file bs s f name d).2.disk = s.disk ∧
      (fs_rename_file bs s f name d).2.itable = s.itable) ∧
    (TreeWellFormed bs s.disk (s.itable d) →
      (fs_rename_file bs (fs_rename_file bs s f name d).2 f name d).2.disk
        = (fs_rename_file bs s f name d).2.disk ∧
      (fs_rename_file bs (fs_rename_file bs s f name d).2 f name d).2.itable
        = (fs_rename_file bs s f name d).2.itable) := by
  constructor
  · intro e hfind h1 h2
    rcases fs_rename_file_proj bs hbs s f name d with ⟨_, _, a, hfind', hd, hi⟩ | ⟨_, hd, hi⟩
    · rw [hfind] at hfind'
      cases hfind'
      rw [hd]
      exact ⟨setName_same s.disk e name h1 h2, hi⟩
    · exact ⟨hd, hi⟩
  · intro hwf
    rcases fs_rename_file_proj bs hbs s f name d with ⟨ho, ht, a, hfind, hd, hi⟩ | ⟨hneg, hd, hi⟩
    · rcases fs_rename_file_proj bs hbs (fs_rename_file bs s f name d).2 f name d with
        ⟨_, _, a', hfind', hd', hi'⟩ | ⟨_, hd', hi'⟩
      · rw [hi, hd, scan_after_setName bs hbs s.disk (s.itable d) f a name hwf
          (List.mem_of_find?_eq_some hfind), hfind] at hfind'
        cases hfind'
        refine ⟨?_, hi'⟩
        rw [hd', hd, setName_idem]
      · exact ⟨hd', hi'⟩
    · rcases fs_rename_file_proj bs hbs (fs_rename_file bs s f name d).2 f name d with
        ⟨ho', ht', a', hfind', _, _⟩ | ⟨_, hd', hi'⟩
      · exfalso
        apply hneg
        rw [hi] at ht'
        rw [hd, hi] at hfind'
        rw [open_inode_fst _ s d hi] at ho'
        exact ⟨ho', ht', a', hfind'⟩
      · exact ⟨hd', hi'⟩

set_option maxRecDepth 100000 in
/-- Instance of fs_rename_file_idempotent on the directory 3 of treeState. -/
theorem fs_rename_file_idempotent_witness :
    64 % 16 = 0 ∧
    ((fs_rename_file 64 treeState 4 (97, 0) 3).2.disk = treeState.disk ∧
      (fs_rename_file 64 treeState 4 (97, 0) 3).2.itable = treeState.itable) ∧
    ((fs_rename_file 64 (fs_rename_file 64 treeState 4 (120, 121) 3).2 4 (120, 121) 3).2.disk
        = (fs_rename_file 64 treeState 4 (120, 121) 3).2.disk ∧
      (fs_rename_file 64 (fs_rename_file 64 treeState 4 (120, 121) 3).2 4 (120, 121) 3).2.itable
        = (fs_rename_file 64 treeState 4 (120, 121) 3).2.itable) :=
  ⟨by decide,
   (fs_rename_file_idempotent 64 (by decide) treeState 4 (97, 0) 3).1 2272 (by decide)
     (by decide) (by decide),
   (fs_rename_file_idempotent 64 (by decide) treeState 4 (120, 121) 3).2 (by decide)⟩

set_option maxRecDepth 100000 in
/-- Instance of fs_rename_file_frame: renaming file 5 in directory 3. -/
theorem fs_rename_file_frame_witness :
    64 % 16 = 0 ∧ (fs_rename_file 64 treeState 5 (120, 121) 3).1 = true ∧
    ∃ a, (dirEntries 64 treeState.disk (treeState.itable 3)).find? (entryIs treeState.disk 5) = some a ∧
      (fs_rename_file 64 treeState 5 (120, 121) 3).2.disk a = 120 ∧
      (fs_rename_file 64 treeState 5 (120, 121) 3).2.disk (a + 4) = 121 ∧
      (fs_rename_file 64 treeState 5 (120, 121) 3).2.disk (a + 8) = treeState.disk (a + 8) ∧
      (fs_rename_file 64 treeState 5 (120, 121) 3).2.disk (a + 12) = treeState.disk (a + 12) ∧
      (∀ x, x ≠ a → x ≠ a + 4 →
        (fs_rename_file 64 treeState 5 (120, 121) 3).2.disk x = treeState.disk x) ∧
      (fs_rename_file 64 treeState 5 (120, 121) 3).2.itable = treeState.itable ∧
      (fs_rename_file 64 treeState 5 (120, 121) 3).2.ssmOut = treeState.ssmOut ∧
      (fs_rename_file 64 treeState 5 (120, 121) 3).2.ssmFreed = treeState.ssmFreed ∧
      (fs_rename_file 64 treeState 5 (120, 121) 3).2.iMap = treeState.iMap :=
  ⟨by decide, by decide, fs_rename_file_frame 64 (by decide) treeState 5 (120, 121) 3 (by decide)⟩

set_option maxRecDepth 100000 in
/-- Instance of fs_rename_file_iff: file 6 is found in directory 3, inode 7 is
not. -/
theorem fs_rename_file_iff_witness :
    64 % 16 = 0 ∧ (fs_rename_file 64 treeState 6 (120, 121) 3).1 = true ∧
    (fs_rename_file 64 treeState 7 (120, 121) 3).1 = false ∧
    (fs_rename_file 64 treeState 7 (120, 121) 3).2.disk = treeState.disk :=
  ⟨by decide,
   (fs_rename_file_iff 64 (by decide) treeState 6 (120, 121) 3).1.mpr
     ⟨by decide, by decide, 2304, by decide, by decide, by decide⟩,
   by decide,
   ((fs_rename_file_iff 64 (by decide) treeState 7 (120, 121) 3).2 (by decide)).1⟩

/-! ### Removal of a regular file: the traversal -/

theorem freeAll_nil (s : FsState) : freeAll s [] = s := by
  simp [freeAll]

theorem freeAll_freeAll (s : FsState) (L1 L2 : List Nat) :
    freeAll (freeAll s L1) L2 = freeAll s (L1 ++ L2) := by
  simp [freeAll, List.append_assoc]

theorem ssm_deallocate_eq (s : FsState) (x : Nat) : ssm_deallocate_sectors s x = freeAll s [x] :=
  rfl

theorem remove_data_block_file (bs : Nat) (rm : FsState → Nat → Nat → Option (Bool × FsState))
    (dirNum off : Nat) (s : FsState) :
    remove_data_block bs rm 1 dirNum off s = some (freeAll s [off / bs]) := by
  simp [remove_data_block, ssm_deallocate_eq]

theorem remove_single_loop_file (bs : Nat) (rm : FsState → Nat → Nat → Option (Bool × FsState))
    (dirNum : Nat) (ib : Nat → Nat) (is : List Nat) (s : FsState) :
    remove_file_single_indirect_loop bs rm 1 dirNum ib is s
      = some (freeAll s (((is.map ib).filter is_not_null).map (fun b => b / bs))) := by
  induction is generalizing s with
  | nil => simp [remove_file_single_indirect_loop, freeAll_nil]
  | cons i is ih =>
    simp only [remove_file_single_indirect_loop, List.map_cons, List.filter_cons]
    by_cases hn : is_not_null (ib i) = true
    · simp only [hn, if_true, remove_data_block_file, ih, freeAll_freeAll, List.map_cons,
        List.singleton_append]
    · simp only [hn, ih]
      rfl

theorem remove_single_blocks_file (bs : Nat) (rm : FsState → Nat → Nat → Option (Bool × FsState))
    (dirNum off : Nat) (s : FsState) :
    remove_file_single_indirect_blocks bs rm s 1 dirNum off
      = some (freeAll s ((singleFree bs s.disk off).map (fun b => b / bs))) := by
  simp only [remove_file_single_indirect_blocks, remove_single_loop_file, ssm_deallocate_eq,
    freeAll_freeAll, singleFree, List.map_append, List.map_cons, List.map_nil]
  rfl

theorem freeAll_disk (s : FsState) (L : List Nat) : (freeAll s L).disk = s.disk := rfl

theorem remove_double_loop_file (bs : Nat) (rm : FsState → Nat → Nat → Option (Bool × FsState))
    (dirNum : Nat) (ib : Nat → Nat) (is : List Nat) (s : FsState) :
    remove_file_double_indirect_loop bs rm 1 dirNum ib is s
      = some (freeAll s ((((is.map ib).filter is_not_null).flatMap (singleFree bs s.disk)).map
          (fun b => b / bs))) := by
  induction is generalizing s with
  | nil => simp [remove_file_double_indirect_loop, freeAll_nil]
  | cons i is ih =>
    simp only [remove_file_double_indirect_loop, List.map_cons, List.filter_cons]
    by_cases hn : is_not_null (ib i) = true
    · simp only [hn, if_true, remove_single_blocks_file, ih, freeAll_freeAll, freeAll_disk,
        List.flatMap_cons, List.map_append]
    · simp only [hn, ih]
      rfl

theorem remove_double_blocks_file (bs : Nat) (rm : FsState → Nat → Nat → Option (Bool × FsState))
    (dirNum off : Nat) (s : FsState) :
    remove_file_double_indirect_blocks bs rm s 1 dirNum off
      = some (freeAll s ((doubleFree bs s.disk off).map (fun b => b / bs))) := by
  simp only [remove_file_double_indirect_blocks, remove_double_loop_file, ssm_deallocate_eq,
    freeAll_freeAll, doubleFree, List.map_append, List.map_cons, List.map_nil]
  rfl

theorem remove_triple_loop_file (bs : Nat) (rm : FsState → Nat → Nat → Option (Bool × FsState))
    (dirNum : Nat) (ib : Nat → Nat) (is : List Nat) (s : FsState) :
    remove_file_triple_indirect_loop bs rm 1 dirNum ib is s
      = some (freeAll s ((((is.map ib).filter is_not_null).flatMap (doubleFree bs s.disk)).map
          (fun b => b / bs))) := by
  induction is generalizing s with
  | nil => simp [remove_file_triple_indirect_loop, freeAll_nil]
  | cons i is ih =>
    simp only [remove_file_triple_indirect_loop, List.map_cons, List.filter_cons]
    by_cases hn : is_not_null (ib i) = true
    · simp only [hn, if_true, remove_double_blocks_file, ih, freeAll_freeAll, freeAll_disk,
        List.flatMap_cons, List.map_append]
    · simp only [hn, ih]
      rfl

theorem remove_triple_blocks_file (bs : Nat) (rm : FsState → Nat → Nat → Option (Bool × FsState))
    (dirNum off : Nat) (s : FsState) :
    remove_file_triple_indirect_blocks bs rm s 1 dirNum off
      = some (freeAll s ((tripleFree bs s.disk off).map (fun b => b / bs))) := by
  simp only [remove_file_triple_indirect_blocks, remove_triple_loop_file, ssm_deallocate_eq,
    freeAll_freeAll, tripleFree, List.map_append, List.map_cons, List.map_nil]
  rfl

theorem remove_direct_loop_file (bs : Nat) (rm : FsState → Nat → Nat → Option (Bool × FsState))
    (n : Nat) (ptrs : List Nat) (is : List Nat) (s : FsState) :
    remove_file_direct_loop bs rm 1 n ptrs is s
      = some (freeAll s (((is.map (fun i => ptrs.getD i NIL)).filter is_not_null).map
          (fun b => b / bs))) := by
  induction is generalizing s with
  | nil => simp [remove_file_direct_loop, freeAll_nil]
  | cons i is ih =>
    simp only [remove_file_direct_loop, List.map_cons, List.filter_cons]
    by_cases hn : is_not_null (ptrs.getD i NIL) = true
    · simp only [hn, if_true, remove_data_block_file, ih, freeAll_freeAll, List.map_cons,
        List.singleton_append]
    · simp only [hn, ih]
      rfl

/-- The traversal of fs_remove_file on a regular file: every block in release
order goes to ssm_deallocate_sectors, nothing else changes, and the rest of
fs_remove_file (here K) runs on that state. -/
theorem remove_file_traversal {α : Type} (bs : Nat)
    (rm : FsState → Nat → Nat → Option (Bool × FsState))
    (s : FsState) (f p : Nat) (ino : Inode) (K : FsState → Option α) :
    ((remove_file_direct_loop bs rm 1 f ino.directPtr (List.range INODE_DIRECT_PTRS) s).bind
      fun s1 =>
      (remove_file_indirect_blocks bs rm s1 .SINGLE ino.sIndirect 1 f p).bind fun s2 =>
      (remove_file_indirect_blocks bs rm s2 .DOUBLE ino.dIndirect 1 f p).bind fun s3 =>
      (remove_file_indirect_blocks bs rm s3 .TRIPLE ino.tIndirect 1 f p).bind K)
      = K (freeAll s ((freeOrder bs s.disk ino).map (fun b => b / bs))) := by
  simp only [remove_direct_loop_file, Option.some_bind, remove_file_indirect_blocks, if_true]
  simp only [freeOrder, List.map_append, liveDirect]
  by_cases hS : is_not_null ino.sIndirect = true <;>
  by_cases hD : is_not_null ino.dIndirect = true <;>
  by_cases hT : is_not_null ino.tIndirect = true <;>
  simp [hS, hD, hT, remove_single_blocks_file, remove_double_blocks_file,
    remove_triple_blocks_file, freeAll_freeAll, freeAll_disk, freeAll_nil]

theorem writeBlock_outside (bs : Nat) (d : Nat → Nat) (off : Nat) (buf : Nat → Nat) (a : Nat)
    (h : a < off ∨ off + bs ≤ a) : writeBlock bs d off buf a = d a := by
  simp only [writeBlock, writeWords]
  rw [if_neg]
  omega

theorem writeBlock_clearEntry (bs : Nat) (d : Nat → Nat) (off j : Nat)
    (hj : j + 4 ≤ bs / 4) :
    writeBlock bs d off (clearEntry (readBlock d off) j) = clearAt d (off + 4 * j) := by
  funext a
  simp only [writeBlock, writeWords, clearEntry, readBlock, clearAt]
  by_cases h1 : off ≤ a ∧ (a - off) % 4 = 0 ∧ (a - off) / 4 < bs / 4
  · rw [if_pos h1]
    by_cases h2 : j ≤ (a - off) / 4 ∧ (a - off) / 4 < j + 4
    · rw [if_pos h2, if_pos (by omega)]
    · rw [if_neg h2, if_neg (by omega)]
      congr 1; omega
  · rw [if_neg h1, if_neg (by omega)]

theorem EntryRemoved.dealloc {bs : Nat} {X A : List Nat} {p e : Nat} {s r : FsState}
    (h : EntryRemoved bs X A p e s r) (y : Nat) (hy : y ∈ A) :
    EntryRemoved bs X A p e s (ssm_deallocate_sectors r y) := by
  obtain ⟨h1, ⟨seg, h2, h2'⟩, h3, h4, h5, h6⟩ := h
  refine ⟨h1, ⟨seg ++ [y], ?_, ?_⟩, h3, h4, h5, h6⟩
  · simp [ssm_deallocate_sectors, h2]
  · intro z hz
    rcases List.mem_append.mp hz with hz | hz
    · exact h2' z hz
    · rw [List.mem_singleton.mp hz]; exact hy

theorem EntryRemoved.write {bs : Nat} {X A : List Nat} {p e : Nat} {s r : FsState}
    (h : EntryRemoved bs X A p e s r) (x : Nat) (hx : x ∈ X) (buf : Nat → Nat) :
    EntryRemoved bs X A p e s { r with disk := writeBlock bs r.disk x buf } := by
  obtain ⟨h1, h2, h3, h4, h5, h6⟩ := h
  refine ⟨?_, h2, h3, h4, h5, h6⟩
  intro a ha
  show writeBlock bs r.disk x buf a = _
  rw [writeBlock_outside bs r.disk x buf a (ha x hx)]
  exact h1 a ha

theorem EntryRemoved.inode_write {bs : Nat} {X A : List Nat} {p e : Nat} {s r : FsState}
    (h : EntryRemoved bs X A p e s r) (ino : Inode) :
    EntryRemoved bs X A p e s (inode_write { r with inode := ino } p) := by
  obtain ⟨h1, h2, h3, h4, h5, h6⟩ := h
  refine ⟨h1, h2, ?_, h4, h5, h6⟩
  intro k hk
  show (if k = p then _ else r.itable k) = _
  rw [if_neg hk]
  exact h3 k hk

theorem EntryRemoved.set_inode {bs : Nat} {X A : List Nat} {p e : Nat} {s r : FsState}
    (h : EntryRemoved bs X A p e s r) (ino : Inode) :
    EntryRemoved bs X A p e s { r with inode := ino } := h

theorem EntryRemoved.start (bs : Nat) (X A : List Nat) (p e : Nat) (s : FsState) (ino : Inode) :
    EntryRemoved bs X A p e s { s with inode := ino, disk := clearAt s.disk e } :=
  ⟨fun _ _ => rfl, ⟨[], by simp, by simp⟩, fun _ _ => rfl, rfl, rfl, rfl⟩

theorem remove_single_loop_post (bs : Nat) (hbs : bs % 16 = 0) (f p dOff sOff : Nat)
    (X A : List Nat) (hX1 : sOff ∈ X) (hX2 : dOff ≠ NIL → dOff ∈ X) (hA1 : sOff / bs ∈ A)
    (ib : Nat → Nat) (is : List Nat) (s : FsState)
    (hA2 : ∀ i ∈ is, ib i ≠ NIL → ib i / bs ∈ A) :
    match (((is.map ib).filter is_not_null).flatMap (blockEntries bs)).find? (entryIs s.disk f) with
    | none => remove_file_from_single_indirect_loop bs f p dOff sOff ib is s = (false, s)
    | some e => (remove_file_from_single_indirect_loop bs f p dOff sOff ib is s).1 = true ∧
        EntryRemoved bs X A p e s (remove_file_from_single_indirect_loop bs f p dOff sOff ib is s).2 := by
  induction is with
  | nil => simp [remove_file_from_single_indirect_loop]
  | cons i is ih =>
    have ih' := ih (fun k hk => hA2 k (List.mem_cons_of_mem _ hk))
    simp only [remove_file_from_single_indirect_loop, List.map_cons, List.filter_cons]
    by_cases hn : is_not_null (ib i) = true
    · simp only [hn, if_true, List.flatMap_cons, List.find?_append]
      have hne : ib i ≠ NIL := by simpa [is_not_null] using hn
      rw [matchSlot_eq]
      cases hm : matchSlot bs (readBlock s.disk (ib i)) f with
      | none => simpa using ih'
      | some j =>
        have hj := mem_slotIdx bs j hbs (List.mem_of_find?_eq_some hm)
        simp only [Option.map, Option.or]
        rw [writeBlock_clearEntry bs s.disk (ib i) j hj.2]
        have h0 := EntryRemoved.start bs X A p (ib i + 4 * j) s
          { s.inode with linkCount := decU32 s.inode.linkCount }
        have hAi := hA2 i (List.mem_cons_self _ _) hne
        split_ifs
        · exact ⟨rfl, ((((h0.dealloc _ hAi).inode_write _).write sOff hX1 _).dealloc _ hA1).write
            dOff (hX2 (by simpa [is_not_null] using ‹is_not_null dOff = true›)) _⟩
        · exact ⟨rfl, ((((h0.dealloc _ hAi).inode_write _).write sOff hX1 _).dealloc _
            hA1).inode_write _⟩
        · exact ⟨rfl, ((h0.dealloc _ hAi).inode_write _).write sOff hX1 _⟩
        · exact ⟨rfl, h0⟩
    · simp only [hn]
      simpa using ih'

theorem mem_liveSlots (bs : Nat) (d : Nat → Nat) (off i : Nat) (hi : i ∈ List.range (bs / 4))
    (hne : d (off + 4 * i) ≠ NIL) : d (off + 4 * i) ∈ liveSlots bs d off := by
  simp only [liveSlots, List.mem_filter, List.mem_map]
  exact ⟨⟨i, hi, rfl⟩, by simpa [is_not_null] using hne⟩

theorem remove_single_post (bs : Nat) (hbs : bs % 16 = 0) (f p dOff sOff : Nat)
    (X A : List Nat) (s : FsState) (hX1 : sOff ∈ X) (hX2 : dOff ≠ NIL → dOff ∈ X)
    (hA1 : sOff / bs ∈ A) (hA2 : ∀ b ∈ liveSlots bs s.disk sOff, b / bs ∈ A) :
    match (singleEntries bs s.disk sOff).find? (entryIs s.disk f) with
    | none => remove_file_from_single_indirect bs s f p dOff sOff = (false, s)
    | some e => (remove_file_from_single_indirect bs s f p dOff sOff).1 = true ∧
        EntryRemoved bs X A p e s (remove_file_from_single_indirect bs s f p dOff sOff).2 :=
  remove_single_loop_post bs hbs f p dOff sOff X A hX1 hX2 hA1 (readBlock s.disk sOff)
    (List.range (bs / 4)) s (fun i hi hne => hA2 _ (mem_liveSlots bs s.disk sOff i hi hne))

theorem remove_double_loop_post (bs : Nat) (hbs : bs % 16 = 0) (f p tOff dOff : Nat)
    (X A : List Nat) (hX1 : dOff ∈ X) (hX2 : tOff ≠ NIL → tOff ∈ X) (hA1 : dOff / bs ∈ A)
    (ib : Nat → Nat) (is : List Nat) (s : FsState)
    (hXs : ∀ i ∈ is, ib i ≠ NIL → ib i ∈ X)
    (hA2 : ∀ i ∈ is, ib i ≠ NIL →
      ib i / bs ∈ A ∧ ∀ b ∈ liveSlots bs s.disk (ib i), b / bs ∈ A) :
    match (((is.map ib).filter is_not_null).flatMap (singleEntries bs s.disk)).find?
        (entryIs s.disk f) with
    | none => remove_file_from_double_indirect_loop bs f p tOff dOff ib is s = (false, s)
    | some e => (remove_file_from_double_indirect_loop bs f p tOff dOff ib is s).1 = true ∧
        EntryRemoved bs X A p e s (remove_file_from_double_indirect_loop bs f p tOff dOff ib is s).2 := by
  induction is with
  | nil => simp [remove_file_from_double_indirect_loop]
  | cons i is ih =>
    have ih' := ih (fun k hk => hXs k (List.mem_cons_of_mem _ hk))
      (fun k hk => hA2 k (List.mem_cons_of_mem _ hk))
    simp only [remove_file_from_double_indirect_loop, List.map_cons, List.filter_cons]
    by_cases hn : is_not_null (ib i) = true
    · simp only [hn, if_true, List.flatMap_cons, List.find?_append]
      have hne : ib i ≠ NIL := by simpa [is_not_null] using hn
      have hsub := remove_single_post bs hbs f p dOff (ib i) X A s
        (hXs i (List.mem_cons_self _ _) hne) (fun _ => hX1)
        (hA2 i (List.mem_cons_self _ _) hne).1 (hA2 i (List.mem_cons_self _ _) hne).2
      cases hm : (singleEntries bs s.disk (ib i)).find? (entryIs s.disk f) with
      | none =>
        rw [hm] at hsub
        simp only [hsub, Bool.false_eq_true, if_false, Option.none_or]
        exact ih'
      | some e =>
        rw [hm] at hsub
        simp only [Option.or]
        simp only [hsub.1, if_true]
        have h0 := hsub.2
        split_ifs
        · exact ⟨rfl, (h0.dealloc _ hA1).write tOff
            (hX2 (by simpa [is_not_null] using ‹is_not_null tOff = true›)) _⟩
        · exact ⟨rfl, (h0.dealloc _ hA1).inode_write _⟩
        · exact ⟨rfl, h0⟩
    · simp only [hn]
      simpa using ih'

theorem remove_double_post (bs : Nat) (hbs : bs % 16 = 0) (f p tOff dOff : Nat)
    (X A : List Nat) (s : FsState) (hX1 : dOff ∈ X) (hX2 : tOff ≠ NIL → tOff ∈ X)
    (hXs : ∀ x ∈ liveSlots bs s.disk dOff, x ∈ X)
    (hA1 : dOff / bs ∈ A)
    (hA2 : ∀ x ∈ liveSlots bs s.disk dOff,
      x / bs ∈ A ∧ ∀ b ∈ liveSlots bs s.disk x, b / bs ∈ A) :
    match (doubleEntries bs s.disk dOff).find? (entryIs s.disk f) with
    | none => remove_file_from_double_indirect bs s f p tOff dOff = (false, s)
    | some e => (remove_file_from_double_indirect bs s f p tOff dOff).1 = true ∧
        EntryRemoved bs X A p e s (remove_file_from_double_indirect bs s f p tOff dOff).2 :=
  remove_double_loop_post bs hbs f p tOff dOff X A hX1 hX2 hA1 (readBlock s.disk dOff)
    (List.range (bs / 4)) s (fun i hi hne => hXs _ (mem_liveSlots bs s.disk dOff i hi hne))
    (fun i hi hne => hA2 _ (mem_liveSlots bs s.disk dOff i hi hne))

theorem remove_triple_loop_post (bs : Nat) (hbs : bs % 16 = 0) (f p tOff : Nat)
    (X A : List Nat) (hX1 : tOff ∈ X) (hA1 : tOff / bs ∈ A)
    (ib : Nat → Nat) (is : List Nat) (s : FsState)
    (hXs : ∀ i ∈ is, ib i ≠ NIL → ib i ∈ X ∧ ∀ x ∈ liveSlots bs s.disk (ib i), x ∈ X)
    (hA2 : ∀ i ∈ is, ib i ≠ NIL →
      ib i / bs ∈ A ∧ ∀ x ∈ liveSlots bs s.disk (ib i),
        x / bs ∈ A ∧ ∀ b ∈ liveSlots bs s.disk x, b / bs ∈ A) :
    match (((is.map ib).filter is_not_null).flatMap (doubleEntries bs s.disk)).find?
        (entryIs s.disk f) with
    | none => remove_file_from_triple_indirect_loop bs f p tOff ib is s = (false, s)
    | some e => (remove_file_from_triple_indirect_loop bs f p tOff ib is s).1 = true ∧
        EntryRemoved bs X A p e s (remove_file_from_triple_indirect_loop bs f p tOff ib is s).2 := by
  induction is with
  | nil => simp [remove_file_from_triple_indirect_loop]
  | cons i is ih =>
    have ih' := ih (fun k hk => hXs k (List.mem_cons_of_mem _ hk))
      (fun k hk => hA2 k (List.mem_cons_of_mem _ hk))
    simp only [remove_file_from_triple_indirect_loop, List.map_cons, List.filter_cons]
    by_cases hn : is_not_null (ib i) = true
    · simp only [hn, if_true, List.flatMap_cons, List.find?_append]
      have hne : ib i ≠ NIL := by simpa [is_not_null] using hn
      have hsub := remove_double_post bs hbs f p tOff (ib i) X A s
        (hXs i (List.mem_cons_self _ _) hne).1 (fun _ => hX1)
        (hXs i (List.mem_cons_self _ _) hne).2
        (hA2 i (List.mem_cons_self _ _) hne).1 (hA2 i (List.mem_cons_self _ _) hne).2
      cases hm : (doubleEntries bs s.disk (ib i)).find? (entryIs s.disk f) with
      | none =>
        rw [hm] at hsub
        simp only [hsub, Bool.false_eq_true, if_false, Option.none_or]
        exact ih'
      | some e =>
        rw [hm] at hsub
        simp only [Option.or]
        simp only [hsub.1, if_true]
        have h0 := hsub.2
        split_ifs
        · exact ⟨rfl, (h0.dealloc _ hA1).inode_write _⟩
        · exact ⟨rfl, h0⟩
    · simp only [hn]
      simpa using ih'

theorem remove_triple_post (bs : Nat) (hbs : bs % 16 = 0) (f p tOff : Nat)
    (X A : List Nat) (s : FsState) (hX1 : tOff ∈ X)
    (hXs : ∀ y ∈ liveSlots bs s.disk tOff, y ∈ X ∧ ∀ x ∈ liveSlots bs s.disk y, x ∈ X)
    (hA1 : tOff / bs ∈ A)
    (hA2 : ∀ y ∈ liveSlots bs s.disk tOff,
      y / bs ∈ A ∧ ∀ x ∈ liveSlots bs s.disk y,
        x / bs ∈ A ∧ ∀ b ∈ liveSlots bs s.disk x, b / bs ∈ A) :
    match (tripleEntries bs s.disk tOff).find? (entryIs s.disk f) with
    | none => remove_file_from_triple_indirect bs s f p tOff = (false, s)
    | some e => (remove_file_from_triple_indirect bs s f p tOff).1 = true ∧
        EntryRemoved bs X A p e s (remove_file_from_triple_indirect bs s f p tOff).2 :=
  remove_triple_loop_post bs hbs f p tOff X A hX1 hA1 (readBlock s.disk tOff)
    (List.range (bs / 4)) s (fun i hi hne => hXs _ (mem_liveSlots bs s.disk tOff i hi hne))
    (fun i hi hne => hA2 _ (mem_liveSlots bs s.disk tOff i hi hne))

theorem replicate_getD_nil (n i : Nat) : (List.replicate n NIL).getD i NIL = NIL := by
  simp only [List.getD_eq_getElem?_getD, List.getElem?_replicate]
  split_ifs <;> rfl

theorem remove_direct_loop_post (bs : Nat) (hbs : bs % 16 = 0) (f p : Nat)
    (X A : List Nat) (hNil : NIL / bs ∈ A) (is : List Nat) (s : FsState)
    (hA : ∀ i ∈ is, s.inode.directPtr.getD i NIL ≠ NIL → s.inode.directPtr.getD i NIL / bs ∈ A) :
    match (((is.map (fun i => s.inode.directPtr.getD i NIL)).filter is_not_null).flatMap
        (blockEntries bs)).find? (entryIs s.disk f) with
    | none => remove_from_dir_direct_loop bs f p is s = none
    | some e => ∃ r, remove_from_dir_direct_loop bs f p is s = some r ∧
        EntryRemoved bs X A p e s r := by
  induction is with
  | nil => simp [remove_from_dir_direct_loop]
  | cons i is ih =>
    have ih' := ih (fun k hk => hA k (List.mem_cons_of_mem _ hk))
    simp only [remove_from_dir_direct_loop, List.map_cons, List.filter_cons]
    by_cases hn : is_not_null (s.inode.directPtr.getD i NIL) = true
    · simp only [hn, if_true, List.flatMap_cons, List.find?_append]
      have hne : s.inode.directPtr.getD i NIL ≠ NIL := by simpa [is_not_null] using hn
      rw [matchSlot_eq]
      cases hm : matchSlot bs (readBlock s.disk (s.inode.directPtr.getD i NIL)) f with
      | none => simpa using ih'
      | some j =>
        have hj := mem_slotIdx bs j hbs (List.mem_of_find?_eq_some hm)
        simp only [Option.map, Option.or]
        rw [writeBlock_clearEntry bs s.disk _ j hj.2]
        have hAi := hA i (List.mem_cons_self _ _) hne
        split_ifs
        all_goals first
          | exact ⟨_, rfl, EntryRemoved.start bs X A p _ s _⟩
          | exact ⟨_, rfl, ((EntryRemoved.start bs X A p _ s _).dealloc _ hAi).inode_write _⟩
          | exact ⟨_, rfl, ((EntryRemoved.start bs X A p _ s _).dealloc _
              (by simp only [inode_init_ptrs, replicate_getD_nil]; exact hNil)).inode_write _⟩
    · simp only [hn]
      simpa using ih'

theorem mem_dirSectors_data (bs : Nat) (d : Nat → Nat) (ino : Inode) (b : Nat)
    (h : b ∈ dataBlocksOf bs d ino) : b / bs ∈ dirSectors bs d ino := by
  simp only [dirSectors, List.mem_append, List.mem_map]
  exact Or.inl ⟨b, Or.inl h, rfl⟩

theorem mem_dirSectors_index (bs : Nat) (d : Nat → Nat) (ino : Inode) (b : Nat)
    (h : b ∈ indexBlocksOf bs d ino) : b / bs ∈ dirSectors bs d ino := by
  simp only [dirSectors, List.mem_append, List.mem_map]
  exact Or.inl ⟨b, Or.inr h, rfl⟩

theorem mem_indexBlocksOf_s (bs : Nat) (d : Nat → Nat) (ino : Inode)
    (h : is_not_null ino.sIndirect = true) : ino.sIndirect ∈ indexBlocksOf bs d ino := by
  simp [indexBlocksOf, h]

theorem mem_indexBlocksOf_d (bs : Nat) (d : Nat → Nat) (ino : Inode)
    (h : is_not_null ino.dIndirect = true) (x : Nat) (hx : x ∈ doubleIndex bs d ino.dIndirect) :
    x ∈ indexBlocksOf bs d ino := by
  simp only [indexBlocksOf, h, if_true, List.mem_append]
  exact Or.inl (Or.inr hx)

theorem mem_indexBlocksOf_t (bs : Nat) (d : Nat → Nat) (ino : Inode)
    (h : is_not_null ino.tIndirect = true) (x : Nat) (hx : x ∈ tripleIndex bs d ino.tIndirect) :
    x ∈ indexBlocksOf bs d ino := by
  simp only [indexBlocksOf, h, if_true, List.mem_append]
  exact Or.inr hx

theorem mem_dataBlocksOf_s (bs : Nat) (d : Nat → Nat) (ino : Inode)
    (h : is_not_null ino.sIndirect = true) (x : Nat) (hx : x ∈ singleData bs d ino.sIndirect) :
    x ∈ dataBlocksOf bs d ino := by
  simp only [dataBlocksOf, h, if_true, List.mem_append]
  exact Or.inl (Or.inl (Or.inr hx))

theorem mem_dataBlocksOf_d (bs : Nat) (d : Nat → Nat) (ino : Inode)
    (h : is_not_null ino.dIndirect = true) (x : Nat) (hx : x ∈ doubleData bs d ino.dIndirect) :
    x ∈ dataBlocksOf bs d ino := by
  simp only [dataBlocksOf, h, if_true, List.mem_append]
  exact Or.inl (Or.inr hx)

theorem mem_dataBlocksOf_t (bs : Nat) (d : Nat → Nat) (ino : Inode)
    (h : is_not_null ino.tIndirect = true) (x : Nat) (hx : x ∈ tripleData bs d ino.tIndirect) :
    x ∈ dataBlocksOf bs d ino := by
  simp only [dataBlocksOf, h, if_true, List.mem_append]
  exact Or.inr hx

theorem cond_level {P : Nat → FsState → Prop} (c : Bool) (L : List Nat) (q : Nat → Bool)
    (R : Bool × FsState) (s1 : FsState)
    (h : c = true → match L.find? q with
      | none => R = (false, s1)
      | some e => R.1 = true ∧ P e R.2) :
    match (if c = true then L else []).find? q with
    | none => (if c = true then R else (false, s1)) = (false, s1)
    | some e => (if c = true then R else (false, s1)).1 = true ∧
        P e (if c = true then R else (false, s1)).2 := by
  cases c with
  | false => simp
  | true => simpa using h rfl

/-- The indirect part of fs_remove_file_from_dir on an opened directory. -/
theorem remove_indirect_pointers_post (bs : Nat) (hbs : bs % 16 = 0) (s1 : FsState) (f p : Nat)
    (e : Nat)
    (hfind : ((if is_not_null s1.inode.sIndirect then singleEntries bs s1.disk s1.inode.sIndirect
          else [])
        ++ (if is_not_null s1.inode.dIndirect then doubleEntries bs s1.disk s1.inode.dIndirect
          else [])
        ++ (if is_not_null s1.inode.tIndirect then tripleEntries bs s1.disk s1.inode.tIndirect
          else [])).find? (entryIs s1.disk f) = some e) :
    (remove_file_from_dir_indirect_pointers bs s1 f p).1 = true ∧
    EntryRemoved bs (indexBlocksOf bs s1.disk s1.inode) (dirSectors bs s1.disk s1.inode) p e s1
      (remove_file_from_dir_indirect_pointers bs s1 f p).2 := by
  simp only [List.find?_append] at hfind
  unfold remove_file_from_dir_indirect_pointers
  -- single level
  have hS : ∀ h : is_not_null s1.inode.sIndirect = true,
      match (singleEntries bs s1.disk s1.inode.sIndirect).find? (entryIs s1.disk f) with
      | none => remove_file_from_single_indirect bs s1 f p NIL s1.inode.sIndirect = (false, s1)
      | some e => (remove_file_from_single_indirect bs s1 f p NIL s1.inode.sIndirect).1 = true ∧
          EntryRemoved bs (indexBlocksOf bs s1.disk s1.inode) (dirSectors bs s1.disk s1.inode) p e
            s1 (remove_file_from_single_indirect bs s1 f p NIL s1.inode.sIndirect).2 := by
    intro h
    apply remove_single_post bs hbs f p NIL s1.inode.sIndirect
    · exact mem_indexBlocksOf_s bs _ _ h
    · intro hh; exact absurd rfl hh
    · exact mem_dirSectors_index _ _ _ _ (mem_indexBlocksOf_s bs _ _ h)
    · intro b hb
      exact mem_dirSectors_data _ _ _ _ (mem_dataBlocksOf_s bs _ _ h b hb)
  have hD : ∀ h : is_not_null s1.inode.dIndirect = true,
      match (doubleEntries bs s1.disk s1.inode.dIndirect).find? (entryIs s1.disk f) with
      | none => remove_file_from_double_indirect bs s1 f p NIL s1.inode.dIndirect = (false, s1)
      | some e => (remove_file_from_double_indirect bs s1 f p NIL s1.inode.dIndirect).1 = true ∧
          EntryRemoved bs (indexBlocksOf bs s1.disk s1.inode) (dirSectors bs s1.disk s1.inode) p e
            s1 (remove_file_from_double_indirect bs s1 f p NIL s1.inode.dIndirect).2 := by
    intro h
    apply remove_double_post bs hbs f p NIL s1.inode.dIndirect
    · exact mem_indexBlocksOf_d bs _ _ h _ (List.mem_cons_self _ _)
    · intro hh; exact absurd rfl hh
    · intro x hx
      exact mem_indexBlocksOf_d bs _ _ h _ (List.mem_cons_of_mem _ hx)
    · exact mem_dirSectors_index _ _ _ _ (mem_indexBlocksOf_d bs _ _ h _ (List.mem_cons_self _ _))
    · intro x hx
      refine ⟨mem_dirSectors_index _ _ _ _
        (mem_indexBlocksOf_d bs _ _ h _ (List.mem_cons_of_mem _ hx)), ?_⟩
      intro b hb
      apply mem_dirSectors_data
      apply mem_dataBlocksOf_d bs _ _ h
      simp only [doubleData, List.mem_flatMap]
      exact ⟨x, hx, hb⟩
  have hT : ∀ h : is_not_null s1.inode.tIndirect = true,
      match (tripleEntries bs s1.disk s1.inode.tIndirect).find? (entryIs s1.disk f) with
      | none => remove_file_from_triple_indirect bs s1 f p s1.inode.tIndirect = (false, s1)
      | some e => (remove_file_from_triple_indirect bs s1 f p s1.inode.tIndirect).1 = true ∧
          EntryRemoved bs (indexBlocksOf bs s1.disk s1.inode) (dirSectors bs s1.disk s1.inode) p e
            s1 (remove_file_from_triple_indirect bs s1 f p s1.inode.tIndirect).2 := by
    intro h
    have hidx : ∀ y ∈ liveSlots bs s1.disk s1.inode.tIndirect,
        y ∈ indexBlocksOf bs s1.disk s1.inode ∧
        ∀ x ∈ liveSlots bs s1.disk y, x ∈ indexBlocksOf bs s1.disk s1.inode := by
      intro y hy
      constructor
      · apply mem_indexBlocksOf_t bs _ _ h
        simp only [tripleIndex, List.mem_cons, List.mem_flatMap, doubleIndex]
        exact Or.inr ⟨y, hy, Or.inl rfl⟩
      · intro x hx
        apply mem_indexBlocksOf_t bs _ _ h
        simp only [tripleIndex, List.mem_cons, List.mem_flatMap, doubleIndex]
        exact Or.inr ⟨y, hy, Or.inr hx⟩
    apply remove_triple_post bs hbs f p s1.inode.tIndirect
    · exact mem_indexBlocksOf_t bs _ _ h _ (List.mem_cons_self _ _)
    · exact hidx
    · exact mem_dirSectors_index _ _ _ _ (mem_indexBlocksOf_t bs _ _ h _ (List.mem_cons_self _ _))
    · intro y hy
      refine ⟨mem_dirSectors_index _ _ _ _ (hidx y hy).1, ?_⟩
      intro x hx
      refine ⟨mem_dirSectors_index _ _ _ _ ((hidx y hy).2 x hx), ?_⟩
      intro b hb
      apply mem_dirSectors_data
      apply mem_dataBlocksOf_t bs _ _ h
      simp only [tripleData, doubleData, singleData, List.mem_flatMap]
      exact ⟨y, hy, x, hx, hb⟩
  have W1 := cond_level (is_not_null s1.inode.sIndirect) _ (entryIs s1.disk f)
    (remove_file_from_single_indirect bs s1 f p NIL s1.inode.sIndirect) s1 hS
  have W2 := cond_level (is_not_null s1.inode.dIndirect) _ (entryIs s1.disk f)
    (remove_file_from_double_indirect bs s1 f p NIL s1.inode.dIndirect) s1 hD
  have W3 := cond_level (is_not_null s1.inode.tIndirect) _ (entryIs s1.disk f)
    (remove_file_from_triple_indirect bs s1 f p s1.inode.tIndirect) s1 hT
  cases hoS : (if is_not_null s1.inode.sIndirect = true then
      singleEntries bs s1.disk s1.inode.sIndirect else []).find? (entryIs s1.disk f) with
  | some e' =>
    rw [hoS] at W1 hfind
    simp only [Option.or] at hfind
    cases hfind
    simp only [W1.1, if_true]
    exact ⟨trivial, W1.2⟩
  | none =>
    rw [hoS] at W1 hfind
    simp only [Option.none_or] at hfind
    simp only [W1, Bool.false_eq_true, if_false]
    cases hoD : (if is_not_null s1.inode.dIndirect = true then
        doubleEntries bs s1.disk s1.inode.dIndirect else []).find? (entryIs s1.disk f) with
    | some e' =>
      rw [hoD] at W2 hfind
      simp only [Option.or] at hfind
      cases hfind
      have hc : is_not_null s1.inode.dIndirect = true := by
        by_contra hc
        simp [hc] at hoD
      simp only [hc, if_true] at W2 ⊢
      simp only [W2.1, if_true]
      exact ⟨trivial, W2.2⟩
    | none =>
      rw [hoD] at W2 hfind
      simp only [Option.none_or] at hfind
      have W2' : (if is_not_null s1.inode.dIndirect = true then
          remove_file_from_double_indirect bs s1 f p NIL s1.inode.dIndirect else (false, s1))
          = (false, s1) := W2
      rw [W2']
      simp only [Bool.false_eq_true, if_false]
      rw [hfind] at W3
      have hc : is_not_null s1.inode.tIndirect = true := by
        by_contra hc
        simp [hc] at hfind
      simp only [hc, if_true] at W3 ⊢
      simp only [W3.1, if_true]
      exact ⟨trivial, W3.2⟩

theorem fs_remove_file_from_dir_post (bs : Nat) (hbs : bs % 16 = 0) (s : FsState) (f p : Nat)
    (hp : p ≠ NIL) (hty : (s.itable p).fileType = 2) (e : Nat)
    (hfind : (dirEntries bs s.disk (s.itable p)).find? (entryIs s.disk f) = some e) :
    (fs_remove_file_from_dir bs s f p).1 = true ∧
    EntryRemoved bs (indexBlocksOf bs s.disk (s.itable p)) (dirSectors bs s.disk (s.itable p)) p e s
      (fs_remove_file_from_dir bs s f p).2 := by
  have hopen : open_inode s p = (true, { s with mapId := p, inode := s.itable p }) := by
    have h1 : (open_inode s p).1 = true :=
      (fs_open_file_cases s p s.inode).1.mpr ⟨hp, by omega⟩
    have h2 := open_inode_ok s p h1
    exact Prod.ext h1 h2
  have key : ∀ s1 : FsState, s1.disk = s.disk → s1.inode = s.itable p →
      s1.itable = s.itable → s1.ssmFreed = s.ssmFreed → s1.ssmOut = s.ssmOut →
      s1.iMap = s.iMap → s1.inodeFreed = s.inodeFreed → open_inode s p = (true, s1) →
      (fs_remove_file_from_dir bs s f p).1 = true ∧
      EntryRemoved bs (indexBlocksOf bs s.disk (s.itable p)) (dirSectors bs s.disk (s.itable p))
        p e s (fs_remove_file_from_dir bs s f p).2 := by
    intro s1 hd1 hi1 ht1 hf1 ho1 hm1 hn1 hopen1
    have hrel : ∀ r, EntryRemoved bs (indexBlocksOf bs s1.disk s1.inode)
        (dirSectors bs s1.disk s1.inode) p e s1 r →
        EntryRemoved bs (indexBlocksOf bs s.disk (s.itable p))
        (dirSectors bs s.disk (s.itable p)) p e s r := by
      intro r h
      simp only [EntryRemoved, hd1, hi1, ht1, hf1, ho1, hm1, hn1] at h ⊢
      exact h
    rw [← hd1, ← hi1] at hfind
    simp only [fs_remove_file_from_dir, hopen1, Bool.not_true, Bool.false_eq_true, if_false]
    rw [if_pos (by rw [hi1]; exact hty)]
    simp only [dirEntries, List.append_assoc] at hfind
    rw [List.find?_append] at hfind
    have hdirect := remove_direct_loop_post bs hbs f p (indexBlocksOf bs s1.disk s1.inode)
      (dirSectors bs s1.disk s1.inode)
      (by simp [dirSectors]) (List.range INODE_DIRECT_PTRS) s1
      (by
        intro i hi hne
        apply mem_dirSectors_data
        simp only [dataBlocksOf, liveDirect, List.mem_append, List.mem_filter, List.mem_map]
        left; left; left
        exact ⟨⟨i, hi, rfl⟩, by simpa [is_not_null] using hne⟩)
    cases h0 : (directEntries bs s1.inode).find? (entryIs s1.disk f) with
    | some e0 =>
      rw [h0] at hfind
      simp only [Option.or] at hfind
      cases hfind
      have h0' : ((((List.range INODE_DIRECT_PTRS).map
          (fun i => s1.inode.directPtr.getD i NIL)).filter is_not_null).flatMap
          (blockEntries bs)).find? (entryIs s1.disk f) = some e := h0
      rw [h0'] at hdirect
      obtain ⟨r, hr, hpost⟩ := hdirect
      simp only [hr]
      exact ⟨trivial, hrel r hpost⟩
    | none =>
      rw [h0] at hfind
      simp only [Option.none_or] at hfind
      have h0' : ((((List.range INODE_DIRECT_PTRS).map
          (fun i => s1.inode.directPtr.getD i NIL)).filter is_not_null).flatMap
          (blockEntries bs)).find? (entryIs s1.disk f) = none := h0
      rw [h0'] at hdirect
      simp only [hdirect]
      have hind := remove_indirect_pointers_post bs hbs s1 f p e
        (by simpa only [List.append_assoc] using hfind)
      simp only [hind.1, if_true]
      exact ⟨trivial, hrel _ hind.2⟩
  exact key { s with mapId := p, inode := s.itable p } rfl rfl rfl rfl rfl rfl rfl hopen

theorem mem_freeOrder (bs : Nat) (d : Nat → Nat) (ino : Inode) (b : Nat)
    (h : b ∈ dataBlocksOf bs d ino ++ indexBlocksOf bs d ino) : b ∈ freeOrder bs d ino := by
  simp only [dataBlocksOf, indexBlocksOf, freeOrder, List.mem_append] at h ⊢
  by_cases hS : is_not_null ino.sIndirect = true <;>
  by_cases hD : is_not_null ino.dIndirect = true <;>
  by_cases hT : is_not_null ino.tIndirect = true <;>
  simp only [hS, hD, hT, if_true, if_false, singleData, doubleData, tripleData, doubleIndex,
    tripleIndex, singleFree, doubleFree, tripleFree, List.mem_append, List.mem_flatMap,
    List.mem_cons, List.mem_singleton, List.not_mem_nil, or_false, false_or, Bool.false_eq_true]
    at h ⊢ <;>
  aesop

theorem open_inode_eq (s : FsState) (n : Nat) (hn : n ≠ NIL) (hty : 0 < (s.itable n).fileType) :
    open_inode s n = (true, { s with mapId := n, inode := s.itable n }) := by
  have h1 : (open_inode s n).1 = true := (fs_open_file_cases s n s.inode).1.mpr ⟨hn, hty⟩
  exact Prod.ext h1 (open_inode_ok s n h1)

/-- C7: let f be a regular file (fileType 1) and p a directory that opens, holds
an in-use entry for f and has a well-formed block tree; let the blocks
reachable from f lie on pairwise distinct sectors, none of them a sector that
the removal of an entry of p may release.  Then fs_remove_file(f, p), with any
positive bound on the recursion, returns True; after the sectors logged before,
ssm_deallocate_sectors receives a list in which offset / BLOCK_SIZE occurs
exactly once for every data block and every index block reachable from f; the
record written back for f is the initial inode; deallocate_inode(f) is called;
and the four words of the first in-use entry of p that carries f are zero
(BLOCK_SIZE a multiple of 16). -/
theorem fs_remove_file_regular (bs : Nat) (hbs : bs % 16 = 0) (fuel : Nat) (s : FsState)
    (f p : Nat) (hf : f ≠ NIL) (hty : (s.itable f).fileType = 1)
    (hp : p ≠ NIL) (hpty : (s.itable p).fileType = 2)
    (hent : ∃ a ∈ dirEntries bs s.disk (s.itable p), entryIs s.disk f a = true)
    (hwfp : TreeWellFormed bs s.disk (s.itable p))
    (hnd : ((freeOrder bs s.disk (s.itable f)).map (fun b => b / bs)).Nodup)
    (hsep : ∀ b ∈ freeOrder bs s.disk (s.itable f), b / bs ∉ dirSectors bs s.disk (s.itable p)) :
    ∃ r, fs_remove_file bs (fuel + 1) s f p = some (true, r) ∧
      (∃ seg, r.ssmFreed = s.ssmFreed ++ seg ∧
        ∀ b ∈ dataBlocksOf bs s.disk (s.itable f) ++ indexBlocksOf bs s.disk (s.itable f),
          seg.count (b / bs) = 1) ∧
      r.itable f = inode_init ∧
      r.inodeFreed = s.inodeFreed ++ [f] ∧
      ∃ e, (dirEntries bs s.disk (s.itable p)).find? (entryIs s.disk f) = some e ∧
        r.disk e = 0 ∧ r.disk (e + 4) = 0 ∧ r.disk (e + 8) = 0 ∧ r.disk (e + 12) = 0 := by
  have hfp : f ≠ p := by
    intro h; rw [h, hpty] at hty; exact absurd hty (by decide)
  -- the entry found by the scan
  obtain ⟨e, hfind⟩ : ∃ e, (dirEntries bs s.disk (s.itable p)).find? (entryIs s.disk f) = some e := by
    obtain ⟨a, ha, hpa⟩ := hent
    cases hc : (dirEntries bs s.disk (s.itable p)).find? (entryIs s.disk f) with
    | some e => exact ⟨e, rfl⟩
    | none =>
      rw [List.find?_eq_none] at hc
      exact absurd hpa (hc a ha)
  -- the state handed to fs_remove_file_from_dir
  let L := (freeOrder bs s.disk (s.itable f)).map (fun b => b / bs)
  let s6 : FsState := deallocate_inode (inode_write
    { freeAll { s with mapId := f, inode := s.itable f } L with mapId := f, inode := inode_init } f) f
  have hrun : fs_remove_file bs (fuel + 1) s f p
      = some (true, (fs_remove_file_from_dir bs s6 f p).2) := by
    simp only [fs_remove_file, fs_remove_file_body]
    rw [open_inode_eq s f hf (by omega)]
    simp only [Bool.not_true, Bool.false_eq_true, if_false, hty]
    rw [remove_file_traversal]
    rw [open_inode_eq _ f hf (by show 0 < (s.itable f).fileType; omega)]
    rfl
  have h6d : s6.disk = s.disk := rfl
  have h6p : s6.itable p = s.itable p := by
    show (if p = f then _ else s.itable p) = _
    rw [if_neg (fun h => hfp h.symm)]
  have hpost := fs_remove_file_from_dir_post bs hbs s6 f p hp (by rw [h6p]; exact hpty) e
    (by rw [h6d, h6p]; exact hfind)
  rw [h6d, h6p] at hpost
  obtain ⟨_, hdisk, ⟨seg, hseg, hsegA⟩, hit, _, _, hif⟩ := hpost
  refine ⟨_, hrun, ⟨L ++ seg, ?_, ?_⟩, ?_, ?_, e, hfind, ?_⟩
  · rw [hseg]
    show (s.ssmFreed ++ L) ++ seg = _
    rw [List.append_assoc]
  · intro b hb
    have hbm := mem_freeOrder bs s.disk (s.itable f) b hb
    rw [List.count_append]
    have h1 : L.count (b / bs) = 1 :=
      List.count_eq_one_of_mem hnd (List.mem_map.mpr ⟨b, hbm, rfl⟩)
    have h2 : seg.count (b / bs) = 0 :=
      List.count_eq_zero_of_not_mem (fun hh => hsep b hbm (hsegA _ hh))
    rw [h1, h2]
  · rw [hit f hfp]
    show (if f = f then inode_init else _) = _
    rw [if_pos rfl]
  · rw [hif]
    rfl
  · -- the four words of the entry lie in a data block, outside every index block
    obtain ⟨b, hb, j, hj, rfl⟩ := mem_dirEntries bs s.disk (s.itable p) e
      (List.mem_of_find?_eq_some hfind)
    have hjs := mem_slotIdx bs j hbs hj
    have hout : ∀ a, b ≤ a → a < b + bs →
        ∀ x ∈ indexBlocksOf bs s.disk (s.itable p), a < x ∨ x + bs ≤ a := by
      intro a h1 h2 x hx
      have hxa := hwfp.2 x hx
      have hne : x ≠ b := fun hh => hxa.2 (hh ▸ hb)
      have := aligned_disjoint bs x b hxa.1 (hwfp.1 b hb) hne
      omega
    refine ⟨?_, ?_, ?_, ?_⟩
    · rw [hdisk _ (hout _ (by omega) (by omega))]; simp [clearAt]
    · rw [hdisk _ (hout _ (by omega) (by omega))]; simp [clearAt]
    · rw [hdisk _ (hout _ (by omega) (by omega))]; simp [clearAt]
    · rw [hdisk _ (hout _ (by omega) (by omega))]; simp [clearAt]

set_option maxRecDepth 1000000 in
/-- Instance of fs_remove_file_regular: the file 3 of fileState, ten direct
blocks and a single-indirect block with one data block, removed from the root. -/
theorem fs_remove_file_regular_witness :
    (fileState.itable 3).fileType = 1 ∧ (fileState.itable 2).fileType = 2 ∧
    freeOrder 64 fileState.disk (fileState.itable 3)
      = [2240, 2304, 2368, 2432, 2496, 2560, 2624, 2688, 2752, 2816, 2944, 2880] ∧
    ∃ r, fs_remove_file 64 1 fileState 3 2 = some (true, r) ∧
      (∃ seg, r.ssmFreed = fileState.ssmFreed ++ seg ∧
        ∀ b ∈ dataBlocksOf 64 fileState.disk (fileState.itable 3)
            ++ indexBlocksOf 64 fileState.disk (fileState.itable 3),
          seg.count (b / 64) = 1) ∧
      r.itable 3 = inode_init ∧
      r.inodeFreed = fileState.inodeFreed ++ [3] ∧
      ∃ e, (dirEntries 64 fileState.disk (fileState.itable 2)).find? (entryIs fileState.disk 3)
          = some e ∧
        r.disk e = 0 ∧ r.disk (e + 4) = 0 ∧ r.disk (e + 8) = 0 ∧ r.disk (e + 12) = 0 :=
  ⟨by decide, by decide, by decide,
    fs_remove_file_regular 64 (by decide) 0 fileState 3 2 (by decide) (by decide) (by decide)
      (by decide) (by decide) (by decide) (by decide) (by decide)⟩

/-! ### Insertion and removal on concrete directories -/

set_option maxRecDepth 1000000 in
/-- C11 (code evaluated at the failing input): the root directory of
bigDirState opens, its direct blocks have no free slot and the data block 1440
under its single-indirect index block has one; create_file(22, name, 2) returns
True and writes the entry into that slot, but it also takes sector 1472 from
the Sector Space Manager, writes the entry a second time into that sector and
overwrites the record of inode 2 with a reset inode whose only pointer is
1472. -/
theorem create_file_indirect_slot_twice :
    ((bigDirState 3).itable 2).fileType = 2 ∧
    (directEntries 32 ((bigDirState 3).itable 2)).all (entryInUse (bigDirState 3).disk) = true ∧
    singleData 32 (bigDirState 3).disk ((bigDirState 3).itable 2).sIndirect = [1440] ∧
    entryInUse (bigDirState 3).disk (1440 + 16) = false ∧
    (bigDirState 3).ssmOut = [1472, 1504] ∧
    (create_file 32 (bigDirState 3) 22 (98, 0) 2).1 = true ∧
    (create_file 32 (bigDirState 3) 22 (98, 0) 2).2.ssmOut = [1504] ∧
    (List.range 4).map (fun k => (create_file 32 (bigDirState 3) 22 (98, 0) 2).2.disk (1456 + 4 * k))
      = [98, 0, 22, 1] ∧
    (List.range 4).map (fun k => (create_file 32 (bigDirState 3) 22 (98, 0) 2).2.disk (1472 + 4 * k))
      = [98, 0, 22, 1] ∧
    ((create_file 32 (bigDirState 3) 22 (98, 0) 2).2.itable 2).fileType = 0 ∧
    ((create_file 32 (bigDirState 3) 22 (98, 0) 2).2.itable 2).directPtr
      = 1472 :: List.replicate 9 NIL := by
  decide

set_option maxRecDepth 1000000 in
/-- C12 (as stated) fails: the root directory of shrunkState has no free slot
in its only data block, its second direct pointer is NIL and the Sector Space
Manager has a free sector; the insertion allocates sector 2304 for that
pointer and persists linkCount + 1 and fileSize + BLOCK_SIZE, but dataBlocks
goes from 1 to 3. -/
theorem create_file_dataBlocks_jump :
    (shrunkState.itable 2).fileType = 2 ∧
    (shrunkState.itable 2).directPtr = 2176 :: List.replicate 9 NIL ∧
    (dirEntries 64 shrunkState.disk (shrunkState.itable 2)).all (entryInUse shrunkState.disk)
      = true ∧
    shrunkState.ssmOut = [2304, 2368] ∧
    ((shrunkState.itable 2).linkCount, (shrunkState.itable 2).fileSize,
      (shrunkState.itable 2).dataBlocks) = (1, 128, 1) ∧
    (create_file 64 shrunkState 5 (100, 0) 2).1 = true ∧
    ((create_file 64 shrunkState 5 (100, 0) 2).2.itable 2).directPtr
      = 2176 :: 2304 :: List.replicate 8 NIL ∧
    (((create_file 64 shrunkState 5 (100, 0) 2).2.itable 2).linkCount,
      ((create_file 64 shrunkState 5 (100, 0) 2).2.itable 2).fileSize,
      ((create_file 64 shrunkState 5 (100, 0) 2).2.itable 2).dataBlocks) = (2, 192, 3) := by
  decide

set_option maxRecDepth 1000000 in
/-- C13 (code evaluated at the failing input): the first direct block (offset
2176, sector 34) of the root of dotlessState holds one entry in use, the one
with inode_num NIL in its second slot, and the persisted linkCount is 1;
fs_remove_file_from_dir(NIL, 2) clears it and returns True, the block holds no
entry in use any more, and the sector handed to ssm_deallocate_sectors is
67108863 = NIL / BLOCK_SIZE, not 34. -/
theorem fs_remove_file_from_dir_frees_nil_sector :
    (dotlessState.itable 2).fileType = 2 ∧
    (dotlessState.itable 2).linkCount = 1 ∧
    (dotlessState.itable 2).directPtr = 2176 :: List.replicate 9 NIL ∧
    (blockEntries 64 2176).filter (entryInUse dotlessState.disk) = [2192] ∧
    entryIs dotlessState.disk NIL 2192 = true ∧
    dotlessState.ssmFreed = [] ∧
    (fs_remove_file_from_dir 64 dotlessState NIL 2).1 = true ∧
    (blockEntries 64 2176).filter (entryInUse (fs_remove_file_from_dir 64 dotlessState NIL 2).2.disk)
      = [] ∧
    (fs_remove_file_from_dir 64 dotlessState NIL 2).2.ssmFreed = [67108863] ∧
    2176 / 64 = 34 ∧
    ((fs_remove_file_from_dir 64 dotlessState NIL 2).2.itable 2).directPtr
      = List.replicate 10 NIL := by
  decide

set_option maxRecDepth 1000000 in
/-- C14 (code evaluated at the failing input): the root of wornState has ten
data blocks, nineteen entries in use and the persisted linkCount 1;
fs_remove_file_from_dir(19, 2) returns True and brings linkCount to 0, the
persisted inode has fileSize 0 and all pointers NIL, and the only sector handed
to ssm_deallocate_sectors is 134217727 = NIL / BLOCK_SIZE: none of the ten
data blocks is deallocated. -/
theorem fs_remove_file_from_dir_leaks_directory :
    (wornState.itable 2).fileType = 2 ∧
    (wornState.itable 2).linkCount = 1 ∧
    dataBlocksOf 32 wornState.disk (wornState.itable 2)
      = (List.range 10).map (fun k => 1088 + 32 * k) ∧
    indexBlocksOf 32 wornState.disk (wornState.itable 2) = [] ∧
    inUseCount 32 wornState.disk (wornState.itable 2) = 19 ∧
    (fs_remove_file_from_dir 32 wornState 19 2).1 = true ∧
    ((fs_remove_file_from_dir 32 wornState 19 2).2.itable 2).linkCount = 0 ∧
    ((fs_remove_file_from_dir 32 wornState 19 2).2.itable 2).fileSize = 0 ∧
    ((fs_remove_file_from_dir 32 wornState 19 2).2.itable 2).directPtr
      = List.replicate 10 NIL ∧
    (fs_remove_file_from_dir 32 wornState 19 2).2.ssmFreed
      = wornState.ssmFreed ++ [134217727] ∧
    (List.range 10).all (fun k => (1088 + 32 * k) / 32 ∉
      (fs_remove_file_from_dir 32 wornState 19 2).2.ssmFreed) = true := by
  decide

set_option maxRecDepth 1000000 in
/-- C16 (as stated) fails: after fs_write_to_file of 100 bytes to file 3 of
newFileState the persisted inode has fileSize 100 and dataBlocks 1 (two blocks
were written); after the removal of file 5 the root of shrunkState has
fileSize 128 and dataBlocks 1. -/
theorem fileSize_not_dataBlocks_times_block :
    ((fs_write_to_file 64 false (newFileState 12) 3 (fun k => k + 1) 100).2.itable 3).fileType
      = 1 ∧
    ((fs_write_to_file 64 false (newFileState 12) 3 (fun k => k + 1) 100).2.itable 3).fileSize
      = 100 ∧
    ((fs_write_to_file 64 false (newFileState 12) 3 (fun k => k + 1) 100).2.itable 3).dataBlocks
      = 1 ∧
    liveDirect ((fs_write_to_file 64 false (newFileState 12) 3 (fun k => k + 1) 100).2.itable 3)
      = [2240, 2304] ∧
    (shrunkState.itable 2).fileType = 2 ∧
    (shrunkState.itable 2).fileSize = 128 ∧
    (shrunkState.itable 2).dataBlocks = 1 := by
  decide

set_option maxRecDepth 1000000 in
/-- C18 (code evaluated at the failing input): the root of bigDirState holds 21
entries in use, none for inode 22; fs_create_file(0, name, 2) returns 22 and
takes sector 1472 from the Sector Space Manager; fs_remove_file(22, 2) then
returns True, after which a single entry in use is reachable from the record of
inode 2, the one for inode 22 at offset 1472, and no sector has been
deallocated. -/
theorem create_then_remove_loses_directory :
    inUseCount 32 (bigDirState 3).disk ((bigDirState 3).itable 2) = 21 ∧
    (dirEntries 32 (bigDirState 3).disk ((bigDirState 3).itable 2)).any
      (entryIs (bigDirState 3).disk 22) = false ∧
    (fs_create_file 32 (bigDirState 3) (0, 0) 0 (98, 0) 2).1 = 22 ∧
    (bigDirState 3).ssmOut = [1472, 1504] ∧
    (fs_create_file 32 (bigDirState 3) (0, 0) 0 (98, 0) 2).2.ssmOut = [1504] ∧
    (fs_remove_file 32 1 (fs_create_file 32 (bigDirState 3) (0, 0) 0 (98, 0) 2).2 22 2).map
      (fun r => r.1) = some true ∧
    (dirEntries 32 recreatedState.disk (recreatedState.itable 2)).filter
      (entryInUse recreatedState.disk) = [1472] ∧
    entryIs recreatedState.disk 22 1472 = true ∧
    recreatedState.ssmFreed = [] := by
  decide

/-! ### fs_make: the result -/

/-- C20 (as amended): fs_make returns True whatever the Sector Space Manager
answers and whatever becomes of the inodes 0, 1, 2 and of the entries of the
root directory. -/
theorem fs_make_returns_true (bs INODE_BLOCKS : Nat) (ssm : List Nat) (name junk : Nat × Nat) :
    (fs_make bs INODE_BLOCKS ssm name junk).1 = true := rfl

set_option maxRecDepth 1000000 in
/-- C20 (as stated) fails: with a Sector Space Manager that answers NIL to every
request, the root directory gets no data block, neither '.' nor '..' is
inserted, and fs_make returns True. -/
theorem fs_make_without_sectors :
    (ssm_allocate_sectors (initState 32 [])).1 = NIL ∧
    ((fs_make 64 32 [] (0, 0) (0, 0)).2.itable 2).directPtr = List.replicate 10 NIL ∧
    inUseCount 64 (fs_make 64 32 [] (0, 0) (0, 0)).2.disk
      ((fs_make 64 32 [] (0, 0) (0, 0)).2.itable 2) = 0 ∧
    (fs_make 64 32 [] (0, 0) (0, 0)).1 = true := by
  decide

/-! ### The write path: what it leaves as it is -/

theorem AlocFrame.refl_a (s : FsState) : AlocFrame s s :=
  ⟨rfl, rfl, rfl, rfl, rfl, rfl, rfl⟩

theorem AlocFrame.trans_a {s r t : FsState} (h1 : AlocFrame s r) (h2 : AlocFrame r t) :
    AlocFrame s t := by
  obtain ⟨a1, a2, a3, a4, a5, a6, a7⟩ := h1
  obtain ⟨b1, b2, b3, b4, b5, b6, b7⟩ := h2
  exact ⟨b1.trans a1, b2.trans a2, b3.trans a3, b4.trans a4, b5.trans a5, b6.trans a6,
    b7.trans a7⟩

theorem AlocFrame.disk_a {s r : FsState} (h : AlocFrame s r) (d : Nat → Nat) :
    AlocFrame s { r with disk := d } := h

theorem WriteFrame.refl_w (s : FsState) : WriteFrame s s :=
  ⟨rfl, rfl, rfl, rfl, rfl, rfl, rfl, rfl, rfl, rfl⟩

theorem WriteFrame.trans_w {s r t : FsState} (h1 : WriteFrame s r) (h2 : WriteFrame r t) :
    WriteFrame s t := by
  obtain ⟨a1, a2, a3, a4, a5, a6, a7, a8, a9, a10⟩ := h1
  obtain ⟨b1, b2, b3, b4, b5, b6, b7, b8, b9, b10⟩ := h2
  exact ⟨b1.trans a1, b2.trans a2, b3.trans a3, b4.trans a4, b5.trans a5, b6.trans a6,
    b7.trans a7, b8.trans a8, b9.trans a9, b10.trans a10⟩

theorem AlocFrame.toWrite {s r : FsState} (h : AlocFrame s r) : WriteFrame s r := by
  obtain ⟨a1, a2, a3, a4, a5, a6, a7⟩ := h
  exact ⟨by rw [a1], by rw [a1], by rw [a1], by rw [a1], a2, a3, a4, a5, a6, a7⟩

theorem ssm_allocate_frame (s : FsState) : AlocFrame s (ssm_allocate_sectors s).2 := by
  unfold ssm_allocate_sectors
  split
  · exact AlocFrame.refl_a s
  · exact ⟨rfl, rfl, rfl, rfl, rfl, rfl, rfl⟩

theorem aloc_single_loop_frame (k : Nat) : ∀ (off : Nat) (s : FsState),
    AlocFrame s (aloc_single_loop k off s).2 := by
  induction k with
  | zero => intro off s; exact AlocFrame.refl_a s
  | succ k ih =>
    intro off s
    unfold aloc_single_loop
    dsimp only
    split
    · exact (((ssm_allocate_frame s).disk_a _).trans_a (ih _ _))
    · exact ((ssm_allocate_frame s).trans_a (ih _ _))

theorem aloc_single_frame (bs : Nat) (s : FsState) (c : Int) :
    AlocFrame s (aloc_single_indirect bs s c).2 := by
  unfold aloc_single_indirect
  dsimp only
  split
  · exact (((ssm_allocate_frame s).disk_a _).trans_a (aloc_single_loop_frame _ _ _))
  · exact ssm_allocate_frame s

theorem aloc_double_loop_frame (bs : Nat) (c : Int) (k : Nat) : ∀ (bc : Int) (off : Nat)
    (s : FsState), AlocFrame s (aloc_double_loop bs c k bc off s) := by
  induction k with
  | zero => intro bc off s; exact AlocFrame.refl_a s
  | succ k ih =>
    intro bc off s
    unfold aloc_double_loop
    dsimp only
    split
    · exact (aloc_single_frame bs s c).disk_a _
    · exact (((aloc_single_frame bs s c).disk_a _).trans_a (ih _ _ _))

theorem aloc_double_frame (bs : Nat) (s : FsState) (c : Int) :
    AlocFrame s (aloc_double_indirect bs s c).2 := by
  unfold aloc_double_indirect
  dsimp only
  split
  · exact (((ssm_allocate_frame s).disk_a _).trans_a (aloc_double_loop_frame _ _ _ _ _ _))
  · exact ssm_allocate_frame s

theorem aloc_triple_loop_frame (bs : Nat) (c : Int) (k : Nat) : ∀ (bc : Int) (off : Nat)
    (s : FsState), AlocFrame s (aloc_triple_loop bs c k bc off s) := by
  induction k with
  | zero => intro bc off s; exact AlocFrame.refl_a s
  | succ k ih =>
    intro bc off s
    unfold aloc_triple_loop
    dsimp only
    split
    · exact (aloc_double_frame bs s c).disk_a _
    · exact (((aloc_double_frame bs s c).disk_a _).trans_a (ih _ _ _))

theorem aloc_triple_frame (bs : Nat) (s : FsState) (c : Int) :
    AlocFrame s (aloc_triple_indirect bs s c).2 := by
  unfold aloc_triple_indirect
  dsimp only
  split
  · exact (((ssm_allocate_frame s).disk_a _).trans_a (aloc_triple_loop_frame _ _ _ _ _ _))
  · exact ssm_allocate_frame s

theorem WriteFrame.disk_w {s r : FsState} (h : WriteFrame s r) (d : Nat → Nat) :
    WriteFrame s { r with disk := d } := h

theorem WriteFrame.set_direct {s r : FsState} (h : WriteFrame s r) (l : List Nat) :
    WriteFrame s { r with inode := { r.inode with directPtr := l } } := h

theorem WriteFrame.set_single {s r : FsState} (h : WriteFrame s r) (v : Nat) :
    WriteFrame s { r with inode := { r.inode with sIndirect := v } } := h

theorem WriteFrame.set_double {s r : FsState} (h : WriteFrame s r) (v : Nat) :
    WriteFrame s { r with inode := { r.inode with dIndirect := v } } := h

theorem WriteFrame.set_triple {s r : FsState} (h : WriteFrame s r) (v : Nat) :
    WriteFrame s { r with inode := { r.inode with tIndirect := v } } := h

theorem write_to_file_direct_frame (bs : Nat) (buf : Nat → Nat) (l : List Nat) :
    ∀ (pos : Nat) (s : FsState), WriteFrame s (write_to_file_direct bs buf l pos s).2 := by
  induction l with
  | nil => intro pos s; exact WriteFrame.refl_w s
  | cons i is ih =>
    intro pos s
    unfold write_to_file_direct
    dsimp only
    split
    · split
      · exact (ssm_allocate_frame s).toWrite
      · exact WriteFrame.trans_w
          (((ssm_allocate_frame s).toWrite.set_direct _).disk_w _) (ih _ _)
    · exact WriteFrame.trans_w ((WriteFrame.refl_w s).disk_w _) (ih _ _)

theorem write_using_single_frame (bs : Nat) (s : FsState) (buf : Nat → Nat) (pos : Nat)
    (fileSize : Int) :
    WriteFrame s (write_to_file_using_single_indirect_blocks bs s buf pos fileSize) := by
  unfold write_to_file_using_single_indirect_blocks
  exact (((aloc_single_frame bs s _).toWrite.set_single _).disk_w _)

theorem write_using_double_frame (bs : Nat) (wide : Bool) (s : FsState) (buf : Nat → Nat)
    (pos : Nat) (fileSize : Int) :
    WriteFrame s (write_to_file_using_double_indirect_blocks bs wide s buf pos fileSize) := by
  unfold write_to_file_using_double_indirect_blocks
  dsimp only
  refine WriteFrame.disk_w ?_ _
  refine WriteFrame.set_double ?_ _
  refine WriteFrame.trans_w ?_ (aloc_double_frame bs _ _).toWrite
  exact (((aloc_single_frame bs s _).toWrite.set_single _).disk_w _)

theorem write_using_triple_frame (bs : Nat) (wide : Bool) (s : FsState) (buf : Nat → Nat)
    (pos : Nat) (fileSize : Int) :
    WriteFrame s (write_to_file_using_triple_indirect_blocks bs wide s buf pos fileSize) := by
  unfold write_to_file_using_triple_indirect_blocks
  dsimp only
  refine WriteFrame.disk_w ?_ _
  refine WriteFrame.set_triple ?_ _
  refine WriteFrame.trans_w ?_ (aloc_triple_frame bs _ _).toWrite
  refine WriteFrame.disk_w ?_ _
  refine WriteFrame.disk_w ?_ _
  refine WriteFrame.set_double ?_ _
  refine WriteFrame.trans_w ?_ (aloc_double_frame bs _ _).toWrite
  exact ((aloc_single_frame bs s _).toWrite.set_single _)

theorem fs_write_to_file_frame (bs : Nat) (wide : Bool) (s : FsState) (n : Nat)
    (buf : Nat → Nat) (size : Int) (hn : n ≠ NIL) (hf : 0 < (s.itable n).fileType) :
    ∃ s3, fs_write_to_file bs wide s n buf size = (true, inode_write s3 n) ∧
      WriteFrame { s with mapId := n, inode := { s.itable n with
        fileSize := (size % (U32 : Int)).toNat,
        dataBlocks := (size % (U32 : Int)).toNat / bs } } s3 := by
  unfold fs_write_to_file
  rw [open_inode_eq s n hn hf]
  dsimp only
  simp only [Bool.not_true, Bool.false_eq_true, if_false]
  refine ⟨_, rfl, ?_⟩
  refine (write_to_file_direct_frame bs buf
    (List.range (countDirect bs INODE_DIRECT_PTRS size 0).2) 0 _).trans_w ?_
  split
  · split
    · exact write_using_triple_frame _ _ _ _ _ _
    · split
      · exact write_using_double_frame _ _ _ _ _ _
      · exact write_using_single_frame _ _ _ _ _
  · exact WriteFrame.refl_w _

/-- The size fields after a write: after fs_write_to_file of size bytes to an
inode that opens, the persisted record has fileSize = size mod 2^32 and
dataBlocks = fileSize / BLOCK_SIZE rounded down; fileSize = dataBlocks *
BLOCK_SIZE holds exactly when BLOCK_SIZE divides that fileSize. -/
theorem fs_write_to_file_size (bs : Nat) (wide : Bool) (s : FsState) (n : Nat)
    (buf : Nat → Nat) (size : Int) (hn : n ≠ NIL)
    (hf : 0 < (s.itable n).fileType) :
    ((fs_write_to_file bs wide s n buf size).2.itable n).fileSize = (size % (U32 : Int)).toNat ∧
    ((fs_write_to_file bs wide s n buf size).2.itable n).dataBlocks
      = (size % (U32 : Int)).toNat / bs ∧
    (((fs_write_to_file bs wide s n buf size).2.itable n).fileSize
        = ((fs_write_to_file bs wide s n buf size).2.itable n).dataBlocks * bs ↔
      (size % (U32 : Int)).toNat % bs = 0) := by
  obtain ⟨s3, he, hw⟩ := fs_write_to_file_frame bs wide s n buf size hn hf
  obtain ⟨-, h2, h3, -⟩ := hw
  have e1 : ((fs_write_to_file bs wide s n buf size).2.itable n).fileSize
      = (size % (U32 : Int)).toNat := by
    rw [he]; simp only [inode_write, if_true]; exact h2
  have e2 : ((fs_write_to_file bs wide s n buf size).2.itable n).dataBlocks
      = (size % (U32 : Int)).toNat / bs := by
    rw [he]; simp only [inode_write, if_true]; exact h3
  refine ⟨e1, e2, ?_⟩
  rw [e1, e2]
  constructor
  · intro h
    rw [h]
    exact Nat.mul_mod_left _ _
  · intro h
    exact (Nat.div_mul_cancel (Nat.dvd_of_mod_eq_zero h)).symm

set_option maxRecDepth 1000000 in
/-- Instance of fs_write_to_file_size: 100 bytes written to file 3 of
newFileState on 64-byte blocks; 100 is not a multiple of 64. -/
theorem fs_write_to_file_size_witness :
    ((fs_write_to_file 64 false (newFileState 12) 3 (fun k => k + 1) 100).2.itable 3).dataBlocks
      = 1 ∧
    ¬ (((fs_write_to_file 64 false (newFileState 12) 3 (fun k => k + 1) 100).2.itable 3).fileSize
      = ((fs_write_to_file 64 false (newFileState 12) 3 (fun k => k + 1) 100).2.itable 3).dataBlocks
        * 64) :=
  have h := fs_write_to_file_size 64 false (newFileState 12) 3 (fun k => k + 1) 100
    (by decide) (by decide)
  ⟨h.2.1.trans (by decide), fun e => absurd (h.2.2.mp e) (by decide)⟩

/-! ### Insertion: what it leaves as it is -/

theorem InsFrame.refl_i (p : Nat) (s : FsState) : InsFrame p s s :=
  ⟨fun _ _ => rfl, rfl, rfl, rfl, rfl⟩

theorem InsFrame.trans_i {p : Nat} {s r t : FsState} (h1 : InsFrame p s r) (h2 : InsFrame p r t) :
    InsFrame p s t := by
  obtain ⟨a1, a2, a3, a4, a5⟩ := h1
  obtain ⟨b1, b2, b3, b4, b5⟩ := h2
  exact ⟨fun k hk => (b1 k hk).trans (a1 k hk), b2.trans a2, b3.trans a3, b4.trans a4,
    b5.trans a5⟩

theorem InsFrame.write_i {p : Nat} {s r : FsState} (h : InsFrame p s r) :
    InsFrame p s (inode_write r p) := by
  obtain ⟨a1, a2, a3, a4, a5⟩ := h
  refine ⟨fun k hk => ?_, a2, a3, a4, a5⟩
  show (if k = p then _ else r.itable k) = _
  rw [if_neg hk]
  exact a1 k hk

theorem AlocFrame.toIns {s r : FsState} (h : AlocFrame s r) (p : Nat) : InsFrame p s r := by
  obtain ⟨-, a2, -, a4, a5, a6, a7⟩ := h
  exact ⟨fun k _ => by rw [a2], a5, a4, a6, a7⟩

theorem avail_direct_loop_ins (bs : Nat) (p f : Nat) (name : Nat × Nat) (l : List Nat) :
    ∀ s : FsState, InsFrame p s (create_file_in_avail_direct_loop bs f name l s).2 := by
  induction l with
  | nil => intro s; exact InsFrame.refl_i p s
  | cons i is ih =>
    intro s
    unfold create_file_in_avail_direct_loop
    dsimp only
    split
    · split
      · exact InsFrame.refl_i p s
      · exact ih s
    · exact ih s

theorem no_alloc_loop_ins (bs : Nat) (p : Nat) (ib : Nat → Nat) (f : Nat) (name : Nat × Nat)
    (l : List Nat) :
    ∀ s : FsState, InsFrame p s (add_file_to_single_indirect_no_alloc_loop bs ib f name l s).2 := by
  induction l with
  | nil => intro s; exact InsFrame.refl_i p s
  | cons i is ih =>
    intro s
    unfold add_file_to_single_indirect_no_alloc_loop
    dsimp only
    split
    · split
      · exact InsFrame.refl_i p s
      · exact ih s
    · exact ih s

theorem add_single_ins (bs : Nat) (p : Nat) (s : FsState) (f : Nat) (name : Nat × Nat)
    (off : Nat) (al : Bool) :
    InsFrame p s (add_file_to_single_indirect bs s f name off al).2 := by
  unfold add_file_to_single_indirect
  dsimp only
  split
  · exact no_alloc_loop_ins bs p _ f name _ s
  · split
    · exact InsFrame.refl_i p s
    · split
      · exact (ssm_allocate_frame s).toIns p
      · exact (ssm_allocate_frame s).toIns p

theorem add_double_scan_ins (bs : Nat) (p f : Nat) (name : Nat × Nat) (al : Bool)
    (ib : Nat → Nat) (l : List Nat) :
    ∀ s : FsState, InsFrame p s (add_double_scan bs f name al ib l s).2 := by
  induction l with
  | nil => intro s; exact InsFrame.refl_i p s
  | cons i is ih =>
    intro s
    unfold add_double_scan
    dsimp only
    split
    · split
      · exact add_single_ins bs p s f name _ al
      · exact (add_single_ins bs p s f name _ al).trans_i (ih _)
    · exact ih s

theorem add_double_grow_ins (bs : Nat) (p f : Nat) (name : Nat × Nat) (al : Bool) (off : Nat)
    (l : List Nat) :
    ∀ (ib : Nat → Nat) (s : FsState), InsFrame p s (add_double_grow bs f name al off l ib s).2 := by
  induction l with
  | nil => intro ib s; exact InsFrame.refl_i p s
  | cons i is ih =>
    intro ib s
    unfold add_double_grow
    dsimp only
    split
    · split
      · exact (ssm_allocate_frame s).toIns p
      · have h1 : InsFrame p s { (ssm_allocate_sectors s).2 with
            disk := writeBlock bs (writeBlock bs (ssm_allocate_sectors s).2.disk off
              (bufSet ib i (ssm_allocate_sectors s).1)) (ssm_allocate_sectors s).1
              (fun _ => NIL) } := (ssm_allocate_frame s).toIns p
        split
        · exact h1.trans_i (add_single_ins bs p _ f name _ al)
        · exact (h1.trans_i (add_single_ins bs p _ f name _ al)).trans_i (ih _ _)
    · exact ih _ s

theorem add_double_ins (bs : Nat) (p : Nat) (s : FsState) (f : Nat) (name : Nat × Nat)
    (off : Nat) (al : Bool) :
    InsFrame p s (add_file_to_double_indirect bs s f name off al).2 := by
  unfold add_file_to_double_indirect
  dsimp only
  split
  · exact add_double_scan_ins bs p f name al _ _ s
  · split
    · exact (add_double_scan_ins bs p f name al _ _ s).trans_i
        (add_double_grow_ins bs p f name al off _ _ _)
    · exact add_double_scan_ins bs p f name al _ _ s

theorem add_triple_scan_ins (bs : Nat) (p f : Nat) (name : Nat × Nat) (al : Bool)
    (ib : Nat → Nat) (l : List Nat) :
    ∀ s : FsState, InsFrame p s (add_triple_scan bs f name al ib l s).2 := by
  induction l with
  | nil => intro s; exact InsFrame.refl_i p s
  | cons i is ih =>
    intro s
    unfold add_triple_scan
    dsimp only
    split
    · split
      · exact add_double_ins bs p s f name _ al
      · exact (add_double_ins bs p s f name _ al).trans_i (ih _)
    · exact ih s

theorem add_triple_grow_ins (bs : Nat) (p f : Nat) (name : Nat × Nat) (al : Bool) (off : Nat)
    (l : List Nat) :
    ∀ (ib : Nat → Nat) (s : FsState), InsFrame p s (add_triple_grow bs f name al off l ib s).2 := by
  induction l with
  | nil => intro ib s; exact InsFrame.refl_i p s
  | cons i is ih =>
    intro ib s
    unfold add_triple_grow
    dsimp only
    split
    · split
      · exact (ssm_allocate_frame s).toIns p
      · have h1 : InsFrame p s { (ssm_allocate_sectors s).2 with
            disk := writeBlock bs (writeBlock bs (ssm_allocate_sectors s).2.disk off
              (bufSet ib i (ssm_allocate_sectors s).1)) (ssm_allocate_sectors s).1
              (fun _ => NIL) } := (ssm_allocate_frame s).toIns p
        split
        · exact h1.trans_i (add_double_ins bs p _ f name _ al)
        · exact (h1.trans_i (add_double_ins bs p _ f name _ al)).trans_i (ih _ _)
    · exact ih _ s

theorem add_triple_ins (bs : Nat) (p : Nat) (s : FsState) (f : Nat) (name : Nat × Nat)
    (off : Nat) (al : Bool) :
    InsFrame p s (add_file_to_triple_indirect bs s f name off al).2 := by
  unfold add_file_to_triple_indirect
  dsimp only
  split
  · exact add_triple_scan_ins bs p f name al _ _ s
  · split
    · exact (add_triple_scan_ins bs p f name al _ _ s).trans_i
        (add_triple_grow_ins bs p f name al off _ _ _)
    · exact add_triple_scan_ins bs p f name al _ _ s

theorem avail_indirect_ins (bs : Nat) (p : Nat) (s : FsState) (f : Nat) (name : Nat × Nat)
    (al : Bool) : InsFrame p s (create_file_in_avail_indirect_loc bs s f name al).2 := by
  have h1 : InsFrame p s (if is_not_null s.inode.sIndirect then
      add_file_to_single_indirect bs s f name s.inode.sIndirect al else (false, s)).2 := by
    split
    · exact add_single_ins bs p s f name _ al
    · exact InsFrame.refl_i p s
  have h2 : ∀ t : FsState, InsFrame p t (if is_not_null t.inode.dIndirect then
      add_file_to_double_indirect bs t f name t.inode.dIndirect al else (false, t)).2 := by
    intro t
    split
    · exact add_double_ins bs p t f name _ al
    · exact InsFrame.refl_i p t
  have h3 : ∀ t : FsState, InsFrame p t (if is_not_null t.inode.tIndirect then
      add_file_to_triple_indirect bs t f name t.inode.tIndirect al else (false, t)).2 := by
    intro t
    split
    · exact add_triple_ins bs p t f name _ al
    · exact InsFrame.refl_i p t
  unfold create_file_in_avail_indirect_loc
  dsimp only
  generalize (if is_not_null s.inode.sIndirect = true then
    add_file_to_single_indirect bs s f name s.inode.sIndirect al else (false, s)) = r1 at h1 ⊢
  have h2' := h2 r1.2
  generalize (if is_not_null r1.2.inode.dIndirect = true then
    add_file_to_double_indirect bs r1.2 f name r1.2.inode.dIndirect al else (false, r1.2)) = r2
    at h2' ⊢
  have h3' := h3 r2.2
  generalize (if is_not_null r2.2.inode.tIndirect = true then
    add_file_to_triple_indirect bs r2.2 f name r2.2.inode.tIndirect al else (false, r2.2)) = r3
    at h3' ⊢
  by_cases c1 : r1.1 = true
  · simp only [c1, if_true]; exact h1
  · by_cases c2 : r2.1 = true
    · simp only [c1, c2, if_true, if_false]; exact h1.trans_i h2'
    · by_cases c3 : r3.1 = true
      · simp only [c1, c2, c3, if_true, if_false]; exact (h1.trans_i h2').trans_i h3'
      · simp only [c1, c2, c3, if_false]; exact (h1.trans_i h2').trans_i h3'

theorem unavail_indirect_ins (bs : Nat) (p : Nat) (s : FsState) (t : PointerType) (f : Nat)
    (name : Nat × Nat) : InsFrame p s (create_file_in_unavail_indirect_loc bs s t f name p).2 := by
  unfold create_file_in_unavail_indirect_loc
  dsimp only
  split
  · split
    · exact (ssm_allocate_frame s).toIns p
    · have h1 : InsFrame p s (inode_write { (ssm_allocate_sectors s).2 with
          inode := setIndirect t (ssm_allocate_sectors s).2.inode (ssm_allocate_sectors s).1,
          disk := writeBlock bs (ssm_allocate_sectors s).2.disk (ssm_allocate_sectors s).1
            (fun _ => NIL) } p) :=
        InsFrame.write_i (r := { (ssm_allocate_sectors s).2 with
          inode := setIndirect t (ssm_allocate_sectors s).2.inode (ssm_allocate_sectors s).1,
          disk := writeBlock bs (ssm_allocate_sectors s).2.disk (ssm_allocate_sectors s).1
            (fun _ => NIL) }) ((ssm_allocate_frame s).toIns p)
      cases t
      · dsimp only
        split
        · exact h1.trans_i (add_single_ins bs p _ f name _ true)
        · exact h1.trans_i (add_single_ins bs p _ f name _ true)
      · dsimp only
        split
        · exact h1.trans_i (add_double_ins bs p _ f name _ true)
        · exact h1.trans_i (add_double_ins bs p _ f name _ true)
      · dsimp only
        split
        · exact h1.trans_i (add_triple_ins bs p _ f name _ true)
        · exact h1.trans_i (add_triple_ins bs p _ f name _ true)
  · exact InsFrame.refl_i p s

theorem unavail_direct_ins (bs : Nat) (p : Nat) (s : FsState) (f : Nat) (name : Nat × Nat) :
    InsFrame p s (create_file_in_unavail_direct_loc bs s f p name).2 := by
  unfold create_file_in_unavail_direct_loc
  split
  · exact InsFrame.refl_i p s
  · dsimp only
    split
    · exact (ssm_allocate_frame s).toIns p
    · exact InsFrame.write_i (r := { (ssm_allocate_sectors s).2 with
        inode := _, disk := _ }) ((ssm_allocate_frame s).toIns p)

theorem open_inode_ins (p : Nat) (s : FsState) (n : Nat) : InsFrame p s (open_inode s n).2 := by
  simp only [open_inode, fs_open_file]
  split_ifs <;> exact ⟨fun _ _ => rfl, rfl, rfl, rfl, rfl⟩

theorem create_file_ins (bs : Nat) (s : FsState) (f : Nat) (name : Nat × Nat) (p : Nat) :
    InsFrame p s (create_file bs s f name p).2 := by
  unfold create_file
  lift_lets
  intro o a1 a2 a3 a4 a5 a6 a7 a8
  have h0 : InsFrame p s o.2 := open_inode_ins p s p
  have h1 : InsFrame p s a1.2 :=
    h0.trans_i (avail_direct_loop_ins bs p f name (List.range INODE_DIRECT_PTRS) _)
  have h2 : InsFrame p s a2.2 := h1.trans_i (avail_indirect_ins bs p _ f name false)
  have h3 : InsFrame p s a3.2 := h2.trans_i (unavail_direct_ins bs p _ f name)
  have h4 : InsFrame p s a4.2 := h3.trans_i (avail_indirect_ins bs p _ f name false)
  have h5 : InsFrame p s a5.2 := h4.trans_i (avail_indirect_ins bs p _ f name true)
  have h6 : InsFrame p s a6.2 := h5.trans_i (unavail_indirect_ins bs p _ .SINGLE f name)
  have h7 : InsFrame p s a7.2 := h6.trans_i (unavail_indirect_ins bs p _ .DOUBLE f name)
  have h8 : InsFrame p s a8.2 := h7.trans_i (unavail_indirect_ins bs p _ .TRIPLE f name)
  clear_value o a1 a2 a3 a4 a5 a6 a7 a8
  split_ifs <;> assumption

theorem get_inode_freed (s : FsState) :
    (get_inode s).ssmFreed = s.ssmFreed ∧ (get_inode s).itable = s.itable ∧
    (get_inode s).ssmOut = s.ssmOut ∧ (get_inode s).iMap = s.iMap := by
  simp only [get_inode]
  split <;> exact ⟨rfl, rfl, rfl, rfl⟩

theorem avail_direct_loop_none (bs f : Nat) (name : Nat × Nat) (l : List Nat) (s : FsState)
    (h : ∀ i ∈ l, is_not_null (s.inode.directPtr.getD i NIL) = true →
      freeSlot bs (readBlock s.disk (s.inode.directPtr.getD i NIL)) = none) :
    create_file_in_avail_direct_loop bs f name l s = (false, s) := by
  induction l with
  | nil => rfl
  | cons i is ih =>
    have ih' := ih (fun j hj => h j (List.mem_cons_of_mem _ hj))
    unfold create_file_in_avail_direct_loop
    by_cases hc : is_not_null (s.inode.directPtr.getD i NIL) = true
    · simp only [hc, if_true, h i (List.mem_cons_self _ _) hc]
      exact ih'
    · simp only [hc, if_false]
      exact ih'

theorem no_alloc_loop_none (bs : Nat) (ib : Nat → Nat) (f : Nat) (name : Nat × Nat)
    (l : List Nat) (s : FsState)
    (h : ∀ i ∈ l, is_not_null (ib i) = true → freeSlot bs (readBlock s.disk (ib i)) = none) :
    add_file_to_single_indirect_no_alloc_loop bs ib f name l s = (false, s) := by
  induction l with
  | nil => rfl
  | cons i is ih =>
    have ih' := ih (fun j hj => h j (List.mem_cons_of_mem _ hj))
    unfold add_file_to_single_indirect_no_alloc_loop
    by_cases hc : is_not_null (ib i) = true
    · simp only [hc, if_true, h i (List.mem_cons_self _ _) hc]
      exact ih'
    · simp only [hc, if_false]
      exact ih'

theorem mem_liveSlots_of (bs : Nat) (d : Nat → Nat) (off i : Nat) (hi : i ∈ List.range (bs / 4))
    (hne : is_not_null (readBlock d off i) = true) : readBlock d off i ∈ liveSlots bs d off := by
  simp only [liveSlots, List.mem_filter, List.mem_map]
  exact ⟨⟨i, hi, rfl⟩, hne⟩

theorem add_single_none (bs : Nat) (s : FsState) (f : Nat) (name : Nat × Nat) (off : Nat)
    (h : ∀ b ∈ singleData bs s.disk off, freeSlot bs (readBlock s.disk b) = none) :
    add_file_to_single_indirect bs s f name off false = (false, s) := by
  unfold add_file_to_single_indirect add_file_to_single_indirect_no_alloc
  simp only [if_true]
  rw [no_alloc_loop_none]
  intro i hi hne
  exact h _ (mem_liveSlots_of bs s.disk off i hi hne)

theorem add_double_scan_none (bs f : Nat) (name : Nat × Nat) (ib : Nat → Nat) (l : List Nat)
    (s : FsState)
    (h : ∀ i ∈ l, is_not_null (ib i) = true →
      ∀ b ∈ singleData bs s.disk (ib i), freeSlot bs (readBlock s.disk b) = none) :
    add_double_scan bs f name false ib l s = (false, s) := by
  induction l with
  | nil => rfl
  | cons i is ih =>
    have ih' := ih (fun j hj => h j (List.mem_cons_of_mem _ hj))
    unfold add_double_scan
    by_cases hc : is_not_null (ib i) = true
    · simp only [hc, if_true, add_single_none bs s f name (ib i) (h i (List.mem_cons_self _ _) hc),
        Bool.false_eq_true, if_false]
      exact ih'
    · simp only [hc, if_false]
      exact ih'

theorem add_double_none (bs : Nat) (s : FsState) (f : Nat) (name : Nat × Nat) (off : Nat)
    (h : ∀ b ∈ doubleData bs s.disk off, freeSlot bs (readBlock s.disk b) = none) :
    add_file_to_double_indirect bs s f name off false = (false, s) := by
  unfold add_file_to_double_indirect
  have e : add_double_scan bs f name false (readBlock s.disk off) (List.range (bs / 4)) s
      = (false, s) := by
    apply add_double_scan_none
    intro i hi hne b hb
    apply h
    simp only [doubleData, List.mem_flatMap]
    exact ⟨_, mem_liveSlots_of bs s.disk off i hi hne, hb⟩
  simp only [e, Bool.false_eq_true, if_false]

theorem add_triple_scan_none (bs f : Nat) (name : Nat × Nat) (ib : Nat → Nat) (l : List Nat)
    (s : FsState)
    (h : ∀ i ∈ l, is_not_null (ib i) = true →
      ∀ b ∈ doubleData bs s.disk (ib i), freeSlot bs (readBlock s.disk b) = none) :
    add_triple_scan bs f name false ib l s = (false, s) := by
  induction l with
  | nil => rfl
  | cons i is ih =>
    have ih' := ih (fun j hj => h j (List.mem_cons_of_mem _ hj))
    unfold add_triple_scan
    by_cases hc : is_not_null (ib i) = true
    · simp only [hc, if_true, add_double_none bs s f name (ib i) (h i (List.mem_cons_self _ _) hc),
        Bool.false_eq_true, if_false]
      exact ih'
    · simp only [hc, if_false]
      exact ih'

theorem add_triple_none (bs : Nat) (s : FsState) (f : Nat) (name : Nat × Nat) (off : Nat)
    (h : ∀ b ∈ tripleData bs s.disk off, freeSlot bs (readBlock s.disk b) = none) :
    add_file_to_triple_indirect bs s f name off false = (false, s) := by
  unfold add_file_to_triple_indirect
  have e : add_triple_scan bs f name false (readBlock s.disk off) (List.range (bs / 4)) s
      = (false, s) := by
    apply add_triple_scan_none
    intro i hi hne b hb
    apply h
    simp only [tripleData, List.mem_flatMap]
    exact ⟨_, mem_liveSlots_of bs s.disk off i hi hne, hb⟩
  simp only [e, Bool.false_eq_true, if_false]

theorem avail_indirect_none (bs : Nat) (s : FsState) (f : Nat) (name : Nat × Nat)
    (h : ∀ b ∈ dataBlocksOf bs s.disk s.inode, freeSlot bs (readBlock s.disk b) = none) :
    create_file_in_avail_indirect_loc bs s f name false = (false, s) := by
  have e1 : (if is_not_null s.inode.sIndirect = true then
      add_file_to_single_indirect bs s f name s.inode.sIndirect false else (false, s))
      = (false, s) := by
    split
    · rename_i hc
      exact add_single_none bs s f name _
        (fun b hb => h b (mem_dataBlocksOf_s bs s.disk s.inode hc b hb))
    · rfl
  have e2 : (if is_not_null s.inode.dIndirect = true then
      add_file_to_double_indirect bs s f name s.inode.dIndirect false else (false, s))
      = (false, s) := by
    split
    · rename_i hc
      exact add_double_none bs s f name _
        (fun b hb => h b (mem_dataBlocksOf_d bs s.disk s.inode hc b hb))
    · rfl
  have e3 : (if is_not_null s.inode.tIndirect = true then
      add_file_to_triple_indirect bs s f name s.inode.tIndirect false else (false, s))
      = (false, s) := by
    split
    · rename_i hc
      exact add_triple_none bs s f name _
        (fun b hb => h b (mem_dataBlocksOf_t bs s.disk s.inode hc b hb))
    · rfl
  unfold create_file_in_avail_indirect_loc
  simp only [e1, e2, e3, Bool.false_eq_true, if_false]

theorem mem_dataBlocksOf_direct (bs : Nat) (d : Nat → Nat) (ino : Inode) (i : Nat)
    (hi : i ∈ List.range INODE_DIRECT_PTRS) (hne : is_not_null (ino.directPtr.getD i NIL) = true) :
    ino.directPtr.getD i NIL ∈ dataBlocksOf bs d ino := by
  simp only [dataBlocksOf, List.mem_append]
  refine Or.inl (Or.inl (Or.inl ?_))
  simp only [liveDirect, List.mem_filter, List.mem_map]
  exact ⟨⟨i, hi, rfl⟩, hne⟩

/-- C12 (as amended): let the parent p open, let no data block reachable from
it have a free slot, let i be the first direct pointer that is NIL and let the
Sector Space Manager answer x, not NIL.  Then create_file returns True, takes
that one answer, writes a zero-filled block at x whose slot 0 is the entry
(name, f, 1), and persists the inode of p with directPtr[i] = x, linkCount + 1
and fileSize + BLOCK_SIZE (both modulo 2^32) and with dataBlocks recomputed as
the new fileSize / BLOCK_SIZE; that is dataBlocks + 1 when the record had
fileSize = dataBlocks * BLOCK_SIZE and the sum does not wrap.  No other inode
record changes. -/
theorem create_file_new_direct_block (bs : Nat) (s : FsState) (f : Nat) (name : Nat × Nat)
    (p i x : Nat) (rest : List Nat) (hp : p ≠ NIL) (hty : 0 < (s.itable p).fileType)
    (hfull : ∀ b ∈ dataBlocksOf bs s.disk (s.itable p), freeSlot bs (readBlock s.disk b) = none)
    (hi : (List.range INODE_DIRECT_PTRS).find?
      (fun i => is_null ((s.itable p).directPtr.getD i NIL)) = some i)
    (hx : s.ssmOut = x :: rest) (hxn : x ≠ NIL) :
    (create_file bs s f name p).1 = true ∧
    (create_file bs s f name p).2.ssmOut = rest ∧
    (create_file bs s f name p).2.disk = writeBlock bs s.disk x (firstEntry name f) ∧
    (create_file bs s f name p).2.itable p = grownInode bs (s.itable p) i x ∧
    (0 < bs → (s.itable p).fileSize = (s.itable p).dataBlocks * bs →
      (s.itable p).fileSize + bs < U32 →
      ((create_file bs s f name p).2.itable p).dataBlocks = (s.itable p).dataBlocks + 1) ∧
    (∀ k, k ≠ p → (create_file bs s f name p).2.itable k = s.itable k) := by
  let S1 : FsState :=
    { s with
      mapId := p, ssmOut := rest, inode := grownInode bs (s.itable p) i x,
      disk := writeBlock bs s.disk x (firstEntry name f) }
  have key : create_file bs s f name p = (true, (fs_close_file (inode_write (S1 : FsState) p)).2) := by
    unfold create_file
    rw [open_inode_eq s p hp hty]
    have e1 : create_file_in_avail_direct_loc bs { s with mapId := p, inode := s.itable p } f name
        = (false, { s with mapId := p, inode := s.itable p }) := by
      unfold create_file_in_avail_direct_loc
      apply avail_direct_loop_none
      intro j hj hne
      exact hfull _ (mem_dataBlocksOf_direct bs s.disk (s.itable p) j hj hne)
    have e2 : create_file_in_avail_indirect_loc bs { s with mapId := p, inode := s.itable p }
        f name false = (false, { s with mapId := p, inode := s.itable p }) :=
      avail_indirect_none bs _ f name hfull
    have hxn' : is_null x = false := by simpa [is_null] using hxn
    have e3 : create_file_in_unavail_direct_loc bs { s with mapId := p, inode := s.itable p }
        f p name = (true, (fs_close_file (inode_write (S1 : FsState) p)).2) := by
      unfold create_file_in_unavail_direct_loc
      simp only [hi, ssm_allocate_sectors, hx, hxn', Bool.false_eq_true, if_false]
      rfl
    simp only [Bool.not_true, Bool.false_eq_true, if_false, e1, e2, e3, if_true]
  rw [key]
  refine ⟨rfl, rfl, rfl, ?_, ?_, ?_⟩
  · simp [fs_close_file, inode_write, S1]
  · intro hbs hsz hlt
    simp only [fs_close_file, inode_write, if_true, S1, grownInode]
    rw [Nat.mod_eq_of_lt hlt, hsz]
    rw [show (s.itable p).dataBlocks * bs + bs = ((s.itable p).dataBlocks + 1) * bs by ring]
    exact Nat.mul_div_cancel _ hbs
  · intro k hk
    simp [fs_close_file, inode_write, hk, S1]

set_option maxRecDepth 1000000 in
/-- Instance of create_file_new_direct_block: the root of shrunkState, whose
record has fileSize 128 and dataBlocks 1; the new record has dataBlocks
192 / 64 = 3. -/
theorem create_file_new_direct_block_witness :
    ((create_file 64 shrunkState 5 (100, 0) 2).2.itable 2).dataBlocks = 3 ∧
    (create_file 64 shrunkState 5 (100, 0) 2).2.ssmOut = [2368] :=
  have h := create_file_new_direct_block 64 shrunkState 5 (100, 0) 2 1 2304 [2368]
    (by decide) (by decide) (by decide) (by decide) (by decide) (by decide)
  ⟨(congrArg Inode.dataBlocks h.2.2.2.1).trans (by decide), h.2.1⟩

/-! ### Insertion: the blocks it writes -/

theorem Away.mono_away {bs : Nat} {Pr Pr' : List Nat} {b : Nat} (h : Away bs Pr b)
    (hs : ∀ q ∈ Pr', q ∈ Pr) : Away bs Pr' b :=
  ⟨h.1, fun hb => h.2 (hs b hb)⟩

theorem SsmAway.mono_ssm {bs : Nat} {Pr Pr' L L' : List Nat} (h : SsmAway bs Pr L)
    (hs : ∀ q ∈ Pr', q ∈ Pr) (hl : ∀ a ∈ L', a ∈ L) : SsmAway bs Pr' L' :=
  fun a ha hn => (h a (hl a ha) hn).mono_away hs

theorem AgreeOn.refl_on (bs : Nat) (d : Nat → Nat) (xs : List Nat) : AgreeOn bs d d xs :=
  fun _ _ _ _ => rfl

theorem AgreeOn.trans_on {bs : Nat} {d d' d'' : Nat → Nat} {xs : List Nat}
    (h1 : AgreeOn bs d d' xs) (h2 : AgreeOn bs d' d'' xs) : AgreeOn bs d d'' xs :=
  fun x hx i hi => (h2 x hx i hi).trans (h1 x hx i hi)

theorem AgreeOn.mono_on {bs : Nat} {d d' : Nat → Nat} {xs ys : List Nat}
    (h : AgreeOn bs d d' xs) (hs : ∀ y ∈ ys, y ∈ xs) : AgreeOn bs d d' ys :=
  fun y hy i hi => h y (hs y hy) i hi

theorem agree_write (bs : Nat) (Pr : List Nat) (d : Nat → Nat) (b : Nat) (buf : Nat → Nat)
    (hPr : ∀ q ∈ Pr, q % bs = 0) (hb : Away bs Pr b) :
    AgreeOn bs d (writeBlock bs d b buf) Pr := by
  intro q hq i hi
  apply writeBlock_outside
  have hne : q ≠ b := fun e => hb.2 (e ▸ hq)
  rcases aligned_disjoint bs q b (hPr q hq) hb.1 hne with h | h
  · left
    have : 4 * i < bs := by omega
    omega
  · right
    omega

theorem Touch.refl_t (bs : Nat) (Pr : List Nat) (s : FsState) : Touch bs Pr s s :=
  ⟨AgreeOn.refl_on bs s.disk Pr, fun _ h => h⟩

theorem Touch.trans_t {bs : Nat} {Pr : List Nat} {s r t : FsState} (h1 : Touch bs Pr s r)
    (h2 : Touch bs Pr r t) : Touch bs Pr s t :=
  ⟨h1.1.trans_on h2.1, fun a ha => h1.2 a (h2.2 a ha)⟩

theorem Touch.mono_t {bs : Nat} {Pr Pr' : List Nat} {s r : FsState} (h : Touch bs Pr s r)
    (hs : ∀ q ∈ Pr', q ∈ Pr) : Touch bs Pr' s r :=
  ⟨h.1.mono_on hs, h.2⟩

theorem SameOrInit.refl_s (s : FsState) : SameOrInit s s := Or.inl rfl

theorem SameOrInit.trans_s {s r t : FsState} (h1 : SameOrInit s r) (h2 : SameOrInit r t) :
    SameOrInit s t := by
  rcases h2 with h2 | h2
  · rcases h1 with h1 | h1
    · exact Or.inl (h2.trans h1)
    · exact Or.inr (h2.trans h1)
  · exact Or.inr h2

theorem ssm_allocate_touch (bs : Nat) (Pr : List Nat) (s : FsState) :
    Touch bs Pr s (ssm_allocate_sectors s).2 ∧
    (ssm_allocate_sectors s).2.disk = s.disk ∧
    (ssm_allocate_sectors s).2.inode = s.inode ∧
    ((ssm_allocate_sectors s).1 ≠ NIL → (ssm_allocate_sectors s).1 ∈ s.ssmOut) := by
  unfold ssm_allocate_sectors
  split
  · exact ⟨Touch.refl_t bs Pr s, rfl, rfl, fun h => absurd rfl h⟩
  · rename_i x xs hx
    refine ⟨⟨AgreeOn.refl_on bs s.disk Pr, fun a ha => ?_⟩, rfl, rfl, fun _ => ?_⟩
    · rw [hx]; exact List.mem_cons_of_mem _ ha
    · rw [hx]; exact List.mem_cons_self _ _

/-- A scan of the direct blocks that finds no free slot leaves the state as it
is. -/
theorem avail_direct_loop_false (bs f : Nat) (name : Nat × Nat) (l : List Nat) (s : FsState)
    (h : (create_file_in_avail_direct_loop bs f name l s).1 = false) :
    create_file_in_avail_direct_loop bs f name l s = (false, s) := by
  induction l with
  | nil => rfl
  | cons i is ih =>
    unfold create_file_in_avail_direct_loop at h ⊢
    by_cases hc : is_not_null (s.inode.directPtr.getD i NIL) = true
    · simp only [hc, if_true] at h ⊢
      cases hf : freeSlot bs (readBlock s.disk (s.inode.directPtr.getD i NIL)) with
      | none =>
        simp only [hf] at h ⊢
        exact ih h
      | some j =>
        simp only [hf] at h
        exact absurd h (by simp)
    · simp only [hc, if_false] at h ⊢
      exact ih h

theorem avail_direct_loop_touch (bs : Nat) (Pr : List Nat) (f : Nat) (name : Nat × Nat)
    (hPr : ∀ q ∈ Pr, q % bs = 0) (l : List Nat) (s : FsState)
    (h : ∀ i ∈ l, is_not_null (s.inode.directPtr.getD i NIL) = true →
      Away bs Pr (s.inode.directPtr.getD i NIL)) :
    Touch bs Pr s (create_file_in_avail_direct_loop bs f name l s).2 := by
  induction l with
  | nil => exact Touch.refl_t bs Pr s
  | cons i is ih =>
    have ih' := ih (fun j hj => h j (List.mem_cons_of_mem _ hj))
    unfold create_file_in_avail_direct_loop
    by_cases hc : is_not_null (s.inode.directPtr.getD i NIL) = true
    · simp only [hc, if_true]
      cases hf : freeSlot bs (readBlock s.disk (s.inode.directPtr.getD i NIL)) with
      | none => exact ih'
      | some j =>
        exact ⟨agree_write bs Pr s.disk _ _ hPr (h i (List.mem_cons_self _ _) hc), fun _ ha => ha⟩
    · simp only [hc, if_false]
      exact ih'

theorem no_alloc_loop_touch (bs : Nat) (Pr : List Nat) (ib : Nat → Nat) (f : Nat)
    (name : Nat × Nat) (hPr : ∀ q ∈ Pr, q % bs = 0) (l : List Nat) (s : FsState)
    (h : ∀ i ∈ l, is_not_null (ib i) = true → Away bs Pr (ib i)) :
    Touch bs Pr s (add_file_to_single_indirect_no_alloc_loop bs ib f name l s).2 ∧
    SameOrInit s (add_file_to_single_indirect_no_alloc_loop bs ib f name l s).2 := by
  induction l with
  | nil => exact ⟨Touch.refl_t bs Pr s, SameOrInit.refl_s s⟩
  | cons i is ih =>
    have ih' := ih (fun j hj => h j (List.mem_cons_of_mem _ hj))
    unfold add_file_to_single_indirect_no_alloc_loop
    by_cases hc : is_not_null (ib i) = true
    · simp only [hc, if_true]
      cases hf : freeSlot bs (readBlock s.disk (ib i)) with
      | none => exact ih'
      | some j =>
        exact ⟨⟨agree_write bs Pr s.disk _ _ hPr (h i (List.mem_cons_self _ _) hc),
          fun _ ha => ha⟩, Or.inr rfl⟩
    · simp only [hc, if_false]
      exact ih'

/-- add_file_to_single_indirect without allocation writes into data blocks
listed in the index block only. -/
theorem add_single_scan_touch (bs : Nat) (Pr : List Nat) (s : FsState) (f : Nat)
    (name : Nat × Nat) (off : Nat) (hPr : ∀ q ∈ Pr, q % bs = 0)
    (hD : ∀ b ∈ liveSlots bs s.disk off, Away bs Pr b) :
    (add_file_to_single_indirect bs s f name off false).1 = false ∧
    Touch bs Pr s (add_file_to_single_indirect bs s f name off false).2 ∧
    SameOrInit s (add_file_to_single_indirect bs s f name off false).2 := by
  unfold add_file_to_single_indirect add_file_to_single_indirect_no_alloc
  simp only [if_true]
  refine ⟨trivial, ?_⟩
  apply no_alloc_loop_touch bs Pr _ f name hPr
  intro i hi hne
  exact hD _ (mem_liveSlots_of bs s.disk off i hi hne)

theorem liveSlots_agree (bs : Nat) (Pr : List Nat) (d0 d : Nat → Nat) (off : Nat)
    (hag : AgreeOn bs d0 d Pr) (hoff : off ∈ Pr) : liveSlots bs d off = liveSlots bs d0 off :=
  liveSlots_congr bs d0 d off (hag off hoff)

theorem add_single_scan_touch' (bs : Nat) (Pr : List Nat) (d0 : Nat → Nat) (s : FsState)
    (f : Nat) (name : Nat × Nat) (off : Nat) (hPr : ∀ q ∈ Pr, q % bs = 0)
    (hag : AgreeOn bs d0 s.disk Pr) (hoff : off ∈ Pr)
    (hD : ∀ b ∈ liveSlots bs d0 off, Away bs Pr b) :
    (add_file_to_single_indirect bs s f name off false).1 = false ∧
    Touch bs Pr s (add_file_to_single_indirect bs s f name off false).2 ∧
    SameOrInit s (add_file_to_single_indirect bs s f name off false).2 := by
  apply add_single_scan_touch bs Pr s f name off hPr
  rw [liveSlots_agree bs Pr d0 s.disk off hag hoff]
  exact hD

theorem add_double_scan_touch (bs : Nat) (Pr : List Nat) (d0 : Nat → Nat) (f : Nat)
    (name : Nat × Nat) (ib : Nat → Nat) (hPr : ∀ q ∈ Pr, q % bs = 0) (l : List Nat) :
    ∀ s : FsState, AgreeOn bs d0 s.disk Pr →
    (∀ i ∈ l, is_not_null (ib i) = true →
      ib i ∈ Pr ∧ ∀ b ∈ liveSlots bs d0 (ib i), Away bs Pr b) →
    (add_double_scan bs f name false ib l s).1 = false ∧
    Touch bs Pr s (add_double_scan bs f name false ib l s).2 ∧
    SameOrInit s (add_double_scan bs f name false ib l s).2 := by
  induction l with
  | nil => intro s _ _; exact ⟨rfl, Touch.refl_t bs Pr s, SameOrInit.refl_s s⟩
  | cons i is ih =>
    intro s hag h
    have h' := fun j hj => h j (List.mem_cons_of_mem _ hj)
    unfold add_double_scan
    by_cases hc : is_not_null (ib i) = true
    · obtain ⟨hi1, hi2⟩ := h i (List.mem_cons_self _ _) hc
      obtain ⟨e1, e2, e3⟩ := add_single_scan_touch' bs Pr d0 s f name (ib i) hPr hag hi1 hi2
      simp only [hc, if_true, e1, Bool.false_eq_true, if_false]
      obtain ⟨g1, g2, g3⟩ := ih _ (hag.trans_on e2.1) h'
      exact ⟨g1, e2.trans_t g2, e3.trans_s g3⟩
    · simp only [hc, if_false]
      exact ih s hag h'

theorem add_double_false_touch (bs : Nat) (Pr : List Nat) (d0 : Nat → Nat) (s : FsState)
    (f : Nat) (name : Nat × Nat) (off : Nat) (hPr : ∀ q ∈ Pr, q % bs = 0)
    (hag : AgreeOn bs d0 s.disk Pr) (hoff : off ∈ Pr)
    (hX : ∀ c ∈ liveSlots bs d0 off, c ∈ Pr ∧ ∀ b ∈ liveSlots bs d0 c, Away bs Pr b) :
    (add_file_to_double_indirect bs s f name off false).1 = false ∧
    Touch bs Pr s (add_file_to_double_indirect bs s f name off false).2 ∧
    SameOrInit s (add_file_to_double_indirect bs s f name off false).2 := by
  have key := add_double_scan_touch bs Pr d0 f name (readBlock s.disk off) hPr
    (List.range (bs / 4)) s hag (by
      intro i hi hne
      apply hX
      rw [← liveSlots_agree bs Pr d0 s.disk off hag hoff]
      exact mem_liveSlots_of bs s.disk off i hi hne)
  unfold add_file_to_double_indirect
  simp only [key.1, Bool.false_eq_true, if_false]
  exact ⟨trivial, key.2⟩

theorem add_triple_scan_touch (bs : Nat) (Pr : List Nat) (d0 : Nat → Nat) (f : Nat)
    (name : Nat × Nat) (ib : Nat → Nat) (hPr : ∀ q ∈ Pr, q % bs = 0) (l : List Nat) :
    ∀ s : FsState, AgreeOn bs d0 s.disk Pr →
    (∀ i ∈ l, is_not_null (ib i) = true →
      ib i ∈ Pr ∧ ∀ c ∈ liveSlots bs d0 (ib i),
        c ∈ Pr ∧ ∀ b ∈ liveSlots bs d0 c, Away bs Pr b) →
    (add_triple_scan bs f name false ib l s).1 = false ∧
    Touch bs Pr s (add_triple_scan bs f name false ib l s).2 ∧
    SameOrInit s (add_triple_scan bs f name false ib l s).2 := by
  induction l with
  | nil => intro s _ _; exact ⟨rfl, Touch.refl_t bs Pr s, SameOrInit.refl_s s⟩
  | cons i is ih =>
    intro s hag h
    have h' := fun j hj => h j (List.mem_cons_of_mem _ hj)
    unfold add_triple_scan
    by_cases hc : is_not_null (ib i) = true
    · obtain ⟨hi1, hi2⟩ := h i (List.mem_cons_self _ _) hc
      obtain ⟨e1, e2, e3⟩ := add_double_false_touch bs Pr d0 s f name (ib i) hPr hag hi1 hi2
      simp only [hc, if_true, e1, Bool.false_eq_true, if_false]
      obtain ⟨g1, g2, g3⟩ := ih _ (hag.trans_on e2.1) h'
      exact ⟨g1, e2.trans_t g2, e3.trans_s g3⟩
    · simp only [hc, if_false]
      exact ih s hag h'

theorem add_triple_false_touch (bs : Nat) (Pr : List Nat) (d0 : Nat → Nat) (s : FsState)
    (f : Nat) (name : Nat × Nat) (off : Nat) (hPr : ∀ q ∈ Pr, q % bs = 0)
    (hag : AgreeOn bs d0 s.disk Pr) (hoff : off ∈ Pr)
    (hX : ∀ c2 ∈ liveSlots bs d0 off, c2 ∈ Pr ∧ ∀ c ∈ liveSlots bs d0 c2,
      c ∈ Pr ∧ ∀ b ∈ liveSlots bs d0 c, Away bs Pr b) :
    (add_file_to_triple_indirect bs s f name off false).1 = false ∧
    Touch bs Pr s (add_file_to_triple_indirect bs s f name off false).2 ∧
    SameOrInit s (add_file_to_triple_indirect bs s f name off false).2 := by
  have key := add_triple_scan_touch bs Pr d0 f name (readBlock s.disk off) hPr
    (List.range (bs / 4)) s hag (by
      intro i hi hne
      apply hX
      rw [← liveSlots_agree bs Pr d0 s.disk off hag hoff]
      exact mem_liveSlots_of bs s.disk off i hi hne)
  unfold add_file_to_triple_indirect
  simp only [key.1, Bool.false_eq_true, if_false]
  exact ⟨trivial, key.2⟩

theorem init_ptrs_null : is_not_null inode_init.sIndirect = false ∧
    is_not_null inode_init.dIndirect = false ∧ is_not_null inode_init.tIndirect = false := by
  decide

theorem avail_indirect_false_touch (bs : Nat) (Pr : List Nat) (d0 : Nat → Nat) (s : FsState)
    (f : Nat) (name : Nat × Nat) (hPr : ∀ q ∈ Pr, q % bs = 0)
    (hag : AgreeOn bs d0 s.disk Pr)
    (hX : ∀ x ∈ indexBlocksOf bs d0 s.inode, x ∈ Pr)
    (hD : ∀ b ∈ dataBlocksOf bs d0 s.inode, Away bs Pr b) :
    (create_file_in_avail_indirect_loc bs s f name false).1 = false ∧
    Touch bs Pr s (create_file_in_avail_indirect_loc bs s f name false).2 ∧
    SameOrInit s (create_file_in_avail_indirect_loc bs s f name false).2 := by
  -- the single-indirect tree
  have h1 : (if is_not_null s.inode.sIndirect = true then
      add_file_to_single_indirect bs s f name s.inode.sIndirect false else (false, s)).1 = false ∧
      Touch bs Pr s (if is_not_null s.inode.sIndirect = true then
        add_file_to_single_indirect bs s f name s.inode.sIndirect false else (false, s)).2 ∧
      SameOrInit s (if is_not_null s.inode.sIndirect = true then
        add_file_to_single_indirect bs s f name s.inode.sIndirect false else (false, s)).2 := by
    split
    · rename_i hc
      exact add_single_scan_touch' bs Pr d0 s f name _ hPr hag
        (hX _ (mem_indexBlocksOf_s bs d0 s.inode hc))
        (fun b hb => hD b (mem_dataBlocksOf_s bs d0 s.inode hc b hb))
    · exact ⟨rfl, Touch.refl_t bs Pr s, SameOrInit.refl_s s⟩
  -- the double-indirect tree, from a state whose working inode is that of s or reset
  have h2 : ∀ t : FsState, AgreeOn bs d0 t.disk Pr → SameOrInit s t →
      (if is_not_null t.inode.dIndirect = true then
        add_file_to_double_indirect bs t f name t.inode.dIndirect false else (false, t)).1
        = false ∧
      Touch bs Pr t (if is_not_null t.inode.dIndirect = true then
        add_file_to_double_indirect bs t f name t.inode.dIndirect false else (false, t)).2 ∧
      SameOrInit t (if is_not_null t.inode.dIndirect = true then
        add_file_to_double_indirect bs t f name t.inode.dIndirect false else (false, t)).2 := by
    intro t hagt hst
    split
    · rename_i hc
      rcases hst with hst | hst
      · rw [hst] at hc ⊢
        apply add_double_false_touch bs Pr d0 t f name _ hPr hagt
          (hX _ (mem_indexBlocksOf_d bs d0 s.inode hc _ (List.mem_cons_self _ _)))
        intro c hcm
        refine ⟨hX _ (mem_indexBlocksOf_d bs d0 s.inode hc _ (List.mem_cons_of_mem _ hcm)), ?_⟩
        intro b hb
        apply hD b (mem_dataBlocksOf_d bs d0 s.inode hc b _)
        simp only [doubleData, singleData, List.mem_flatMap]
        exact ⟨c, hcm, hb⟩
      · rw [hst, init_ptrs_null.2.1] at hc
        exact absurd hc (by simp)
    · exact ⟨rfl, Touch.refl_t bs Pr t, SameOrInit.refl_s t⟩
  have h3 : ∀ t : FsState, AgreeOn bs d0 t.disk Pr → SameOrInit s t →
      (if is_not_null t.inode.tIndirect = true then
        add_file_to_triple_indirect bs t f name t.inode.tIndirect false else (false, t)).1
        = false ∧
      Touch bs Pr t (if is_not_null t.inode.tIndirect = true then
        add_file_to_triple_indirect bs t f name t.inode.tIndirect false else (false, t)).2 ∧
      SameOrInit t (if is_not_null t.inode.tIndirect = true then
        add_file_to_triple_indirect bs t f name t.inode.tIndirect false else (false, t)).2 := by
    intro t hagt hst
    split
    · rename_i hc
      rcases hst with hst | hst
      · rw [hst] at hc ⊢
        apply add_triple_false_touch bs Pr d0 t f name _ hPr hagt
          (hX _ (mem_indexBlocksOf_t bs d0 s.inode hc _ (List.mem_cons_self _ _)))
        intro c2 hc2
        have m2 : ∀ z ∈ doubleIndex bs d0 c2, z ∈ indexBlocksOf bs d0 s.inode := by
          intro z hz
          apply mem_indexBlocksOf_t bs d0 s.inode hc
          apply List.mem_cons_of_mem
          rw [List.mem_flatMap]
          exact ⟨c2, hc2, hz⟩
        refine ⟨hX _ (m2 _ (List.mem_cons_self _ _)), ?_⟩
        intro c hcm
        refine ⟨hX _ (m2 _ (List.mem_cons_of_mem _ hcm)), ?_⟩
        intro b hb
        apply hD b (mem_dataBlocksOf_t bs d0 s.inode hc b _)
        simp only [tripleData, doubleData, singleData, List.mem_flatMap]
        exact ⟨c2, hc2, c, hcm, hb⟩
      · rw [hst, init_ptrs_null.2.2] at hc
        exact absurd hc (by simp)
    · exact ⟨rfl, Touch.refl_t bs Pr t, SameOrInit.refl_s t⟩
  unfold create_file_in_avail_indirect_loc
  dsimp only
  generalize (if is_not_null s.inode.sIndirect = true then
    add_file_to_single_indirect bs s f name s.inode.sIndirect false else (false, s)) = r1 at h1 ⊢
  have h2' := h2 r1.2 (hag.trans_on h1.2.1.1) h1.2.2
  generalize (if is_not_null r1.2.inode.dIndirect = true then
    add_file_to_double_indirect bs r1.2 f name r1.2.inode.dIndirect false else (false, r1.2)) = r2
    at h2' ⊢
  have h3' := h3 r2.2 ((hag.trans_on h1.2.1.1).trans_on h2'.2.1.1) (h1.2.2.trans_s h2'.2.2)
  generalize (if is_not_null r2.2.inode.tIndirect = true then
    add_file_to_triple_indirect bs r2.2 f name r2.2.inode.tIndirect false else (false, r2.2)) = r3
    at h3' ⊢
  simp only [h1.1, h2'.1, h3'.1, Bool.false_eq_true, if_false]
  exact ⟨trivial, (h1.2.1.trans_t h2'.2.1).trans_t h3'.2.1,
    (h1.2.2.trans_s h2'.2.2).trans_s h3'.2.2⟩

theorem writeBlock_inside (bs : Nat) (d : Nat → Nat) (off : Nat)
    (buf : Nat → Nat) (j : Nat) (hj : j < bs / 4) :
    writeBlock bs d off buf (off + 4 * j) = buf j := by
  simp only [writeBlock, writeWords]
  rw [if_pos (by omega)]
  congr 1
  omega

theorem liveSlots_fresh (bs : Nat) (d : Nat → Nat) (a : Nat) :
    liveSlots bs (writeBlock bs d a (fun _ => NIL)) a = [] := by
  unfold liveSlots
  rw [List.filter_eq_nil_iff]
  intro x hx
  rw [List.mem_map] at hx
  obtain ⟨i, hi, rfl⟩ := hx
  rw [writeBlock_inside bs d a _ i (List.mem_range.mp hi)]
  decide

theorem ssm_answer_away (bs : Nat) (Pr : List Nat) (s : FsState)
    (hssm : SsmAway bs Pr s.ssmOut) (h : is_null (ssm_allocate_sectors s).1 = false) :
    Away bs Pr (ssm_allocate_sectors s).1 := by
  have hne : (ssm_allocate_sectors s).1 ≠ NIL := by simpa [is_null] using h
  exact hssm _ ((ssm_allocate_touch bs Pr s).2.2.2 hne) hne

theorem ssm_left_away (bs : Nat) (Pr : List Nat) (s : FsState)
    (hssm : SsmAway bs Pr s.ssmOut) : SsmAway bs Pr (ssm_allocate_sectors s).2.ssmOut :=
  hssm.mono_ssm (fun _ h => h) (ssm_allocate_touch bs Pr s).1.2

/-- add_file_to_single_indirect with allocation writes into the index block and
into the sector it gets from the Sector Space Manager; when it returns False
the disk and the working inode are as before. -/
theorem add_single_alloc_touch (bs : Nat) (Pr : List Nat) (s : FsState) (f : Nat)
    (name : Nat × Nat) (off : Nat) (hPr : ∀ q ∈ Pr, q % bs = 0) (hoff : Away bs Pr off)
    (hssm : SsmAway bs Pr s.ssmOut) :
    Touch bs Pr s (add_file_to_single_indirect bs s f name off true).2 ∧
    SameOrInit s (add_file_to_single_indirect bs s f name off true).2 ∧
    ((add_file_to_single_indirect bs s f name off true).1 = false →
      (add_file_to_single_indirect bs s f name off true).2.disk = s.disk ∧
      (add_file_to_single_indirect bs s f name off true).2.inode = s.inode) := by
  unfold add_file_to_single_indirect
  simp only [Bool.true_eq_false, if_false]
  split
  · exact ⟨Touch.refl_t bs Pr s, SameOrInit.refl_s s, fun _ => ⟨rfl, rfl⟩⟩
  · obtain ⟨t1, t2, t3, -⟩ := ssm_allocate_touch bs Pr s
    by_cases hn : is_null (ssm_allocate_sectors s).1 = true
    · simp only [hn, if_true]
      exact ⟨t1, Or.inl t3, fun _ => ⟨t2, t3⟩⟩
    · have hn' : is_null (ssm_allocate_sectors s).1 = false := by simpa using hn
      have ha := ssm_answer_away bs Pr s hssm hn'
      simp only [hn', Bool.false_eq_true, if_false]
      refine ⟨⟨?_, t1.2⟩, Or.inr rfl, fun h => absurd h (by simp)⟩
      refine AgreeOn.trans_on ?_ (agree_write bs Pr _ _ _ hPr ha)
      rw [t2]
      exact agree_write bs Pr _ _ _ hPr hoff

theorem add_double_scan_alloc_touch (bs : Nat) (Pr : List Nat) (f : Nat) (name : Nat × Nat)
    (ib : Nat → Nat) (hPr : ∀ q ∈ Pr, q % bs = 0) (l : List Nat) :
    ∀ s : FsState, (∀ i ∈ l, is_not_null (ib i) = true → Away bs Pr (ib i)) →
    SsmAway bs Pr s.ssmOut →
    Touch bs Pr s (add_double_scan bs f name true ib l s).2 ∧
    SameOrInit s (add_double_scan bs f name true ib l s).2 ∧
    ((add_double_scan bs f name true ib l s).1 = false →
      (add_double_scan bs f name true ib l s).2.disk = s.disk ∧
      (add_double_scan bs f name true ib l s).2.inode = s.inode) := by
  induction l with
  | nil => intro s _ _; exact ⟨Touch.refl_t bs Pr s, SameOrInit.refl_s s, fun _ => ⟨rfl, rfl⟩⟩
  | cons i is ih =>
    intro s h hssm
    have h' := fun j hj => h j (List.mem_cons_of_mem _ hj)
    unfold add_double_scan
    by_cases hc : is_not_null (ib i) = true
    · obtain ⟨e1, e2, e3⟩ := add_single_alloc_touch bs Pr s f name (ib i) hPr
        (h i (List.mem_cons_self _ _) hc) hssm
      simp only [hc, if_true]
      by_cases hr : (add_file_to_single_indirect bs s f name (ib i) true).1 = true
      · simp only [hr, if_true]
        exact ⟨e1, e2, fun h => absurd h (by simp)⟩
      · simp only [hr, Bool.false_eq_true, if_false]
        have hr' : (add_file_to_single_indirect bs s f name (ib i) true).1 = false := by
          simpa using hr
        obtain ⟨g1, g2, g3⟩ := ih _ h' (hssm.mono_ssm (fun _ h => h) e1.2)
        refine ⟨e1.trans_t g1, e2.trans_s g2, fun hf => ?_⟩
        obtain ⟨k1, k2⟩ := g3 hf
        obtain ⟨k3, k4⟩ := e3 hr'
        exact ⟨k1.trans k3, k2.trans k4⟩
    · simp only [hc, if_false]
      exact ih s h' hssm

theorem add_double_grow_touch (bs : Nat) (Pr : List Nat) (f : Nat) (name : Nat × Nat)
    (off : Nat) (hPr : ∀ q ∈ Pr, q % bs = 0) (hoff : Away bs Pr off) (l : List Nat) :
    ∀ (ib : Nat → Nat) (s : FsState), SsmAway bs Pr s.ssmOut →
    Touch bs Pr s (add_double_grow bs f name true off l ib s).2 ∧
    SameOrInit s (add_double_grow bs f name true off l ib s).2 := by
  induction l with
  | nil => intro ib s _; exact ⟨Touch.refl_t bs Pr s, SameOrInit.refl_s s⟩
  | cons i is ih =>
    intro ib s hssm
    unfold add_double_grow
    by_cases hc : is_null (ib i) = true
    · simp only [hc, if_true]
      obtain ⟨t1, t2, t3, -⟩ := ssm_allocate_touch bs Pr s
      by_cases hn : is_null (ssm_allocate_sectors s).1 = true
      · simp only [hn, if_true]
        exact ⟨t1, Or.inl t3⟩
      · have hn' : is_null (ssm_allocate_sectors s).1 = false := by simpa using hn
        have ha := ssm_answer_away bs Pr s hssm hn'
        simp only [hn', Bool.false_eq_true, if_false]
        generalize hS : ({ (ssm_allocate_sectors s).2 with
          disk := writeBlock bs (writeBlock bs (ssm_allocate_sectors s).2.disk off
            (bufSet ib i (ssm_allocate_sectors s).1)) (ssm_allocate_sectors s).1
            (fun _ => NIL) } : FsState) = S
        have hS1 : Touch bs Pr s S := by
          subst hS
          refine ⟨?_, t1.2⟩
          show AgreeOn bs s.disk (writeBlock bs (writeBlock bs (ssm_allocate_sectors s).2.disk off
            (bufSet ib i (ssm_allocate_sectors s).1)) (ssm_allocate_sectors s).1 (fun _ => NIL)) Pr
          refine AgreeOn.trans_on ?_ (agree_write bs Pr _ _ _ hPr ha)
          rw [t2]
          exact agree_write bs Pr _ _ _ hPr hoff
        have hS2 : SameOrInit s S := by subst hS; exact Or.inl t3
        obtain ⟨e1, e2, -⟩ := add_single_alloc_touch bs Pr S f name
          (ssm_allocate_sectors s).1 hPr ha (hssm.mono_ssm (fun _ h => h) hS1.2)
        by_cases hr : (add_file_to_single_indirect bs S f name
            (ssm_allocate_sectors s).1 true).1 = true
        · simp only [hr, if_true]
          exact ⟨hS1.trans_t e1, hS2.trans_s e2⟩
        · simp only [hr, Bool.false_eq_true, if_false]
          obtain ⟨g1, g2⟩ := ih (bufSet ib i (ssm_allocate_sectors s).1) _
            (hssm.mono_ssm (fun _ h => h) (hS1.trans_t e1).2)
          exact ⟨(hS1.trans_t e1).trans_t g1, (hS2.trans_s e2).trans_s g2⟩
    · simp only [hc, if_false]
      exact ih ib s hssm

theorem add_double_alloc_touch (bs : Nat) (Pr : List Nat) (s : FsState) (f : Nat)
    (name : Nat × Nat) (off : Nat) (hPr : ∀ q ∈ Pr, q % bs = 0) (hoff : Away bs Pr off)
    (hX : ∀ c ∈ liveSlots bs s.disk off, Away bs Pr c)
    (hssm : SsmAway bs Pr s.ssmOut) :
    Touch bs Pr s (add_file_to_double_indirect bs s f name off true).2 ∧
    SameOrInit s (add_file_to_double_indirect bs s f name off true).2 := by
  obtain ⟨e1, e2, -⟩ := add_double_scan_alloc_touch bs Pr f name (readBlock s.disk off) hPr
    (List.range (bs / 4)) s
    (fun i hi hne => hX _ (mem_liveSlots_of bs s.disk off i hi hne)) hssm
  unfold add_file_to_double_indirect
  dsimp only
  by_cases hr : (add_double_scan bs f name true (readBlock s.disk off)
      (List.range (bs / 4)) s).1 = true
  · simp only [hr, if_true]
    exact ⟨e1, e2⟩
  · simp only [hr, Bool.false_eq_true, if_false, if_true]
    obtain ⟨g1, g2⟩ := add_double_grow_touch bs Pr f name off hPr hoff (List.range (bs / 4))
      (readBlock s.disk off) _ (hssm.mono_ssm (fun _ h => h) e1.2)
    exact ⟨e1.trans_t g1, e2.trans_s g2⟩

theorem add_triple_scan_alloc_touch (bs : Nat) (Pr : List Nat) (d0 : Nat → Nat) (f : Nat)
    (name : Nat × Nat) (ib : Nat → Nat) (hPr : ∀ q ∈ Pr, q % bs = 0) (l : List Nat) :
    ∀ s : FsState, AgreeOn bs d0 s.disk ((l.map ib).filter is_not_null) →
    ((l.map ib).filter is_not_null).Nodup →
    (∀ c ∈ (l.map ib).filter is_not_null, Away bs Pr c ∧
      ∀ c1 ∈ liveSlots bs d0 c, Away bs (Pr ++ (l.map ib).filter is_not_null) c1) →
    SsmAway bs (Pr ++ (l.map ib).filter is_not_null) s.ssmOut →
    Touch bs Pr s (add_triple_scan bs f name true ib l s).2 ∧
    SameOrInit s (add_triple_scan bs f name true ib l s).2 := by
  induction l with
  | nil => intro s _ _ _ _; exact ⟨Touch.refl_t bs Pr s, SameOrInit.refl_s s⟩
  | cons i is ih =>
    intro s hag hnd hX hssm
    unfold add_triple_scan
    by_cases hc : is_not_null (ib i) = true
    · have eX : ((i :: is).map ib).filter is_not_null
          = ib i :: (is.map ib).filter is_not_null := by
        simp [List.filter_cons, hc]
      rw [eX] at hag hnd hX hssm
      obtain ⟨hni, hnd'⟩ := List.nodup_cons.mp hnd
      obtain ⟨hc1, hc2⟩ := hX _ (List.mem_cons_self _ _)
      have sub1 : ∀ q ∈ Pr ++ (is.map ib).filter is_not_null,
          q ∈ Pr ++ ib i :: (is.map ib).filter is_not_null := by
        intro q hq
        rcases List.mem_append.mp hq with h | h
        · exact List.mem_append_left _ h
        · exact List.mem_append_right _ (List.mem_cons_of_mem _ h)
      have hPr1 : ∀ q ∈ Pr ++ (is.map ib).filter is_not_null, q % bs = 0 := by
        intro q hq
        rcases List.mem_append.mp hq with h | h
        · exact hPr q h
        · exact (hX q (List.mem_cons_of_mem _ h)).1.1
      have hoff1 : Away bs (Pr ++ (is.map ib).filter is_not_null) (ib i) := by
        refine ⟨hc1.1, fun hm => ?_⟩
        rcases List.mem_append.mp hm with h | h
        · exact hc1.2 h
        · exact hni h
      obtain ⟨e1, e2⟩ := add_double_alloc_touch bs (Pr ++ (is.map ib).filter is_not_null) s f
        name (ib i) hPr1 hoff1
        (by
          intro c1 hm
          rw [liveSlots_congr bs d0 s.disk (ib i) (hag _ (List.mem_cons_self _ _))] at hm
          exact (hc2 c1 hm).mono_away sub1)
        (hssm.mono_ssm sub1 (fun _ h => h))
      simp only [hc, if_true]
      by_cases hr : (add_file_to_double_indirect bs s f name (ib i) true).1 = true
      · simp only [hr, if_true]
        exact ⟨e1.mono_t (fun q hq => List.mem_append_left _ hq), e2⟩
      · simp only [hr, Bool.false_eq_true, if_false]
        obtain ⟨g1, g2⟩ := ih _
          ((hag.mono_on (fun y hy => List.mem_cons_of_mem _ hy)).trans_on
            (e1.1.mono_on (fun y hy => List.mem_append_right _ hy)))
          hnd'
          (fun c hm => ⟨(hX c (List.mem_cons_of_mem _ hm)).1,
            fun c1 h1 => ((hX c (List.mem_cons_of_mem _ hm)).2 c1 h1).mono_away sub1⟩)
          (hssm.mono_ssm sub1 e1.2)
        exact ⟨(e1.mono_t (fun q hq => List.mem_append_left _ hq)).trans_t g1, e2.trans_s g2⟩
    · have eX : ((i :: is).map ib).filter is_not_null = (is.map ib).filter is_not_null := by
        simp [List.filter_cons, hc]
      rw [eX] at hag hnd hX hssm
      simp only [hc, if_false]
      exact ih s hag hnd hX hssm

theorem add_triple_grow_touch (bs : Nat) (Pr : List Nat) (f : Nat) (name : Nat × Nat)
    (off : Nat) (hPr : ∀ q ∈ Pr, q % bs = 0) (hoff : Away bs Pr off) (l : List Nat) :
    ∀ (ib : Nat → Nat) (s : FsState), SsmAway bs Pr s.ssmOut →
    Touch bs Pr s (add_triple_grow bs f name true off l ib s).2 ∧
    SameOrInit s (add_triple_grow bs f name true off l ib s).2 := by
  induction l with
  | nil => intro ib s _; exact ⟨Touch.refl_t bs Pr s, SameOrInit.refl_s s⟩
  | cons i is ih =>
    intro ib s hssm
    unfold add_triple_grow
    by_cases hc : is_null (ib i) = true
    · simp only [hc, if_true]
      obtain ⟨t1, t2, t3, -⟩ := ssm_allocate_touch bs Pr s
      by_cases hn : is_null (ssm_allocate_sectors s).1 = true
      · simp only [hn, if_true]
        exact ⟨t1, Or.inl t3⟩
      · have hn' : is_null (ssm_allocate_sectors s).1 = false := by simpa using hn
        have ha := ssm_answer_away bs Pr s hssm hn'
        simp only [hn', Bool.false_eq_true, if_false]
        generalize hS : ({ (ssm_allocate_sectors s).2 with
          disk := writeBlock bs (writeBlock bs (ssm_allocate_sectors s).2.disk off
            (bufSet ib i (ssm_allocate_sectors s).1)) (ssm_allocate_sectors s).1
            (fun _ => NIL) } : FsState) = S
        have hS1 : Touch bs Pr s S := by
          subst hS
          refine ⟨?_, t1.2⟩
          show AgreeOn bs s.disk (writeBlock bs (writeBlock bs (ssm_allocate_sectors s).2.disk off
            (bufSet ib i (ssm_allocate_sectors s).1)) (ssm_allocate_sectors s).1 (fun _ => NIL)) Pr
          refine AgreeOn.trans_on ?_ (agree_write bs Pr _ _ _ hPr ha)
          rw [t2]
          exact agree_write bs Pr _ _ _ hPr hoff
        have hS2 : SameOrInit s S := by subst hS; exact Or.inl t3
        have hS3 : liveSlots bs S.disk (ssm_allocate_sectors s).1 = [] := by
          subst hS
          exact liveSlots_fresh bs _ _
        obtain ⟨e1, e2⟩ := add_double_alloc_touch bs Pr S f name
          (ssm_allocate_sectors s).1 hPr ha (by rw [hS3]; intro c hm; cases hm)
          (hssm.mono_ssm (fun _ h => h) hS1.2)
        by_cases hr : (add_file_to_double_indirect bs S f name
            (ssm_allocate_sectors s).1 true).1 = true
        · simp only [hr, if_true]
          exact ⟨hS1.trans_t e1, hS2.trans_s e2⟩
        · simp only [hr, Bool.false_eq_true, if_false]
          obtain ⟨g1, g2⟩ := ih (bufSet ib i (ssm_allocate_sectors s).1) _
            (hssm.mono_ssm (fun _ h => h) (hS1.trans_t e1).2)
          exact ⟨(hS1.trans_t e1).trans_t g1, (hS2.trans_s e2).trans_s g2⟩
    · simp only [hc, if_false]
      exact ih ib s hssm

theorem add_triple_alloc_touch (bs : Nat) (Pr : List Nat) (s : FsState) (f : Nat)
    (name : Nat × Nat) (off : Nat) (hPr : ∀ q ∈ Pr, q % bs = 0) (hoff : Away bs Pr off)
    (hnd : (liveSlots bs s.disk off).Nodup)
    (hX : ∀ c ∈ liveSlots bs s.disk off, Away bs Pr c ∧
      ∀ c1 ∈ liveSlots bs s.disk c, Away bs (Pr ++ liveSlots bs s.disk off) c1)
    (hssm : SsmAway bs (Pr ++ liveSlots bs s.disk off) s.ssmOut) :
    Touch bs Pr s (add_file_to_triple_indirect bs s f name off true).2 ∧
    SameOrInit s (add_file_to_triple_indirect bs s f name off true).2 := by
  obtain ⟨e1, e2⟩ := add_triple_scan_alloc_touch bs Pr s.disk f name (readBlock s.disk off) hPr
    (List.range (bs / 4)) s (AgreeOn.refl_on bs s.disk _) hnd hX hssm
  unfold add_file_to_triple_indirect
  dsimp only
  by_cases hr : (add_triple_scan bs f name true (readBlock s.disk off)
      (List.range (bs / 4)) s).1 = true
  · simp only [hr, if_true]
    exact ⟨e1, e2⟩
  · simp only [hr, Bool.false_eq_true, if_false, if_true]
    obtain ⟨g1, g2⟩ := add_triple_grow_touch bs Pr f name off hPr hoff (List.range (bs / 4))
      (readBlock s.disk off) _
      (hssm.mono_ssm (fun q hq => List.mem_append_left _ hq) e1.2)
    exact ⟨e1.trans_t g1, e2.trans_s g2⟩

/-- In a list of heads followed by their children that has no duplicates, the
heads are distinct and no child is a head. -/
theorem nodup_heads (g : Nat → List Nat) (l : List Nat)
    (h : (l.flatMap (fun c => c :: g c)).Nodup) :
    l.Nodup ∧ ∀ c ∈ l, ∀ c1 ∈ g c, c1 ∉ l := by
  induction l with
  | nil => exact ⟨List.nodup_nil, fun c hc => absurd hc (List.not_mem_nil c)⟩
  | cons c l ih =>
    rw [List.flatMap_cons, List.nodup_append] at h
    obtain ⟨h1, h2, h3⟩ := h
    obtain ⟨ih1, ih2⟩ := ih h2
    have head_mem : ∀ y ∈ l, y ∈ l.flatMap (fun c => c :: g c) := by
      intro y hy
      rw [List.mem_flatMap]
      exact ⟨y, hy, List.mem_cons_self _ _⟩
    have hcl : c ∉ l := fun hm => h3 (List.mem_cons_self _ _) (head_mem c hm)
    refine ⟨List.nodup_cons.mpr ⟨hcl, ih1⟩, ?_⟩
    intro c0 hc0 c1 hc1 hm
    rcases List.mem_cons.mp hc0 with e | hc0'
    · subst e
      rcases List.mem_cons.mp hm with e | hm'
      · subst e
        exact (List.nodup_cons.mp h1).1 hc1
      · exact h3 (List.mem_cons_of_mem _ hc1) (head_mem c1 hm')
    · have hin : c1 ∈ l.flatMap (fun c => c :: g c) := by
        rw [List.mem_flatMap]
        exact ⟨c0, hc0', List.mem_cons_of_mem _ hc1⟩
      rcases List.mem_cons.mp hm with e | hm'
      · subst e
        exact h3 (List.mem_cons_self _ _) hin
      · exact ih2 c0 hc0' c1 hc1 hm'

theorem tripleIndex_congr (bs : Nat) (d d' : Nat → Nat) (x : Nat)
    (h : AgreeOn bs d d' (tripleIndex bs d x)) : tripleIndex bs d' x = tripleIndex bs d x := by
  unfold tripleIndex
  rw [liveSlots_congr bs d d' x (h x (List.mem_cons_self _ _))]
  congr 1
  apply flatMap_congr_mem
  intro y hy
  apply doubleIndex_congr
  intro z hz
  rw [List.mem_singleton] at hz
  subst hz
  apply h
  unfold tripleIndex
  apply List.mem_cons_of_mem
  rw [List.mem_flatMap]
  exact ⟨z, hy, List.mem_cons_self _ _⟩

theorem indexBlocksOf_congr (bs : Nat) (d d' : Nat → Nat) (ino : Inode)
    (h : AgreeOn bs d d' (indexBlocksOf bs d ino)) :
    indexBlocksOf bs d' ino = indexBlocksOf bs d ino := by
  unfold indexBlocksOf
  congr 1
  · congr 1
    split_ifs with hD
    · apply doubleIndex_congr
      intro z hz
      rw [List.mem_singleton] at hz
      subst hz
      exact h _ (mem_indexBlocksOf_d bs d ino hD _ (List.mem_cons_self _ _))
    · rfl
  · split_ifs with hT
    · apply tripleIndex_congr
      intro z hz
      exact h _ (mem_indexBlocksOf_t bs d ino hT _ hz)
    · rfl

theorem indexBlocksOf_init (bs : Nat) (d : Nat → Nat) : indexBlocksOf bs d inode_init = [] := by
  simp [indexBlocksOf, inode_init, is_not_null]

theorem dataBlocksOf_init (bs : Nat) (d : Nat → Nat) : dataBlocksOf bs d inode_init = [] := by
  have h1 : liveDirect inode_init = [] := by decide
  have h2 : is_not_null inode_init.sIndirect = false := init_ptrs_null.1
  have h3 : is_not_null inode_init.dIndirect = false := init_ptrs_null.2.1
  have h4 : is_not_null inode_init.tIndirect = false := init_ptrs_null.2.2
  simp [dataBlocksOf, h1, h2, h3, h4]

theorem avail_indirect_alloc_touch (bs : Nat) (Pr : List Nat) (s : FsState) (f : Nat)
    (name : Nat × Nat) (hPr : ∀ q ∈ Pr, q % bs = 0)
    (hnd : (indexBlocksOf bs s.disk s.inode).Nodup)
    (hX : ∀ y ∈ indexBlocksOf bs s.disk s.inode, Away bs Pr y)
    (hssm : SsmAway bs (Pr ++ indexBlocksOf bs s.disk s.inode) s.ssmOut) :
    Touch bs Pr s (create_file_in_avail_indirect_loc bs s f name true).2 := by
  have subPr : ∀ q ∈ Pr, q ∈ Pr ++ indexBlocksOf bs s.disk s.inode :=
    fun q hq => List.mem_append_left _ hq
  -- the single-indirect tree
  have h1 : Touch bs Pr s (if is_not_null s.inode.sIndirect = true then
        add_file_to_single_indirect bs s f name s.inode.sIndirect true else (false, s)).2 ∧
      ((if is_not_null s.inode.sIndirect = true then
        add_file_to_single_indirect bs s f name s.inode.sIndirect true else (false, s)).1 = false →
        (if is_not_null s.inode.sIndirect = true then add_file_to_single_indirect bs s f name
          s.inode.sIndirect true else (false, s)).2.disk = s.disk ∧
        (if is_not_null s.inode.sIndirect = true then add_file_to_single_indirect bs s f name
          s.inode.sIndirect true else (false, s)).2.inode = s.inode) := by
    split
    · rename_i hc
      obtain ⟨e1, -, e3⟩ := add_single_alloc_touch bs Pr s f name s.inode.sIndirect hPr
        (hX _ (mem_indexBlocksOf_s bs s.disk s.inode hc)) (hssm.mono_ssm subPr (fun _ h => h))
      exact ⟨e1, e3⟩
    · exact ⟨Touch.refl_t bs Pr s, fun _ => ⟨rfl, rfl⟩⟩
  -- the double-indirect tree: the blocks of the triple-indirect tree stay as they are
  have h2 : ∀ t : FsState, t.disk = s.disk → t.inode = s.inode →
      (∀ a ∈ t.ssmOut, a ∈ s.ssmOut) →
      Touch bs (Pr ++ (if is_not_null s.inode.tIndirect = true then
          tripleIndex bs s.disk s.inode.tIndirect else [])) t
        (if is_not_null t.inode.dIndirect = true then
          add_file_to_double_indirect bs t f name t.inode.dIndirect true else (false, t)).2 ∧
      SameOrInit t (if is_not_null t.inode.dIndirect = true then
          add_file_to_double_indirect bs t f name t.inode.dIndirect true else (false, t)).2 := by
    intro t htd hti hts
    by_cases hc : is_not_null t.inode.dIndirect = true
    · rw [if_pos hc]
      rw [hti] at hc ⊢
      have hdis : ∀ y ∈ doubleIndex bs s.disk s.inode.dIndirect,
          Away bs (Pr ++ (if is_not_null s.inode.tIndirect = true then
            tripleIndex bs s.disk s.inode.tIndirect else [])) y := by
        intro y hy
        have hy' := mem_indexBlocksOf_d bs s.disk s.inode hc y hy
        refine ⟨(hX y hy').1, fun hm => ?_⟩
        rcases List.mem_append.mp hm with h | h
        · exact (hX y hy').2 h
        · unfold indexBlocksOf at hnd
          rw [List.nodup_append] at hnd
          refine hnd.2.2 ?_ h
          simp only [hc, if_true]
          exact List.mem_append_right _ hy
      apply add_double_alloc_touch bs _ t f name _ _ (hdis _ (List.mem_cons_self _ _))
      · intro c hcm
        rw [htd] at hcm
        exact hdis _ (List.mem_cons_of_mem _ hcm)
      · refine hssm.mono_ssm ?_ hts
        intro q hq
        rcases List.mem_append.mp hq with h | h
        · exact subPr q h
        · apply List.mem_append_right
          unfold indexBlocksOf
          exact List.mem_append_right _ h
      · intro q hq
        rcases List.mem_append.mp hq with h | h
        · exact hPr q h
        · refine (hX q ?_).1
          unfold indexBlocksOf
          exact List.mem_append_right _ h
    · rw [if_neg hc]
      exact ⟨Touch.refl_t bs _ t, SameOrInit.refl_s t⟩
  -- the triple-indirect tree
  have h3 : ∀ t : FsState,
      AgreeOn bs s.disk t.disk (if is_not_null s.inode.tIndirect = true then
          tripleIndex bs s.disk s.inode.tIndirect else []) →
      (t.inode = s.inode ∨ t.inode = inode_init) → (∀ a ∈ t.ssmOut, a ∈ s.ssmOut) →
      Touch bs Pr t (if is_not_null t.inode.tIndirect = true then
          add_file_to_triple_indirect bs t f name t.inode.tIndirect true else (false, t)).2 := by
    intro t hag hti hts
    by_cases hc : is_not_null t.inode.tIndirect = true
    · rw [if_pos hc]
      rcases hti with hti | hti
      · rw [hti] at hc ⊢
        simp only [hc, if_true] at hag
        have mT : ∀ y ∈ tripleIndex bs s.disk s.inode.tIndirect,
            y ∈ indexBlocksOf bs s.disk s.inode :=
          fun y hy => mem_indexBlocksOf_t bs s.disk s.inode hc y hy
        have ndT : (tripleIndex bs s.disk s.inode.tIndirect).Nodup := by
          unfold indexBlocksOf at hnd
          rw [List.nodup_append] at hnd
          simpa only [hc, if_true] using hnd.2.1
        have e0 : liveSlots bs t.disk s.inode.tIndirect = liveSlots bs s.disk s.inode.tIndirect :=
          liveSlots_congr bs s.disk t.disk _ (hag _ (List.mem_cons_self _ _))
        have mC : ∀ c ∈ liveSlots bs s.disk s.inode.tIndirect,
            ∀ z ∈ doubleIndex bs s.disk c, z ∈ tripleIndex bs s.disk s.inode.tIndirect := by
          intro c hcm z hz
          unfold tripleIndex
          apply List.mem_cons_of_mem
          rw [List.mem_flatMap]
          exact ⟨c, hcm, hz⟩
        have hh := nodup_heads (liveSlots bs s.disk) (liveSlots bs s.disk s.inode.tIndirect)
          (List.nodup_cons.mp ndT).2
        refine (add_triple_alloc_touch bs Pr t f name _ hPr
          (hX _ (mT _ (List.mem_cons_self _ _))) ?_ ?_ ?_).1
        · rw [e0]; exact hh.1
        · rw [e0]
          intro c hcm
          refine ⟨hX _ (mT _ (mC c hcm _ (List.mem_cons_self _ _))), ?_⟩
          intro c1 hc1
          rw [liveSlots_congr bs s.disk t.disk c (hag _ (mC c hcm _ (List.mem_cons_self _ _)))]
            at hc1
          have a1 := hX _ (mT _ (mC c hcm _ (List.mem_cons_of_mem _ hc1)))
          refine ⟨a1.1, fun hm => ?_⟩
          rcases List.mem_append.mp hm with h | h
          · exact a1.2 h
          · exact hh.2 c hcm c1 hc1 h
        · rw [e0]
          refine hssm.mono_ssm ?_ hts
          intro q hq
          rcases List.mem_append.mp hq with h | h
          · exact subPr q h
          · exact List.mem_append_right _ (mT _ (mC q h _ (List.mem_cons_self _ _)))
      · rw [hti, init_ptrs_null.2.2] at hc
        exact absurd hc (by simp)
    · rw [if_neg hc]
      exact Touch.refl_t bs Pr t
  unfold create_file_in_avail_indirect_loc
  dsimp only
  generalize (if is_not_null s.inode.sIndirect = true then
    add_file_to_single_indirect bs s f name s.inode.sIndirect true else (false, s)) = r1 at h1 ⊢
  by_cases c1 : r1.1 = true
  · simp only [c1, if_true]
    exact h1.1
  · have c1' : r1.1 = false := by simpa using c1
    obtain ⟨k1, k2⟩ := h1.2 c1'
    have h2' := h2 r1.2 k1 k2 h1.1.2
    have h3' := h3
    generalize (if is_not_null r1.2.inode.dIndirect = true then
      add_file_to_double_indirect bs r1.2 f name r1.2.inode.dIndirect true else (false, r1.2))
      = r2 at h2' ⊢
    have t2 : Touch bs Pr s r2.2 :=
      h1.1.trans_t (h2'.1.mono_t (fun q hq => List.mem_append_left _ hq))
    by_cases c2 : r2.1 = true
    · simp only [c1, c2, if_true, Bool.false_eq_true, if_false]
      exact t2
    · have hag : AgreeOn bs s.disk r2.2.disk (if is_not_null s.inode.tIndirect = true then
          tripleIndex bs s.disk s.inode.tIndirect else []) := by
        have := @AgreeOn.mono_on bs _ _ _ (if is_not_null s.inode.tIndirect = true then
          tripleIndex bs s.disk s.inode.tIndirect else []) h2'.1.1
          (fun q hq => List.mem_append_right _ hq)
        rw [k1] at this
        exact this
      have hin : r2.2.inode = s.inode ∨ r2.2.inode = inode_init := by
        rcases h2'.2 with h | h
        · exact Or.inl (h.trans k2)
        · exact Or.inr h
      have h3'' := h3' r2.2 hag hin t2.2
      generalize (if is_not_null r2.2.inode.tIndirect = true then
        add_file_to_triple_indirect bs r2.2 f name r2.2.inode.tIndirect true else (false, r2.2))
        = r3 at h3'' ⊢
      by_cases c3 : r3.1 = true
      · simp only [c1, c2, c3, if_true, Bool.false_eq_true, if_false]
        exact t2.trans_t h3''
      · simp only [c1, c2, c3, Bool.false_eq_true, if_false]
        exact t2.trans_t h3''

theorem unavail_indirect_touch (bs : Nat) (Pr : List Nat) (s : FsState) (t : PointerType)
    (f : Nat) (name : Nat × Nat) (p : Nat) (hPr : ∀ q ∈ Pr, q % bs = 0)
    (hssm : SsmAway bs Pr s.ssmOut) :
    Touch bs Pr s (create_file_in_unavail_indirect_loc bs s t f name p).2 := by
  unfold create_file_in_unavail_indirect_loc
  dsimp only
  by_cases hc : is_null (getIndirect t s.inode) = true
  · rw [if_pos hc]
    obtain ⟨t1, t2, -, -⟩ := ssm_allocate_touch bs Pr s
    by_cases hn : is_null (ssm_allocate_sectors s).1 = true
    · rw [if_pos hn]
      exact t1
    · have hn' : is_null (ssm_allocate_sectors s).1 = false := by simpa using hn
      have ha := ssm_answer_away bs Pr s hssm hn'
      rw [if_neg hn]
      generalize hS : (inode_write { (ssm_allocate_sectors s).2 with
        inode := setIndirect t (ssm_allocate_sectors s).2.inode (ssm_allocate_sectors s).1,
        disk := writeBlock bs (ssm_allocate_sectors s).2.disk (ssm_allocate_sectors s).1
          (fun _ => NIL) } p : FsState) = S
      have hS1 : Touch bs Pr s S := by
        subst hS
        refine ⟨?_, t1.2⟩
        show AgreeOn bs s.disk (writeBlock bs (ssm_allocate_sectors s).2.disk
          (ssm_allocate_sectors s).1 (fun _ => NIL)) Pr
        rw [t2]
        exact agree_write bs Pr _ _ _ hPr ha
      have hS3 : liveSlots bs S.disk (ssm_allocate_sectors s).1 = [] := by
        subst hS
        exact liveSlots_fresh bs _ _
      have hssm' : SsmAway bs Pr S.ssmOut := hssm.mono_ssm (fun _ h => h) hS1.2
      cases t
      · dsimp only
        have e := (add_single_alloc_touch bs Pr S f name (ssm_allocate_sectors s).1 hPr ha
          hssm').1
        split <;> exact hS1.trans_t e
      · dsimp only
        have e := (add_double_alloc_touch bs Pr S f name (ssm_allocate_sectors s).1 hPr ha
          (by rw [hS3]; intro c hm; cases hm) hssm').1
        split <;> exact hS1.trans_t e
      · dsimp only
        have e := (add_triple_alloc_touch bs Pr S f name (ssm_allocate_sectors s).1 hPr ha
          (by rw [hS3]; exact List.nodup_nil)
          (by rw [hS3]; intro c hm; cases hm)
          (by rw [hS3, List.append_nil]; exact hssm')).1
        split <;> exact hS1.trans_t e
  · rw [if_neg hc]
    exact Touch.refl_t bs Pr s

theorem unavail_direct_touch (bs : Nat) (Pr : List Nat) (s : FsState) (f p : Nat)
    (name : Nat × Nat) (hPr : ∀ q ∈ Pr, q % bs = 0) (hssm : SsmAway bs Pr s.ssmOut) :
    Touch bs Pr s (create_file_in_unavail_direct_loc bs s f p name).2 ∧
    SameOrInit s (create_file_in_unavail_direct_loc bs s f p name).2 := by
  unfold create_file_in_unavail_direct_loc
  split
  · exact ⟨Touch.refl_t bs Pr s, SameOrInit.refl_s s⟩
  · dsimp only
    obtain ⟨t1, t2, t3, -⟩ := ssm_allocate_touch bs Pr s
    by_cases hn : is_null (ssm_allocate_sectors s).1 = true
    · rw [if_pos hn]
      exact ⟨t1, Or.inl t3⟩
    · have hn' : is_null (ssm_allocate_sectors s).1 = false := by simpa using hn
      have ha := ssm_answer_away bs Pr s hssm hn'
      rw [if_neg hn]
      refine ⟨⟨?_, t1.2⟩, Or.inr rfl⟩
      show AgreeOn bs s.disk (writeBlock bs (ssm_allocate_sectors s).2.disk
        (ssm_allocate_sectors s).1 _) Pr
      rw [t2]
      exact agree_write bs Pr _ _ _ hPr ha

theorem avail_direct_loop_same (bs f : Nat) (name : Nat × Nat) (l : List Nat) (s : FsState) :
    SameOrInit s (create_file_in_avail_direct_loop bs f name l s).2 := by
  induction l with
  | nil => exact SameOrInit.refl_s s
  | cons i is ih =>
    unfold create_file_in_avail_direct_loop
    by_cases hc : is_not_null (s.inode.directPtr.getD i NIL) = true
    · simp only [hc, if_true]
      cases hf : freeSlot bs (readBlock s.disk (s.inode.directPtr.getD i NIL)) with
      | none => exact ih
      | some j => exact Or.inr rfl
    · simp only [hc, if_false]
      exact ih

/-- A property that holds of the state after each step of create_file holds of
its final state. -/
theorem create_file_chain (P : FsState → Prop) (o a1 a2 a3 a4 a5 a6 a7 a8 : Bool × FsState)
    (h0 : P o.2) (h1 : P a1.2) (h2 : P a2.2) (h3 : P a3.2) (h4 : P a4.2) (h5 : P a5.2)
    (h6 : P a6.2) (h7 : P a7.2) (h8 : P a8.2) :
    P (if (!o.1) = true then (false, o.2)
      else if a1.1 = true then (true, a1.2)
      else if a2.1 = true then (true, a2.2)
      else if a3.1 = true then (true, a3.2)
      else if a4.1 = true then (true, a4.2)
      else if a5.1 = true then (true, a5.2)
      else if a6.1 = true then (true, a6.2)
      else if a7.1 = true then (true, a7.2)
      else if a8.1 = true then (true, a8.2) else (false, a8.2)).2 := by
  split_ifs <;> assumption

/-- The insertion of an entry into the directory p leaves the block at x as it
is, when x is none of the blocks of p, the block tree of p is well formed with
pairwise distinct index blocks, and the answers the Sector Space Manager is
going to give are block offsets other than x and other than the index blocks
of p. -/
theorem create_file_touch (bs x : Nat) (s : FsState) (f : Nat) (name : Nat × Nat) (p : Nat)
    (hx : x % bs = 0)
    (hwf : TreeWellFormed bs s.disk (s.itable p))
    (hnd : (indexBlocksOf bs s.disk (s.itable p)).Nodup)
    (hxd : x ∉ dataBlocksOf bs s.disk (s.itable p))
    (hxi : x ∉ indexBlocksOf bs s.disk (s.itable p))
    (hssm : ∀ a ∈ s.ssmOut, a ≠ NIL →
      a % bs = 0 ∧ a ≠ x ∧ a ∉ indexBlocksOf bs s.disk (s.itable p)) :
    AgreeOn bs s.disk (create_file bs s f name p).2.disk [x] := by
  by_cases hop : (open_inode s p).1 = true
  swap
  · have hf : (!(open_inode s p).1) = true := by simpa using hop
    unfold create_file
    lift_lets
    intro o a1 a2 a3 a4 a5 a6 a7 a8
    have hf' : (!o.1) = true := hf
    have r0 : AgreeOn bs s.disk o.2.disk [x] := by
      show AgreeOn bs s.disk (open_inode s p).2.disk [x]
      rw [open_inode_disk]
      exact AgreeOn.refl_on bs s.disk [x]
    clear_value o a1 a2 a3 a4 a5 a6 a7 a8
    rw [if_pos hf']
    exact r0
  have e0 := open_inode_ok s p hop
  have hPr : ∀ q ∈ x :: indexBlocksOf bs s.disk (s.itable p), q % bs = 0 := by
    intro q hq
    rcases List.mem_cons.mp hq with h | h
    · rw [h]; exact hx
    · exact (hwf.2 q h).1
  have hPx : ∀ q ∈ [x], q % bs = 0 := by
    intro q hq
    rw [List.mem_singleton.mp hq]
    exact hx
  have hDaway : ∀ b ∈ dataBlocksOf bs s.disk (s.itable p),
      Away bs (x :: indexBlocksOf bs s.disk (s.itable p)) b := by
    intro b hb
    refine ⟨hwf.1 b hb, fun hm => ?_⟩
    rcases List.mem_cons.mp hm with h | h
    · exact hxd (h ▸ hb)
    · exact (hwf.2 b h).2 hb
  have hS1 : SsmAway bs (x :: indexBlocksOf bs s.disk (s.itable p)) s.ssmOut := by
    intro a ha hn
    obtain ⟨a1, a2, a3⟩ := hssm a ha hn
    refine ⟨a1, fun hm => ?_⟩
    rcases List.mem_cons.mp hm with h | h
    · exact a2 h
    · exact a3 h
  -- what holds of the state between the scans
  have step1 : ∀ t : FsState,
      (Touch bs (x :: indexBlocksOf bs s.disk (s.itable p)) s t ∧
        (t.inode = s.itable p ∨ t.inode = inode_init)) →
      (Touch bs (x :: indexBlocksOf bs s.disk (s.itable p)) s
          (create_file_in_avail_direct_loc bs t f name).2 ∧
        ((create_file_in_avail_direct_loc bs t f name).2.inode = s.itable p ∨
          (create_file_in_avail_direct_loc bs t f name).2.inode = inode_init)) := by
    intro t ht
    unfold create_file_in_avail_direct_loc
    constructor
    · refine ht.1.trans_t (avail_direct_loop_touch bs _ f name hPr _ t ?_)
      intro i hi hne
      rcases ht.2 with h | h
      · rw [h] at hne ⊢
        exact hDaway _ (mem_dataBlocksOf_direct bs s.disk (s.itable p) i hi hne)
      · rw [h] at hne
        simp only [inode_init, replicate_getD_nil] at hne
        exact absurd hne (by decide)
    · rcases avail_direct_loop_same bs f name (List.range INODE_DIRECT_PTRS) t with h | h
      · rcases ht.2 with h' | h'
        · exact Or.inl (h.trans h')
        · exact Or.inr (h.trans h')
      · exact Or.inr h
  have step2 : ∀ t : FsState,
      (Touch bs (x :: indexBlocksOf bs s.disk (s.itable p)) s t ∧
        (t.inode = s.itable p ∨ t.inode = inode_init)) →
      (Touch bs (x :: indexBlocksOf bs s.disk (s.itable p)) s
          (create_file_in_avail_indirect_loc bs t f name false).2 ∧
        ((create_file_in_avail_indirect_loc bs t f name false).2.inode = s.itable p ∨
          (create_file_in_avail_indirect_loc bs t f name false).2.inode = inode_init)) := by
    intro t ht
    obtain ⟨-, g1, g2⟩ := avail_indirect_false_touch bs _ s.disk t f name hPr ht.1.1
      (by
        intro y hy
        rcases ht.2 with h | h
        · rw [h] at hy; exact List.mem_cons_of_mem _ hy
        · rw [h, indexBlocksOf_init] at hy; cases hy)
      (by
        intro b hb
        rcases ht.2 with h | h
        · rw [h] at hb; exact hDaway b hb
        · rw [h, dataBlocksOf_init] at hb; cases hb)
    refine ⟨ht.1.trans_t g1, ?_⟩
    rcases g2 with h | h
    · rcases ht.2 with h' | h'
      · exact Or.inl (h.trans h')
      · exact Or.inr (h.trans h')
    · exact Or.inr h
  have step3 : ∀ t : FsState,
      (Touch bs (x :: indexBlocksOf bs s.disk (s.itable p)) s t ∧
        (t.inode = s.itable p ∨ t.inode = inode_init)) →
      (Touch bs (x :: indexBlocksOf bs s.disk (s.itable p)) s
          (create_file_in_unavail_direct_loc bs t f p name).2 ∧
        ((create_file_in_unavail_direct_loc bs t f p name).2.inode = s.itable p ∨
          (create_file_in_unavail_direct_loc bs t f p name).2.inode = inode_init)) := by
    intro t ht
    obtain ⟨g1, g2⟩ := unavail_direct_touch bs _ t f p name hPr
      (hS1.mono_ssm (fun _ h => h) ht.1.2)
    refine ⟨ht.1.trans_t g1, ?_⟩
    rcases g2 with h | h
    · rcases ht.2 with h' | h'
      · exact Or.inl (h.trans h')
      · exact Or.inr (h.trans h')
    · exact Or.inr h
  have step5 : ∀ t : FsState,
      (Touch bs (x :: indexBlocksOf bs s.disk (s.itable p)) s t ∧
        (t.inode = s.itable p ∨ t.inode = inode_init)) →
      Touch bs [x] s (create_file_in_avail_indirect_loc bs t f name true).2 := by
    intro t ht
    have hxs : ∀ q ∈ [x], q ∈ x :: indexBlocksOf bs s.disk (s.itable p) := by
      intro q hq
      rw [List.mem_singleton.mp hq]
      exact List.mem_cons_self _ _
    refine (ht.1.mono_t hxs).trans_t ?_
    have eI : indexBlocksOf bs t.disk t.inode = indexBlocksOf bs s.disk (s.itable p) ∨
        indexBlocksOf bs t.disk t.inode = [] := by
      rcases ht.2 with h | h
      · left
        rw [h]
        exact indexBlocksOf_congr bs s.disk t.disk _
          (ht.1.1.mono_on (fun y hy => List.mem_cons_of_mem _ hy))
      · right
        rw [h, indexBlocksOf_init]
    apply avail_indirect_alloc_touch bs [x] t f name hPx
    · rcases eI with h | h
      · rw [h]; exact hnd
      · rw [h]; exact List.nodup_nil
    · intro y hy
      rcases eI with h | h
      · rw [h] at hy
        refine ⟨(hwf.2 y hy).1, fun hm => ?_⟩
        rw [List.mem_singleton] at hm
        exact hxi (hm ▸ hy)
      · rw [h] at hy; cases hy
    · refine hS1.mono_ssm ?_ ht.1.2
      intro q hq
      rcases List.mem_append.mp hq with h' | h'
      · exact hxs q h'
      · rcases eI with h | h
        · rw [h] at h'; exact List.mem_cons_of_mem _ h'
        · rw [h] at h'; cases h'
  have step6 : ∀ (t : FsState) (ty : PointerType), Touch bs [x] s t →
      Touch bs [x] s (create_file_in_unavail_indirect_loc bs t ty f name p).2 := by
    intro t ty ht
    refine ht.trans_t (unavail_indirect_touch bs [x] t ty f name p hPx ?_)
    refine hS1.mono_ssm ?_ ht.2
    intro q hq
    rw [List.mem_singleton.mp hq]
    exact List.mem_cons_self _ _
  have hxs : ∀ q ∈ [x], q ∈ x :: indexBlocksOf bs s.disk (s.itable p) := by
    intro q hq
    rw [List.mem_singleton.mp hq]
    exact List.mem_cons_self _ _
  unfold create_file
  lift_lets
  intro o a1 a2 a3 a4 a5 a6 a7 a8
  have q0 : Touch bs (x :: indexBlocksOf bs s.disk (s.itable p)) s o.2 ∧
      (o.2.inode = s.itable p ∨ o.2.inode = inode_init) := by
    show Touch bs _ s (open_inode s p).2 ∧ _
    rw [e0]
    exact ⟨Touch.refl_t bs _ s, Or.inl rfl⟩
  have q1 : Touch bs (x :: indexBlocksOf bs s.disk (s.itable p)) s a1.2 ∧
      (a1.2.inode = s.itable p ∨ a1.2.inode = inode_init) := step1 o.2 q0
  have q2 : Touch bs (x :: indexBlocksOf bs s.disk (s.itable p)) s a2.2 ∧
      (a2.2.inode = s.itable p ∨ a2.2.inode = inode_init) := step2 a1.2 q1
  have q3 : Touch bs (x :: indexBlocksOf bs s.disk (s.itable p)) s a3.2 ∧
      (a3.2.inode = s.itable p ∨ a3.2.inode = inode_init) := step3 a2.2 q2
  have q4 : Touch bs (x :: indexBlocksOf bs s.disk (s.itable p)) s a4.2 ∧
      (a4.2.inode = s.itable p ∨ a4.2.inode = inode_init) := step2 a3.2 q3
  have q5 : Touch bs [x] s a5.2 := step5 a4.2 q4
  have q6 : Touch bs [x] s a6.2 := step6 a5.2 .SINGLE q5
  have q7 : Touch bs [x] s a7.2 := step6 a6.2 .DOUBLE q6
  have q8 : Touch bs [x] s a8.2 := step6 a7.2 .TRIPLE q7
  have r0 : AgreeOn bs s.disk o.2.disk [x] := (q0.1.mono_t hxs).1
  have r1 : AgreeOn bs s.disk a1.2.disk [x] := (q1.1.mono_t hxs).1
  have r2 : AgreeOn bs s.disk a2.2.disk [x] := (q2.1.mono_t hxs).1
  have r3 : AgreeOn bs s.disk a3.2.disk [x] := (q3.1.mono_t hxs).1
  have r4 : AgreeOn bs s.disk a4.2.disk [x] := (q4.1.mono_t hxs).1
  have r5 : AgreeOn bs s.disk a5.2.disk [x] := q5.1
  have r6 : AgreeOn bs s.disk a6.2.disk [x] := q6.1
  have r7 : AgreeOn bs s.disk a7.2.disk [x] := q7.1
  have r8 : AgreeOn bs s.disk a8.2.disk [x] := q8.1
  clear q0 q1 q2 q3 q4 q5 q6 q7 q8 step1 step2 step3 step5 step6
  clear_value o a1 a2 a3 a4 a5 a6 a7 a8
  exact create_file_chain (fun t => AgreeOn bs s.disk t.disk [x]) o a1 a2 a3 a4 a5 a6 a7 a8
    r0 r1 r2 r3 r4 r5 r6 r7 r8

/-! ### A new directory -/

theorem create_file_grow_eq (bs : Nat) (s : FsState) (f : Nat) (name : Nat × Nat)
    (p i x : Nat) (rest : List Nat) (hp : p ≠ NIL) (hty : 0 < (s.itable p).fileType)
    (hfull : ∀ b ∈ dataBlocksOf bs s.disk (s.itable p), freeSlot bs (readBlock s.disk b) = none)
    (hi : (List.range INODE_DIRECT_PTRS).find?
      (fun i => is_null ((s.itable p).directPtr.getD i NIL)) = some i)
    (hx : s.ssmOut = x :: rest) (hxn : x ≠ NIL) :
    create_file bs s f name p = (true, grownState bs s f name p i x rest) := by
  unfold create_file
  rw [open_inode_eq s p hp hty]
  have e1 : create_file_in_avail_direct_loc bs { s with mapId := p, inode := s.itable p } f name
      = (false, { s with mapId := p, inode := s.itable p }) := by
    unfold create_file_in_avail_direct_loc
    apply avail_direct_loop_none
    intro j hj hne
    exact hfull _ (mem_dataBlocksOf_direct bs s.disk (s.itable p) j hj hne)
  have e2 : create_file_in_avail_indirect_loc bs { s with mapId := p, inode := s.itable p }
      f name false = (false, { s with mapId := p, inode := s.itable p }) :=
    avail_indirect_none bs _ f name hfull
  have hxn' : is_null x = false := by simpa [is_null] using hxn
  have e3 : create_file_in_unavail_direct_loc bs { s with mapId := p, inode := s.itable p }
      f p name = (true, grownState bs s f name p i x rest) := by
    unfold create_file_in_unavail_direct_loc
    simp only [hi, ssm_allocate_sectors, hx, hxn', Bool.false_eq_true, if_false]
    rfl
  simp only [Bool.not_true, Bool.false_eq_true, if_false, e1, e2, e3, if_true]

theorem create_file_slot_eq (bs : Nat) (s : FsState) (f : Nat) (name : Nat × Nat)
    (p b j : Nat) (hp : p ≠ NIL) (hty : 0 < (s.itable p).fileType)
    (hb : (s.itable p).directPtr.getD 0 NIL = b) (hbn : b ≠ NIL)
    (hj : freeSlot bs (readBlock s.disk b) = some j) :
    create_file bs s f name p = (true, filledState bs s f name b j) := by
  unfold create_file
  rw [open_inode_eq s p hp hty]
  have hbn' : is_not_null b = true := by simpa [is_not_null] using hbn
  have e1 : create_file_in_avail_direct_loc bs { s with mapId := p, inode := s.itable p } f name
      = (true, filledState bs s f name b j) := by
    unfold create_file_in_avail_direct_loc
    rw [show List.range INODE_DIRECT_PTRS = 0 :: (List.range 9).map (· + 1) by decide]
    unfold create_file_in_avail_direct_loop
    simp only [hb, hbn', if_true, hj]
    rfl
  simp only [Bool.not_true, Bool.false_eq_true, if_false, e1, if_true]

theorem dataBlocksOf_congr (bs : Nat) (d d' : Nat → Nat) (ino : Inode)
    (h : AgreeOn bs d d' (indexBlocksOf bs d ino)) :
    dataBlocksOf bs d' ino = dataBlocksOf bs d ino := by
  unfold dataBlocksOf
  congr 1
  · congr 1
    · congr 1
      split_ifs with hS
      · exact liveSlots_congr bs d d' _ (h _ (mem_indexBlocksOf_s bs d ino hS))
      · rfl
    · split_ifs with hD
      · unfold doubleData
        have hd := mem_indexBlocksOf_d bs d ino hD
        rw [liveSlots_congr bs d d' _ (h _ (hd _ (List.mem_cons_self _ _)))]
        apply flatMap_congr_mem
        intro y hy
        exact liveSlots_congr bs d d' _ (h _ (hd _ (List.mem_cons_of_mem _ hy)))
      · rfl
  · split_ifs with hT
    · unfold tripleData
      have ht := mem_indexBlocksOf_t bs d ino hT
      rw [liveSlots_congr bs d d' _ (h _ (ht _ (List.mem_cons_self _ _)))]
      apply flatMap_congr_mem
      intro c hc
      have mC : ∀ z ∈ doubleIndex bs d c, z ∈ tripleIndex bs d ino.tIndirect := by
        intro z hz
        unfold tripleIndex
        apply List.mem_cons_of_mem
        rw [List.mem_flatMap]
        exact ⟨c, hc, hz⟩
      unfold doubleData
      rw [liveSlots_congr bs d d' _ (h _ (ht _ (mC _ (List.mem_cons_self _ _))))]
      apply flatMap_congr_mem
      intro y hy
      exact liveSlots_congr bs d d' _ (h _ (ht _ (mC _ (List.mem_cons_of_mem _ hy))))
    · rfl

theorem strcpyWord_dot (w : Nat) : strcpyWord [46] w % 65536 = 46 := by
  have e : strcpyWord [46] w = w / 65536 * 65536 + 46 := by
    simp [strcpyWord, List.enum, List.enumFrom]
  rw [e]
  omega

theorem strcpyWord_dotdot (w : Nat) : strcpyWord [46, 46] w % 16777216 = 11822 := by
  have e : strcpyWord [46, 46] w = w / 16777216 * 16777216 + 11822 := by
    simp [strcpyWord, List.enum, List.enumFrom]
  rw [e]
  omega

theorem get_inode_free (s : FsState) (hmap : s.iMap.length ≤ NIL)
    (hfree : s.iMap.indexOf false < s.iMap.length) :
    is_null (get_inode s).iMapOffset.1 = false ∧
    (BITS_PER_BYTE * (get_inode s).iMapOffset.1 + (get_inode s).iMapOffset.2) % U32
      = s.iMap.indexOf false := by
  have hnil : NIL = 4294967295 := rfl
  have h1 : (get_inode s).iMapOffset =
      (s.iMap.indexOf false / BITS_PER_BYTE, s.iMap.indexOf false % BITS_PER_BYTE) := by
    simp [get_inode, hfree]
  rw [h1]
  constructor
  · simp [is_null, BITS_PER_BYTE, hnil]; omega
  · simp only [BITS_PER_BYTE, U32]; omega

theorem fs_create_file_dir_eq (bs : Nat) (s : FsState) (junk name : Nat × Nat) (p : Nat)
    (hmap : s.iMap.length ≤ NIL) (hfree : s.iMap.indexOf false < s.iMap.length) :
    fs_create_file bs s junk 1 name p = (s.iMap.indexOf false,
      (create_file bs
        (create_file bs
          (create_file bs (reservedState s (s.iMap.indexOf false)) (s.iMap.indexOf false)
            (strcpyWord [46] junk.1, junk.2) (s.iMap.indexOf false)).2
          p (strcpyWord [46, 46] (strcpyWord [46] junk.1), junk.2) (s.iMap.indexOf false)).2
        (s.iMap.indexOf false) name p).2) := by
  obtain ⟨h2, h3⟩ := get_inode_free s hmap hfree
  unfold fs_create_file
  simp only [h2, Bool.false_eq_true, if_false, h3, if_true]
  rfl

theorem reservedState_facts (s : FsState) (n : Nat) :
    (reservedState s n).disk = s.disk ∧ (reservedState s n).ssmOut = s.ssmOut ∧
    (reservedState s n).itable n = dirInode ∧
    (∀ k, k ≠ n → (reservedState s n).itable k = s.itable k) := by
  obtain ⟨-, g2, g3, -⟩ := get_inode_freed s
  refine ⟨get_inode_disk s, g3, ?_, ?_⟩
  · simp [reservedState, allocate_inode, inode_write]
  · intro k hk
    simp [reservedState, allocate_inode, inode_write, inode_read, hk, g2]

theorem freeSlot_second (bs : Nat) (hbs : 32 ≤ bs) (buf : Nat → Nat) (h3 : buf 3 ≠ 0)
    (h7 : buf 7 = 0) : freeSlot bs buf = some 4 := by
  obtain ⟨k, hk⟩ : ∃ k, (bs / 4 + 3) / 4 = k + 2 := ⟨(bs / 4 + 3) / 4 - 2, by omega⟩
  unfold freeSlot slotIdx
  rw [hk, List.drop_zero, List.range_succ_eq_map, List.range_succ_eq_map]
  have e3 : (buf 3 == 0) = false := by simpa using h3
  simp [List.find?, e3, h7]

theorem dirInode_facts (bs : Nat) (d : Nat → Nat) :
    dataBlocksOf bs d dirInode = [] ∧
    (List.range INODE_DIRECT_PTRS).find? (fun i => is_null (dirInode.directPtr.getD i NIL))
      = some 0 := by
  constructor
  · have h1 : liveDirect dirInode = [] := by decide
    have h2 : is_not_null dirInode.sIndirect = false := by decide
    have h3 : is_not_null dirInode.dIndirect = false := by decide
    have h4 : is_not_null dirInode.tIndirect = false := by decide
    simp [dataBlocksOf, h1, h2, h3, h4]
  · decide

theorem fs_create_file_dir_state (bs : Nat) (s : FsState) (junk name : Nat × Nat) (p x : Nat)
    (rest : List Nat) (hbs : 32 ≤ bs) (hmap : s.iMap.length ≤ NIL)
    (hfree : s.iMap.indexOf false < s.iMap.length) (hpn : p ≠ s.iMap.indexOf false)
    (hx : s.ssmOut = x :: rest) (hxn : x ≠ NIL) (hxr : x ∉ rest)
    (hal : ∀ a ∈ s.ssmOut, a ≠ NIL → a % bs = 0)
    (hwf : TreeWellFormed bs s.disk (s.itable p))
    (hnd : (indexBlocksOf bs s.disk (s.itable p)).Nodup)
    (hfresh : ∀ a ∈ s.ssmOut, a ∉ dataBlocksOf bs s.disk (s.itable p) ∧
      a ∉ indexBlocksOf bs s.disk (s.itable p)) :
    ∃ r, fs_create_file bs s junk 1 name p = (s.iMap.indexOf false, r) ∧
      r.itable (s.iMap.indexOf false) = grownInode bs dirInode 0 x ∧
      ∀ i, i < bs / 4 → r.disk (x + 4 * i) =
        dirBlock (strcpyWord [46] junk.1, junk.2)
          (strcpyWord [46, 46] (strcpyWord [46] junk.1), junk.2) (s.iMap.indexOf false) p i := by
  generalize hn' : s.iMap.indexOf false = n at *
  generalize hdot : (strcpyWord [46] junk.1, junk.2) = dot
  generalize hdd : (strcpyWord [46, 46] (strcpyWord [46] junk.1), junk.2) = dotdot
  have hn : n ≠ NIL := by
    have : NIL = 4294967295 := rfl
    omega
  have h8 : 8 ≤ bs / 4 := by omega
  have hxs : x ∈ s.ssmOut := by rw [hx]; exact List.mem_cons_self _ _
  have hxa : x % bs = 0 := hal x hxs hxn
  obtain ⟨f1, f2, f3, f4⟩ := reservedState_facts s n
  -- the entry '.'
  have e1 : create_file bs (reservedState s n) n dot n
      = (true, grownState bs (reservedState s n) n dot n 0 x rest) := by
    apply create_file_grow_eq bs (reservedState s n) n dot n 0 x rest hn
    · rw [f3]; decide
    · rw [f3, (dirInode_facts bs _).1]
      intro b hb
      cases hb
    · rw [f3]; exact (dirInode_facts bs s.disk).2
    · rw [f2]; exact hx
    · exact hxn
  generalize hC1 : grownState bs (reservedState s n) n dot n 0 x rest = C1 at e1
  have c1d : C1.disk = writeBlock bs s.disk x (firstEntry dot n) := by
    subst hC1
    show writeBlock bs (reservedState s n).disk x (firstEntry dot n) = _
    rw [f1]
  have c1n : C1.itable n = grownInode bs dirInode 0 x := by
    subst hC1
    show (if n = n then grownInode bs ((reservedState s n).itable n) 0 x else _) = _
    rw [if_pos rfl, f3]
  have c1k : ∀ k, k ≠ n → C1.itable k = s.itable k := by
    intro k hk
    subst hC1
    show (if k = n then _ else (reservedState s n).itable k) = _
    rw [if_neg hk, f4 k hk]
  have c1s : C1.ssmOut = rest := by subst hC1; rfl
  have c1r : ∀ j, j < bs / 4 → readBlock C1.disk x j = firstEntry dot n j := by
    intro j hj
    show C1.disk (x + 4 * j) = _
    rw [c1d, writeBlock_inside bs _ _ _ j hj]
  -- the entry '..'
  have e2 : create_file bs C1 p dotdot n = (true, filledState bs C1 p dotdot x 4) := by
    apply create_file_slot_eq bs C1 p dotdot n x 4 hn
    · rw [c1n]
      show (0 : Int) < 2
      decide
    · rw [c1n]; rfl
    · exact hxn
    · apply freeSlot_second bs hbs
      · rw [c1r 3 (by omega)]
        show (1 : Nat) ≠ 0
        decide
      · rw [c1r 7 (by omega)]; rfl
  generalize hC2 : filledState bs C1 p dotdot x 4 = C2 at e2
  have c2d : C2.disk = writeBlock bs C1.disk x (putEntry (readBlock C1.disk x) 4 dotdot p) := by
    subst hC2; rfl
  have c2t : C2.itable = C1.itable := by subst hC2; rfl
  have c2s : C2.ssmOut = rest := by subst hC2; exact c1s
  have c2p : C2.itable p = s.itable p := by rw [c2t]; exact c1k p hpn
  -- the entry in the parent
  have hXal : ∀ q ∈ indexBlocksOf bs s.disk (s.itable p), q % bs = 0 :=
    fun q hq => (hwf.2 q hq).1
  have hxX : Away bs (indexBlocksOf bs s.disk (s.itable p)) x := ⟨hxa, (hfresh x hxs).2⟩
  have hag : AgreeOn bs s.disk C2.disk (indexBlocksOf bs s.disk (s.itable p)) := by
    rw [c2d, c1d]
    exact (agree_write bs _ _ _ _ hXal hxX).trans_on (agree_write bs _ _ _ _ hXal hxX)
  have eI := indexBlocksOf_congr bs s.disk C2.disk (s.itable p) hag
  have eD := dataBlocksOf_congr bs s.disk C2.disk (s.itable p) hag
  have htouch : AgreeOn bs C2.disk (create_file bs C2 n name p).2.disk [x] := by
    apply create_file_touch bs x C2 n name p hxa
    · rw [c2p]
      unfold TreeWellFormed
      rw [eI, eD]
      exact hwf
    · rw [c2p, eI]; exact hnd
    · rw [c2p, eD]; exact (hfresh x hxs).1
    · rw [c2p, eI]; exact (hfresh x hxs).2
    · intro a ha hne
      rw [c2s] at ha
      have ha' : a ∈ s.ssmOut := by rw [hx]; exact List.mem_cons_of_mem _ ha
      refine ⟨hal a ha' hne, fun e => hxr (e ▸ ha), ?_⟩
      rw [c2p, eI]
      exact (hfresh a ha').2
  have hins := (create_file_ins bs C2 n name p).1 n (fun e => hpn e.symm)
  refine ⟨(create_file bs C2 n name p).2, ?_, ?_, ?_⟩
  · rw [fs_create_file_dir_eq bs s junk name p hmap (by rw [hn']; exact hfree), hn', hdot, hdd,
      e1, e2]
  · rw [hins, c2t, c1n]
  · intro i hi
    rw [htouch x (List.mem_singleton.mpr rfl) i hi, c2d, writeBlock_inside bs _ _ _ i hi]
    simp only [dirBlock, putEntry, bufSet]
    split_ifs <;> first | rfl | exact c1r i hi

/-- C19: let BLOCK_SIZE be at least 32, let n be the inode number the bitmap
gives, p another number, x the first answer of the Sector Space Manager, not
NIL; let the answers of the Sector Space Manager be multiples of BLOCK_SIZE
that are not blocks of p, x not being given twice, and let the block tree of p
be well formed with pairwise distinct index blocks.  Then
fs_create_file(1, name, p) returns n; the persisted inode n has fileType 2,
directPtr[0] = x and every other pointer NIL; in the block at x slot 0 is in
use, carries inode_num n and the name bytes '.', NUL; slot 1 is in use, carries
inode_num p and the name bytes '.', '.', NUL; every word of the block from
slot 2 on is zero. -/
theorem fs_create_file_new_directory (bs : Nat) (s : FsState) (junk name : Nat × Nat)
    (p x : Nat) (rest : List Nat) (hbs : 32 ≤ bs) (hmap : s.iMap.length ≤ NIL)
    (hfree : s.iMap.indexOf false < s.iMap.length) (hpn : p ≠ s.iMap.indexOf false)
    (hx : s.ssmOut = x :: rest) (hxn : x ≠ NIL) (hxr : x ∉ rest)
    (hal : ∀ a ∈ s.ssmOut, a ≠ NIL → a % bs = 0)
    (hwf : TreeWellFormed bs s.disk (s.itable p))
    (hnd : (indexBlocksOf bs s.disk (s.itable p)).Nodup)
    (hfresh : ∀ a ∈ s.ssmOut, a ∉ dataBlocksOf bs s.disk (s.itable p) ∧
      a ∉ indexBlocksOf bs s.disk (s.itable p)) :
    ∃ r, fs_create_file bs s junk 1 name p = (s.iMap.indexOf false, r) ∧
      (r.itable (s.iMap.indexOf false)).fileType = 2 ∧
      (r.itable (s.iMap.indexOf false)).directPtr = x :: List.replicate 9 NIL ∧
      (r.itable (s.iMap.indexOf false)).sIndirect = NIL ∧
      (r.itable (s.iMap.indexOf false)).dIndirect = NIL ∧
      (r.itable (s.iMap.indexOf false)).tIndirect = NIL ∧
      r.disk x % 65536 = 46 ∧ r.disk (x + 8) = s.iMap.indexOf false ∧ r.disk (x + 12) = 1 ∧
      r.disk (x + 16) % 16777216 = 11822 ∧ r.disk (x + 24) = p ∧ r.disk (x + 28) = 1 ∧
      ∀ i, 8 ≤ i → i < bs / 4 → r.disk (x + 4 * i) = 0 := by
  obtain ⟨r, h1, h2, h3⟩ := fs_create_file_dir_state bs s junk name p x rest hbs hmap hfree hpn
    hx hxn hxr hal hwf hnd hfresh
  have w0 := h3 0 (by omega)
  have w2 := h3 2 (by omega)
  have w3 := h3 3 (by omega)
  have w4 := h3 4 (by omega)
  have w6 := h3 6 (by omega)
  have w7 := h3 7 (by omega)
  simp only [dirBlock, putEntry, firstEntry, bufSet] at w0 w2 w3 w4 w6 w7
  norm_num at w0 w2 w3 w4 w6 w7
  refine ⟨r, h1, ?_, ?_, ?_, ?_, ?_, ?_, w2, w3, ?_, w6, w7, ?_⟩
  · rw [h2]; rfl
  · rw [h2]; rfl
  · rw [h2]; rfl
  · rw [h2]; rfl
  · rw [h2]; rfl
  · rw [w0]; exact strcpyWord_dot _
  · rw [w4]; exact strcpyWord_dotdot _
  · intro i h8 hi
    rw [h3 i hi]
    simp only [dirBlock, putEntry, firstEntry, bufSet]
    have e1 : ¬ i = 4 + 2 := by omega
    have e2 : ¬ i = 4 + 1 := by omega
    have e3 : ¬ i = 4 := by omega
    have e4 : ¬ i = 4 + 3 := by omega
    have e5 : ¬ i = 0 + 2 := by omega
    have e6 : ¬ i = 0 + 1 := by omega
    have e7 : ¬ i = 0 := by omega
    have e8 : ¬ i = 0 + 3 := by omega
    simp only [e1, e2, e3, e4, e5, e6, e7, e8, if_false]

set_option maxRecDepth 1000000 in
/-- Instance of fs_create_file_new_directory: a directory created in the root
(inode 2) of madeState on 64-byte blocks; it gets inode 3 and the block at
offset 2240. -/
theorem fs_create_file_new_directory_witness :
    (madeState 3).iMap.indexOf false = 3 ∧
    ∃ r, fs_create_file 64 (madeState 3) (0, 0) 1 (100, 0) 2
        = ((madeState 3).iMap.indexOf false, r) ∧
      (r.itable ((madeState 3).iMap.indexOf false)).fileType = 2 ∧
      (r.itable ((madeState 3).iMap.indexOf false)).directPtr = 2240 :: List.replicate 9 NIL ∧
      (r.itable ((madeState 3).iMap.indexOf false)).sIndirect = NIL ∧
      (r.itable ((madeState 3).iMap.indexOf false)).dIndirect = NIL ∧
      (r.itable ((madeState 3).iMap.indexOf false)).tIndirect = NIL ∧
      r.disk 2240 % 65536 = 46 ∧ r.disk (2240 + 8) = (madeState 3).iMap.indexOf false ∧
      r.disk (2240 + 12) = 1 ∧
      r.disk (2240 + 16) % 16777216 = 11822 ∧ r.disk (2240 + 24) = 2 ∧ r.disk (2240 + 28) = 1 ∧
      ∀ i, 8 ≤ i → i < 64 / 4 → r.disk (2240 + 4 * i) = 0 :=
  ⟨by decide, fs_create_file_new_directory 64 (madeState 3) (0, 0) (100, 0) 2 2240 [2304]
    (by decide) (by decide) (by decide) (by decide) (by decide) (by decide) (by decide)
    (by decide) (by decide) (by decide) (by decide)⟩

theorem read_fold_spec (slot : Nat → Nat) (rd : (Nat → Nat) → Nat → Nat → (Nat → Nat))
    (W m : Nat) (V : Nat → Nat → Prop) (X : Nat → Nat → Nat)
    (hlive : ∀ i, i < m → slot i ≠ NIL)
    (hrd : ∀ i, i < m → ∀ o p, (∀ e, e < W → V i e → rd o p (slot i) (p + e) = X i e) ∧
        (∀ q, (q < p ∨ p + W ≤ q) → rd o p (slot i) q = o q))
    (out : Nat → Nat) (pos : Nat) (t : Nat) (hdead : ∀ i, m ≤ i → i < t → slot i = NIL) :
    ((List.range t).foldl (fun (acc : (Nat → Nat) × Nat) i =>
        if is_not_null (slot i) then (rd acc.1 acc.2 (slot i), acc.2 + W) else acc)
        (out, pos)).2 = pos + min t m * W ∧
    (∀ i, i < min t m → ∀ e, e < W → V i e →
      ((List.range t).foldl (fun (acc : (Nat → Nat) × Nat) i =>
        if is_not_null (slot i) then (rd acc.1 acc.2 (slot i), acc.2 + W) else acc)
        (out, pos)).1 (pos + i * W + e) = X i e) ∧
    (∀ q, (q < pos ∨ pos + min t m * W ≤ q) →
      ((List.range t).foldl (fun (acc : (Nat → Nat) × Nat) i =>
        if is_not_null (slot i) then (rd acc.1 acc.2 (slot i), acc.2 + W) else acc)
        (out, pos)).1 q = out q) := by
  induction t with
  | zero => simp
  | succ t ih =>
    obtain ⟨h1, h2, h3⟩ := ih (fun i hi hit => hdead i hi (by omega))
    rw [List.range_succ, List.foldl_append]
    generalize (List.range t).foldl (fun (acc : (Nat → Nat) × Nat) i =>
        if is_not_null (slot i) then (rd acc.1 acc.2 (slot i), acc.2 + W) else acc)
        (out, pos) = acc at h1 h2 h3
    simp only [List.foldl_cons, List.foldl_nil]
    by_cases htm : t < m
    · have hmin : min t m = t := by omega
      have hmin' : min (t + 1) m = t + 1 := by omega
      have hl : is_not_null (slot t) = true := by simpa [is_not_null] using hlive t htm
      rw [if_pos hl, hmin']
      rw [hmin] at h1 h2 h3
      obtain ⟨r1, r2⟩ := hrd t htm acc.1 acc.2
      refine ⟨?_, ?_, ?_⟩
      · show acc.2 + W = pos + (t + 1) * W
        rw [h1]; ring
      · intro i hi e he hv
        show rd acc.1 acc.2 (slot t) (pos + i * W + e) = X i e
        by_cases hit : i = t
        · subst hit
          rw [← h1]
          exact r1 e he hv
        · have hlt : i < t := by omega
          rw [r2, h2 i hlt e he hv]
          left
          rw [h1]
          have : (i + 1) * W ≤ t * W := Nat.mul_le_mul_right W (by omega)
          have e2 : (i + 1) * W = i * W + W := by ring
          omega
      · intro q hq
        show rd acc.1 acc.2 (slot t) q = out q
        have e2 : (t + 1) * W = t * W + W := by ring
        rw [r2, h3 q (by omega)]
        rw [h1]
        omega
    · have hmin : min t m = m := by omega
      have hmin' : min (t + 1) m = m := by omega
      have hl : ¬ is_not_null (slot t) = true := by
        have := hdead t (by omega) (by omega)
        simp [is_not_null, this]
      rw [if_neg hl, hmin']
      rw [hmin] at h1 h2 h3
      exact ⟨h1, h2, h3⟩

theorem div_mod_pack (a w P : Nat) (hw : w < P) :
    (a * P + w) / P = a ∧ (a * P + w) % P = w := by
  have hP : 0 < P := by omega
  constructor
  · rw [Nat.add_comm, Nat.add_mul_div_right _ _ hP, Nat.div_eq_of_lt hw, Nat.zero_add]
  · rw [Nat.add_comm, Nat.add_mul_mod_self_right, Nat.mod_eq_of_lt hw]

theorem read_node (bs : Nat) (A : Nat → Nat) (n : Nat) (d : Nat → Nat) (hG : GoodAns bs A n)
    (rd : (Nat → Nat) → Nat → Nat → (Nat → Nat)) (adr : Nat → Nat → Option Nat)
    (C : (Nat → Nat) → Nat → Prop) (N g K W : Nat) (hW : W = N * (bs / 4)) (hK : K ≤ bs / 4)
    (hg : 0 < g)
    (hrd : ∀ o out pos, o + g ≤ n → C d o →
      (∀ k x, k < N → adr o k = some x → ∀ w, w < bs / 4 →
        rd out pos (A o) (pos + k * (bs / 4) + w) = d (x + 4 * w)) ∧
      (∀ q, (q < pos ∨ pos + N * (bs / 4) ≤ q) → rd out pos (A o) q = out q))
    (o : Nat) (out : Nat → Nat) (pos : Nat) (ho : o + 1 + K * g ≤ n)
    (hN : Node bs C g K A d o) :
    (∀ k x, k < bs / 4 * N → nodeAdr adr g N K o k = some x → ∀ w, w < bs / 4 →
      ((List.range (bs / 4)).foldl (fun (acc : (Nat → Nat) × Nat) i =>
        if is_not_null (readBlock d (A o) i) then
          (rd acc.1 acc.2 (readBlock d (A o) i), acc.2 + W) else acc) (out, pos)).1
        (pos + k * (bs / 4) + w) = d (x + 4 * w)) ∧
    (∀ q, (q < pos ∨ pos + bs / 4 * N * (bs / 4) ≤ q) →
      ((List.range (bs / 4)).foldl (fun (acc : (Nat → Nat) × Nat) i =>
        if is_not_null (readBlock d (A o) i) then
          (rd acc.1 acc.2 (readBlock d (A o) i), acc.2 + W) else acc) (out, pos)).1 q = out q) := by
  have hslot : ∀ i, i < bs / 4 →
      readBlock d (A o) i = if i < K then A (o + 1 + i * g) else NIL := hN.1
  have hidx : ∀ i, i < K → o + 1 + i * g + g ≤ n := by
    intro i hi
    have : (i + 1) * g ≤ K * g := Nat.mul_le_mul_right g (by omega)
    have e2 : (i + 1) * g = i * g + g := by ring
    omega
  have hsl : ∀ i, i < K → readBlock d (A o) i = A (o + 1 + i * g) := by
    intro i hi
    rw [hslot i (by omega), if_pos hi]
  obtain ⟨-, f2, f3⟩ := read_fold_spec (readBlock d (A o)) rd W K
    (fun i e => ∃ x, adr (o + 1 + i * g) (e / (bs / 4)) = some x)
    (fun i e => (adr (o + 1 + i * g) (e / (bs / 4))).elim 0 (fun x => d (x + 4 * (e % (bs / 4)))))
    (by
      intro i hi
      rw [hsl i hi]
      exact (hG.1 _ (by have := hidx i hi; omega)).1)
    (by
      intro i hi o' p
      rw [hsl i hi]
      obtain ⟨r1, r2⟩ := hrd (o + 1 + i * g) o' p (hidx i hi) (hN.2 i hi)
      refine ⟨?_, ?_⟩
      · intro e he hv
        obtain ⟨x, hx⟩ := hv
        have hP : 0 < bs / 4 := by
          rcases Nat.eq_zero_or_pos (bs / 4) with h | h
          · rw [hW, h] at he; simp at he
          · exact h
        have hk : e / (bs / 4) < N := by
          rw [Nat.div_lt_iff_lt_mul hP]
          rw [hW] at he
          exact he
        have hw : e % (bs / 4) < bs / 4 := Nat.mod_lt _ hP
        have := r1 _ x hk hx _ hw
        have e1 : p + e / (bs / 4) * (bs / 4) + e % (bs / 4) = p + e := by
          have := Nat.div_add_mod e (bs / 4)
          rw [Nat.mul_comm] at this
          omega
        rw [e1] at this
        rw [this]
        simp only [hx, Option.elim]
      · intro q hq
        apply r2
        rw [← hW]
        exact hq)
    out pos (bs / 4)
    (by
      intro i h1 h2
      rw [hslot i h2, if_neg (by omega)])
  have hmin : min (bs / 4) K = K := by omega
  rw [hmin] at f2 f3
  refine ⟨?_, ?_⟩
  · intro k x hk hx w hw
    unfold nodeAdr at hx
    by_cases hc : k / N < K
    · rw [if_pos hc] at hx
      have hN0 : 0 < N := by
        rcases Nat.eq_zero_or_pos N with h | h
        · rw [h] at hk; simp at hk
        · exact h
      have hkn : k % N < N := Nat.mod_lt _ hN0
      obtain ⟨p1, p2⟩ := div_mod_pack (k % N) w (bs / 4) hw
      have he : k % N * (bs / 4) + w < W := by
        rw [hW]
        have : (k % N + 1) * (bs / 4) ≤ N * (bs / 4) := Nat.mul_le_mul_right _ (by omega)
        have e2 : (k % N + 1) * (bs / 4) = k % N * (bs / 4) + bs / 4 := by ring
        omega
      have := f2 (k / N) hc (k % N * (bs / 4) + w) he (by rw [p1]; exact ⟨x, hx⟩)
      rw [p1, p2, hx] at this
      have e1 : pos + k / N * W + (k % N * (bs / 4) + w) = pos + k * (bs / 4) + w := by
        rw [hW]
        have h3 := Nat.div_add_mod k N
        have : k * (bs / 4) = (N * (k / N) + k % N) * (bs / 4) := by rw [h3]
        rw [this]
        ring
      rw [e1] at this
      exact this
    · rw [if_neg hc] at hx
      cases hx
  · intro q hq
    apply f3
    have : K * W ≤ bs / 4 * N * (bs / 4) := by
      rw [hW]
      have := Nat.mul_le_mul_right (N * (bs / 4)) hK
      calc K * (N * (bs / 4)) ≤ bs / 4 * (N * (bs / 4)) := this
        _ = bs / 4 * N * (bs / 4) := by ring
    omega

/-- What read_from_single_indirect_blocks leaves in the buffer. -/
theorem read_single_spec (bs : Nat) (A : Nat → Nat) (n : Nat) (d : Nat → Nat)
    (hG : GoodAns bs A n) (m : Nat) (hm : m ≤ bs / 4) (o : Nat) (out : Nat → Nat) (pos : Nat)
    (ho : o + (1 + m) ≤ n) (hT : Tree1 bs m A d o) :
    (∀ k x, k < bs / 4 → adr1 m A o k = some x → ∀ w, w < bs / 4 →
      read_from_single_indirect_blocks bs d out pos (A o) (pos + k * (bs / 4) + w)
        = d (x + 4 * w)) ∧
    (∀ q, (q < pos ∨ pos + bs / 4 * (bs / 4) ≤ q) →
      read_from_single_indirect_blocks bs d out pos (A o) q = out q) := by
  have h := read_node bs A n d hG (fun out pos c => copyIn bs d c out pos) (leafAdr A)
    (fun _ _ => True) 1 1 m (bs / 4) (by simp) hm (by decide)
    (by
      intro o' out' pos' _ _
      refine ⟨?_, ?_⟩
      · intro k x hk hx w hw
        have hk0 : k = 0 := by omega
        subst hk0
        simp only [leafAdr, Option.some.injEq] at hx
        subst hx
        simp only [copyIn]
        rw [if_pos (by omega)]
        congr 2
        omega
      · intro q hq
        simp only [copyIn]
        rw [if_neg (by omega)])
    o out pos (by omega) hT
  simp only [Nat.mul_one] at h
  exact h

theorem read_double_spec (bs : Nat) (A : Nat → Nat) (n : Nat) (d : Nat → Nat)
    (hG : GoodAns bs A n) (K m : Nat) (hK : K ≤ bs / 4) (hm : m ≤ bs / 4) (o : Nat)
    (out : Nat → Nat) (pos : Nat)
    (ho : o + (1 + K * (1 + m)) ≤ n) (hT : Tree2 bs K m A d o) :
    (∀ k x, k < bs / 4 * (bs / 4) → adr2 bs K m A o k = some x → ∀ w, w < bs / 4 →
      read_from_double_indirect_blocks bs d out pos (A o) (pos + k * (bs / 4) + w)
        = d (x + 4 * w)) ∧
    (∀ q, (q < pos ∨ pos + bs / 4 * (bs / 4) * (bs / 4) ≤ q) →
      read_from_double_indirect_blocks bs d out pos (A o) q = out q) := by
  exact read_node bs A n d hG (fun out pos c => read_from_single_indirect_blocks bs d out pos c)
    (adr1 m A) (Tree1 bs m A) (bs / 4) (1 + m) K (bs / 4 * S_INDIRECT_BLOCKS bs) rfl hK
    (by omega)
    (fun o' out' pos' h1 h2 => read_single_spec bs A n d hG m hm o' out' pos' h1 h2)
    o out pos (by omega) hT

theorem read_triple_spec (bs : Nat) (A : Nat → Nat) (n : Nat) (d : Nat → Nat)
    (hG : GoodAns bs A n) (K3 K m : Nat) (hK3 : K3 ≤ bs / 4) (hK : K ≤ bs / 4)
    (hm : m ≤ bs / 4) (o : Nat) (out : Nat → Nat) (pos : Nat)
    (ho : o + (1 + K3 * (1 + K * (1 + m))) ≤ n) (hT : Tree3 bs K3 K m A d o) :
    (∀ k x, k < bs / 4 * (bs / 4 * (bs / 4)) → adr3 bs K3 K m A o k = some x →
      ∀ w, w < bs / 4 →
      read_from_triple_indirect_blocks bs d out pos (A o) (pos + k * (bs / 4) + w)
        = d (x + 4 * w)) ∧
    (∀ q, (q < pos ∨ pos + bs / 4 * (bs / 4 * (bs / 4)) * (bs / 4) ≤ q) →
      read_from_triple_indirect_blocks bs d out pos (A o) q = out q) := by
  exact read_node bs A n d hG (fun out pos c => read_from_double_indirect_blocks bs d out pos c)
    (adr2 bs K m A) (Tree2 bs K m A) (bs / 4 * (bs / 4)) (1 + K * (1 + m)) K3
    (bs / 4 * D_INDIRECT_BLOCKS bs)
    (by simp only [D_INDIRECT_BLOCKS, PTRS_PER_BLOCK]; ring) hK3
    (by omega)
    (fun o' out' pos' h1 h2 => read_double_spec bs A n d hG K m hK hm o' out' pos' h1 h2)
    o out pos (by omega) hT

theorem inside_disjoint (bs : Nat) (A : Nat → Nat) (n : Nat) (hG : GoodAns bs A n)
    (lo hi lo' hi' a : Nat) (h1 : hi ≤ n) (h2 : hi' ≤ n) (hd : hi ≤ lo' ∨ hi' ≤ lo)
    (hin : Inside bs A lo hi a) : ¬ Inside bs A lo' hi' a := by
  rintro ⟨j', a1, a2, a3, a4⟩
  obtain ⟨j, b1, b2, b3, b4⟩ := hin
  have hne : j ≠ j' := by omega
  have := hG.2 j j' (by omega) (by omega) hne
  have := aligned_disjoint bs (A j) (A j') (hG.1 j (by omega)).2 (hG.1 j' (by omega)).2 this
  omega

theorem inside_block (bs : Nat) (A : Nat → Nat) (lo hi j w : Nat) (h1 : lo ≤ j) (h2 : j < hi)
    (hw : w < bs / 4) : Inside bs A lo hi (A j + 4 * w) :=
  ⟨j, h1, h2, by omega, by omega⟩

theorem Inside.mono_in {bs : Nat} {A : Nat → Nat} {lo hi lo' hi' a : Nat}
    (h : Inside bs A lo hi a) (h1 : lo' ≤ lo) (h2 : hi ≤ hi') : Inside bs A lo' hi' a := by
  obtain ⟨j, a1, a2, a3, a4⟩ := h
  exact ⟨j, by omega, by omega, a3, a4⟩

theorem ChangedIn.refl_c (bs : Nat) (A : Nat → Nat) (lo hi : Nat) (d : Nat → Nat) :
    ChangedIn bs A lo hi d d := fun _ _ => rfl

theorem ChangedIn.mono_c {bs : Nat} {A : Nat → Nat} {lo hi lo' hi' : Nat} {d d' : Nat → Nat}
    (h : ChangedIn bs A lo hi d d') (h1 : lo' ≤ lo) (h2 : hi ≤ hi') :
    ChangedIn bs A lo' hi' d d' :=
  fun a ha => h a (fun hin => ha (hin.mono_in h1 h2))

theorem ChangedIn.trans_c {bs : Nat} {A : Nat → Nat} {lo hi : Nat} {d d' d'' : Nat → Nat}
    (h : ChangedIn bs A lo hi d d') (h' : ChangedIn bs A lo hi d' d'') :
    ChangedIn bs A lo hi d d'' :=
  fun a ha => (h' a ha).trans (h a ha)

theorem changed_writeBlock (bs : Nat) (A : Nat → Nat) (j : Nat) (d buf : Nat → Nat) :
    ChangedIn bs A j (j + 1) d (writeBlock bs d (A j) buf) := by
  intro a ha
  apply writeBlock_outside
  by_contra hc
  exact ha ⟨j, le_refl _, by omega, by omega, by omega⟩

/-- A change inside other blocks is not seen inside the blocks A o, …. -/
theorem ChangedIn.kept {bs : Nat} {A : Nat → Nat} {n lo hi : Nat} {d d' : Nat → Nat}
    (h : ChangedIn bs A lo hi d d') (hG : GoodAns bs A n) (o g : Nat) (h1 : hi ≤ n)
    (h2 : o + g ≤ n) (hd : hi ≤ o ∨ o + g ≤ lo) :
    ∀ a, Inside bs A o (o + g) a → d' a = d a := by
  intro a ha
  apply h
  exact inside_disjoint bs A n hG o (o + g) lo hi a h2 h1 (by omega) ha

theorem lives_leaf (bs : Nat) (A : Nat → Nat) (g : Nat) : Lives bs A g (fun _ _ => True) :=
  fun _ _ _ _ _ => trivial

theorem lives_node (bs : Nat) (A : Nat → Nat) (C : (Nat → Nat) → Nat → Prop) (g K : Nat)
    (hL : Lives bs A g C) : Lives bs A (1 + K * g) (Node bs C g K A) := by
  intro d d' o hag hN
  have hidx : ∀ i, i < K → o + 1 + i * g + g ≤ o + (1 + K * g) := by
    intro i hi
    have : (i + 1) * g ≤ K * g := Nat.mul_le_mul_right g (by omega)
    have e2 : (i + 1) * g = i * g + g := by ring
    omega
  refine ⟨?_, ?_⟩
  · intro i hi
    rw [hag _ (inside_block bs A o _ o i (le_refl _) (by omega) hi)]
    exact hN.1 i hi
  · intro i hi
    apply hL d d' _ _ (hN.2 i hi)
    intro a ha
    exact hag a (ha.mono_in (by omega) (hidx i hi))

theorem adr_leaf (A : Nat → Nat) (o k x : Nat) (h : leafAdr A o k = some x) :
    ∃ j, o ≤ j ∧ j < o + 1 ∧ x = A j := by
  simp only [leafAdr, Option.some.injEq] at h
  exact ⟨o, le_refl _, by omega, h.symm⟩

theorem adr_node (A : Nat → Nat) (adr : Nat → Nat → Option Nat) (g N K : Nat)
    (hA : ∀ o k x, adr o k = some x → ∃ j, o ≤ j ∧ j < o + g ∧ x = A j)
    (o k x : Nat) (h : nodeAdr adr g N K o k = some x) :
    ∃ j, o ≤ j ∧ j < o + (1 + K * g) ∧ x = A j := by
  unfold nodeAdr at h
  by_cases hc : k / N < K
  · rw [if_pos hc] at h
    obtain ⟨j, j1, j2, j3⟩ := hA _ _ _ h
    have : (k / N + 1) * g ≤ K * g := Nat.mul_le_mul_right g (by omega)
    have e2 : (k / N + 1) * g = k / N * g + g := by ring
    exact ⟨j, by omega, by omega, j3⟩
  · rw [if_neg hc] at h
    cases h

/-- The loop of write_to_single_indirect_blocks from slot i0 on, below an
index block that lists m data blocks. -/
theorem write_single_loop_spec (bs : Nat) (A : Nat → Nat) (n : Nat) (hG : GoodAns bs A n)
    (buf : Nat → Nat) (m o : Nat) (ho : o + 1 + m ≤ n) (ib : Nat → Nat)
    (hib : ∀ i, i < bs / 4 → ib i = if i < m then A (o + 1 + i) else NIL) :
    ∀ len i0 pos d, i0 + len ≤ bs / 4 →
      ChangedIn bs A (o + 1 + i0) (o + 1 + m) d
        (write_single_loop bs ib buf (List.range' i0 len) pos d) ∧
      ∀ k, k < len → i0 + k < m → ∀ w, w < bs / 4 →
        write_single_loop bs ib buf (List.range' i0 len) pos d (A (o + 1 + i0 + k) + 4 * w)
          = buf (pos + k * (bs / 4) + w) := by
  intro len
  induction len with
  | zero =>
    intro i0 pos d _
    simp only [List.range'_zero, write_single_loop]
    exact ⟨ChangedIn.refl_c _ _ _ _ _, fun k hk => absurd hk (by omega)⟩
  | succ len ih =>
    intro i0 pos d hlen
    rw [List.range'_succ, write_single_loop]
    have hs := hib i0 (by omega)
    by_cases hm : i0 < m
    · rw [if_pos hm] at hs
      have hnn : is_null (ib i0) = false := by
        rw [hs]
        simpa [is_null] using (hG.1 (o + 1 + i0) (by omega)).1
      rw [hnn]
      simp only [Bool.false_eq_true, if_false]
      rw [hs]
      obtain ⟨r1, r2⟩ := ih (i0 + 1) (pos + bs / 4)
        (writeBlock bs d (A (o + 1 + i0)) (bufAt buf pos)) (by omega)
      refine ⟨?_, ?_⟩
      · intro a ha
        rw [r1 a (fun hin => ha (hin.mono_in (by omega) (le_refl _)))]
        apply changed_writeBlock bs A (o + 1 + i0) d (bufAt buf pos) a
        exact fun hin => ha (hin.mono_in (le_refl _) (by omega))
      · intro k hk hkm w hw
        rcases Nat.eq_zero_or_pos k with h0 | h0
        · subst h0
          rw [r1]
          · simp only [Nat.add_zero, Nat.zero_mul]
            rw [writeBlock_inside bs d _ _ w hw]
            rfl
          · exact inside_disjoint bs A n hG (o + 1 + i0) (o + 1 + i0 + 1) _ _ _ (by omega)
              (by omega) (Or.inl (by omega))
              (inside_block bs A _ _ (o + 1 + i0 + 0) w (by omega) (by omega) hw)
        · obtain ⟨k', rfl⟩ : ∃ k', k = k' + 1 := ⟨k - 1, by omega⟩
          have := r2 k' (by omega) (by omega) w hw
          have e1 : o + 1 + (i0 + 1) + k' = o + 1 + i0 + (k' + 1) := by omega
          have e2 : pos + bs / 4 + k' * (bs / 4) + w = pos + (k' + 1) * (bs / 4) + w := by ring
          rw [e1, e2] at this
          exact this
    · rw [if_neg hm] at hs
      have hnn : is_null (ib i0) = true := by
        rw [hs]; simp [is_null]
      rw [hnn]
      simp only [if_true]
      exact ⟨ChangedIn.refl_c _ _ _ _ _, fun k _ hk => absurd hk (by omega)⟩

/-- What write_to_single_indirect_blocks does below an index block that lists
m data blocks. -/
theorem write_single_spec (bs : Nat) (A : Nat → Nat) (n : Nat) (hG : GoodAns bs A n)
    (buf : Nat → Nat) (m : Nat) (o : Nat) (d : Nat → Nat) (pos cnt : Nat)
    (ho : o + (1 + m) ≤ n) (hT : Tree1 bs m A d o) (hc : cnt ≤ bs / 4) :
    Tree1 bs m A (write_to_single_indirect_blocks bs d (A o) buf pos cnt) o ∧
    ChangedIn bs A o (o + (1 + m)) d (write_to_single_indirect_blocks bs d (A o) buf pos cnt) ∧
    ∀ k x, k < cnt → adr1 m A o k = some x → ∀ w, w < bs / 4 →
      write_to_single_indirect_blocks bs d (A o) buf pos cnt (x + 4 * w)
        = buf (pos + k * (bs / 4) + w) := by
  have hib : ∀ i, i < bs / 4 → readBlock d (A o) i = if i < m then A (o + 1 + i) else NIL := by
    intro i hi
    have := hT.1 i hi
    simp only [Nat.mul_one] at this
    exact this
  obtain ⟨r1, r2⟩ := write_single_loop_spec bs A n hG buf m o (by omega) (readBlock d (A o)) hib
    cnt 0 pos d (by omega)
  unfold write_to_single_indirect_blocks
  rw [List.range_eq_range']
  refine ⟨?_, ?_, ?_⟩
  · refine ⟨?_, fun _ _ => trivial⟩
    intro i hi
    rw [r1 _ (inside_disjoint bs A n hG o (o + 1) _ _ _ (by omega) (by omega)
      (Or.inl (by omega)) (inside_block bs A o (o + 1) o i (le_refl _) (by omega) hi))]
    exact hT.1 i hi
  · exact r1.mono_c (by omega) (by omega)
  · intro k x hk hx w hw
    unfold adr1 nodeAdr at hx
    simp only [Nat.div_one, Nat.mul_one, Nat.mod_one] at hx
    by_cases hkm : k < m
    · rw [if_pos hkm] at hx
      simp only [leafAdr, Option.some.injEq] at hx
      subst hx
      have := r2 k hk (by omega) w hw
      simp only [Nat.add_zero] at this
      exact this
    · rw [if_neg hkm] at hx
      cases hx

theorem child_index (o g K i : Nat) (hi : i < K) : o + 1 + i * g + g ≤ o + 1 + K * g := by
  have : (i + 1) * g ≤ K * g := Nat.mul_le_mul_right g (by omega)
  have e2 : (i + 1) * g = i * g + g := by ring
  omega

theorem child_apart (o g i j : Nat) (h : i < j) : o + 1 + i * g + g ≤ o + 1 + j * g := by
  have : (i + 1) * g ≤ j * g := Nat.mul_le_mul_right g (by omega)
  have e2 : (i + 1) * g = i * g + g := by ring
  omega

theorem subU32_exact (c N : Nat) (h1 : N ≤ c) (h2 : c < U32) : subU32 c N = c - N := by
  unfold subU32
  have hN : N % U32 = N := Nat.mod_eq_of_lt (by omega)
  rw [hN]
  have : c + U32 - N = (c - N) + U32 := by omega
  rw [this, Nat.add_mod_right]
  exact Nat.mod_eq_of_lt (by omega)

/-- One child written by a loop of write_to_double_indirect_blocks or
write_to_triple_indirect_blocks: the other subtrees stay, the change is inside
the blocks of the child, the data blocks of the child hold the buffer. -/
theorem write_child_step (bs : Nat) (A : Nat → Nat) (n : Nat) (hG : GoodAns bs A n)
    (buf : Nat → Nat) (child : (Nat → Nat) → Nat → Nat → Nat → (Nat → Nat))
    (adr : Nat → Nat → Option Nat) (C : (Nat → Nat) → Nat → Prop) (N g K : Nat)
    (hL : Lives bs A g C)
    (hch : ∀ o d pos cnt, o + g ≤ n → C d o → cnt ≤ N →
      C (child d (A o) pos cnt) o ∧ ChangedIn bs A o (o + g) d (child d (A o) pos cnt) ∧
      ∀ k x, k < cnt → adr o k = some x → ∀ w, w < bs / 4 →
        child d (A o) pos cnt (x + 4 * w) = buf (pos + k * (bs / 4) + w))
    (o : Nat) (ho : o + 1 + K * g ≤ n) (i0 : Nat) (hi0 : i0 < K) (d : Nat → Nat) (pos c : Nat)
    (hc : c ≤ N) (hC : ∀ i, i < K → C d (o + 1 + i * g)) :
    (∀ i, i < K → C (child d (A (o + 1 + i0 * g)) pos c) (o + 1 + i * g)) ∧
    ChangedIn bs A (o + 1 + i0 * g) (o + 1 + i0 * g + g) d
      (child d (A (o + 1 + i0 * g)) pos c) ∧
    ∀ k x, k < c → adr (o + 1 + i0 * g) k = some x → ∀ w, w < bs / 4 →
      child d (A (o + 1 + i0 * g)) pos c (x + 4 * w) = buf (pos + k * (bs / 4) + w) := by
  have h0 := child_index o g K i0 hi0
  obtain ⟨q1, q2, q3⟩ := hch (o + 1 + i0 * g) d pos c (by omega) (hC i0 hi0) hc
  refine ⟨?_, q2, q3⟩
  intro i hi
  by_cases hii : i = i0
  · subst hii; exact q1
  · have hi' := child_index o g K i hi
    apply hL d _ _ _ (hC i hi)
    apply q2.kept hG _ _ (by omega) (by omega)
    rcases Nat.lt_or_ge i i0 with h | h
    · right; exact child_apart o g i i0 h
    · left; exact child_apart o g i0 i (by omega)

/-- The loops of write_to_double_indirect_blocks and
write_to_triple_indirect_blocks from slot i0 on. -/
theorem write_level_loop_spec (bs : Nat) (wide : Bool) (A : Nat → Nat) (n : Nat)
    (hG : GoodAns bs A n) (buf : Nat → Nat)
    (child : (Nat → Nat) → Nat → Nat → Nat → (Nat → Nat))
    (adr : Nat → Nat → Option Nat) (C : (Nat → Nat) → Nat → Prop) (N g K adv : Nat)
    (hadv : adv = N * (bs / 4)) (hU : bs / 4 * N < U32) (hg : 0 < g)
    (hL : Lives bs A g C)
    (hA : ∀ o k x, adr o k = some x → ∃ j, o ≤ j ∧ j < o + g ∧ x = A j)
    (hch : ∀ o d pos cnt, o + g ≤ n → C d o → cnt ≤ N →
      C (child d (A o) pos cnt) o ∧ ChangedIn bs A o (o + g) d (child d (A o) pos cnt) ∧
      ∀ k x, k < cnt → adr o k = some x → ∀ w, w < bs / 4 →
        child d (A o) pos cnt (x + 4 * w) = buf (pos + k * (bs / 4) + w))
    (loop : List Nat → Nat → Nat → (Nat → Nat) → (Nat → Nat)) (ib : Nat → Nat)
    (hnil : ∀ pos c d, loop [] pos c d = d)
    (hcons : ∀ i is pos c d, loop (i :: is) pos c d =
      if is_null (ib i) then d
      else if subPos wide c N then loop is (pos + adv) (subU32 c N) (child d (ib i) pos N)
      else if c = N then child d (ib i) pos N
      else child d (ib i) pos c)
    (o : Nat) (ho : o + 1 + K * g ≤ n)
    (hib : ∀ i, i < bs / 4 → ib i = if i < K then A (o + 1 + i * g) else NIL) :
    ∀ len i0 pos cnt d, i0 + len ≤ bs / 4 → (∀ i, i < K → C d (o + 1 + i * g)) →
      (∀ i, i < K → C (loop (List.range' i0 len) pos cnt d) (o + 1 + i * g)) ∧
      ChangedIn bs A (o + 1 + i0 * g) (o + 1 + K * g) d (loop (List.range' i0 len) pos cnt d) ∧
      (cnt ≤ len * N → ∀ k x, k < cnt → i0 + k / N < K →
        adr (o + 1 + (i0 + k / N) * g) (k % N) = some x → ∀ w, w < bs / 4 →
        loop (List.range' i0 len) pos cnt d (x + 4 * w) = buf (pos + k * (bs / 4) + w)) := by
  intro len
  induction len with
  | zero =>
    intro i0 pos cnt d _ hC
    simp only [List.range'_zero, hnil]
    exact ⟨hC, ChangedIn.refl_c _ _ _ _ _, fun h k x hk => absurd hk (by omega)⟩
  | succ len ih =>
    intro i0 pos cnt d hlen hC
    rw [List.range'_succ, hcons]
    have hs := hib i0 (by omega)
    by_cases hK0 : i0 < K
    · rw [if_pos hK0] at hs
      have h0 := child_index o g K i0 hK0
      have hnn : is_null (ib i0) = false := by
        rw [hs]
        simpa [is_null] using (hG.1 (o + 1 + i0 * g) (by omega)).1
      rw [hnn]
      simp only [Bool.false_eq_true, if_false]
      rw [hs]
      -- the data blocks of child i0 are not touched by the later children
      have hlater : ∀ (d1 d2 : Nat → Nat),
          ChangedIn bs A (o + 1 + (i0 + 1) * g) (o + 1 + K * g) d1 d2 →
          ∀ k x, adr (o + 1 + i0 * g) k = some x → ∀ w, w < bs / 4 →
            d2 (x + 4 * w) = d1 (x + 4 * w) := by
        intro d1 d2 hch12 k x hx w hw
        obtain ⟨j, j1, j2, rfl⟩ := hA _ _ _ hx
        apply hch12
        have e2 : (i0 + 1) * g = i0 * g + g := by ring
        exact inside_disjoint bs A n hG (o + 1 + i0 * g) (o + 1 + i0 * g + g) _ _ _ (by omega)
          (by omega) (Or.inl (by omega)) (inside_block bs A _ _ j w j1 j2 hw)
      have hfirst : ∀ k, k < N → i0 + k / N = i0 ∧ k % N = k := by
        intro k hk
        rw [Nat.div_eq_of_lt hk, Nat.mod_eq_of_lt hk]
        exact ⟨rfl, rfl⟩
      by_cases hsp : subPos wide cnt N = true
      · rw [if_pos hsp]
        obtain ⟨q1, q2, q3⟩ := write_child_step bs A n hG buf child adr C N g K hL hch o ho i0
          hK0 d pos N (le_refl _) hC
        obtain ⟨r1, r2, r3⟩ := ih (i0 + 1) (pos + adv) (subU32 cnt N)
          (child d (A (o + 1 + i0 * g)) pos N) (by omega) q1
        have e2 : (i0 + 1) * g = i0 * g + g := by ring
        refine ⟨r1, ?_, ?_⟩
        · exact (q2.mono_c (le_refl _) (by omega)).trans_c (r2.mono_c (by omega) (le_refl _))
        · intro hcnt k x hk hkK hx w hw
          have hN0 : 0 < N := by
            rcases Nat.eq_zero_or_pos N with h | h
            · rw [h] at hcnt; omega
            · exact h
          by_cases hkN : k < N
          · obtain ⟨p1, p2⟩ := hfirst k hkN
            rw [p1, p2] at hx
            rw [hlater _ _ r2 k x hx w hw]
            exact q3 k x hkN hx w hw
          · have hcN : N < cnt := by omega
            have hlenN : (len + 1) * N ≤ bs / 4 * N := Nat.mul_le_mul_right N (by omega)
            have e3 : (len + 1) * N = len * N + N := by ring
            have hsub : subU32 cnt N = cnt - N := subU32_exact cnt N (by omega) (by omega)
            rw [hsub] at r3 ⊢
            obtain ⟨k', rfl⟩ : ∃ k', k = k' + N := ⟨k - N, by omega⟩
            have d1 : (k' + N) / N = k' / N + 1 := Nat.add_div_right k' hN0
            have d2 : (k' + N) % N = k' % N := Nat.add_mod_right k' N
            rw [d1, d2] at hx
            rw [d1] at hkK
            have e4 : i0 + (k' / N + 1) = i0 + 1 + k' / N := by omega
            rw [e4] at hx
            have := r3 (by omega) k' x (by omega) (by omega) hx w hw
            rw [this, hadv]
            congr 1
            ring
      · rw [if_neg hsp]
        have hcN : cnt ≤ N := by
          unfold subPos at hsp
          cases wide
          · simp at hsp; omega
          · simp at hsp; omega
        by_cases hceq : cnt = N
        · rw [if_pos hceq]
          obtain ⟨q1, q2, q3⟩ := write_child_step bs A n hG buf child adr C N g K hL hch o ho i0
            hK0 d pos N (le_refl _) hC
          refine ⟨q1, q2.mono_c (le_refl _) (by omega), ?_⟩
          intro _ k x hk hkK hx w hw
          obtain ⟨p1, p2⟩ := hfirst k (by omega)
          rw [p1, p2] at hx
          exact q3 k x (by omega) hx w hw
        · rw [if_neg hceq]
          obtain ⟨q1, q2, q3⟩ := write_child_step bs A n hG buf child adr C N g K hL hch o ho i0
            hK0 d pos cnt hcN hC
          refine ⟨q1, q2.mono_c (le_refl _) (by omega), ?_⟩
          intro _ k x hk hkK hx w hw
          obtain ⟨p1, p2⟩ := hfirst k (by omega)
          rw [p1, p2] at hx
          exact q3 k x hk hx w hw
    · rw [if_neg hK0] at hs
      have hnn : is_null (ib i0) = true := by
        rw [hs]; simp [is_null]
      rw [hnn]
      simp only [if_true]
      refine ⟨hC, ChangedIn.refl_c _ _ _ _ _, ?_⟩
      intro _ k x _ hkK
      exact absurd (Nat.lt_of_le_of_lt (Nat.le_add_right _ _) hkK) hK0

/-- What write_to_double_indirect_blocks and write_to_triple_indirect_blocks
do below an index block with K children. -/
theorem write_level_spec (bs : Nat) (wide : Bool) (A : Nat → Nat) (n : Nat)
    (hG : GoodAns bs A n) (buf : Nat → Nat)
    (child : (Nat → Nat) → Nat → Nat → Nat → (Nat → Nat))
    (adr : Nat → Nat → Option Nat) (C : (Nat → Nat) → Nat → Prop) (N g K adv : Nat)
    (hadv : adv = N * (bs / 4)) (hU : bs / 4 * N < U32) (hg : 0 < g)
    (hL : Lives bs A g C)
    (hA : ∀ o k x, adr o k = some x → ∃ j, o ≤ j ∧ j < o + g ∧ x = A j)
    (hch : ∀ o d pos cnt, o + g ≤ n → C d o → cnt ≤ N →
      C (child d (A o) pos cnt) o ∧ ChangedIn bs A o (o + g) d (child d (A o) pos cnt) ∧
      ∀ k x, k < cnt → adr o k = some x → ∀ w, w < bs / 4 →
        child d (A o) pos cnt (x + 4 * w) = buf (pos + k * (bs / 4) + w))
    (loop : (Nat → Nat) → List Nat → Nat → Nat → (Nat → Nat) → (Nat → Nat))
    (hnil : ∀ ib pos c d, loop ib [] pos c d = d)
    (hcons : ∀ ib i is pos c d, loop ib (i :: is) pos c d =
      if is_null (ib i) then d
      else if subPos wide c N then loop ib is (pos + adv) (subU32 c N) (child d (ib i) pos N)
      else if c = N then child d (ib i) pos N
      else child d (ib i) pos c)
    (o : Nat) (d : Nat → Nat) (pos cnt : Nat) (ho : o + (1 + K * g) ≤ n)
    (hT : Node bs C g K A d o) (hc : cnt ≤ bs / 4 * N) :
    Node bs C g K A (loop (readBlock d (A o)) (List.range (bs / 4)) pos cnt d) o ∧
    ChangedIn bs A o (o + (1 + K * g)) d
      (loop (readBlock d (A o)) (List.range (bs / 4)) pos cnt d) ∧
    ∀ k x, k < cnt → nodeAdr adr g N K o k = some x → ∀ w, w < bs / 4 →
      loop (readBlock d (A o)) (List.range (bs / 4)) pos cnt d (x + 4 * w)
        = buf (pos + k * (bs / 4) + w) := by
  obtain ⟨r1, r2, r3⟩ := write_level_loop_spec bs wide A n hG buf child adr C N g K adv hadv hU hg
    hL hA hch (loop (readBlock d (A o))) (readBlock d (A o)) (hnil _) (hcons _) o (by omega)
    hT.1 (bs / 4) 0 pos cnt d (by omega) hT.2
  rw [List.range_eq_range']
  refine ⟨⟨?_, r1⟩, r2.mono_c (by omega) (by omega), ?_⟩
  · intro i hi
    rw [r2 _ (inside_disjoint bs A n hG o (o + 1) _ _ _ (by omega) (by omega)
      (Or.inl (by omega)) (inside_block bs A o (o + 1) o i (le_refl _) (by omega) hi))]
    exact hT.1 i hi
  · intro k x hk hx w hw
    unfold nodeAdr at hx
    by_cases hkK : k / N < K
    · rw [if_pos hkK] at hx
      have := r3 hc k x hk (by omega) (by rw [Nat.zero_add]; exact hx) w hw
      exact this
    · rw [if_neg hkK] at hx
      cases hx

theorem lives_tree1 (bs m : Nat) (A : Nat → Nat) : Lives bs A (1 + m) (Tree1 bs m A) := by
  have := lives_node bs A (fun _ _ => True) 1 m (lives_leaf bs A 1)
  simp only [Nat.mul_one] at this
  exact this

theorem lives_tree2 (bs K m : Nat) (A : Nat → Nat) :
    Lives bs A (1 + K * (1 + m)) (Tree2 bs K m A) :=
  lives_node bs A (Tree1 bs m A) (1 + m) K (lives_tree1 bs m A)

theorem lives_tree3 (bs K3 K m : Nat) (A : Nat → Nat) :
    Lives bs A (1 + K3 * (1 + K * (1 + m))) (Tree3 bs K3 K m A) :=
  lives_node bs A (Tree2 bs K m A) (1 + K * (1 + m)) K3 (lives_tree2 bs K m A)

theorem adr1_in (m : Nat) (A : Nat → Nat) (o k x : Nat) (h : adr1 m A o k = some x) :
    ∃ j, o ≤ j ∧ j < o + (1 + m) ∧ x = A j := by
  have := adr_node A (leafAdr A) 1 1 m (adr_leaf A) o k x h
  simp only [Nat.mul_one] at this
  exact this

theorem adr2_in (bs K m : Nat) (A : Nat → Nat) (o k x : Nat)
    (h : adr2 bs K m A o k = some x) : ∃ j, o ≤ j ∧ j < o + (1 + K * (1 + m)) ∧ x = A j :=
  adr_node A (adr1 m A) (1 + m) (bs / 4) K (adr1_in m A) o k x h

theorem adr3_in (bs K3 K m : Nat) (A : Nat → Nat) (o k x : Nat)
    (h : adr3 bs K3 K m A o k = some x) :
    ∃ j, o ≤ j ∧ j < o + (1 + K3 * (1 + K * (1 + m))) ∧ x = A j :=
  adr_node A (adr2 bs K m A) (1 + K * (1 + m)) (bs / 4 * (bs / 4)) K3 (adr2_in bs K m A) o k x h

/-- What write_to_double_indirect_blocks does below a double-indirect block. -/
theorem write_double_spec (bs : Nat) (wide : Bool) (A : Nat → Nat) (n : Nat)
    (hG : GoodAns bs A n) (buf : Nat → Nat) (K m : Nat) (hU : bs / 4 * (bs / 4) < U32)
    (o : Nat) (d : Nat → Nat) (pos cnt : Nat) (ho : o + (1 + K * (1 + m)) ≤ n)
    (hT : Tree2 bs K m A d o) (hc : cnt ≤ bs / 4 * (bs / 4)) :
    Tree2 bs K m A (write_to_double_indirect_blocks bs wide d (A o) buf pos cnt) o ∧
    ChangedIn bs A o (o + (1 + K * (1 + m))) d
      (write_to_double_indirect_blocks bs wide d (A o) buf pos cnt) ∧
    ∀ k x, k < cnt → adr2 bs K m A o k = some x → ∀ w, w < bs / 4 →
      write_to_double_indirect_blocks bs wide d (A o) buf pos cnt (x + 4 * w)
        = buf (pos + k * (bs / 4) + w) :=
  write_level_spec bs wide A n hG buf
    (fun d b pos c => write_to_single_indirect_blocks bs d b buf pos c)
    (adr1 m A) (Tree1 bs m A) (bs / 4) (1 + m) K (bs / 4 * S_INDIRECT_BLOCKS bs) rfl hU
    (by omega) (lives_tree1 bs m A) (adr1_in m A)
    (fun o' d' pos' cnt' h1 h2 h3 => write_single_spec bs A n hG buf m o' d' pos' cnt' h1 h2 h3)
    (fun ib => write_double_loop bs wide ib buf)
    (fun _ _ _ _ => rfl) (fun _ _ _ _ _ _ => rfl) o d pos cnt ho hT hc

/-- What write_to_triple_indirect_blocks does below a triple-indirect block. -/
theorem write_triple_spec (bs : Nat) (wide : Bool) (A : Nat → Nat) (n : Nat)
    (hG : GoodAns bs A n) (buf : Nat → Nat) (K3 K m : Nat)
    (hU : bs / 4 * (bs / 4 * (bs / 4)) < U32)
    (o : Nat) (d : Nat → Nat) (pos cnt : Nat) (ho : o + (1 + K3 * (1 + K * (1 + m))) ≤ n)
    (hT : Tree3 bs K3 K m A d o) (hc : cnt ≤ bs / 4 * (bs / 4 * (bs / 4))) :
    Tree3 bs K3 K m A (write_to_triple_indirect_blocks bs wide d (A o) buf pos cnt) o ∧
    ChangedIn bs A o (o + (1 + K3 * (1 + K * (1 + m)))) d
      (write_to_triple_indirect_blocks bs wide d (A o) buf pos cnt) ∧
    ∀ k x, k < cnt → adr3 bs K3 K m A o k = some x → ∀ w, w < bs / 4 →
      write_to_triple_indirect_blocks bs wide d (A o) buf pos cnt (x + 4 * w)
        = buf (pos + k * (bs / 4) + w) := by
  have hU2 : bs / 4 * (bs / 4) < U32 := by
    rcases Nat.eq_zero_or_pos (bs / 4) with h | hP
    · rw [h]; decide
    · have : bs / 4 * (bs / 4) * 1 ≤ bs / 4 * (bs / 4) * (bs / 4) :=
        Nat.mul_le_mul_left _ hP
      have e : bs / 4 * (bs / 4) * (bs / 4) = bs / 4 * (bs / 4 * (bs / 4)) := by ring
      omega
  exact write_level_spec bs wide A n hG buf
    (fun d b pos c => write_to_double_indirect_blocks bs wide d b buf pos c)
    (adr2 bs K m A) (Tree2 bs K m A) (bs / 4 * (bs / 4)) (1 + K * (1 + m)) K3
    (bs / 4 * D_INDIRECT_BLOCKS bs)
    (by simp only [D_INDIRECT_BLOCKS, PTRS_PER_BLOCK]; ring) hU
    (by omega) (lives_tree2 bs K m A) (adr2_in bs K m A)
    (fun o' d' pos' cnt' h1 h2 h3 =>
      write_double_spec bs wide A n hG buf K m hU2 o' d' pos' cnt' h1 h2 h3)
    (fun ib => write_triple_loop bs wide ib buf)
    (fun _ _ _ _ => rfl) (fun _ _ _ _ _ _ => rfl) o d pos cnt ho hT hc

theorem ssm_allocate_ans (L : List Nat) (s : FsState) (o : Nat) (h : s.ssmOut = L.drop o)
    (ho : o < L.length) :
    ssm_allocate_sectors s = (ans L o, { s with ssmOut := L.drop (o + 1) }) := by
  have : L.drop o = ans L o :: L.drop (o + 1) := by
    rw [List.drop_eq_getElem_cons ho]
    unfold ans
    rw [List.getD_eq_getElem L NIL ho]
  simp [ssm_allocate_sectors, h, this]

theorem changed_writeWord (bs : Nat) (A : Nat → Nat) (j i v : Nat) (d : Nat → Nat)
    (hi : i < bs / 4) : ChangedIn bs A j (j + 1) d (writeWord d (A j + 4 * i) v) := by
  intro a ha
  unfold writeWord
  rw [if_neg]
  intro hc
  exact ha ⟨j, le_refl _, by omega, by omega, by omega⟩

/-- The allocation loop of aloc_single_indirect when the Sector Space Manager
has k answers left. -/
theorem aloc_single_loop_spec (bs : Nat) (L : List Nat)
    (hG : GoodAns bs (ans L) L.length) (o : Nat) :
    ∀ k i s, i + k ≤ bs / 4 → s.ssmOut = L.drop (o + 1 + i) → o + 1 + i + k ≤ L.length →
      (aloc_single_loop k (ans L o + 4 * i) s).2.ssmOut = L.drop (o + 1 + i + k) ∧
      (∀ j, j < bs / 4 → (aloc_single_loop k (ans L o + 4 * i) s).2.disk (ans L o + 4 * j)
        = if i ≤ j ∧ j < i + k then ans L (o + 1 + j) else s.disk (ans L o + 4 * j)) ∧
      ChangedIn bs (ans L) o (o + 1) s.disk (aloc_single_loop k (ans L o + 4 * i) s).2.disk := by
  intro k
  induction k with
  | zero =>
    intro i s _ hs _
    simp only [aloc_single_loop, Nat.add_zero]
    refine ⟨hs, ?_, ChangedIn.refl_c _ _ _ _ _⟩
    intro j _
    rw [if_neg (by omega)]
  | succ k ih =>
    intro i s hik hs hlen
    rw [aloc_single_loop, ssm_allocate_ans L s (o + 1 + i) hs (by omega)]
    have hnn : is_not_null (ans L (o + 1 + i)) = true := by
      simpa [is_not_null] using (hG.1 (o + 1 + i) (by omega)).1
    simp only [hnn, if_true]
    have e4 : ans L o + 4 * i + 4 = ans L o + 4 * (i + 1) := by ring
    rw [e4]
    obtain ⟨r1, r2, r3⟩ := ih (i + 1)
      { s with ssmOut := L.drop (o + 1 + i + 1),
               disk := writeWord s.disk (ans L o + 4 * i) (ans L (o + 1 + i)) }
      (by omega) rfl (by omega)
    refine ⟨?_, ?_, ?_⟩
    · rw [r1]
      congr 1
      omega
    · intro j hj
      rw [r2 j hj]
      by_cases hji : j = i
      · subst hji
        rw [if_neg (by omega), if_pos (by omega)]
        simp [writeWord]
      · by_cases hc : i + 1 ≤ j ∧ j < i + 1 + k
        · rw [if_pos hc, if_pos (by omega)]
        · rw [if_neg hc, if_neg (by omega)]
          show writeWord s.disk (ans L o + 4 * i) (ans L (o + 1 + i)) (ans L o + 4 * j) = _
          unfold writeWord
          rw [if_neg (by omega)]
    · exact (changed_writeWord bs (ans L) o i _ s.disk (by omega)).trans_c r3

/-- What aloc_single_indirect builds when the Sector Space Manager has enough
answers left. -/
theorem aloc_single_spec (bs : Nat) (L : List Nat) (hG : GoodAns bs (ans L) L.length)
    (c : Int) (s : FsState) (o : Nat) (hs : s.ssmOut = L.drop o)
    (ho : o + (1 + min c.toNat (bs / 4)) ≤ L.length) :
    (aloc_single_indirect bs s c).1 = ans L o ∧
    (aloc_single_indirect bs s c).2.ssmOut = L.drop (o + (1 + min c.toNat (bs / 4))) ∧
    Tree1 bs (min c.toNat (bs / 4)) (ans L) (aloc_single_indirect bs s c).2.disk o ∧
    ChangedIn bs (ans L) o (o + (1 + min c.toNat (bs / 4))) s.disk
      (aloc_single_indirect bs s c).2.disk := by
  unfold aloc_single_indirect
  simp only [PTRS_PER_BLOCK]
  rw [ssm_allocate_ans L s o hs (by omega)]
  have hnn : is_not_null (ans L o) = true := by
    simpa [is_not_null] using (hG.1 o (by omega)).1
  simp only [hnn, if_true]
  obtain ⟨r1, r2, r3⟩ := aloc_single_loop_spec bs L hG o (min c.toNat (bs / 4)) 0
    { s with ssmOut := L.drop (o + 1),
             disk := writeBlock bs s.disk (ans L o) (fun _ => NIL) }
    (by omega) rfl (by omega)
  simp only [Nat.mul_zero, Nat.add_zero] at r1 r2 r3
  refine ⟨trivial, ?_, ⟨?_, fun _ _ => trivial⟩, ?_⟩
  · rw [r1]
    congr 1
    omega
  · intro j hj
    rw [r2 j hj]
    by_cases hc : j < min c.toNat (bs / 4)
    · rw [if_pos ⟨by omega, by omega⟩, if_pos hc]
      simp
    · rw [if_neg (by omega), if_neg hc]
      exact writeBlock_inside bs s.disk (ans L o) _ j hj
  · exact ((changed_writeBlock bs (ans L) o s.disk _).trans_c r3).mono_c (le_refl _) (by omega)

theorem rounds_succ (k N : Nat) (bc : Int) (hN : 0 < N) (h0 : 0 ≤ bc)
    (h : ¬ bc - (N : Int) < 0) :
    min (k + 1) (bc.toNat / N + 1) = 1 + min k ((bc - (N : Int)).toNat / N + 1) := by
  have e1 : bc.toNat = (bc - (N : Int)).toNat + N := by omega
  rw [e1, Nat.add_div_right _ hN]
  omega

theorem rounds_last (k N : Nat) (bc : Int) (h0 : 0 ≤ bc) (h : bc - (N : Int) < 0) :
    min (k + 1) (bc.toNat / N + 1) = 1 := by
  have e1 : bc.toNat / N = 0 := Nat.div_eq_of_lt (by omega)
  rw [e1]
  omega

/-- The loops of aloc_double_indirect and aloc_triple_indirect from slot i on,
when the Sector Space Manager has enough answers left. -/
theorem aloc_level_loop_spec (bs : Nat) (L : List Nat) (hG : GoodAns bs (ans L) L.length)
    (al : FsState → Nat × FsState) (C : (Nat → Nat) → Nat → Prop) (g N : Nat)
    (hN : 0 < N) (hL : Lives bs (ans L) g C)
    (hal : ∀ s o, s.ssmOut = L.drop o → o + g ≤ L.length →
      (al s).1 = ans L o ∧ (al s).2.ssmOut = L.drop (o + g) ∧ C (al s).2.disk o ∧
      ChangedIn bs (ans L) o (o + g) s.disk (al s).2.disk)
    (loop : Nat → Int → Nat → FsState → FsState)
    (h0 : ∀ bc off s, loop 0 bc off s = s)
    (hs : ∀ k bc off s, loop (k + 1) bc off s =
      if bc - (N : Int) < 0 then { (al s).2 with disk := writeWord (al s).2.disk off (al s).1 }
      else loop k (bc - (N : Int)) (off + 4)
        { (al s).2 with disk := writeWord (al s).2.disk off (al s).1 })
    (o : Nat) :
    ∀ k i (bc : Int) s, i + k ≤ bs / 4 → 0 ≤ bc → s.ssmOut = L.drop (o + 1 + i * g) →
      o + 1 + (i + min k (bc.toNat / N + 1)) * g ≤ L.length →
      (∀ j, j < bs / 4 → s.disk (ans L o + 4 * j) = if j < i then ans L (o + 1 + j * g) else NIL) →
      (∀ j, j < i → C s.disk (o + 1 + j * g)) →
      (loop k bc (ans L o + 4 * i) s).ssmOut
        = L.drop (o + 1 + (i + min k (bc.toNat / N + 1)) * g) ∧
      Node bs C g (i + min k (bc.toNat / N + 1)) (ans L) (loop k bc (ans L o + 4 * i) s).disk o ∧
      ChangedIn bs (ans L) o (o + 1 + (i + min k (bc.toNat / N + 1)) * g) s.disk
        (loop k bc (ans L o + 4 * i) s).disk := by
  intro k
  induction k with
  | zero =>
    intro i bc s _ _ hss _ hsl hch
    simp only [h0, Nat.zero_min, Nat.add_zero]
    exact ⟨hss, ⟨hsl, hch⟩, ChangedIn.refl_c _ _ _ _ _⟩
  | succ k ih =>
    intro i bc s hik hbc hss hlen hsl hch
    have hK1 : 1 ≤ min (k + 1) (bc.toNat / N + 1) :=
      Nat.le_min.mpr ⟨by omega, Nat.le_add_left 1 _⟩
    have hoc : o + 1 + i * g + g ≤ o + 1 + (i + min (k + 1) (bc.toNat / N + 1)) * g :=
      child_apart o g i _ (by omega)
    obtain ⟨a1, a2, a3, a4⟩ := hal s (o + 1 + i * g) hss (by omega)
    have e1 : o + 1 + i * g + g = o + 1 + (i + 1) * g := by ring
    -- the state after the slot is written
    have b1 : ∀ j, j < bs / 4 →
        writeWord (al s).2.disk (ans L o + 4 * i) (al s).1 (ans L o + 4 * j)
          = if j < i + 1 then ans L (o + 1 + j * g) else NIL := by
      intro j hj
      unfold writeWord
      by_cases hji : j = i
      · subst hji
        rw [if_pos rfl, if_pos (by omega), a1]
      · rw [if_neg (by omega)]
        rw [a4 _ (inside_disjoint bs (ans L) L.length hG o (o + 1) _ _ _ (by omega) (by omega)
          (Or.inl (by omega)) (inside_block bs (ans L) o (o + 1) o j (le_refl _) (by omega) hj))]
        rw [hsl j hj]
        by_cases hc : j < i
        · rw [if_pos hc, if_pos (by omega)]
        · rw [if_neg hc, if_neg (by omega)]
    have b2 : ∀ j, j < i + 1 →
        C (writeWord (al s).2.disk (ans L o + 4 * i) (al s).1) (o + 1 + j * g) := by
      intro j hj
      have hj' : o + 1 + j * g + g ≤ o + 1 + (i + 1) * g := child_apart o g j (i + 1) hj
      have c1 : C (al s).2.disk (o + 1 + j * g) := by
        by_cases hji : j = i
        · subst hji; exact a3
        · apply hL s.disk _ _ _ (hch j (by omega))
          apply a4.kept hG _ _ (by omega) (by omega)
          right
          exact child_apart o g j i (by omega)
      apply hL _ _ _ _ c1
      apply (changed_writeWord bs (ans L) o i (al s).1 (al s).2.disk (by omega)).kept hG _ _
        (by omega) (by omega)
      left
      omega
    have b3 : ChangedIn bs (ans L) o (o + 1 + (i + 1) * g) s.disk
        (writeWord (al s).2.disk (ans L o + 4 * i) (al s).1) :=
      (a4.mono_c (by omega) (by omega)).trans_c
        ((changed_writeWord bs (ans L) o i (al s).1 (al s).2.disk (by omega)).mono_c
          (le_refl _) (by omega))
    rw [hs]
    by_cases hlast : bc - (N : Int) < 0
    · rw [if_pos hlast, rounds_last k N bc hbc hlast]
      refine ⟨?_, ⟨b1, b2⟩, b3⟩
      show (al s).2.ssmOut = _
      rw [a2, e1]
    · rw [if_neg hlast]
      have hr := rounds_succ k N bc hN hbc hlast
      rw [hr] at hlen ⊢
      have e2 : i + (1 + min k ((bc - (N : Int)).toNat / N + 1))
          = i + 1 + min k ((bc - (N : Int)).toNat / N + 1) := by omega
      rw [e2] at hlen ⊢
      have e4 : ans L o + 4 * i + 4 = ans L o + 4 * (i + 1) := by ring
      rw [e4]
      obtain ⟨r1, r2, r3⟩ := ih (i + 1) (bc - (N : Int))
        { (al s).2 with disk := writeWord (al s).2.disk (ans L o + 4 * i) (al s).1 }
        (by omega) (by omega) (by show (al s).2.ssmOut = _; rw [a2, e1]) hlen b1 b2
      refine ⟨r1, r2, ?_⟩
      exact (b3.mono_c (le_refl _) (by
        have := child_apart o g i (i + 1 + min k ((bc - (N : Int)).toNat / N + 1)) (by omega)
        omega)).trans_c r3

/-- What aloc_double_indirect and aloc_triple_indirect build when the Sector
Space Manager has enough answers left. -/
theorem aloc_level_spec (bs : Nat) (L : List Nat) (hG : GoodAns bs (ans L) L.length)
    (al : FsState → Nat × FsState) (C : (Nat → Nat) → Nat → Prop) (g N : Nat)
    (hN : 0 < N) (hL : Lives bs (ans L) g C)
    (hal : ∀ s o, s.ssmOut = L.drop o → o + g ≤ L.length →
      (al s).1 = ans L o ∧ (al s).2.ssmOut = L.drop (o + g) ∧ C (al s).2.disk o ∧
      ChangedIn bs (ans L) o (o + g) s.disk (al s).2.disk)
    (loop : Nat → Int → Nat → FsState → FsState)
    (h0 : ∀ bc off s, loop 0 bc off s = s)
    (hs : ∀ k bc off s, loop (k + 1) bc off s =
      if bc - (N : Int) < 0 then { (al s).2 with disk := writeWord (al s).2.disk off (al s).1 }
      else loop k (bc - (N : Int)) (off + 4)
        { (al s).2 with disk := writeWord (al s).2.disk off (al s).1 })
    (c : Int) (hc : 0 ≤ c) (s : FsState) (o : Nat) (hss : s.ssmOut = L.drop o)
    (ho : o + (1 + min (bs / 4) (c.toNat / N + 1) * g) ≤ L.length) :
    ans L o ≠ NIL ∧
    ssm_allocate_sectors s = (ans L o, { s with ssmOut := L.drop (o + 1) }) ∧
    (loop (bs / 4) c (ans L o)
      { s with ssmOut := L.drop (o + 1),
               disk := writeBlock bs s.disk (ans L o) (fun _ => NIL) }).ssmOut
      = L.drop (o + (1 + min (bs / 4) (c.toNat / N + 1) * g)) ∧
    Node bs C g (min (bs / 4) (c.toNat / N + 1)) (ans L)
      (loop (bs / 4) c (ans L o)
        { s with ssmOut := L.drop (o + 1),
                 disk := writeBlock bs s.disk (ans L o) (fun _ => NIL) }).disk o ∧
    ChangedIn bs (ans L) o (o + (1 + min (bs / 4) (c.toNat / N + 1) * g)) s.disk
      (loop (bs / 4) c (ans L o)
        { s with ssmOut := L.drop (o + 1),
                 disk := writeBlock bs s.disk (ans L o) (fun _ => NIL) }).disk := by
  have hnn : ans L o ≠ NIL := (hG.1 o (by omega)).1
  obtain ⟨r1, r2, r3⟩ := aloc_level_loop_spec bs L hG al C g N hN hL hal loop h0 hs o
    (bs / 4) 0 c
    { s with ssmOut := L.drop (o + 1),
             disk := writeBlock bs s.disk (ans L o) (fun _ => NIL) }
    (by omega) hc (by simp) (by simpa [Nat.add_assoc] using ho)
    (by
      intro j hj
      rw [if_neg (by omega)]
      show writeBlock bs s.disk (ans L o) (fun _ => NIL) (ans L o + 4 * j) = NIL
      exact writeBlock_inside bs s.disk (ans L o) _ j hj)
    (fun j hj => absurd hj (by omega))
  simp only [Nat.mul_zero, Nat.add_zero, Nat.zero_add] at r1 r2 r3
  refine ⟨hnn, ssm_allocate_ans L s o hss (by omega), ?_, r2, ?_⟩
  · rw [r1, Nat.add_assoc]
  · have := (changed_writeBlock bs (ans L) o s.disk (fun _ => NIL)).mono_c (le_refl o)
      (show o + 1 ≤ o + 1 + min (bs / 4) (c.toNat / N + 1) * g by omega)
    have h2 := this.trans_c r3
    rw [Nat.add_assoc] at h2
    exact h2

/-- What aloc_double_indirect builds when the Sector Space Manager has enough
answers left: min(P, c / P + 1) single-indirect blocks of min(c, P) data blocks. -/
theorem aloc_double_spec (bs : Nat) (L : List Nat) (hG : GoodAns bs (ans L) L.length)
    (hP : 0 < bs / 4) (c : Int) (hc : 0 ≤ c) (s : FsState) (o : Nat)
    (hs : s.ssmOut = L.drop o)
    (ho : o + (1 + min (bs / 4) (c.toNat / (bs / 4) + 1) * (1 + min c.toNat (bs / 4)))
      ≤ L.length) :
    (aloc_double_indirect bs s c).1 = ans L o ∧
    (aloc_double_indirect bs s c).2.ssmOut
      = L.drop (o + (1 + min (bs / 4) (c.toNat / (bs / 4) + 1) * (1 + min c.toNat (bs / 4)))) ∧
    Tree2 bs (min (bs / 4) (c.toNat / (bs / 4) + 1)) (min c.toNat (bs / 4)) (ans L)
      (aloc_double_indirect bs s c).2.disk o ∧
    ChangedIn bs (ans L) o
      (o + (1 + min (bs / 4) (c.toNat / (bs / 4) + 1) * (1 + min c.toNat (bs / 4)))) s.disk
      (aloc_double_indirect bs s c).2.disk := by
  obtain ⟨r0, r1, r2, r3, r4⟩ := aloc_level_spec bs L hG (fun s => aloc_single_indirect bs s c)
    (Tree1 bs (min c.toNat (bs / 4)) (ans L)) (1 + min c.toNat (bs / 4)) (bs / 4) hP
    (lives_tree1 bs _ (ans L))
    (fun s' o' h1 h2 => aloc_single_spec bs L hG c s' o' h1 h2)
    (aloc_double_loop bs c) (fun _ _ _ => rfl) (fun _ _ _ _ => rfl) c hc s o hs ho
  have hnn : is_not_null (ans L o) = true := by simpa [is_not_null] using r0
  unfold aloc_double_indirect
  rw [r1]
  simp only [hnn, if_true]
  exact ⟨trivial, r2, r3, r4⟩

/-- What aloc_triple_indirect builds when the Sector Space Manager has enough
answers left. -/
theorem aloc_triple_spec (bs : Nat) (L : List Nat) (hG : GoodAns bs (ans L) L.length)
    (hP : 0 < bs / 4) (c : Int) (hc : 0 ≤ c) (s : FsState) (o : Nat)
    (hs : s.ssmOut = L.drop o)
    (ho : o + (1 + min (bs / 4) (c.toNat / (bs / 4 * (bs / 4)) + 1) *
      (1 + min (bs / 4) (c.toNat / (bs / 4) + 1) * (1 + min c.toNat (bs / 4)))) ≤ L.length) :
    (aloc_triple_indirect bs s c).1 = ans L o ∧
    (aloc_triple_indirect bs s c).2.ssmOut
      = L.drop (o + (1 + min (bs / 4) (c.toNat / (bs / 4 * (bs / 4)) + 1) *
        (1 + min (bs / 4) (c.toNat / (bs / 4) + 1) * (1 + min c.toNat (bs / 4))))) ∧
    Tree3 bs (min (bs / 4) (c.toNat / (bs / 4 * (bs / 4)) + 1))
      (min (bs / 4) (c.toNat / (bs / 4) + 1)) (min c.toNat (bs / 4)) (ans L)
      (aloc_triple_indirect bs s c).2.disk o ∧
    ChangedIn bs (ans L) o
      (o + (1 + min (bs / 4) (c.toNat / (bs / 4 * (bs / 4)) + 1) *
        (1 + min (bs / 4) (c.toNat / (bs / 4) + 1) * (1 + min c.toNat (bs / 4))))) s.disk
      (aloc_triple_indirect bs s c).2.disk := by
  obtain ⟨r0, r1, r2, r3, r4⟩ := aloc_level_spec bs L hG (fun s => aloc_double_indirect bs s c)
    (Tree2 bs (min (bs / 4) (c.toNat / (bs / 4) + 1)) (min c.toNat (bs / 4)) (ans L))
    (1 + min (bs / 4) (c.toNat / (bs / 4) + 1) * (1 + min c.toNat (bs / 4)))
    (bs / 4 * (bs / 4)) (Nat.mul_pos hP hP)
    (lives_tree2 bs _ _ (ans L))
    (fun s' o' h1 h2 => aloc_double_spec bs L hG hP c hc s' o' h1 h2)
    (aloc_triple_loop bs c) (fun _ _ _ => rfl) (fun _ _ _ _ => rfl) c hc s o hs ho
  have hnn : is_not_null (ans L o) = true := by simpa [is_not_null] using r0
  unfold aloc_triple_indirect
  rw [r1]
  simp only [hnn, if_true]
  exact ⟨trivial, r2, r3, r4⟩

theorem lives_data (bs : Nat) (A : Nat → Nat) (adr : Nat → Nat → Option Nat) (g : Nat)
    (hA : ∀ o k x, adr o k = some x → ∃ j, o ≤ j ∧ j < o + g ∧ x = A j)
    (buf : Nat → Nat) (pos cnt : Nat) : Lives bs A g (DataAt bs adr buf pos cnt) := by
  intro d d' o hag hD k x hk hx w hw
  obtain ⟨j, j1, j2, rfl⟩ := hA o k x hx
  rw [hag _ (inside_block bs A o (o + g) j w j1 j2 hw)]
  exact hD k _ hk hx w hw

theorem Lives.kept_l {bs : Nat} {A : Nat → Nat} {g : Nat} {C : (Nat → Nat) → Nat → Prop}
    (hL : Lives bs A g C) {n lo hi : Nat} {d d' : Nat → Nat} (hG : GoodAns bs A n)
    (h : ChangedIn bs A lo hi d d') (o : Nat) (h1 : hi ≤ n) (h2 : o + g ≤ n)
    (hd : hi ≤ o ∨ o + g ≤ lo) (hC : C d o) : C d' o :=
  hL d d' o (h.kept hG o g h1 h2 hd) hC

/-- Every data block that a count c asks of a single-indirect block is there. -/
theorem cover1 (bs : Nat) (A : Nat → Nat) (c o k : Nat) (hk : k < c) (hc : c ≤ bs / 4) :
    ∃ x, adr1 (min c (bs / 4)) A o k = some x := by
  unfold adr1 nodeAdr
  simp only [Nat.div_one]
  rw [if_pos (by omega)]
  exact ⟨_, rfl⟩

theorem cover2 (bs : Nat) (A : Nat → Nat) (c o k : Nat) (hk : k < c)
    (hc : c ≤ bs / 4 * (bs / 4)) :
    ∃ x, adr2 bs (min (bs / 4) (c / (bs / 4) + 1)) (min c (bs / 4)) A o k = some x := by
  have hP : 0 < bs / 4 := by
    rcases Nat.eq_zero_or_pos (bs / 4) with h | h
    · rw [h] at hc; omega
    · exact h
  have h1 : k / (bs / 4) < bs / 4 := by
    rw [Nat.div_lt_iff_lt_mul hP]; omega
  have h2 : k / (bs / 4) ≤ c / (bs / 4) := Nat.div_le_div_right (by omega)
  have h3 : k % (bs / 4) < min c (bs / 4) := by
    have := Nat.mod_lt k hP
    have := Nat.mod_le k (bs / 4)
    omega
  unfold adr2 nodeAdr
  rw [if_pos (by omega)]
  unfold adr1 nodeAdr
  simp only [Nat.div_one]
  rw [if_pos h3]
  exact ⟨_, rfl⟩

theorem cover3 (bs : Nat) (A : Nat → Nat) (c o k : Nat) (hk : k < c)
    (hc : c ≤ bs / 4 * (bs / 4 * (bs / 4))) :
    ∃ x, adr3 bs (min (bs / 4) (c / (bs / 4 * (bs / 4)) + 1))
      (min (bs / 4) (c / (bs / 4) + 1)) (min c (bs / 4)) A o k = some x := by
  have hP : 0 < bs / 4 := by
    rcases Nat.eq_zero_or_pos (bs / 4) with h | h
    · rw [h] at hc; omega
    · exact h
  have hD : 0 < bs / 4 * (bs / 4) := Nat.mul_pos hP hP
  have h1 : k / (bs / 4 * (bs / 4)) < bs / 4 := by
    rw [Nat.div_lt_iff_lt_mul hD]
    have : bs / 4 * (bs / 4 * (bs / 4)) = bs / 4 * (bs / 4 * (bs / 4)) := rfl
    omega
  have h2 : k / (bs / 4 * (bs / 4)) ≤ c / (bs / 4 * (bs / 4)) :=
    Nat.div_le_div_right (by omega)
  have h3 : k % (bs / 4 * (bs / 4)) / (bs / 4) < bs / 4 := by
    rw [Nat.div_lt_iff_lt_mul hP]
    exact Nat.mod_lt k hD
  have h4 : k % (bs / 4 * (bs / 4)) / (bs / 4) ≤ c / (bs / 4) :=
    Nat.div_le_div_right (le_trans (Nat.mod_le _ _) (by omega))
  have h5 : k % (bs / 4 * (bs / 4)) % (bs / 4) < min c (bs / 4) := by
    have a1 := Nat.mod_lt (k % (bs / 4 * (bs / 4))) hP
    have a2 := Nat.mod_le (k % (bs / 4 * (bs / 4))) (bs / 4)
    have a3 := Nat.mod_le k (bs / 4 * (bs / 4))
    omega
  unfold adr3 nodeAdr
  rw [if_pos (by omega)]
  unfold adr2 nodeAdr
  rw [if_pos (by omega)]
  unfold adr1 nodeAdr
  simp only [Nat.div_one]
  rw [if_pos h5]
  exact ⟨_, rfl⟩

theorem getD_set_nil (l : List Nat) (i j v : Nat) (hi : i < l.length) :
    (l.set i v).getD j NIL = if j = i then v else l.getD j NIL := by
  rw [List.getD_eq_getElem?_getD, List.getD_eq_getElem?_getD, List.getElem?_set]
  by_cases h : i = j
  · subst h
    simp [hi]
  · rw [if_neg h, if_neg (fun e => h e.symm)]

/-- The loop of write_to_file_direct over the pointers i, …, i + len - 1 of a
file that has none of them, when the Sector Space Manager has len answers
left. -/
theorem write_direct_spec (bs : Nat) (L : List Nat) (hG : GoodAns bs (ans L) L.length)
    (buf : Nat → Nat) :
    ∀ len i pos s, i + len ≤ 10 → i + len ≤ L.length → s.ssmOut = L.drop i →
      s.inode.directPtr.length = 10 →
      (∀ j, j < 10 → s.inode.directPtr.getD j NIL = if j < i then ans L j else NIL) →
      (write_to_file_direct bs buf (List.range' i len) pos s).1 = pos + len * (bs / 4) ∧
      (write_to_file_direct bs buf (List.range' i len) pos s).2.ssmOut = L.drop (i + len) ∧
      (write_to_file_direct bs buf (List.range' i len) pos s).2.inode.directPtr.length = 10 ∧
      (∀ j, j < 10 →
        (write_to_file_direct bs buf (List.range' i len) pos s).2.inode.directPtr.getD j NIL
          = if j < i + len then ans L j else NIL) ∧
      (write_to_file_direct bs buf (List.range' i len) pos s).2.inode.sIndirect
        = s.inode.sIndirect ∧
      (write_to_file_direct bs buf (List.range' i len) pos s).2.inode.dIndirect
        = s.inode.dIndirect ∧
      (write_to_file_direct bs buf (List.range' i len) pos s).2.inode.tIndirect
        = s.inode.tIndirect ∧
      ChangedIn bs (ans L) i (i + len) s.disk
        (write_to_file_direct bs buf (List.range' i len) pos s).2.disk ∧
      ∀ k, k < len → ∀ w, w < bs / 4 →
        (write_to_file_direct bs buf (List.range' i len) pos s).2.disk (ans L (i + k) + 4 * w)
          = buf (pos + k * (bs / 4) + w) := by
  intro len
  induction len with
  | zero =>
    intro i pos s _ _ hss hl hp
    simp only [List.range'_zero, write_to_file_direct, Nat.add_zero, Nat.zero_mul]
    exact ⟨trivial, hss, hl, hp, trivial, trivial, trivial, ChangedIn.refl_c _ _ _ _ _,
      fun k hk => absurd hk (by omega)⟩
  | succ len ih =>
    intro i pos s h10 hlen hss hl hp
    rw [List.range'_succ, write_to_file_direct]
    have hnil : is_null (s.inode.directPtr.getD i NIL) = true := by
      rw [hp i (by omega), if_neg (by omega)]
      simp [is_null]
    simp only [hnil, if_true]
    rw [ssm_allocate_ans L s i hss (by omega)]
    have hnn : is_null (ans L i) = false := by
      simpa [is_null] using (hG.1 i (by omega)).1
    simp only [hnn, Bool.false_eq_true, if_false]
    obtain ⟨r1, r2, r3, r4, r5, r6, r7, r8, r9⟩ := ih (i + 1) (pos + bs / 4)
      { s with ssmOut := L.drop (i + 1),
               inode := { s.inode with directPtr := s.inode.directPtr.set i (ans L i) },
               disk := writeBlock bs s.disk (ans L i) (bufAt buf pos) }
      (by omega) (by omega) rfl (by simp [hl])
      (by
        intro j hj
        show (s.inode.directPtr.set i (ans L i)).getD j NIL = _
        rw [getD_set_nil _ _ _ _ (by omega), hp j hj]
        by_cases hji : j = i
        · subst hji
          rw [if_pos rfl, if_pos (by omega)]
        · rw [if_neg hji]
          by_cases hc : j < i
          · rw [if_pos hc, if_pos (by omega)]
          · rw [if_neg hc, if_neg (by omega)])
    have e1 : i + 1 + len = i + (len + 1) := by omega
    rw [e1] at r2 r4 r8
    refine ⟨?_, r2, r3, r4, r5, r6, r7, ?_, ?_⟩
    · rw [r1]; ring
    · exact ((changed_writeBlock bs (ans L) i s.disk (bufAt buf pos)).mono_c (le_refl _)
        (by omega)).trans_c (r8.mono_c (by omega) (le_refl _))
    · intro k hk w hw
      rcases Nat.eq_zero_or_pos k with h0 | h0
      · subst h0
        rw [r8 _ (inside_disjoint bs (ans L) L.length hG i (i + 1) _ _ _ (by omega) (by omega)
          (Or.inl (le_refl _)) (inside_block bs (ans L) i (i + 1) (i + 0) w (by omega)
            (by omega) hw))]
        simp only [Nat.add_zero, Nat.zero_mul]
        show writeBlock bs s.disk (ans L i) (bufAt buf pos) (ans L i + 4 * w) = _
        rw [writeBlock_inside bs s.disk _ _ w hw]
        rfl
      · obtain ⟨k', rfl⟩ : ∃ k', k = k' + 1 := ⟨k - 1, by omega⟩
        have := r9 k' (by omega) w hw
        have e2 : i + 1 + k' = i + (k' + 1) := by omega
        have e3 : pos + bs / 4 + k' * (bs / 4) + w = pos + (k' + 1) * (bs / 4) + w := by ring
        rw [e2, e3] at this
        exact this

theorem blocksOf_step (bs n : Nat) (hbs : 0 < bs) (h : bs < n) :
    blocksOf bs n = blocksOf bs (n - bs) + 1 := by
  unfold blocksOf
  have : n + bs - 1 = (n - bs + bs - 1) + bs := by omega
  rw [this, Nat.add_div_right _ hbs]

theorem blocksOf_one (bs n : Nat) (h0 : 0 < n) (h : n ≤ bs) : blocksOf bs n = 1 := by
  unfold blocksOf
  have h1 : (n + bs - 1) / bs < 2 := by
    rw [Nat.div_lt_iff_lt_mul (by omega)]; omega
  have h2 : 1 ≤ (n + bs - 1) / bs := by
    rw [Nat.le_div_iff_mul_le (by omega)]; omega
  omega

/-- The count of direct pointers made by the first loop of fs_write_to_file. -/
theorem countDirect_eq (bs : Nat) (hbs : 0 < bs) :
    ∀ k (n : Nat) dp, 0 < n →
      countDirect bs k (n : Int) dp
        = ((n : Int) - ((min k (blocksOf bs n) * bs : Nat) : Int), dp + min k (blocksOf bs n)) := by
  intro k
  induction k with
  | zero =>
    intro n dp _
    simp [countDirect]
  | succ k ih =>
    intro n dp hn
    rw [countDirect]
    by_cases hc : (n : Int) - (bs : Int) ≤ 0
    · rw [if_pos hc]
      have : blocksOf bs n = 1 := blocksOf_one bs n hn (by omega)
      rw [this]
      have hm : min (k + 1) 1 = 1 := by omega
      rw [hm]
      simp
    · rw [if_neg hc]
      have hlt : bs < n := by omega
      have e1 : (n : Int) - (bs : Int) = ((n - bs : Nat) : Int) := by omega
      rw [e1, ih (n - bs) (dp + 1) (by omega), blocksOf_step bs n hbs hlt]
      have hm : min (k + 1) (blocksOf bs (n - bs) + 1) = min k (blocksOf bs (n - bs)) + 1 := by
        omega
      rw [hm]
      refine Prod.ext ?_ ?_
      · simp only
        push_cast
        have : ((n - bs : Nat) : Int) = (n : Int) - (bs : Int) := by omega
        rw [this]
        ring
      · simp only
        omega

theorem blocksFor_eq (bs r : Nat) (hbs : 0 < bs) (hr : blocksOf bs r < U32) :
    blocksFor bs (r : Int) = blocksOf bs r := by
  unfold blocksFor blocksOf at *
  have e1 : ((r : Int) / (bs : Int)) = ((r / bs : Nat) : Int) := by norm_cast
  have e2 : ((r : Int) % (bs : Int)) = ((r % bs : Nat) : Int) := by norm_cast
  have e3 : ((U32 : Nat) : Int) = 4294967296 := by norm_num [U32]
  have hq : r / bs ≤ (r + bs - 1) / bs := Nat.div_le_div_right (by omega)
  have hqU : r / bs < 4294967296 := by
    have : U32 = 4294967296 := rfl
    omega
  simp only [e1, e2]
  have e4 : ((((r / bs : Nat) : Int) % ((U32 : Nat) : Int))).toNat = r / bs := by
    rw [e3]
    generalize r / bs = q at hqU
    omega
  rw [e4]
  have hdm := Nat.div_add_mod r bs
  by_cases hrem : 0 < r % bs
  · have : ((r % bs : Nat) : Int) > 0 := by omega
    rw [if_pos this]
    have e5 : (r + bs - 1) / bs = r / bs + 1 := by
      have hlt := Nat.mod_lt r hbs
      have : r + bs - 1 = (r % bs - 1) + (r / bs + 1) * bs := by
        have : (r / bs + 1) * bs = bs * (r / bs) + bs := by ring
        omega
      rw [this, Nat.add_mul_div_right _ _ hbs, Nat.div_eq_of_lt (show r % bs - 1 < bs by omega)]
      omega
    rw [e5] at hr ⊢
    exact Nat.mod_eq_of_lt hr
  · have h0 : r % bs = 0 := by omega
    have : ¬ ((r % bs : Nat) : Int) > 0 := by omega
    rw [if_neg this]
    have : r + bs - 1 = (bs - 1) + (r / bs) * bs := by
      have : (r / bs) * bs = bs * (r / bs) := by ring
      omega
    rw [this, Nat.add_mul_div_right _ _ hbs, Nat.div_eq_of_lt (show bs - 1 < bs by omega)]
    omega

/-- The single-indirect part of fs_write_to_file on a file without a
single-indirect block, when the Sector Space Manager has enough answers left. -/
theorem single_tail (bs : Nat) (L : List Nat) (hG : GoodAns bs (ans L) L.length)
    (buf : Nat → Nat) (s : FsState) (o pos c : Nat) (fileSize : Int)
    (hc : blocksFor bs fileSize = c) (hcP : c ≤ bs / 4) (hs : s.ssmOut = L.drop o)
    (ho : o + (1 + c) ≤ L.length) :
    (write_to_file_using_single_indirect_blocks bs s buf pos fileSize).inode
      = { s.inode with sIndirect := ans L o } ∧
    (write_to_file_using_single_indirect_blocks bs s buf pos fileSize).ssmOut
      = L.drop (o + (1 + c)) ∧
    Tree1 bs c (ans L) (write_to_file_using_single_indirect_blocks bs s buf pos fileSize).disk o ∧
    DataAt bs (adr1 c (ans L)) buf pos c
      (write_to_file_using_single_indirect_blocks bs s buf pos fileSize).disk o ∧
    ChangedIn bs (ans L) o (o + (1 + c)) s.disk
      (write_to_file_using_single_indirect_blocks bs s buf pos fileSize).disk := by
  have hm : min ((c : Int)).toNat (bs / 4) = c := by
    rw [Int.toNat_ofNat]; omega
  have ha := aloc_single_spec bs L hG (c : Int) s o hs (by rw [hm]; exact ho)
  have hf := (aloc_single_frame bs s (c : Int)).1
  rw [hm] at ha
  obtain ⟨a1, a2, a3, a4⟩ := ha
  unfold write_to_file_using_single_indirect_blocks
  simp only [hc]
  generalize aloc_single_indirect bs s (c : Int) = r at a1 a2 a3 a4 hf
  rw [a1]
  obtain ⟨w1, w2, w3⟩ := write_single_spec bs (ans L) L.length hG buf c o r.2.disk pos c
    ho a3 hcP
  refine ⟨?_, a2, w1, w3, a4.trans_c w2⟩
  rw [hf]

/-- The single- and double-indirect part of fs_write_to_file on a file without
index blocks, when the Sector Space Manager has enough answers left. -/
theorem double_tail (bs : Nat) (wide : Bool) (L : List Nat) (hG : GoodAns bs (ans L) L.length)
    (buf : Nat → Nat) (s : FsState) (o pos c : Nat) (fileSize : Int) (hP : 0 < bs / 4)
    (hU : bs / 4 * (bs / 4) < U32)
    (hc : blocksFor bs (fileSize + ((INODE_DIRECT_PTRS * bs : Nat) : Int)
      - (S_INDIRECT_SIZE bs : Int)) = c)
    (hcD : c ≤ bs / 4 * (bs / 4)) (hs : s.ssmOut = L.drop o)
    (ho : o + (1 + bs / 4) + (1 + min (bs / 4) (c / (bs / 4) + 1) * (1 + min c (bs / 4)))
      ≤ L.length) :
    (write_to_file_using_double_indirect_blocks bs wide s buf pos fileSize).inode
      = { s.inode with sIndirect := ans L o, dIndirect := ans L (o + (1 + bs / 4)) } ∧
    (write_to_file_using_double_indirect_blocks bs wide s buf pos fileSize).ssmOut
      = L.drop (o + (1 + bs / 4)
        + (1 + min (bs / 4) (c / (bs / 4) + 1) * (1 + min c (bs / 4)))) ∧
    Tree1 bs (bs / 4) (ans L)
      (write_to_file_using_double_indirect_blocks bs wide s buf pos fileSize).disk o ∧
    DataAt bs (adr1 (bs / 4) (ans L)) buf pos (bs / 4)
      (write_to_file_using_double_indirect_blocks bs wide s buf pos fileSize).disk o ∧
    Tree2 bs (min (bs / 4) (c / (bs / 4) + 1)) (min c (bs / 4)) (ans L)
      (write_to_file_using_double_indirect_blocks bs wide s buf pos fileSize).disk
      (o + (1 + bs / 4)) ∧
    DataAt bs (adr2 bs (min (bs / 4) (c / (bs / 4) + 1)) (min c (bs / 4)) (ans L)) buf
      (pos + bs / 4 * (bs / 4)) c
      (write_to_file_using_double_indirect_blocks bs wide s buf pos fileSize).disk
      (o + (1 + bs / 4)) ∧
    ChangedIn bs (ans L) o
      (o + (1 + bs / 4) + (1 + min (bs / 4) (c / (bs / 4) + 1) * (1 + min c (bs / 4)))) s.disk
      (write_to_file_using_double_indirect_blocks bs wide s buf pos fileSize).disk := by
  generalize hg2 : 1 + min (bs / 4) (c / (bs / 4) + 1) * (1 + min c (bs / 4)) = g2 at ho ⊢
  have hm : min (((bs / 4 : Nat) : Int)).toNat (bs / 4) = bs / 4 := by
    rw [Int.toNat_ofNat]; omega
  have ha := aloc_single_spec bs L hG ((bs / 4 : Nat) : Int) s o hs (by rw [hm]; omega)
  have hf := (aloc_single_frame bs s ((bs / 4 : Nat) : Int)).1
  rw [hm] at ha
  obtain ⟨a1, a2, a3, a4⟩ := ha
  unfold write_to_file_using_double_indirect_blocks
  simp only [hc, S_INDIRECT_BLOCKS, PTRS_PER_BLOCK]
  generalize aloc_single_indirect bs s ((bs / 4 : Nat) : Int) = r at a1 a2 a3 a4 hf
  rw [a1]
  obtain ⟨w1, w2, w3⟩ := write_single_spec bs (ans L) L.length hG buf (bs / 4) o r.2.disk pos
    (bs / 4) (by omega) a3 (le_refl _)
  generalize write_to_single_indirect_blocks bs r.2.disk (ans L o) buf pos (bs / 4) = d1
    at w1 w2 w3
  have hb := aloc_double_spec bs L hG hP (c : Int) (by omega)
    { r.2 with inode := { r.2.inode with sIndirect := ans L o }, disk := d1 }
    (o + (1 + bs / 4)) a2 (by rw [Int.toNat_ofNat, hg2]; exact ho)
  have hf2 := (aloc_double_frame bs
    { r.2 with inode := { r.2.inode with sIndirect := ans L o }, disk := d1 } (c : Int)).1
  rw [Int.toNat_ofNat, hg2] at hb
  obtain ⟨b1, b2, b3, b4⟩ := hb
  generalize aloc_double_indirect bs
    { r.2 with inode := { r.2.inode with sIndirect := ans L o }, disk := d1 } (c : Int) = r2
    at b1 b2 b3 b4 hf2
  rw [b1]
  obtain ⟨v1, v2, v3⟩ := write_double_spec bs wide (ans L) L.length hG buf
    (min (bs / 4) (c / (bs / 4) + 1)) (min c (bs / 4)) hU (o + (1 + bs / 4)) r2.2.disk
    (pos + bs / 4 * (bs / 4)) c (by rw [hg2]; exact ho) b3 hcD
  rw [hg2] at v2
  have b4' : ChangedIn bs (ans L) (o + (1 + bs / 4)) (o + (1 + bs / 4) + g2) d1 r2.2.disk := b4
  refine ⟨?_, b2, ?_, ?_, v1, v3, ?_⟩
  · show { r2.2.inode with dIndirect := ans L (o + (1 + bs / 4)) } = _
    rw [hf2]
    show { ({ r.2.inode with sIndirect := ans L o } : Inode) with
      dIndirect := ans L (o + (1 + bs / 4)) } = _
    rw [hf]
  · exact (lives_tree1 bs _ (ans L)).kept_l hG v2 o ho (by omega) (Or.inr (le_refl _))
      ((lives_tree1 bs _ (ans L)).kept_l hG b4' o ho (by omega) (Or.inr (le_refl _)) w1)
  · exact (lives_data bs (ans L) _ _ (adr1_in _ (ans L)) buf pos _).kept_l hG v2 o ho
      (by omega) (Or.inr (le_refl _))
      ((lives_data bs (ans L) _ _ (adr1_in _ (ans L)) buf pos _).kept_l hG b4' o ho
        (by omega) (Or.inr (le_refl _)) w3)
  · exact (((a4.trans_c w2).mono_c (le_refl _) (by omega)).trans_c
      (b4'.mono_c (by omega) (le_refl _))).trans_c (v2.mono_c (by omega) (le_refl _))

/-- The indirect part of fs_write_to_file for a size that needs the
triple-indirect block, on a file without index blocks, when the Sector Space
Manager has enough answers left. -/
theorem triple_tail (bs : Nat) (wide : Bool) (L : List Nat) (hG : GoodAns bs (ans L) L.length)
    (buf : Nat → Nat) (s : FsState) (o pos c : Nat) (fileSize : Int) (hP : 0 < bs / 4)
    (hU : bs / 4 * (bs / 4 * (bs / 4)) < U32)
    (hc : blocksFor bs (fileSize + ((INODE_DIRECT_PTRS * bs : Nat) : Int)
      - (D_INDIRECT_SIZE bs : Int)) = c)
    (hcT : c ≤ bs / 4 * (bs / 4 * (bs / 4))) (hs : s.ssmOut = L.drop o)
    (ho : o + (1 + bs / 4) + (1 + bs / 4 * (1 + bs / 4))
      + (1 + min (bs / 4) (c / (bs / 4 * (bs / 4)) + 1) *
        (1 + min (bs / 4) (c / (bs / 4) + 1) * (1 + min c (bs / 4)))) ≤ L.length) :
    (write_to_file_using_triple_indirect_blocks bs wide s buf pos fileSize).inode
      = { s.inode with sIndirect := ans L o,
                       dIndirect := ans L (o + (1 + bs / 4)),
                       tIndirect := ans L (o + (1 + bs / 4) + (1 + bs / 4 * (1 + bs / 4))) } ∧
    (write_to_file_using_triple_indirect_blocks bs wide s buf pos fileSize).ssmOut
      = L.drop (o + (1 + bs / 4) + (1 + bs / 4 * (1 + bs / 4))
        + (1 + min (bs / 4) (c / (bs / 4 * (bs / 4)) + 1) *
          (1 + min (bs / 4) (c / (bs / 4) + 1) * (1 + min c (bs / 4))))) ∧
    Tree1 bs (bs / 4) (ans L)
      (write_to_file_using_triple_indirect_blocks bs wide s buf pos fileSize).disk o ∧
    DataAt bs (adr1 (bs / 4) (ans L)) buf pos (bs / 4)
      (write_to_file_using_triple_indirect_blocks bs wide s buf pos fileSize).disk o ∧
    Tree2 bs (bs / 4) (bs / 4) (ans L)
      (write_to_file_using_triple_indirect_blocks bs wide s buf pos fileSize).disk
      (o + (1 + bs / 4)) ∧
    DataAt bs (adr2 bs (bs / 4) (bs / 4) (ans L)) buf (pos + bs / 4 * (bs / 4))
      (bs / 4 * (bs / 4))
      (write_to_file_using_triple_indirect_blocks bs wide s buf pos fileSize).disk
      (o + (1 + bs / 4)) ∧
    Tree3 bs (min (bs / 4) (c / (bs / 4 * (bs / 4)) + 1)) (min (bs / 4) (c / (bs / 4) + 1))
      (min c (bs / 4)) (ans L)
      (write_to_file_using_triple_indirect_blocks bs wide s buf pos fileSize).disk
      (o + (1 + bs / 4) + (1 + bs / 4 * (1 + bs / 4))) ∧
    DataAt bs (adr3 bs (min (bs / 4) (c / (bs / 4 * (bs / 4)) + 1))
      (min (bs / 4) (c / (bs / 4) + 1)) (min c (bs / 4)) (ans L)) buf
      (pos + bs / 4 * (bs / 4) + bs / 4 * (bs / 4 * (bs / 4))) c
      (write_to_file_using_triple_indirect_blocks bs wide s buf pos fileSize).disk
      (o + (1 + bs / 4) + (1 + bs / 4 * (1 + bs / 4))) ∧
    ChangedIn bs (ans L) o
      (o + (1 + bs / 4) + (1 + bs / 4 * (1 + bs / 4))
        + (1 + min (bs / 4) (c / (bs / 4 * (bs / 4)) + 1) *
          (1 + min (bs / 4) (c / (bs / 4) + 1) * (1 + min c (bs / 4))))) s.disk
      (write_to_file_using_triple_indirect_blocks bs wide s buf pos fileSize).disk := by
  generalize hg3 : 1 + min (bs / 4) (c / (bs / 4 * (bs / 4)) + 1) *
    (1 + min (bs / 4) (c / (bs / 4) + 1) * (1 + min c (bs / 4))) = g3 at ho ⊢
  have hU2 : bs / 4 * (bs / 4) < U32 := by
    have : bs / 4 * (bs / 4) * 1 ≤ bs / 4 * (bs / 4) * (bs / 4) := Nat.mul_le_mul_left _ hP
    have e : bs / 4 * (bs / 4) * (bs / 4) = bs / 4 * (bs / 4 * (bs / 4)) := by ring
    omega
  have hm : min (((bs / 4 : Nat) : Int)).toNat (bs / 4) = bs / 4 := by
    rw [Int.toNat_ofNat]; omega
  have hK2 : min (bs / 4) (bs / 4 * (bs / 4) / (bs / 4) + 1) = bs / 4 := by
    rw [Nat.mul_div_cancel _ hP]; omega
  have hm2 : min (bs / 4 * (bs / 4)) (bs / 4) = bs / 4 := by
    have : bs / 4 * 1 ≤ bs / 4 * (bs / 4) := Nat.mul_le_mul_left _ hP
    omega
  generalize hg2 : 1 + bs / 4 * (1 + bs / 4) = g2 at ho ⊢
  have ha := aloc_single_spec bs L hG ((bs / 4 : Nat) : Int) s o hs (by rw [hm]; omega)
  have hf := (aloc_single_frame bs s ((bs / 4 : Nat) : Int)).1
  rw [hm] at ha
  obtain ⟨a1, a2, a3, a4⟩ := ha
  unfold write_to_file_using_triple_indirect_blocks
  simp only [hc, S_INDIRECT_BLOCKS, D_INDIRECT_BLOCKS, PTRS_PER_BLOCK]
  generalize aloc_single_indirect bs s ((bs / 4 : Nat) : Int) = r at a1 a2 a3 a4 hf
  rw [a1]
  have hb := aloc_double_spec bs L hG hP ((bs / 4 * (bs / 4) : Nat) : Int) (by omega)
    { r.2 with inode := { r.2.inode with sIndirect := ans L o } }
    (o + (1 + bs / 4)) a2 (by rw [Int.toNat_ofNat, hK2, hm2, hg2]; omega)
  have hf2 := (aloc_double_frame bs
    { r.2 with inode := { r.2.inode with sIndirect := ans L o } }
    ((bs / 4 * (bs / 4) : Nat) : Int)).1
  rw [Int.toNat_ofNat, hK2, hm2, hg2] at hb
  obtain ⟨b1, b2, b3, b4⟩ := hb
  generalize aloc_double_indirect bs
    { r.2 with inode := { r.2.inode with sIndirect := ans L o } }
    ((bs / 4 * (bs / 4) : Nat) : Int) = r2 at b1 b2 b3 b4 hf2
  rw [b1, hf2]
  simp only []
  have b4' : ChangedIn bs (ans L) (o + (1 + bs / 4)) (o + (1 + bs / 4) + g2) r.2.disk
      r2.2.disk := b4
  have a3' : Tree1 bs (bs / 4) (ans L) r2.2.disk o :=
    (lives_tree1 bs _ (ans L)).kept_l hG b4' o (by omega) (by omega) (Or.inr (le_refl _)) a3
  obtain ⟨w1, w2, w3⟩ := write_single_spec bs (ans L) L.length hG buf (bs / 4) o r2.2.disk pos
    (bs / 4) (by omega) a3' (le_refl _)
  generalize write_to_single_indirect_blocks bs r2.2.disk (ans L o) buf pos (bs / 4) = d2
    at w1 w2 w3
  have b3' : Tree2 bs (bs / 4) (bs / 4) (ans L) d2 (o + (1 + bs / 4)) :=
    (lives_tree2 bs _ _ (ans L)).kept_l hG w2 _ (by omega) (by rw [hg2]; omega)
      (Or.inl (le_refl _)) b3
  obtain ⟨v1, v2, v3⟩ := write_double_spec bs wide (ans L) L.length hG buf (bs / 4) (bs / 4)
    hU2 (o + (1 + bs / 4)) d2 (pos + bs / 4 * (bs / 4)) (bs / 4 * (bs / 4))
    (by rw [hg2]; omega) b3' (le_refl _)
  rw [hg2] at v2
  generalize write_to_double_indirect_blocks bs wide d2 (ans L (o + (1 + bs / 4))) buf
    (pos + bs / 4 * (bs / 4)) (bs / 4 * (bs / 4)) = d3 at v1 v2 v3
  have hc3 := aloc_triple_spec bs L hG hP (c : Int) (by omega)
    { r2.2 with inode := { ({ r.2.inode with sIndirect := ans L o } : Inode) with
                             dIndirect := ans L (o + (1 + bs / 4)) },
                disk := d3 }
    (o + (1 + bs / 4) + g2) b2 (by rw [Int.toNat_ofNat, hg3]; exact ho)
  have hf3 := (aloc_triple_frame bs
    { r2.2 with inode := { ({ r.2.inode with sIndirect := ans L o } : Inode) with
                             dIndirect := ans L (o + (1 + bs / 4)) },
                disk := d3 } (c : Int)).1
  rw [Int.toNat_ofNat, hg3] at hc3
  obtain ⟨c1, c2, c3, c4⟩ := hc3
  generalize aloc_triple_indirect bs
    { r2.2 with inode := { ({ r.2.inode with sIndirect := ans L o } : Inode) with
                             dIndirect := ans L (o + (1 + bs / 4)) },
                disk := d3 } (c : Int) = r3 at c1 c2 c3 c4 hf3
  rw [c1]
  obtain ⟨u1, u2, u3⟩ := write_triple_spec bs wide (ans L) L.length hG buf
    (min (bs / 4) (c / (bs / 4 * (bs / 4)) + 1)) (min (bs / 4) (c / (bs / 4) + 1))
    (min c (bs / 4)) hU (o + (1 + bs / 4) + g2) r3.2.disk
    (pos + bs / 4 * (bs / 4) + bs / 4 * (bs / 4 * (bs / 4))) c (by rw [hg3]; exact ho) c3 hcT
  rw [hg3] at u2
  have c4' : ChangedIn bs (ans L) (o + (1 + bs / 4) + g2) (o + (1 + bs / 4) + g2 + g3) d3
      r3.2.disk := c4
  refine ⟨?_, c2, ?_, ?_, ?_, ?_, u1, u3, ?_⟩
  · show { r3.2.inode with tIndirect := ans L (o + (1 + bs / 4) + g2) } = _
    rw [hf3]
    show { ({ ({ r.2.inode with sIndirect := ans L o } : Inode) with
      dIndirect := ans L (o + (1 + bs / 4)) } : Inode) with
      tIndirect := ans L (o + (1 + bs / 4) + g2) } = _
    rw [hf]
  · refine (lives_tree1 bs _ (ans L)).kept_l hG u2 o ho (by omega) (Or.inr (by omega)) ?_
    refine (lives_tree1 bs _ (ans L)).kept_l hG c4' o ho (by omega) (Or.inr (by omega)) ?_
    exact (lives_tree1 bs _ (ans L)).kept_l hG v2 o (by omega) (by omega)
      (Or.inr (le_refl _)) w1
  · refine (lives_data bs (ans L) _ _ (adr1_in _ (ans L)) buf pos _).kept_l hG u2 o ho
      (by omega) (Or.inr (by omega)) ?_
    refine (lives_data bs (ans L) _ _ (adr1_in _ (ans L)) buf pos _).kept_l hG c4' o ho
      (by omega) (Or.inr (by omega)) ?_
    exact (lives_data bs (ans L) _ _ (adr1_in _ (ans L)) buf pos _).kept_l hG v2 o (by omega)
      (by omega) (Or.inr (le_refl _)) w3
  · refine (lives_tree2 bs _ _ (ans L)).kept_l hG u2 _ ho (by rw [hg2]; omega)
      (Or.inr (by rw [hg2])) ?_
    exact (lives_tree2 bs _ _ (ans L)).kept_l hG c4' _ ho (by rw [hg2]; omega)
      (Or.inr (by rw [hg2])) v1
  · refine (lives_data bs (ans L) _ _ (adr2_in bs _ _ (ans L)) buf _ _).kept_l hG u2 _ ho
      (by rw [hg2]; omega) (Or.inr (by rw [hg2])) ?_
    exact (lives_data bs (ans L) _ _ (adr2_in bs _ _ (ans L)) buf _ _).kept_l hG c4' _ ho
      (by rw [hg2]; omega) (Or.inr (by rw [hg2])) v3
  · exact (((((a4.mono_c (le_refl _) (by omega)).trans_c
      (b4'.mono_c (by omega) (by omega))).trans_c
      (w2.mono_c (le_refl _) (by omega))).trans_c
      (v2.mono_c (by omega) (by omega))).trans_c
      (c4'.mono_c (by omega) (le_refl _))).trans_c (u2.mono_c (by omega) (le_refl _))

theorem good_of_list (bs : Nat) (L : List Nat) (h1 : ∀ a ∈ L, a ≠ NIL ∧ a % bs = 0)
    (h2 : L.Nodup) : GoodAns bs (ans L) L.length := by
  refine ⟨?_, ?_⟩
  · intro j hj
    have : ans L j = L[j] := by
      unfold ans; exact List.getD_eq_getElem L NIL hj
    rw [this]
    exact h1 _ (List.getElem_mem hj)
  · intro i j hi hj hij
    have e1 : ans L i = L[i] := by
      unfold ans; exact List.getD_eq_getElem L NIL hi
    have e2 : ans L j = L[j] := by
      unfold ans; exact List.getD_eq_getElem L NIL hj
    rw [e1, e2]
    intro h
    exact hij ((List.Nodup.getElem_inj_iff h2).mp h)

/-- What the direct-pointer loop of fs_read_from_file leaves in the buffer when
the first kd direct blocks hold the buffer buf. -/
theorem read_direct_back (bs : Nat) (A : Nat → Nat) (n : Nat) (hG : GoodAns bs A n)
    (d : Nat → Nat) (ino : Inode) (out buf : Nat → Nat) (kd : Nat) (hkd : kd ≤ 10)
    (hn : kd ≤ n)
    (hdir : ∀ j, j < 10 → ino.directPtr.getD j NIL = if j < kd then A j else NIL)
    (hD : ∀ k, k < kd → ∀ w, w < bs / 4 → d (A k + 4 * w) = buf (k * (bs / 4) + w)) :
    (read_direct bs d ino out).2 = kd * (bs / 4) ∧
    ∀ k, k < kd → ∀ w, w < bs / 4 →
      (read_direct bs d ino out).1 (k * (bs / 4) + w) = buf (k * (bs / 4) + w) := by
  obtain ⟨f1, f2, -⟩ := read_fold_spec (fun i => ino.directPtr.getD i NIL)
    (fun o p c => copyIn bs d c o p) (bs / 4) kd (fun _ _ => True)
    (fun i e => d (A i + 4 * e))
    (by
      intro i hi
      show ino.directPtr.getD i NIL ≠ NIL
      rw [hdir i (by omega), if_pos hi]
      exact (hG.1 i (by omega)).1)
    (by
      intro i hi o p
      show (∀ e, e < bs / 4 → True → copyIn bs d (ino.directPtr.getD i NIL) o p (p + e)
        = d (A i + 4 * e)) ∧ (∀ q, (q < p ∨ p + bs / 4 ≤ q) →
          copyIn bs d (ino.directPtr.getD i NIL) o p q = o q)
      rw [hdir i (by omega), if_pos hi]
      refine ⟨?_, ?_⟩
      · intro e he _
        simp only [copyIn]
        rw [if_pos (by omega)]
        congr 2
        omega
      · intro q hq
        simp only [copyIn]
        rw [if_neg (by omega)])
    out 0 INODE_DIRECT_PTRS
    (by
      intro i h1 h2
      show ino.directPtr.getD i NIL = NIL
      have h3 : i < 10 := h2
      rw [hdir i h3, if_neg (by omega)])
  have hmin : min INODE_DIRECT_PTRS kd = kd := by
    have : INODE_DIRECT_PTRS = 10 := rfl
    omega
  rw [hmin] at f1 f2
  refine ⟨?_, ?_⟩
  · have := f1
    simp only [Nat.zero_add] at this
    exact this
  · intro k hk w hw
    have := f2 k hk w hw trivial
    simp only [Nat.zero_add] at this
    rw [hD k hk w hw] at this
    exact this

/-- Reading back a single-indirect block whose data blocks hold the buffer. -/
theorem read_single_back (bs : Nat) (A : Nat → Nat) (n : Nat) (d : Nat → Nat)
    (hG : GoodAns bs A n) (m : Nat) (hm : m ≤ bs / 4) (o : Nat) (out : Nat → Nat) (pos : Nat)
    (ho : o + (1 + m) ≤ n) (hT : Tree1 bs m A d o) (buf : Nat → Nat) (cnt : Nat)
    (hD : DataAt bs (adr1 m A) buf pos cnt d o)
    (hcov : ∀ k, k < cnt → ∃ x, adr1 m A o k = some x) (hcnt : cnt ≤ bs / 4) :
    (∀ k, k < cnt → ∀ w, w < bs / 4 →
      read_from_single_indirect_blocks bs d out pos (A o) (pos + k * (bs / 4) + w)
        = buf (pos + k * (bs / 4) + w)) ∧
    (∀ q, q < pos → read_from_single_indirect_blocks bs d out pos (A o) q = out q) := by
  obtain ⟨r1, r2⟩ := read_single_spec bs A n d hG m hm o out pos ho hT
  refine ⟨?_, fun q hq => r2 q (Or.inl hq)⟩
  intro k hk w hw
  obtain ⟨x, hx⟩ := hcov k hk
  rw [r1 k x (by omega) hx w hw]
  exact hD k x hk hx w hw

theorem read_double_back (bs : Nat) (A : Nat → Nat) (n : Nat) (d : Nat → Nat)
    (hG : GoodAns bs A n) (K m : Nat) (hK : K ≤ bs / 4) (hm : m ≤ bs / 4) (o : Nat)
    (out : Nat → Nat) (pos : Nat)
    (ho : o + (1 + K * (1 + m)) ≤ n) (hT : Tree2 bs K m A d o) (buf : Nat → Nat) (cnt : Nat)
    (hD : DataAt bs (adr2 bs K m A) buf pos cnt d o)
    (hcov : ∀ k, k < cnt → ∃ x, adr2 bs K m A o k = some x)
    (hcnt : cnt ≤ bs / 4 * (bs / 4)) :
    (∀ k, k < cnt → ∀ w, w < bs / 4 →
      read_from_double_indirect_blocks bs d out pos (A o) (pos + k * (bs / 4) + w)
        = buf (pos + k * (bs / 4) + w)) ∧
    (∀ q, q < pos → read_from_double_indirect_blocks bs d out pos (A o) q = out q) := by
  obtain ⟨r1, r2⟩ := read_double_spec bs A n d hG K m hK hm o out pos ho hT
  refine ⟨?_, fun q hq => r2 q (Or.inl hq)⟩
  intro k hk w hw
  obtain ⟨x, hx⟩ := hcov k hk
  rw [r1 k x (by omega) hx w hw]
  exact hD k x hk hx w hw

theorem read_triple_back (bs : Nat) (A : Nat → Nat) (n : Nat) (d : Nat → Nat)
    (hG : GoodAns bs A n) (K3 K m : Nat) (hK3 : K3 ≤ bs / 4) (hK : K ≤ bs / 4)
    (hm : m ≤ bs / 4) (o : Nat) (out : Nat → Nat) (pos : Nat)
    (ho : o + (1 + K3 * (1 + K * (1 + m))) ≤ n) (hT : Tree3 bs K3 K m A d o)
    (buf : Nat → Nat) (cnt : Nat)
    (hD : DataAt bs (adr3 bs K3 K m A) buf pos cnt d o)
    (hcov : ∀ k, k < cnt → ∃ x, adr3 bs K3 K m A o k = some x)
    (hcnt : cnt ≤ bs / 4 * (bs / 4 * (bs / 4))) :
    (∀ k, k < cnt → ∀ w, w < bs / 4 →
      read_from_triple_indirect_blocks bs d out pos (A o) (pos + k * (bs / 4) + w)
        = buf (pos + k * (bs / 4) + w)) ∧
    (∀ q, q < pos → read_from_triple_indirect_blocks bs d out pos (A o) q = out q) := by
  obtain ⟨r1, r2⟩ := read_triple_spec bs A n d hG K3 K m hK3 hK hm o out pos ho hT
  refine ⟨?_, fun q hq => r2 q (Or.inl hq)⟩
  intro k hk w hw
  obtain ⟨x, hx⟩ := hcov k hk
  rw [r1 k x (by omega) hx w hw]
  exact hD k x hk hx w hw

theorem word_lt (k K P w : Nat) (hk : k < K) (hw : w < P) : k * P + w < K * P := by
  have : (k + 1) * P ≤ K * P := Nat.mul_le_mul_right P (by omega)
  have e : (k + 1) * P = k * P + P := by ring
  omega

/-- Reading back a file whose direct blocks and index trees hold the buffer:
fs_read_from_file returns the buffer block by block. -/
theorem read_file_back (bs : Nat) (A : Nat → Nat) (n : Nat) (hG : GoodAns bs A n)
    (t : FsState) (f : Nat) (out buf : Nat → Nat) (hf : f ≠ NIL) (hty : 0 < t.inode.fileType)
    (kd c1 c2 c3 : Nat) (hkd : kd ≤ 10) (hn : kd ≤ n)
    (hdir : ∀ j, j < 10 → t.inode.directPtr.getD j NIL = if j < kd then A j else NIL)
    (hD0 : ∀ k, k < kd → ∀ w, w < bs / 4 → t.disk (A k + 4 * w) = buf (k * (bs / 4) + w))
    (h1 : (t.inode.sIndirect = NIL ∧ c1 = 0) ∨
      ∃ o m, t.inode.sIndirect = A o ∧ o + (1 + m) ≤ n ∧ m ≤ bs / 4 ∧
        Tree1 bs m A t.disk o ∧ DataAt bs (adr1 m A) buf (kd * (bs / 4)) c1 t.disk o ∧
        (∀ k, k < c1 → ∃ x, adr1 m A o k = some x) ∧ c1 ≤ bs / 4)
    (h2 : (t.inode.dIndirect = NIL ∧ c2 = 0) ∨
      ∃ o K m, t.inode.dIndirect = A o ∧ t.inode.sIndirect ≠ NIL ∧
        o + (1 + K * (1 + m)) ≤ n ∧ K ≤ bs / 4 ∧ m ≤ bs / 4 ∧
        Tree2 bs K m A t.disk o ∧
        DataAt bs (adr2 bs K m A) buf (kd * (bs / 4) + bs / 4 * (bs / 4)) c2 t.disk o ∧
        (∀ k, k < c2 → ∃ x, adr2 bs K m A o k = some x) ∧ c2 ≤ bs / 4 * (bs / 4))
    (h3 : (t.inode.tIndirect = NIL ∧ c3 = 0) ∨
      ∃ o K3 K m, t.inode.tIndirect = A o ∧ t.inode.sIndirect ≠ NIL ∧
        t.inode.dIndirect ≠ NIL ∧
        o + (1 + K3 * (1 + K * (1 + m))) ≤ n ∧ K3 ≤ bs / 4 ∧ K ≤ bs / 4 ∧ m ≤ bs / 4 ∧
        Tree3 bs K3 K m A t.disk o ∧
        DataAt bs (adr3 bs K3 K m A) buf
          (kd * (bs / 4) + bs / 4 * (bs / 4) + bs / 4 * (bs / 4 * (bs / 4))) c3 t.disk o ∧
        (∀ k, k < c3 → ∃ x, adr3 bs K3 K m A o k = some x) ∧
        c3 ≤ bs / 4 * (bs / 4 * (bs / 4))) :
    (fs_read_from_file bs (inode_write t f) f out).1 = true ∧
    ∀ k w, w < bs / 4 →
      (k < kd ∨ (kd ≤ k ∧ k < kd + c1) ∨ (kd + bs / 4 ≤ k ∧ k < kd + bs / 4 + c2) ∨
        (kd + bs / 4 + bs / 4 * (bs / 4) ≤ k ∧ k < kd + bs / 4 + bs / 4 * (bs / 4) + c3)) →
      (fs_read_from_file bs (inode_write t f) f out).2.1 (k * (bs / 4) + w)
        = buf (k * (bs / 4) + w) := by
  have hopen : open_inode (inode_write t f) f
      = (true, { inode_write t f with mapId := f, inode := t.inode }) := by
    have h := open_inode_eq (inode_write t f) f hf (by simpa [inode_write] using hty)
    rw [h]
    simp [inode_write]
  have hc1 : c1 ≤ bs / 4 := by
    rcases h1 with ⟨-, h⟩ | ⟨o, m, -, -, -, -, -, -, h⟩
    · omega
    · exact h
  have hc2 : c2 ≤ bs / 4 * (bs / 4) := by
    rcases h2 with ⟨-, h⟩ | ⟨o, K, m, -, -, -, -, -, -, -, -, h⟩
    · omega
    · exact h
  unfold fs_read_from_file
  simp only [hopen, Bool.not_true, Bool.false_eq_true, if_false, S_INDIRECT_BLOCKS,
    D_INDIRECT_BLOCKS, PTRS_PER_BLOCK]
  have hdisk : (inode_write t f).disk = t.disk := rfl
  rw [hdisk]
  refine ⟨trivial, ?_⟩
  obtain ⟨z1, z2⟩ := read_direct_back bs A n hG t.disk t.inode out buf kd hkd hn hdir hD0
  generalize read_direct bs t.disk t.inode out = r0 at z1 z2
  -- the single-indirect block
  generalize hr1 : (if is_not_null t.inode.sIndirect = true then
    (read_from_single_indirect_blocks bs t.disk r0.1 r0.2 t.inode.sIndirect,
      r0.2 + bs / 4 * (bs / 4)) else r0) = r1
  have k1 : (∀ k, k < kd + c1 → ∀ w, w < bs / 4 →
      r1.1 (k * (bs / 4) + w) = buf (k * (bs / 4) + w)) ∧
      (t.inode.sIndirect ≠ NIL → r1.2 = kd * (bs / 4) + bs / 4 * (bs / 4)) := by
    rw [← hr1]
    rcases h1 with ⟨hs, hc⟩ | ⟨o, m, hs, ho, hm, hT, hD, hcov, hc⟩
    · have : is_not_null t.inode.sIndirect = false := by rw [hs]; simp [is_not_null]
      rw [this]
      simp only [Bool.false_eq_true, if_false]
      exact ⟨fun k hk w hw => z2 k (by omega) w hw, fun h => absurd hs h⟩
    · have : is_not_null t.inode.sIndirect = true := by
        rw [hs]; simpa [is_not_null] using (hG.1 o (by omega)).1
      rw [this]
      simp only [if_true]
      rw [hs, z1]
      obtain ⟨b1, b2⟩ := read_single_back bs A n t.disk hG m hm o r0.1 (kd * (bs / 4)) ho hT
        buf c1 hD hcov hc
      refine ⟨?_, fun _ => rfl⟩
      intro k hk w hw
      by_cases hkk : k < kd
      · rw [b2 _ (word_lt k kd _ w hkk hw)]
        exact z2 k hkk w hw
      · obtain ⟨k', rfl⟩ : ∃ k', k = kd + k' := ⟨k - kd, by omega⟩
        have e : (kd + k') * (bs / 4) + w = kd * (bs / 4) + k' * (bs / 4) + w := by ring
        rw [e]
        exact b1 k' (by omega) w hw
  clear hr1
  obtain ⟨k1a, k1b⟩ := k1
  -- the double-indirect block
  generalize hr2 : (if is_not_null t.inode.dIndirect = true then
    (read_from_double_indirect_blocks bs t.disk r1.1 r1.2 t.inode.dIndirect,
      r1.2 + bs / 4 * (bs / 4 * (bs / 4))) else r1) = r2
  have k2 : (∀ k, (k < kd + c1 ∨ (kd + bs / 4 ≤ k ∧ k < kd + bs / 4 + c2)) →
      ∀ w, w < bs / 4 → r2.1 (k * (bs / 4) + w) = buf (k * (bs / 4) + w)) ∧
      (t.inode.sIndirect ≠ NIL → t.inode.dIndirect ≠ NIL →
        r2.2 = kd * (bs / 4) + bs / 4 * (bs / 4) + bs / 4 * (bs / 4 * (bs / 4))) := by
    rw [← hr2]
    rcases h2 with ⟨hs, hc⟩ | ⟨o, K, m, hs, hsn, ho, hK, hm, hT, hD, hcov, hc⟩
    · have : is_not_null t.inode.dIndirect = false := by rw [hs]; simp [is_not_null]
      rw [this]
      simp only [Bool.false_eq_true, if_false]
      refine ⟨?_, fun _ h => absurd hs h⟩
      intro k hk w hw
      exact k1a k (by omega) w hw
    · have : is_not_null t.inode.dIndirect = true := by
        rw [hs]; simpa [is_not_null] using (hG.1 o (by omega)).1
      rw [this]
      simp only [if_true]
      rw [hs, k1b hsn]
      obtain ⟨b1, b2⟩ := read_double_back bs A n t.disk hG K m hK hm o r1.1
        (kd * (bs / 4) + bs / 4 * (bs / 4)) ho hT buf c2 hD hcov hc
      refine ⟨?_, fun _ _ => rfl⟩
      intro k hk w hw
      by_cases hkk : k < kd + bs / 4
      · have hlt := word_lt k (kd + bs / 4) _ w hkk hw
        have e : (kd + bs / 4) * (bs / 4) = kd * (bs / 4) + bs / 4 * (bs / 4) := by ring
        rw [b2 _ (by omega)]
        exact k1a k (by omega) w hw
      · obtain ⟨k', rfl⟩ : ∃ k', k = kd + bs / 4 + k' := ⟨k - (kd + bs / 4), by omega⟩
        have e : (kd + bs / 4 + k') * (bs / 4) + w
            = kd * (bs / 4) + bs / 4 * (bs / 4) + k' * (bs / 4) + w := by ring
        rw [e]
        exact b1 k' (by omega) w hw
  clear hr2
  obtain ⟨k2a, k2b⟩ := k2
  -- the triple-indirect block
  intro k w hw hk
  rcases h3 with ⟨hs, hc⟩ | ⟨o, K3, K, m, hs, hsn, hdn, ho, hK3, hK, hm, hT, hD, hcov, hc⟩
  · have : is_not_null t.inode.tIndirect = false := by rw [hs]; simp [is_not_null]
    rw [this]
    simp only [Bool.false_eq_true, if_false]
    exact k2a k (by omega) w hw
  · have : is_not_null t.inode.tIndirect = true := by
      rw [hs]; simpa [is_not_null] using (hG.1 o (by omega)).1
    rw [this]
    simp only [if_true]
    rw [hs, k2b hsn hdn]
    obtain ⟨b1, b2⟩ := read_triple_back bs A n t.disk hG K3 K m hK3 hK hm o r2.1
      (kd * (bs / 4) + bs / 4 * (bs / 4) + bs / 4 * (bs / 4 * (bs / 4))) ho hT buf c3 hD hcov hc
    by_cases hkk : k < kd + bs / 4 + bs / 4 * (bs / 4)
    · have hlt := word_lt k (kd + bs / 4 + bs / 4 * (bs / 4)) _ w hkk hw
      have e : (kd + bs / 4 + bs / 4 * (bs / 4)) * (bs / 4)
          = kd * (bs / 4) + bs / 4 * (bs / 4) + bs / 4 * (bs / 4 * (bs / 4)) := by ring
      rw [b2 _ (by omega)]
      exact k2a k (by omega) w hw
    · obtain ⟨k', rfl⟩ : ∃ k', k = kd + bs / 4 + bs / 4 * (bs / 4) + k' :=
        ⟨k - (kd + bs / 4 + bs / 4 * (bs / 4)), by omega⟩
      have e : (kd + bs / 4 + bs / 4 * (bs / 4) + k') * (bs / 4) + w
          = kd * (bs / 4) + bs / 4 * (bs / 4) + bs / 4 * (bs / 4 * (bs / 4))
            + k' * (bs / 4) + w := by ring
      rw [e]
      exact b1 k' (by omega) w hw

theorem blocksOf_le_iff (bs n M : Nat) (hbs : 0 < bs) : blocksOf bs n ≤ M ↔ n ≤ M * bs := by
  unfold blocksOf
  rw [← Nat.lt_succ_iff, Nat.div_lt_iff_lt_mul hbs]
  have : Nat.succ M * bs = M * bs + bs := by
    rw [Nat.succ_mul]
  omega

theorem blocksOf_sub (bs n M : Nat) (hbs : 0 < bs) (h : M * bs ≤ n) :
    blocksOf bs (n - M * bs) = blocksOf bs n - M := by
  unfold blocksOf
  have hc : bs * M = M * bs := Nat.mul_comm _ _
  have e : n - M * bs + bs - 1 = n + bs - 1 - bs * M := by
    rw [hc]
    generalize M * bs = m at h
    omega
  rw [e, Nat.sub_mul_div _ _ _ (by rw [hc]; generalize M * bs = m at h; omega)]

/-- The first part of fs_write_to_file on a file without direct blocks: the
direct-pointer loop, and what is left to the index blocks. -/
theorem fs_write_to_file_direct_phase (bs : Nat) (wide : Bool) (s : FsState) (f : Nat)
    (B : Nat → Nat) (n : Nat) (hbs : 0 < bs)
    (hG : GoodAns bs (ans s.ssmOut) s.ssmOut.length) (hf : f ≠ NIL)
    (hty : 0 < (s.itable f).fileType)
    (hdp : (s.itable f).directPtr = List.replicate 10 NIL) (hn0 : 0 < n)
    (hlen : min 10 (blocksOf bs n) ≤ s.ssmOut.length) :
    ∃ w : Nat × FsState,
      fs_write_to_file bs wide s f B (n : Int) = (true, inode_write
        (if (n : Int) - ((min 10 (blocksOf bs n) * bs : Nat) : Int) > 0 then
          if (n : Int) - ((min 10 (blocksOf bs n) * bs : Nat) : Int)
              + ((INODE_DIRECT_PTRS * bs : Nat) : Int) - (D_INDIRECT_SIZE bs : Int) > 0 then
            write_to_file_using_triple_indirect_blocks bs wide w.2 B w.1
              ((n : Int) - ((min 10 (blocksOf bs n) * bs : Nat) : Int))
          else if (n : Int) - ((min 10 (blocksOf bs n) * bs : Nat) : Int)
              + ((INODE_DIRECT_PTRS * bs : Nat) : Int) - (S_INDIRECT_SIZE bs : Int) > 0 then
            write_to_file_using_double_indirect_blocks bs wide w.2 B w.1
              ((n : Int) - ((min 10 (blocksOf bs n) * bs : Nat) : Int))
          else
            write_to_file_using_single_indirect_blocks bs w.2 B w.1
              ((n : Int) - ((min 10 (blocksOf bs n) * bs : Nat) : Int))
        else w.2) f) ∧
      w.1 = min 10 (blocksOf bs n) * (bs / 4) ∧
      w.2.ssmOut = s.ssmOut.drop (min 10 (blocksOf bs n)) ∧
      (∀ j, j < 10 → w.2.inode.directPtr.getD j NIL
        = if j < min 10 (blocksOf bs n) then ans s.ssmOut j else NIL) ∧
      w.2.inode.sIndirect = (s.itable f).sIndirect ∧
      w.2.inode.dIndirect = (s.itable f).dIndirect ∧
      w.2.inode.tIndirect = (s.itable f).tIndirect ∧
      w.2.inode.fileType = (s.itable f).fileType ∧
      ChangedIn bs (ans s.ssmOut) 0 (min 10 (blocksOf bs n)) s.disk w.2.disk ∧
      ∀ k, k < min 10 (blocksOf bs n) → ∀ v, v < bs / 4 →
        w.2.disk (ans s.ssmOut k + 4 * v) = B (k * (bs / 4) + v) := by
  obtain ⟨r1, r2, -, r4, r5, r6, r7, r8, r9⟩ := write_direct_spec bs s.ssmOut hG B
    (min 10 (blocksOf bs n)) 0 0
    { s with mapId := f,
             inode := { s.itable f with
               fileSize := ((n : Int) % (U32 : Int)).toNat,
               dataBlocks := ((n : Int) % (U32 : Int)).toNat / bs } }
    (by omega) (by omega) rfl (by show (s.itable f).directPtr.length = 10; rw [hdp]; simp)
    (by
      intro j _
      show (s.itable f).directPtr.getD j NIL = _
      rw [hdp, replicate_getD_nil, if_neg (by omega)])
  have hfr := (write_to_file_direct_frame bs B (List.range' 0 (min 10 (blocksOf bs n))) 0
    { s with mapId := f,
             inode := { s.itable f with
               fileSize := ((n : Int) % (U32 : Int)).toNat,
               dataBlocks := ((n : Int) % (U32 : Int)).toNat / bs } }).1
  simp only [Nat.zero_add] at r1 r2 r4 r8 r9
  refine ⟨_, ?_, r1, r2, r4, r5, r6, r7, hfr, r8, r9⟩
  unfold fs_write_to_file
  rw [open_inode_eq s f hf hty]
  simp only [Bool.not_true, Bool.false_eq_true, if_false]
  rw [countDirect_eq bs hbs INODE_DIRECT_PTRS n 0 hn0]
  simp only [Nat.zero_add, List.range_eq_range']
  rfl

/-- From the blocks left by a write to the round trip: when the state written
back holds the buffer block by block, fs_read_from_file returns its first n
bytes. -/
theorem round_trip_of_image (bs : Nat) (wide : Bool) (s : FsState) (f : Nat)
    (B out : Nat → Nat) (nbytes : Nat) (h4 : bs % 4 = 0) (hbs : 0 < bs)
    (A : Nat → Nat) (n : Nat) (hG : GoodAns bs A n)
    (t : FsState) (hf : f ≠ NIL) (hty : 0 < t.inode.fileType)
    (hw : fs_write_to_file bs wide s f B (nbytes : Int) = (true, inode_write t f))
    (kd c1 c2 c3 : Nat) (hkd : kd ≤ 10) (hn : kd ≤ n)
    (hdir : ∀ j, j < 10 → t.inode.directPtr.getD j NIL = if j < kd then A j else NIL)
    (hD0 : ∀ k, k < kd → ∀ w, w < bs / 4 → t.disk (A k + 4 * w) = B (k * (bs / 4) + w))
    (h1 : (t.inode.sIndirect = NIL ∧ c1 = 0) ∨
      ∃ o m, t.inode.sIndirect = A o ∧ o + (1 + m) ≤ n ∧ m ≤ bs / 4 ∧
        Tree1 bs m A t.disk o ∧ DataAt bs (adr1 m A) B (kd * (bs / 4)) c1 t.disk o ∧
        (∀ k, k < c1 → ∃ x, adr1 m A o k = some x) ∧ c1 ≤ bs / 4)
    (h2 : (t.inode.dIndirect = NIL ∧ c2 = 0) ∨
      ∃ o K m, t.inode.dIndirect = A o ∧ t.inode.sIndirect ≠ NIL ∧
        o + (1 + K * (1 + m)) ≤ n ∧ K ≤ bs / 4 ∧ m ≤ bs / 4 ∧
        Tree2 bs K m A t.disk o ∧
        DataAt bs (adr2 bs K m A) B (kd * (bs / 4) + bs / 4 * (bs / 4)) c2 t.disk o ∧
        (∀ k, k < c2 → ∃ x, adr2 bs K m A o k = some x) ∧ c2 ≤ bs / 4 * (bs / 4))
    (h3 : (t.inode.tIndirect = NIL ∧ c3 = 0) ∨
      ∃ o K3 K m, t.inode.tIndirect = A o ∧ t.inode.sIndirect ≠ NIL ∧
        t.inode.dIndirect ≠ NIL ∧
        o + (1 + K3 * (1 + K * (1 + m))) ≤ n ∧ K3 ≤ bs / 4 ∧ K ≤ bs / 4 ∧ m ≤ bs / 4 ∧
        Tree3 bs K3 K m A t.disk o ∧
        DataAt bs (adr3 bs K3 K m A) B
          (kd * (bs / 4) + bs / 4 * (bs / 4) + bs / 4 * (bs / 4 * (bs / 4))) c3 t.disk o ∧
        (∀ k, k < c3 → ∃ x, adr3 bs K3 K m A o k = some x) ∧
        c3 ≤ bs / 4 * (bs / 4 * (bs / 4)))
    (hcover : ∀ k, k < blocksOf bs nbytes →
      (k < kd ∨ (kd ≤ k ∧ k < kd + c1) ∨ (kd + bs / 4 ≤ k ∧ k < kd + bs / 4 + c2) ∨
        (kd + bs / 4 + bs / 4 * (bs / 4) ≤ k ∧ k < kd + bs / 4 + bs / 4 * (bs / 4) + c3))) :
    (fs_write_to_file bs wide s f B (nbytes : Int)).1 = true ∧
    (fs_read_from_file bs (fs_write_to_file bs wide s f B (nbytes : Int)).2 f out).1 = true ∧
    ∀ q, 4 * q < nbytes →
      (fs_read_from_file bs (fs_write_to_file bs wide s f B (nbytes : Int)).2 f out).2.1 q
        = B q := by
  obtain ⟨r1, r2⟩ := read_file_back bs A n hG t f out B hf hty kd c1 c2 c3 hkd hn hdir hD0
    h1 h2 h3
  rw [hw]
  refine ⟨rfl, r1, ?_⟩
  intro q hq
  have hP : 0 < bs / 4 := by omega
  have hle : nbytes ≤ blocksOf bs nbytes * bs :=
    (blocksOf_le_iff bs nbytes _ hbs).mp (le_refl _)
  have hbsP : bs = 4 * (bs / 4) := by omega
  have hk : q / (bs / 4) < blocksOf bs nbytes := by
    rw [Nat.div_lt_iff_lt_mul hP]
    have e : blocksOf bs nbytes * bs = 4 * (blocksOf bs nbytes * (bs / 4)) := by
      have h := congrArg (fun x => blocksOf bs nbytes * x) hbsP
      simp only at h
      rw [h]
      ring
    omega
  have hsplit : q / (bs / 4) * (bs / 4) + q % (bs / 4) = q := by
    have := Nat.div_add_mod q (bs / 4)
    rw [Nat.mul_comm] at this
    exact this
  have := r2 (q / (bs / 4)) (q % (bs / 4)) (Nat.mod_lt _ hP) (hcover _ hk)
  rw [hsplit] at this
  exact this

theorem direct_kept (bs : Nat) (A : Nat → Nat) (n : Nat) (hG : GoodAns bs A n)
    (d d' : Nat → Nat) (hi : Nat) (h : ChangedIn bs A 10 hi d d') (hhi : hi ≤ n)
    (B : Nat → Nat)
    (hD : ∀ k, k < 10 → ∀ w, w < bs / 4 → d (A k + 4 * w) = B (k * (bs / 4) + w)) :
    ∀ k, k < 10 → ∀ w, w < bs / 4 → d' (A k + 4 * w) = B (k * (bs / 4) + w) := by
  intro k hk w hw
  rcases Nat.lt_or_ge 10 hi with h10 | h10
  · rw [h _ (inside_disjoint bs A n hG k (k + 1) 10 hi _ (by omega) hhi (Or.inl (by omega))
      (inside_block bs A k (k + 1) k w (le_refl _) (by omega) hw))]
    exact hD k hk w hw
  · rw [h _ (by rintro ⟨j, j1, j2, -, -⟩; omega)]
    exact hD k hk w hw

/-- The round trip for a size that the direct pointers hold. -/
theorem round_trip_direct (bs : Nat) (wide : Bool) (s : FsState) (f : Nat) (B out : Nat → Nat)
    (n : Nat) (h4 : bs % 4 = 0) (hbs : 0 < bs)
    (hG : GoodAns bs (ans s.ssmOut) s.ssmOut.length) (hf : f ≠ NIL)
    (hty : 0 < (s.itable f).fileType)
    (hdp : (s.itable f).directPtr = List.replicate 10 NIL)
    (hsi : (s.itable f).sIndirect = NIL) (hdi : (s.itable f).dIndirect = NIL)
    (hti : (s.itable f).tIndirect = NIL) (hn0 : 0 < n)
    (hnb : blocksOf bs n ≤ 10) (hlen : blocksOf bs n ≤ s.ssmOut.length) :
    (fs_write_to_file bs wide s f B (n : Int)).1 = true ∧
    (fs_read_from_file bs (fs_write_to_file bs wide s f B (n : Int)).2 f out).1 = true ∧
    ∀ q, 4 * q < n →
      (fs_read_from_file bs (fs_write_to_file bs wide s f B (n : Int)).2 f out).2.1 q
        = B q := by
  have hmin : min 10 (blocksOf bs n) = blocksOf bs n := by omega
  obtain ⟨w, hw, w1, w2, w3, w4, w5, w6, w7, w8, w9⟩ :=
    fs_write_to_file_direct_phase bs wide s f B n hbs hG hf hty hdp hn0 (by omega)
  rw [hmin] at hw w1 w2 w3 w8 w9
  have hle : n ≤ blocksOf bs n * bs := (blocksOf_le_iff bs n _ hbs).mp (le_refl _)
  have hc : ¬ ((n : Int) - ((blocksOf bs n * bs : Nat) : Int) > 0) := by
    generalize blocksOf bs n * bs = m at hle
    omega
  rw [if_neg hc] at hw
  exact round_trip_of_image bs wide s f B out n h4 hbs (ans s.ssmOut) s.ssmOut.length hG w.2
    hf (by rw [w7]; exact hty) hw (blocksOf bs n) 0 0 0 hnb hlen w3 w9
    (Or.inl ⟨by rw [w4, hsi], rfl⟩) (Or.inl ⟨by rw [w5, hdi], rfl⟩)
    (Or.inl ⟨by rw [w6, hti], rfl⟩) (fun k hk => Or.inl hk)

theorem ssize_eq (bs : Nat) : S_INDIRECT_SIZE bs = (10 + bs / 4) * bs := rfl

theorem dsize_eq (bs : Nat) :
    D_INDIRECT_SIZE bs = (10 + bs / 4 + bs / 4 * (bs / 4)) * bs := by
  simp only [D_INDIRECT_SIZE, S_INDIRECT_SIZE, S_INDIRECT_BLOCKS, D_INDIRECT_BLOCKS,
    PTRS_PER_BLOCK, INODE_DIRECT_PTRS]
  ring

theorem tail_cond (bs n X : Nat) :
    ((n : Int) - ((10 * bs : Nat) : Int) + ((INODE_DIRECT_PTRS * bs : Nat) : Int) - (X : Int) > 0)
      ↔ X < n := by
  simp only [INODE_DIRECT_PTRS]
  omega

theorem blocksFor_first (bs n : Nat) (hbs : 0 < bs) (h10 : 10 * bs ≤ n)
    (hU : blocksOf bs n - 10 < U32) :
    blocksFor bs ((n : Int) - ((10 * bs : Nat) : Int)) = blocksOf bs n - 10 := by
  have e : (n : Int) - ((10 * bs : Nat) : Int) = ((n - 10 * bs : Nat) : Int) := by omega
  rw [e, blocksFor_eq bs _ hbs (by rw [blocksOf_sub bs n 10 hbs h10]; exact hU),
    blocksOf_sub bs n 10 hbs h10]

theorem blocksFor_tail (bs n M X : Nat) (hbs : 0 < bs) (hX : X = M * bs) (hlt : X ≤ n)
    (hU : blocksOf bs n - M < U32) :
    blocksFor bs ((n : Int) - ((10 * bs : Nat) : Int) + ((INODE_DIRECT_PTRS * bs : Nat) : Int)
      - (X : Int)) = blocksOf bs n - M := by
  have e : (n : Int) - ((10 * bs : Nat) : Int) + ((INODE_DIRECT_PTRS * bs : Nat) : Int)
      - (X : Int) = ((n - M * bs : Nat) : Int) := by
    simp only [INODE_DIRECT_PTRS]
    rw [← hX]
    omega
  have hM : M * bs ≤ n := by rw [← hX]; exact hlt
  rw [e, blocksFor_eq bs _ hbs (by rw [blocksOf_sub bs n M hbs hM]; exact hU),
    blocksOf_sub bs n M hbs hM]

/-- The round trip for a size that needs the single-indirect block only. -/
theorem round_trip_single (bs : Nat) (wide : Bool) (s : FsState) (f : Nat) (B out : Nat → Nat)
    (n : Nat) (h4 : bs % 4 = 0) (hbs : 0 < bs) (hU : bs / 4 < U32)
    (hG : GoodAns bs (ans s.ssmOut) s.ssmOut.length) (hf : f ≠ NIL)
    (hty : 0 < (s.itable f).fileType)
    (hdp : (s.itable f).directPtr = List.replicate 10 NIL)
    (hdi : (s.itable f).dIndirect = NIL)
    (hti : (s.itable f).tIndirect = NIL) (hn0 : 0 < n)
    (hnb : 10 < blocksOf bs n) (hnb2 : blocksOf bs n ≤ 10 + bs / 4)
    (hlen : 10 + (1 + (blocksOf bs n - 10)) ≤ s.ssmOut.length) :
    (fs_write_to_file bs wide s f B (n : Int)).1 = true ∧
    (fs_read_from_file bs (fs_write_to_file bs wide s f B (n : Int)).2 f out).1 = true ∧
    ∀ q, 4 * q < n →
      (fs_read_from_file bs (fs_write_to_file bs wide s f B (n : Int)).2 f out).2.1 q
        = B q := by
  have hmin : min 10 (blocksOf bs n) = 10 := by omega
  obtain ⟨w, hw, w1, w2, w3, w4, w5, w6, w7, w8, w9⟩ :=
    fs_write_to_file_direct_phase bs wide s f B n hbs hG hf hty hdp hn0 (by omega)
  rw [hmin] at hw w1 w2 w3 w8 w9
  have h10 : 10 * bs < n := by
    have := (blocksOf_le_iff bs n 10 hbs).not.mp (by omega)
    omega
  have hS : n ≤ S_INDIRECT_SIZE bs := by
    rw [ssize_eq]; exact (blocksOf_le_iff bs n _ hbs).mp hnb2
  have hD : n ≤ D_INDIRECT_SIZE bs := by
    rw [dsize_eq]
    exact (blocksOf_le_iff bs n _ hbs).mp (by omega)
  have c0 : (n : Int) - ((10 * bs : Nat) : Int) > 0 := by omega
  have cT : ¬ ((n : Int) - ((10 * bs : Nat) : Int) + ((INODE_DIRECT_PTRS * bs : Nat) : Int)
      - (D_INDIRECT_SIZE bs : Int) > 0) := by
    rw [tail_cond bs n _]; omega
  have cD : ¬ ((n : Int) - ((10 * bs : Nat) : Int) + ((INODE_DIRECT_PTRS * bs : Nat) : Int)
      - (S_INDIRECT_SIZE bs : Int) > 0) := by
    rw [tail_cond bs n _]; omega
  rw [if_pos c0, if_neg cT, if_neg cD] at hw
  have hc := blocksFor_first bs n hbs (by omega) (by omega)
  obtain ⟨t1, -, t3, t4, t5⟩ := single_tail bs s.ssmOut hG B w.2 10 w.1 (blocksOf bs n - 10)
    ((n : Int) - ((10 * bs : Nat) : Int)) hc (by omega) w2 hlen
  have hmc : min (blocksOf bs n - 10) (bs / 4) = blocksOf bs n - 10 := by omega
  refine round_trip_of_image bs wide s f B out n h4 hbs (ans s.ssmOut) s.ssmOut.length hG _
    hf ?_ hw 10 (blocksOf bs n - 10) 0 0 (le_refl _) (by omega) ?_ ?_ (Or.inr ?_) (Or.inl ?_)
    (Or.inl ?_) ?_
  · rw [t1]; show 0 < w.2.inode.fileType; rw [w7]; exact hty
  · rw [t1]; exact w3
  · exact direct_kept bs _ _ hG _ _ _ t5 hlen B w9
  · refine ⟨10, blocksOf bs n - 10, by rw [t1], hlen, by omega, t3, ?_, ?_, by omega⟩
    · rw [← w1]; exact t4
    · intro k hk
      have := cover1 bs (ans s.ssmOut) (blocksOf bs n - 10) 10 k hk (by omega)
      rw [hmc] at this
      exact this
  · rw [t1]; exact ⟨w5.trans hdi, rfl⟩
  · rw [t1]; exact ⟨w6.trans hti, rfl⟩
  · intro k hk
    omega

/-- The round trip for a size that needs the double-indirect block. -/
theorem round_trip_double (bs : Nat) (wide : Bool) (s : FsState) (f : Nat) (B out : Nat → Nat)
    (n : Nat) (h4 : bs % 4 = 0) (hbs : 0 < bs) (hU : bs / 4 * (bs / 4) < U32)
    (hG : GoodAns bs (ans s.ssmOut) s.ssmOut.length) (hf : f ≠ NIL)
    (hty : 0 < (s.itable f).fileType)
    (hdp : (s.itable f).directPtr = List.replicate 10 NIL)
    (hti : (s.itable f).tIndirect = NIL) (hn0 : 0 < n)
    (hnb : 10 + bs / 4 < blocksOf bs n)
    (hnb2 : blocksOf bs n ≤ 10 + bs / 4 + bs / 4 * (bs / 4))
    (hlen : 10 + (1 + bs / 4)
      + (1 + min (bs / 4) ((blocksOf bs n - (10 + bs / 4)) / (bs / 4) + 1)
        * (1 + min (blocksOf bs n - (10 + bs / 4)) (bs / 4))) ≤ s.ssmOut.length) :
    (fs_write_to_file bs wide s f B (n : Int)).1 = true ∧
    (fs_read_from_file bs (fs_write_to_file bs wide s f B (n : Int)).2 f out).1 = true ∧
    ∀ q, 4 * q < n →
      (fs_read_from_file bs (fs_write_to_file bs wide s f B (n : Int)).2 f out).2.1 q
        = B q := by
  have hP : 0 < bs / 4 := by omega
  have hmin : min 10 (blocksOf bs n) = 10 := by omega
  obtain ⟨w, hw, w1, w2, w3, w4, w5, w6, w7, w8, w9⟩ :=
    fs_write_to_file_direct_phase bs wide s f B n hbs hG hf hty hdp hn0 (by omega)
  rw [hmin] at hw w1 w2 w3 w8 w9
  have h10 : 10 * bs < n := by
    have := (blocksOf_le_iff bs n 10 hbs).not.mp (by omega)
    omega
  have hS : S_INDIRECT_SIZE bs < n := by
    rw [ssize_eq]
    have := (blocksOf_le_iff bs n (10 + bs / 4) hbs).not.mp (by omega)
    omega
  have hD : n ≤ D_INDIRECT_SIZE bs := by
    rw [dsize_eq]
    exact (blocksOf_le_iff bs n _ hbs).mp hnb2
  have c0 : (n : Int) - ((10 * bs : Nat) : Int) > 0 := by omega
  have cT : ¬ ((n : Int) - ((10 * bs : Nat) : Int) + ((INODE_DIRECT_PTRS * bs : Nat) : Int)
      - (D_INDIRECT_SIZE bs : Int) > 0) := by
    rw [tail_cond bs n _]; omega
  have cD : (n : Int) - ((10 * bs : Nat) : Int) + ((INODE_DIRECT_PTRS * bs : Nat) : Int)
      - (S_INDIRECT_SIZE bs : Int) > 0 := by
    rw [tail_cond bs n _]; exact hS
  rw [if_pos c0, if_neg cT, if_pos cD] at hw
  have hc := blocksFor_tail bs n (10 + bs / 4) (S_INDIRECT_SIZE bs) hbs (ssize_eq bs)
    (by omega) (by omega)
  generalize hcdef : blocksOf bs n - (10 + bs / 4) = c at hc hlen
  have hcD : c ≤ bs / 4 * (bs / 4) := by omega
  obtain ⟨t1, -, t3, t4, t5, t6, t7⟩ := double_tail bs wide s.ssmOut hG B w.2 10 w.1 c
    ((n : Int) - ((10 * bs : Nat) : Int)) hP hU hc hcD w2 hlen
  have hA10 : ans s.ssmOut 10 ≠ NIL := (hG.1 10 (by omega)).1
  refine round_trip_of_image bs wide s f B out n h4 hbs (ans s.ssmOut) s.ssmOut.length hG _
    hf ?_ hw 10 (bs / 4) c 0 (le_refl _) (by omega) ?_ ?_ (Or.inr ?_) (Or.inr ?_)
    (Or.inl ?_) ?_
  · rw [t1]; show 0 < w.2.inode.fileType; rw [w7]; exact hty
  · rw [t1]; exact w3
  · exact direct_kept bs _ _ hG _ _ _ t7 hlen B w9
  · refine ⟨10, bs / 4, by rw [t1], by omega, le_refl _, t3, ?_, ?_, le_refl _⟩
    · rw [← w1]; exact t4
    · intro k hk
      have := cover1 bs (ans s.ssmOut) (bs / 4) 10 k hk (le_refl _)
      rw [Nat.min_self] at this
      exact this
  · refine ⟨10 + (1 + bs / 4), _, _, by rw [t1], by rw [t1]; exact hA10, hlen,
      Nat.min_le_left _ _, Nat.min_le_right _ _, t5, ?_, ?_, hcD⟩
    · rw [← w1]; exact t6
    · intro k hk
      exact cover2 bs (ans s.ssmOut) c _ k hk hcD
  · rw [t1]; exact ⟨w6.trans hti, rfl⟩
  · intro k hk
    omega

/-- The round trip for a size that needs the triple-indirect block. -/
theorem round_trip_triple (bs : Nat) (wide : Bool) (s : FsState) (f : Nat) (B out : Nat → Nat)
    (n : Nat) (h4 : bs % 4 = 0) (hbs : 0 < bs) (hU : bs / 4 * (bs / 4 * (bs / 4)) < U32)
    (hG : GoodAns bs (ans s.ssmOut) s.ssmOut.length) (hf : f ≠ NIL)
    (hty : 0 < (s.itable f).fileType)
    (hdp : (s.itable f).directPtr = List.replicate 10 NIL) (hn0 : 0 < n)
    (hnb : 10 + bs / 4 + bs / 4 * (bs / 4) < blocksOf bs n)
    (hnb2 : blocksOf bs n ≤ 10 + bs / 4 + bs / 4 * (bs / 4) + bs / 4 * (bs / 4 * (bs / 4)))
    (hlen : 10 + (1 + bs / 4) + (1 + bs / 4 * (1 + bs / 4))
      + (1 + min (bs / 4)
          ((blocksOf bs n - (10 + bs / 4 + bs / 4 * (bs / 4))) / (bs / 4 * (bs / 4)) + 1)
        * (1 + min (bs / 4)
            ((blocksOf bs n - (10 + bs / 4 + bs / 4 * (bs / 4))) / (bs / 4) + 1)
          * (1 + min (blocksOf bs n - (10 + bs / 4 + bs / 4 * (bs / 4))) (bs / 4))))
      ≤ s.ssmOut.length) :
    (fs_write_to_file bs wide s f B (n : Int)).1 = true ∧
    (fs_read_from_file bs (fs_write_to_file bs wide s f B (n : Int)).2 f out).1 = true ∧
    ∀ q, 4 * q < n →
      (fs_read_from_file bs (fs_write_to_file bs wide s f B (n : Int)).2 f out).2.1 q
        = B q := by
  have hP : 0 < bs / 4 := by omega
  have hmin : min 10 (blocksOf bs n) = 10 := by omega
  obtain ⟨w, hw, w1, w2, w3, w4, w5, w6, w7, w8, w9⟩ :=
    fs_write_to_file_direct_phase bs wide s f B n hbs hG hf hty hdp hn0 (by omega)
  rw [hmin] at hw w1 w2 w3 w8 w9
  have h10 : 10 * bs < n := by
    have := (blocksOf_le_iff bs n 10 hbs).not.mp (by omega)
    omega
  have hD : D_INDIRECT_SIZE bs < n := by
    rw [dsize_eq]
    have := (blocksOf_le_iff bs n (10 + bs / 4 + bs / 4 * (bs / 4)) hbs).not.mp (by omega)
    omega
  have c0 : (n : Int) - ((10 * bs : Nat) : Int) > 0 := by omega
  have cT : (n : Int) - ((10 * bs : Nat) : Int) + ((INODE_DIRECT_PTRS * bs : Nat) : Int)
      - (D_INDIRECT_SIZE bs : Int) > 0 := by
    rw [tail_cond bs n _]; exact hD
  rw [if_pos c0, if_pos cT] at hw
  have hc := blocksFor_tail bs n (10 + bs / 4 + bs / 4 * (bs / 4)) (D_INDIRECT_SIZE bs) hbs
    (dsize_eq bs) (by omega) (by omega)
  generalize hcdef : blocksOf bs n - (10 + bs / 4 + bs / 4 * (bs / 4)) = c at hc hlen
  have hcT : c ≤ bs / 4 * (bs / 4 * (bs / 4)) := by omega
  obtain ⟨t1, -, t3, t4, t5, t6, t7, t8, t9⟩ := triple_tail bs wide s.ssmOut hG B w.2 10 w.1 c
    ((n : Int) - ((10 * bs : Nat) : Int)) hP hU hc hcT w2 hlen
  have hA10 : ans s.ssmOut 10 ≠ NIL := (hG.1 10 (by omega)).1
  have hA2 : ans s.ssmOut (10 + (1 + bs / 4)) ≠ NIL := (hG.1 _ (by omega)).1
  have hK2 : min (bs / 4) (bs / 4 * (bs / 4) / (bs / 4) + 1) = bs / 4 := by
    rw [Nat.mul_div_cancel _ hP]; omega
  have hm2 : min (bs / 4 * (bs / 4)) (bs / 4) = bs / 4 := by
    have : bs / 4 * 1 ≤ bs / 4 * (bs / 4) := Nat.mul_le_mul_left _ hP
    omega
  refine round_trip_of_image bs wide s f B out n h4 hbs (ans s.ssmOut) s.ssmOut.length hG _
    hf ?_ hw 10 (bs / 4) (bs / 4 * (bs / 4)) c (le_refl _) (by omega) ?_ ?_ (Or.inr ?_)
    (Or.inr ?_) (Or.inr ?_) ?_
  · rw [t1]; show 0 < w.2.inode.fileType; rw [w7]; exact hty
  · rw [t1]; exact w3
  · exact direct_kept bs _ _ hG _ _ _ t9 hlen B w9
  · refine ⟨10, bs / 4, by rw [t1], by omega, le_refl _, t3, ?_, ?_, le_refl _⟩
    · rw [← w1]; exact t4
    · intro k hk
      have := cover1 bs (ans s.ssmOut) (bs / 4) 10 k hk (le_refl _)
      rw [Nat.min_self] at this
      exact this
  · refine ⟨10 + (1 + bs / 4), bs / 4, bs / 4, by rw [t1], by rw [t1]; exact hA10,
      by omega, le_refl _, le_refl _, t5, ?_, ?_, le_refl _⟩
    · rw [← w1]; exact t6
    · intro k hk
      have := cover2 bs (ans s.ssmOut) (bs / 4 * (bs / 4)) (10 + (1 + bs / 4)) k hk (le_refl _)
      rw [hK2, hm2] at this
      exact this
  · refine ⟨10 + (1 + bs / 4) + (1 + bs / 4 * (1 + bs / 4)), _, _, _, by rw [t1],
      by rw [t1]; exact hA10, by rw [t1]; exact hA2, hlen, Nat.min_le_left _ _,
      Nat.min_le_left _ _, Nat.min_le_right _ _, t7, ?_, ?_, hcT⟩
    · rw [← w1]; exact t8
    · intro k hk
      exact cover3 bs (ans s.ssmOut) c _ k hk hcT
  · intro k hk
    omega

/-- C1: the write/read round trip.  Let f be a regular file whose pointers
are all NIL, as fs_create_file leaves it, let 0 < n be at most the size that
the ten direct pointers and the three index trees hold, and let the Sector
Space Manager have as many answers left as the write takes, none of them NIL
or misaligned and no two the same.  Then fs_write_to_file(f, B, n) returns
True, fs_read_from_file(f, out) on the state it leaves returns True, and the
first n bytes of out are those of B (word q of the buffer for every q with
4 * q < n), for both readings of the block-count constants. -/
theorem fs_write_read_round_trip (bs : Nat) (wide : Bool) (s : FsState) (f : Nat)
    (B out : Nat → Nat) (n : Nat) (h4 : bs % 4 = 0) (hbs : 0 < bs)
    (hU : T_INDIRECT_BLOCKS bs < U32) (hf : f ≠ NIL) (hty : (s.itable f).fileType = 1)
    (hdp : (s.itable f).directPtr = List.replicate 10 NIL)
    (hsi : (s.itable f).sIndirect = NIL) (hdi : (s.itable f).dIndirect = NIL)
    (hti : (s.itable f).tIndirect = NIL) (hn0 : 0 < n)
    (hmax : n ≤ (10 + bs / 4 + bs / 4 * (bs / 4) + bs / 4 * (bs / 4 * (bs / 4))) * bs)
    (hnn : ∀ a ∈ s.ssmOut, a ≠ NIL ∧ a % bs = 0) (hnd : s.ssmOut.Nodup)
    (hlen : sectorsFor bs n ≤ s.ssmOut.length) :
    (fs_write_to_file bs wide s f B (n : Int)).1 = true ∧
    (fs_read_from_file bs (fs_write_to_file bs wide s f B (n : Int)).2 f out).1 = true ∧
    ∀ q, 4 * q < n →
      (fs_read_from_file bs (fs_write_to_file bs wide s f B (n : Int)).2 f out).2.1 q
        = B q := by
  have hG := good_of_list bs s.ssmOut hnn hnd
  have hP : 0 < bs / 4 := by omega
  have hty' : 0 < (s.itable f).fileType := by rw [hty]; decide
  have hU3 : bs / 4 * (bs / 4 * (bs / 4)) < U32 := by
    have e : T_INDIRECT_BLOCKS bs = bs / 4 * (bs / 4 * (bs / 4)) := by
      simp only [T_INDIRECT_BLOCKS, PTRS_PER_BLOCK]; ring
    rw [← e]; exact hU
  have hU2 : bs / 4 * (bs / 4) < U32 := by
    have : bs / 4 * (bs / 4) * 1 ≤ bs / 4 * (bs / 4) * (bs / 4) := Nat.mul_le_mul_left _ hP
    have e : bs / 4 * (bs / 4) * (bs / 4) = bs / 4 * (bs / 4 * (bs / 4)) := by ring
    omega
  have hU1 : bs / 4 < U32 := by
    have : bs / 4 * 1 ≤ bs / 4 * (bs / 4) := Nat.mul_le_mul_left _ hP
    omega
  have hnb := (blocksOf_le_iff bs n _ hbs).mpr hmax
  unfold sectorsFor at hlen
  by_cases c1 : blocksOf bs n ≤ 10
  · rw [if_pos c1] at hlen
    exact round_trip_direct bs wide s f B out n h4 hbs hG hf hty' hdp hsi hdi hti hn0 c1 hlen
  · rw [if_neg c1] at hlen
    by_cases c2 : blocksOf bs n ≤ 10 + bs / 4
    · rw [if_pos c2] at hlen
      exact round_trip_single bs wide s f B out n h4 hbs hU1 hG hf hty' hdp hdi hti hn0
        (by omega) c2 hlen
    · rw [if_neg c2] at hlen
      by_cases c3 : blocksOf bs n ≤ 10 + bs / 4 + bs / 4 * (bs / 4)
      · rw [if_pos c3] at hlen
        exact round_trip_double bs wide s f B out n h4 hbs hU2 hG hf hty' hdp hti hn0
          (by omega) c3 hlen
      · rw [if_neg c3] at hlen
        exact round_trip_triple bs wide s f B out n h4 hbs hU3 hG hf hty' hdp hn0
          (by omega) hnb hlen

set_option maxRecDepth 1000000 in
/-- Instance of fs_write_read_round_trip: 700 bytes (eleven blocks of 64 bytes,
the last under the single-indirect block) written to the new file 3 of
newFileState and read back. -/
theorem fs_write_read_round_trip_witness :
    ((newFileState 13).itable 3).fileType = 1 ∧ sectorsFor 64 700 = 12 ∧
    (fs_write_to_file 64 false (newFileState 13) 3 (fun k => k + 1) ((700 : Nat) : Int)).1
      = true ∧
    (fs_read_from_file 64
      (fs_write_to_file 64 false (newFileState 13) 3 (fun k => k + 1) ((700 : Nat) : Int)).2 3
      (fun _ => 0)).1 = true ∧
    ∀ q, 4 * q < 700 →
      (fs_read_from_file 64
        (fs_write_to_file 64 false (newFileState 13) 3 (fun k => k + 1) ((700 : Nat) : Int)).2 3
        (fun _ => 0)).2.1 q = q + 1 :=
  ⟨by decide, by decide,
    fs_write_read_round_trip 64 false (newFileState 13) 3 (fun k => k + 1) (fun _ => 0) 700
      (by decide) (by decide) (by decide) (by decide) (by decide) (by decide) (by decide)
      (by decide) (by decide) (by decide) (by decide) (by decide) (by decide) (by decide)⟩

theorem open_inode_fails (s : FsState) (f : Nat)
    (h : f = NIL ∨ (s.itable f).fileType ≤ 0) : (open_inode s f).1 = false := by
  unfold open_inode fs_open_file is_null
  by_cases hn : f = NIL
  · simp [hn]
  · rcases h with h | h
    · exact absurd h hn
    · simp [hn, h]

/-- C27: for an inode number that is NIL or whose record has fileType 0 (or
less), fs_read_from_file, fs_write_to_file and fs_remove_file return False;
the output buffer is the one given, and the disk image, the inode records, the
answers and the log of the Sector Space Manager, the inode bitmap and the log
of deallocate_inode are those of the state before. -/
theorem not_found_changes_nothing (bs : Nat) (wide : Bool) (fuel : Nat) (s : FsState)
    (f p : Nat) (out B : Nat → Nat) (size : Int)
    (h : f = NIL ∨ (s.itable f).fileType ≤ 0) :
    (fs_read_from_file bs s f out).1 = false ∧ (fs_read_from_file bs s f out).2.1 = out ∧
    (fs_read_from_file bs s f out).2.2.disk = s.disk ∧
    (fs_read_from_file bs s f out).2.2.itable = s.itable ∧
    (fs_read_from_file bs s f out).2.2.ssmOut = s.ssmOut ∧
    (fs_read_from_file bs s f out).2.2.ssmFreed = s.ssmFreed ∧
    (fs_read_from_file bs s f out).2.2.iMap = s.iMap ∧
    (fs_read_from_file bs s f out).2.2.inodeFreed = s.inodeFreed ∧
    (fs_write_to_file bs wide s f B size).1 = false ∧
    (fs_write_to_file bs wide s f B size).2.disk = s.disk ∧
    (fs_write_to_file bs wide s f B size).2.itable = s.itable ∧
    (fs_write_to_file bs wide s f B size).2.ssmOut = s.ssmOut ∧
    (fs_write_to_file bs wide s f B size).2.ssmFreed = s.ssmFreed ∧
    (fs_write_to_file bs wide s f B size).2.iMap = s.iMap ∧
    (fs_write_to_file bs wide s f B size).2.inodeFreed = s.inodeFreed ∧
    ∃ r, fs_remove_file bs (fuel + 1) s f p = some (false, r) ∧
      r.disk = s.disk ∧ r.itable = s.itable ∧ r.ssmOut = s.ssmOut ∧
      r.ssmFreed = s.ssmFreed ∧ r.iMap = s.iMap ∧ r.inodeFreed = s.inodeFreed := by
  have ho := open_inode_fails s f h
  obtain ⟨f1, f2, f3, f4, f5⟩ := open_inode_frame s f
  have f0 := open_inode_disk s f
  have e1 : fs_read_from_file bs s f out = (false, out, (open_inode s f).2) := by
    unfold fs_read_from_file
    simp [ho]
  have e2 : fs_write_to_file bs wide s f B size = (false, (open_inode s f).2) := by
    unfold fs_write_to_file
    simp [ho]
  have e3 : fs_remove_file bs (fuel + 1) s f p = some (false, (open_inode s f).2) := by
    rw [fs_remove_file]
    unfold fs_remove_file_body
    simp [ho]
  rw [e1, e2, e3]
  exact ⟨rfl, rfl, f0, f1, f2, f3, f4, f5, rfl, f0, f1, f2, f3, f4, f5, _, rfl, f0, f1, f2,
    f3, f4, f5⟩

/-- Instance of not_found_changes_nothing: inode number NIL on a file system
just made. -/
theorem not_found_changes_nothing_witness :
    (fs_read_from_file 64 (madeState 1) NIL (fun _ => 0)).1 = false ∧
    (fs_write_to_file 64 false (madeState 1) NIL (fun k => k) 100).2.disk = (madeState 1).disk ∧
    ∃ r, fs_remove_file 64 (0 + 1) (madeState 1) NIL 2 = some (false, r) ∧
      r.disk = (madeState 1).disk ∧ r.itable = (madeState 1).itable := by
  have h := not_found_changes_nothing 64 false 0 (madeState 1) NIL 2 (fun _ => 0) (fun k => k)
    100 (Or.inl rfl)
  obtain ⟨a1, -, -, -, -, -, -, -, -, a10, -, -, -, -, -, r, b1, b2, b3, -⟩ := h
  exact ⟨a1, a10, r, b1, b2, b3⟩

theorem writeWords_zero (d : Nat → Nat) (off : Nat) (buf : Nat → Nat) :
    writeWords d off 0 buf = d := by
  funext a
  simp [writeWords]

theorem writeWords_cons (d : Nat → Nat) (off x m : Nat) (g : List Nat) :
    writeWords (writeWord d off x) (off + 4) m (fun i => g.getD i NIL)
      = writeWords d off (m + 1) (fun i => (x :: g).getD i NIL) := by
  funext a
  simp only [writeWords, writeWord]
  by_cases h1 : a = off
  · subst h1
    simp
  · by_cases h2 : off + 4 ≤ a ∧ (a - (off + 4)) % 4 = 0 ∧ (a - (off + 4)) / 4 < m
    · rw [if_pos h2, if_pos (by omega)]
      have : (a - off) / 4 = (a - (off + 4)) / 4 + 1 := by omega
      rw [this]
      simp
    · rw [if_neg h2, if_neg h1, if_neg (by omega)]

/-- The allocation loop of aloc_single_indirect, whatever the Sector Space
Manager answers: the offsets granted are stored one after the other from the
cursor on. -/
theorem aloc_single_loop_granted : ∀ (k off : Nat) (s : FsState),
    (aloc_single_loop k off s).1 = off + 4 * (granted s.ssmOut k).length ∧
    (aloc_single_loop k off s).2.ssmOut = s.ssmOut.drop k ∧
    (aloc_single_loop k off s).2.disk
      = writeWords s.disk off (granted s.ssmOut k).length
          (fun i => (granted s.ssmOut k).getD i NIL) := by
  intro k
  induction k with
  | zero =>
    intro off s
    simp [aloc_single_loop, granted, writeWords_zero]
  | succ k ih =>
    intro off s
    rw [aloc_single_loop]
    cases hL : s.ssmOut with
    | nil =>
      have e : ssm_allocate_sectors s = (NIL, s) := by simp [ssm_allocate_sectors, hL]
      have hn : is_not_null NIL = false := by decide
      rw [e]
      simp only [hn, Bool.false_eq_true, if_false]
      obtain ⟨r1, r2, r3⟩ := ih off s
      rw [hL] at r1 r2 r3
      simp only [granted, List.take_nil, List.filter_nil, List.drop_nil] at r1 r2 r3 ⊢
      exact ⟨r1, r2, r3⟩
    | cons x xs =>
      have e : ssm_allocate_sectors s = (x, { s with ssmOut := xs }) := by
        simp [ssm_allocate_sectors, hL]
      rw [e]
      by_cases hx : is_not_null x = true
      · simp only [hx, if_true]
        obtain ⟨r1, r2, r3⟩ := ih (off + 4)
          { s with ssmOut := xs, disk := writeWord s.disk off x }
        have hg : granted (x :: xs) (k + 1) = x :: granted xs k := by
          simp [granted, List.take_succ_cons, List.filter_cons, hx]
        rw [hg]
        refine ⟨?_, ?_, ?_⟩
        · rw [r1]
          simp only [List.length_cons]
          omega
        · rw [r2]
          simp
        · rw [r3]
          exact writeWords_cons s.disk off x _ _
      · have hx' : is_not_null x = false := by simpa using hx
        simp only [hx', Bool.false_eq_true, if_false]
        obtain ⟨r1, r2, r3⟩ := ih off { s with ssmOut := xs }
        have hg : granted (x :: xs) (k + 1) = granted xs k := by
          simp [granted, List.take_succ_cons, List.filter_cons, hx']
        rw [hg]
        refine ⟨r1, ?_, r3⟩
        rw [r2]
        simp

theorem granted_length_le (L : List Nat) (k : Nat) : (granted L k).length ≤ k := by
  unfold granted
  exact le_trans (List.length_filter_le _ _) (by simp)

theorem granted_not_nil (L : List Nat) (k : Nat) : ∀ a ∈ granted L k, a ≠ NIL := by
  intro a ha
  unfold granted at ha
  have := (List.mem_filter.mp ha).2
  simpa [is_not_null] using this

/-- C30: aloc_single_indirect(n).  When the first answer of the Sector Space
Manager is NIL the result is NIL and the disk image is left as it was.
Otherwise the result is that answer x, the offset of the index block;
min(n, PTRS_PER_BLOCK) further requests are made (none when n <= 0); slot i of
the index block holds the i-th offset granted by them, in the order granted,
and NIL from the number of offsets granted on (the offsets granted are not
NIL, so the slots that are not NIL come first); every offset requested is
granted when none of these answers is NIL; and no word outside the index block
is written. -/
theorem aloc_single_indirect_slots (bs : Nat) (s : FsState) (n : Int) :
    ((ssm_allocate_sectors s).1 = NIL →
      (aloc_single_indirect bs s n).1 = NIL ∧ (aloc_single_indirect bs s n).2.disk = s.disk) ∧
    ((ssm_allocate_sectors s).1 ≠ NIL →
      (aloc_single_indirect bs s n).1 = (ssm_allocate_sectors s).1 ∧
      (aloc_single_indirect bs s n).2.ssmOut
        = (ssm_allocate_sectors s).2.ssmOut.drop (min n.toNat (bs / 4)) ∧
      (∀ i, i < bs / 4 →
        (aloc_single_indirect bs s n).2.disk ((ssm_allocate_sectors s).1 + 4 * i)
          = (granted (ssm_allocate_sectors s).2.ssmOut (min n.toNat (bs / 4))).getD i NIL) ∧
      (∀ a ∈ granted (ssm_allocate_sectors s).2.ssmOut (min n.toNat (bs / 4)), a ≠ NIL) ∧
      (granted (ssm_allocate_sectors s).2.ssmOut (min n.toNat (bs / 4))).length
        ≤ min n.toNat (bs / 4) ∧
      (n ≤ 0 → granted (ssm_allocate_sectors s).2.ssmOut (min n.toNat (bs / 4)) = []) ∧
      (min n.toNat (bs / 4) ≤ (ssm_allocate_sectors s).2.ssmOut.length →
        (∀ a ∈ (ssm_allocate_sectors s).2.ssmOut.take (min n.toNat (bs / 4)), a ≠ NIL) →
        granted (ssm_allocate_sectors s).2.ssmOut (min n.toNat (bs / 4))
          = (ssm_allocate_sectors s).2.ssmOut.take (min n.toNat (bs / 4))) ∧
      ∀ a, (a < (ssm_allocate_sectors s).1 ∨ (ssm_allocate_sectors s).1 + 4 * (bs / 4) ≤ a ∨
          (a - (ssm_allocate_sectors s).1) % 4 ≠ 0) →
        (aloc_single_indirect bs s n).2.disk a = s.disk a) := by
  have hd : (ssm_allocate_sectors s).2.disk = s.disk := by
    unfold ssm_allocate_sectors; split <;> rfl
  generalize hr : ssm_allocate_sectors s = r at hd
  constructor
  · intro h
    have hn : is_not_null r.1 = false := by rw [h]; decide
    unfold aloc_single_indirect
    simp only [hr, hn, Bool.false_eq_true, if_false]
    exact ⟨trivial, hd⟩
  · intro h
    have hn : is_not_null r.1 = true := by simpa [is_not_null] using h
    obtain ⟨r1, r2, r3⟩ := aloc_single_loop_granted (min n.toNat (bs / 4)) r.1
      { r.2 with disk := writeBlock bs r.2.disk r.1 (fun _ => NIL) }
    have hlen := granted_length_le r.2.ssmOut (min n.toNat (bs / 4))
    unfold aloc_single_indirect
    simp only [hr, hn, if_true, PTRS_PER_BLOCK]
    refine ⟨trivial, r2, ?_, granted_not_nil _ _, hlen, ?_, ?_, ?_⟩
    · intro i hi
      rw [r3]
      show writeWords (writeBlock bs r.2.disk r.1 (fun _ => NIL)) r.1 _ _ (r.1 + 4 * i) = _
      simp only [writeWords]
      by_cases hc : i < (granted r.2.ssmOut (min n.toNat (bs / 4))).length
      · rw [if_pos ⟨by omega, by omega, by omega⟩]
        congr 1
        omega
      · rw [if_neg (by omega)]
        rw [writeBlock_inside bs r.2.disk r.1 _ i hi]
        rw [List.getD_eq_default _ _ (by omega)]
    · intro h0
      have : n.toNat = 0 := by omega
      simp [granted, this]
    · intro h1 h2
      unfold granted
      rw [List.filter_eq_self]
      intro a ha
      simpa [is_not_null] using h2 a ha
    · intro a ha
      rw [r3]
      show writeWords (writeBlock bs r.2.disk r.1 (fun _ => NIL)) r.1 _ _ a = _
      simp only [writeWords]
      rw [if_neg (by omega)]
      simp only [writeBlock, writeWords]
      rw [if_neg (by omega)]
      exact congrFun hd a

set_option maxRecDepth 1000000 in
/-- C22 (code evaluated at the failing input): fs_write_to_file(3, B, 0) on the
new file 3 of newFileState.  The counting loop of fs_write_to_file gives one
direct pointer for size 0; the call takes the sector at offset 2240 from the
Sector Space Manager, stores it in directPtr[0] and writes a block of the
buffer to it. -/
theorem fs_write_to_file_size_zero_writes_block :
    countDirect 64 INODE_DIRECT_PTRS 0 0 = (-64, 1) ∧
    ((newFileState 3).itable 3).directPtr.getD 0 NIL = NIL ∧
    (newFileState 3).ssmOut = [2240, 2304] ∧ (newFileState 3).disk 2240 = 0 ∧
    (fs_write_to_file 64 false (newFileState 3) 3 (fun k => k + 1) 0).1 = true ∧
    ((fs_write_to_file 64 false (newFileState 3) 3 (fun k => k + 1) 0).2.itable 3).directPtr.getD
      0 NIL = 2240 ∧
    (fs_write_to_file 64 false (newFileState 3) 3 (fun k => k + 1) 0).2.ssmOut = [2304] ∧
    (fs_write_to_file 64 false (newFileState 3) 3 (fun k => k + 1) 0).2.disk 2240 = 1 ∧
    (fs_write_to_file 64 false (newFileState 3) 3 (fun k => k + 1) 0).2.disk (2240 + 60)
      = 16 := by
  decide

/-- The direct-pointer loop of fs_write_to_file over the pointers i, …,
i + len - 1, all NIL, when the next len answers of the Sector Space Manager
are not NIL: the pointers become these answers. -/
theorem write_direct_ptrs (bs : Nat) (buf : Nat → Nat) :
    ∀ len i pos s, i + len ≤ 10 → s.inode.directPtr.length = 10 →
      (∀ j, i ≤ j → j < 10 → s.inode.directPtr.getD j NIL = NIL) →
      len ≤ s.ssmOut.length → (∀ a ∈ s.ssmOut.take len, a ≠ NIL) →
      (write_to_file_direct bs buf (List.range' i len) pos s).2.ssmOut = s.ssmOut.drop len ∧
      (write_to_file_direct bs buf (List.range' i len) pos s).2.inode.directPtr.length = 10 ∧
      (∀ j, j < 10 →
        (write_to_file_direct bs buf (List.range' i len) pos s).2.inode.directPtr.getD j NIL
          = if i ≤ j ∧ j < i + len then s.ssmOut.getD (j - i) NIL
            else s.inode.directPtr.getD j NIL) ∧
      (write_to_file_direct bs buf (List.range' i len) pos s).2.inode.sIndirect
        = s.inode.sIndirect ∧
      (write_to_file_direct bs buf (List.range' i len) pos s).2.inode.dIndirect
        = s.inode.dIndirect ∧
      (write_to_file_direct bs buf (List.range' i len) pos s).2.inode.tIndirect
        = s.inode.tIndirect := by
  intro len
  induction len with
  | zero =>
    intro i pos s _ hl _ _ _
    simp only [List.range'_zero, write_to_file_direct, List.drop_zero]
    refine ⟨trivial, hl, ?_, trivial, trivial, trivial⟩
    intro j _
    rw [if_neg (by omega)]
  | succ len ih =>
    intro i pos s h10 hl hp hlen hnn
    rw [List.range'_succ, write_to_file_direct]
    have hnil : is_null (s.inode.directPtr.getD i NIL) = true := by
      rw [hp i (le_refl _) (by omega)]
      decide
    simp only [hnil, if_true]
    cases hL : s.ssmOut with
    | nil => rw [hL] at hlen; simp at hlen
    | cons x xs =>
      have e : ssm_allocate_sectors s = (x, { s with ssmOut := xs }) := by
        simp [ssm_allocate_sectors, hL]
      have hx : x ≠ NIL := hnn x (by rw [hL]; simp)
      have hnn' : is_null x = false := by simpa [is_null] using hx
      rw [e]
      simp only [hnn', Bool.false_eq_true, if_false]
      obtain ⟨r1, r2, r3, r4, r5, r6⟩ := ih (i + 1) (pos + bs / 4)
        { s with ssmOut := xs,
                 inode := { s.inode with directPtr := s.inode.directPtr.set i x },
                 disk := writeBlock bs s.disk x (bufAt buf pos) }
        (by omega) (by simp [hl])
        (by
          intro j hj1 hj2
          show (s.inode.directPtr.set i x).getD j NIL = NIL
          rw [getD_set_nil _ _ _ _ (by omega), if_neg (by omega)]
          exact hp j (by omega) hj2)
        (by rw [hL] at hlen; simpa using hlen)
        (by
          intro a ha
          apply hnn a
          rw [hL, List.take_succ_cons]
          exact List.mem_cons_of_mem _ ha)
      refine ⟨?_, r2, ?_, r4, r5, r6⟩
      · rw [r1]; simp
      · intro j hj
        rw [r3 j hj]
        by_cases hji : j = i
        · subst hji
          rw [if_neg (by omega), if_pos ⟨le_refl _, by omega⟩]
          show (s.inode.directPtr.set j x).getD j NIL = _
          rw [getD_set_nil _ _ _ _ (by omega), if_pos rfl]
          simp
        · by_cases hc : i + 1 ≤ j ∧ j < i + 1 + len
          · rw [if_pos hc, if_pos ⟨by omega, by omega⟩]
            show xs.getD (j - (i + 1)) NIL = (x :: xs).getD (j - i) NIL
            have : j - i = (j - (i + 1)) + 1 := by omega
            rw [this]
            simp
          · rw [if_neg hc, if_neg (by omega)]
            show (s.inode.directPtr.set i x).getD j NIL = _
            rw [getD_set_nil _ _ _ _ (by omega), if_neg hji]

theorem blocksOf_mul (bs k : Nat) (hbs : 0 < bs) : blocksOf bs (k * bs) = k := by
  unfold blocksOf
  have : k * bs + bs - 1 = (bs - 1) + k * bs := by
    generalize k * bs = m
    omega
  rw [this, Nat.add_mul_div_right _ _ hbs, Nat.div_eq_of_lt (show bs - 1 < bs by omega)]
  omega

/-- C23: a write of exactly k blocks, 1 <= k <= INODE_DIRECT_PTRS, to a live
inode without pointers, the Sector Space Manager answering the k requests with
offsets that are not NIL (and k * BLOCK_SIZE fitting an unsigned int):
fs_write_to_file returns True and the record written back has
fileSize = k * BLOCK_SIZE, dataBlocks = k, the first k direct pointers not NIL,
the other direct pointers NIL and sIndirect = dIndirect = tIndirect = NIL. -/
theorem fs_write_to_file_direct_only (bs : Nat) (wide : Bool) (s : FsState) (f : Nat)
    (B : Nat → Nat) (k : Nat) (hbs : 0 < bs) (hk1 : 1 ≤ k) (hk : k ≤ INODE_DIRECT_PTRS)
    (hU : k * bs < U32) (hf : f ≠ NIL) (hty : 0 < (s.itable f).fileType)
    (hdp : (s.itable f).directPtr = List.replicate INODE_DIRECT_PTRS NIL)
    (hsi : (s.itable f).sIndirect = NIL) (hdi : (s.itable f).dIndirect = NIL)
    (hti : (s.itable f).tIndirect = NIL) (hlen : k ≤ s.ssmOut.length)
    (hnn : ∀ a ∈ s.ssmOut.take k, a ≠ NIL) :
    (fs_write_to_file bs wide s f B ((k * bs : Nat) : Int)).1 = true ∧
    ((fs_write_to_file bs wide s f B ((k * bs : Nat) : Int)).2.itable f).fileSize = k * bs ∧
    ((fs_write_to_file bs wide s f B ((k * bs : Nat) : Int)).2.itable f).dataBlocks = k ∧
    (∀ j, j < k →
      ((fs_write_to_file bs wide s f B ((k * bs : Nat) : Int)).2.itable f).directPtr.getD j NIL
        ≠ NIL) ∧
    (∀ j, k ≤ j → j < INODE_DIRECT_PTRS →
      ((fs_write_to_file bs wide s f B ((k * bs : Nat) : Int)).2.itable f).directPtr.getD j NIL
        = NIL) ∧
    ((fs_write_to_file bs wide s f B ((k * bs : Nat) : Int)).2.itable f).sIndirect = NIL ∧
    ((fs_write_to_file bs wide s f B ((k * bs : Nat) : Int)).2.itable f).dIndirect = NIL ∧
    ((fs_write_to_file bs wide s f B ((k * bs : Nat) : Int)).2.itable f).tIndirect = NIL := by
  have h10 : INODE_DIRECT_PTRS = 10 := rfl
  rw [h10] at hk hdp
  have hn0 : 0 < k * bs := Nat.mul_pos (by omega) hbs
  have hb : blocksOf bs (k * bs) = k := blocksOf_mul bs k hbs
  have hmin : min INODE_DIRECT_PTRS k = k := by omega
  have hfs : (((k * bs : Nat) : Int) % (U32 : Int)).toNat = k * bs := by
    have e3 : ((U32 : Nat) : Int) = 4294967296 := by norm_num [U32]
    have : U32 = 4294967296 := rfl
    rw [e3]
    generalize k * bs = m at hU
    omega
  obtain ⟨r1, r2, r3, r4, r5, r6⟩ := write_direct_ptrs bs B k 0 0
    { s with mapId := f,
             inode := { s.itable f with
               fileSize := (((k * bs : Nat) : Int) % (U32 : Int)).toNat,
               dataBlocks := (((k * bs : Nat) : Int) % (U32 : Int)).toNat / bs } }
    (by omega) (by show (s.itable f).directPtr.length = 10; rw [hdp]; simp)
    (by
      intro j _ _
      show (s.itable f).directPtr.getD j NIL = NIL
      rw [hdp, replicate_getD_nil])
    hlen hnn
  obtain ⟨q1, q2, q3, -⟩ := write_to_file_direct_frame bs B (List.range' 0 k) 0
    { s with mapId := f,
             inode := { s.itable f with
               fileSize := (((k * bs : Nat) : Int) % (U32 : Int)).toNat,
               dataBlocks := (((k * bs : Nat) : Int) % (U32 : Int)).toNat / bs } }
  have hw : fs_write_to_file bs wide s f B ((k * bs : Nat) : Int) = (true, inode_write
      (write_to_file_direct bs B (List.range' 0 k) 0
        { s with mapId := f,
                 inode := { s.itable f with
                   fileSize := (((k * bs : Nat) : Int) % (U32 : Int)).toNat,
                   dataBlocks := (((k * bs : Nat) : Int) % (U32 : Int)).toNat / bs } }).2 f) := by
    unfold fs_write_to_file
    rw [open_inode_eq s f hf hty]
    simp only [Bool.not_true, Bool.false_eq_true, if_false]
    rw [countDirect_eq bs hbs INODE_DIRECT_PTRS (k * bs) 0 hn0, hb, hmin]
    simp only [Nat.zero_add, List.range_eq_range']
    have hc : ¬ (((k * bs : Nat) : Int) - ((k * bs : Nat) : Int) > 0) := by omega
    rw [if_neg hc]
  rw [hw]
  simp only [inode_write, if_true]
  refine ⟨trivial, ?_, ?_, ?_, ?_, ?_, ?_, ?_⟩
  · rw [q2]; exact hfs
  · rw [q3]
    show (((k * bs : Nat) : Int) % (U32 : Int)).toNat / bs = k
    rw [hfs, Nat.mul_div_cancel _ hbs]
  · intro j hj
    rw [r3 j (by omega), if_pos ⟨by omega, by omega⟩]
    have hjl : j - 0 < s.ssmOut.length := by omega
    rw [List.getD_eq_getElem _ _ hjl]
    apply hnn
    rw [List.mem_take_iff_getElem]
    exact ⟨j - 0, by omega, rfl⟩
  · intro j hj1 hj2
    rw [r3 j hj2, if_neg (by omega)]
    show (s.itable f).directPtr.getD j NIL = NIL
    rw [hdp, replicate_getD_nil]
  · rw [r4]; exact hsi
  · rw [r5]; exact hdi
  · rw [r6]; exact hti

set_option maxRecDepth 1000000 in
/-- Instance of fs_write_to_file_direct_only: ten blocks of 64 bytes written to
the new file 3 of newFileState. -/
theorem fs_write_to_file_direct_only_witness :
    ((newFileState 13).itable 3).fileType = 1 ∧
    (fs_write_to_file 64 false (newFileState 13) 3 (fun k => k + 1) ((10 * 64 : Nat) : Int)).1
      = true ∧
    ((fs_write_to_file 64 false (newFileState 13) 3 (fun k => k + 1)
      ((10 * 64 : Nat) : Int)).2.itable 3).fileSize = 10 * 64 ∧
    ((fs_write_to_file 64 false (newFileState 13) 3 (fun k => k + 1)
      ((10 * 64 : Nat) : Int)).2.itable 3).dataBlocks = 10 ∧
    (∀ j, j < 10 → ((fs_write_to_file 64 false (newFileState 13) 3 (fun k => k + 1)
      ((10 * 64 : Nat) : Int)).2.itable 3).directPtr.getD j NIL ≠ NIL) ∧
    (∀ j, 10 ≤ j → j < INODE_DIRECT_PTRS →
      ((fs_write_to_file 64 false (newFileState 13) 3 (fun k => k + 1)
        ((10 * 64 : Nat) : Int)).2.itable 3).directPtr.getD j NIL = NIL) ∧
    ((fs_write_to_file 64 false (newFileState 13) 3 (fun k => k + 1)
      ((10 * 64 : Nat) : Int)).2.itable 3).sIndirect = NIL ∧
    ((fs_write_to_file 64 false (newFileState 13) 3 (fun k => k + 1)
      ((10 * 64 : Nat) : Int)).2.itable 3).dIndirect = NIL ∧
    ((fs_write_to_file 64 false (newFileState 13) 3 (fun k => k + 1)
      ((10 * 64 : Nat) : Int)).2.itable 3).tIndirect = NIL :=
  ⟨by decide, fs_write_to_file_direct_only 64 false (newFileState 13) 3 (fun k => k + 1) 10
    (by decide) (by decide) (by decide) (by decide) (by decide) (by decide) (by decide)
    (by decide) (by decide) (by decide) (by decide) (by decide)⟩

/-- C24: a write of INODE_DIRECT_PTRS + m blocks, 1 <= m <= PTRS_PER_BLOCK, to
a live inode without pointers, the Sector Space Manager answering with block
offsets that are not NIL, multiples of BLOCK_SIZE and pairwise distinct (at
least the 11 + m that the write takes): fs_write_to_file returns True; in the
record written back every direct pointer is not NIL, sIndirect is not NIL,
dIndirect and tIndirect are NIL; and slot i of the index block at sIndirect is
not NIL exactly for i < m. -/
theorem fs_write_to_file_single_indirect (bs : Nat) (wide : Bool) (s : FsState) (f : Nat)
    (B : Nat → Nat) (m : Nat) (hbs : 0 < bs) (hm1 : 1 ≤ m) (hm : m ≤ PTRS_PER_BLOCK bs)
    (hU : PTRS_PER_BLOCK bs < U32) (hf : f ≠ NIL) (hty : 0 < (s.itable f).fileType)
    (hdp : (s.itable f).directPtr = List.replicate INODE_DIRECT_PTRS NIL)
    (hdi : (s.itable f).dIndirect = NIL) (hti : (s.itable f).tIndirect = NIL)
    (hnn : ∀ a ∈ s.ssmOut, a ≠ NIL ∧ a % bs = 0) (hnd : s.ssmOut.Nodup)
    (hlen : 11 + m ≤ s.ssmOut.length) :
    (fs_write_to_file bs wide s f B (((INODE_DIRECT_PTRS + m) * bs : Nat) : Int)).1 = true ∧
    (∀ j, j < INODE_DIRECT_PTRS →
      ((fs_write_to_file bs wide s f B (((INODE_DIRECT_PTRS + m) * bs : Nat) : Int)).2.itable
        f).directPtr.getD j NIL ≠ NIL) ∧
    ((fs_write_to_file bs wide s f B (((INODE_DIRECT_PTRS + m) * bs : Nat) : Int)).2.itable
      f).sIndirect ≠ NIL ∧
    (∀ i, i < PTRS_PER_BLOCK bs →
      ((fs_write_to_file bs wide s f B (((INODE_DIRECT_PTRS + m) * bs : Nat) : Int)).2.disk
        (((fs_write_to_file bs wide s f B
          (((INODE_DIRECT_PTRS + m) * bs : Nat) : Int)).2.itable f).sIndirect + 4 * i) ≠ NIL
        ↔ i < m)) ∧
    ((fs_write_to_file bs wide s f B (((INODE_DIRECT_PTRS + m) * bs : Nat) : Int)).2.itable
      f).dIndirect = NIL ∧
    ((fs_write_to_file bs wide s f B (((INODE_DIRECT_PTRS + m) * bs : Nat) : Int)).2.itable
      f).tIndirect = NIL := by
  have h10 : INODE_DIRECT_PTRS = 10 := rfl
  have hPd : PTRS_PER_BLOCK bs = bs / 4 := rfl
  rw [h10] at hdp ⊢
  rw [hPd] at hm hU ⊢
  have hG := good_of_list bs s.ssmOut hnn hnd
  have hn0 : 0 < (10 + m) * bs := Nat.mul_pos (by omega) hbs
  have hb : blocksOf bs ((10 + m) * bs) = 10 + m := blocksOf_mul bs _ hbs
  generalize hn : (10 + m) * bs = n at hn0 hb
  have hmin : min 10 (blocksOf bs n) = 10 := by omega
  obtain ⟨w, hw, w1, w2, w3, w4, w5, w6, w7, w8, w9⟩ :=
    fs_write_to_file_direct_phase bs wide s f B n hbs hG hf hty hdp hn0 (by omega)
  rw [hmin] at hw w1 w2 w3 w8 w9
  have h10n : 10 * bs < n := by
    have := (blocksOf_le_iff bs n 10 hbs).not.mp (by omega)
    omega
  have hS : n ≤ S_INDIRECT_SIZE bs := by
    rw [ssize_eq]; exact (blocksOf_le_iff bs n _ hbs).mp (by omega)
  have hD : n ≤ D_INDIRECT_SIZE bs := by
    rw [dsize_eq]
    exact (blocksOf_le_iff bs n _ hbs).mp (by omega)
  have c0 : (n : Int) - ((10 * bs : Nat) : Int) > 0 := by omega
  have cT : ¬ ((n : Int) - ((10 * bs : Nat) : Int) + ((INODE_DIRECT_PTRS * bs : Nat) : Int)
      - (D_INDIRECT_SIZE bs : Int) > 0) := by
    rw [tail_cond bs n _]; omega
  have cD : ¬ ((n : Int) - ((10 * bs : Nat) : Int) + ((INODE_DIRECT_PTRS * bs : Nat) : Int)
      - (S_INDIRECT_SIZE bs : Int) > 0) := by
    rw [tail_cond bs n _]; omega
  rw [if_pos c0, if_neg cT, if_neg cD] at hw
  have hc := blocksFor_first bs n hbs (by omega) (by omega)
  have hcm : blocksOf bs n - 10 = m := by omega
  rw [hcm] at hc
  obtain ⟨t1, -, t3, -, -⟩ := single_tail bs s.ssmOut hG B w.2 10 w.1 m
    ((n : Int) - ((10 * bs : Nat) : Int)) hc hm w2 (by omega)
  have e_s : (write_to_file_using_single_indirect_blocks bs w.2 B w.1
      ((n : Int) - ((10 * bs : Nat) : Int))).inode.sIndirect = ans s.ssmOut 10 := by rw [t1]
  have e_d : (write_to_file_using_single_indirect_blocks bs w.2 B w.1
      ((n : Int) - ((10 * bs : Nat) : Int))).inode.dIndirect = w.2.inode.dIndirect := by
    rw [t1]
  have e_t : (write_to_file_using_single_indirect_blocks bs w.2 B w.1
      ((n : Int) - ((10 * bs : Nat) : Int))).inode.tIndirect = w.2.inode.tIndirect := by
    rw [t1]
  have e_p : (write_to_file_using_single_indirect_blocks bs w.2 B w.1
      ((n : Int) - ((10 * bs : Nat) : Int))).inode.directPtr = w.2.inode.directPtr := by
    rw [t1]
  rw [hw]
  simp only [inode_write, if_true]
  rw [e_s, e_d, e_t, e_p]
  refine ⟨trivial, ?_, (hG.1 10 (by omega)).1, ?_, w5.trans hdi, w6.trans hti⟩
  · intro j hj
    rw [w3 j hj, if_pos hj]
    exact (hG.1 j (by omega)).1
  · intro i hi
    have hslot := t3.1 i hi
    rw [hslot]
    by_cases him : i < m
    · rw [if_pos him]
      have : (i + 1) * 1 ≤ m * 1 := Nat.mul_le_mul_right 1 (by omega)
      exact ⟨fun _ => him, fun _ => (hG.1 _ (by omega)).1⟩
    · rw [if_neg him]
      exact ⟨fun h => absurd rfl h, fun h => absurd h him⟩

set_option maxRecDepth 1000000 in
/-- Instance of fs_write_to_file_single_indirect: eleven blocks of 64 bytes
written to the new file 3 of newFileState; the index block holds one slot. -/
theorem fs_write_to_file_single_indirect_witness :
    ((newFileState 13).itable 3).fileType = 1 ∧
    (fs_write_to_file 64 false (newFileState 13) 3 (fun k => k + 1)
      (((INODE_DIRECT_PTRS + 1) * 64 : Nat) : Int)).1 = true ∧
    (∀ j, j < INODE_DIRECT_PTRS →
      ((fs_write_to_file 64 false (newFileState 13) 3 (fun k => k + 1)
        (((INODE_DIRECT_PTRS + 1) * 64 : Nat) : Int)).2.itable 3).directPtr.getD j NIL ≠ NIL) ∧
    ((fs_write_to_file 64 false (newFileState 13) 3 (fun k => k + 1)
      (((INODE_DIRECT_PTRS + 1) * 64 : Nat) : Int)).2.itable 3).sIndirect ≠ NIL ∧
    (∀ i, i < PTRS_PER_BLOCK 64 →
      ((fs_write_to_file 64 false (newFileState 13) 3 (fun k => k + 1)
        (((INODE_DIRECT_PTRS + 1) * 64 : Nat) : Int)).2.disk
        (((fs_write_to_file 64 false (newFileState 13) 3 (fun k => k + 1)
          (((INODE_DIRECT_PTRS + 1) * 64 : Nat) : Int)).2.itable 3).sIndirect + 4 * i) ≠ NIL
        ↔ i < 1)) ∧
    ((fs_write_to_file 64 false (newFileState 13) 3 (fun k => k + 1)
      (((INODE_DIRECT_PTRS + 1) * 64 : Nat) : Int)).2.itable 3).dIndirect = NIL ∧
    ((fs_write_to_file 64 false (newFileState 13) 3 (fun k => k + 1)
      (((INODE_DIRECT_PTRS + 1) * 64 : Nat) : Int)).2.itable 3).tIndirect = NIL :=
  ⟨by decide, fs_write_to_file_single_indirect 64 false (newFileState 13) 3 (fun k => k + 1) 1
    (by decide) (by decide) (by decide) (by decide) (by decide) (by decide) (by decide)
    (by decide) (by decide) (by decide) (by decide) (by decide)⟩

set_option maxRecDepth 1000000 in
/-- C26 (code evaluated at the failing input): 832 bytes, 26 blocks of 32
bytes, written to the new file 3 of newFileState32: ten direct blocks, eight
under the single-indirect block and eight under the double-indirect block.
aloc_double_indirect builds two single-indirect blocks of eight data blocks
each, so 34 data blocks are reachable from the inode, and fs_read_from_file
stores words beyond the first 26 blocks (208 words) of the output buffer. -/
theorem fs_write_to_file_spare_blocks_read :
    (newFileState32.itable 3).fileType = 1 ∧
    (newFileState32.itable 3).directPtr = List.replicate 10 NIL ∧
    newFileState32.ssmOut.length = 38 ∧ blocksOf 32 832 = 26 ∧
    (fs_write_to_file 32 true newFileState32 3 (fun k => k + 1) 832).1 = true ∧
    (dataBlocksOf 32 (fs_write_to_file 32 true newFileState32 3 (fun k => k + 1) 832).2.disk
      ((fs_write_to_file 32 true newFileState32 3 (fun k => k + 1) 832).2.itable 3)).length
      = 34 ∧
    (fs_read_from_file 32 (fs_write_to_file 32 true newFileState32 3 (fun k => k + 1) 832).2 3
      (fun _ => 7)).2.1 207 = 208 ∧
    (fs_read_from_file 32 (fs_write_to_file 32 true newFileState32 3 (fun k => k + 1) 832).2 3
      (fun _ => 7)).2.1 208 = 0 ∧
    (dataBlocksOf 32 (fs_write_to_file 32 false newFileState32 3 (fun k => k + 1) 832).2.disk
      ((fs_write_to_file 32 false newFileState32 3 (fun k => k + 1) 832).2.itable 3)).length
      = 34 ∧
    (fs_read_from_file 32 (fs_write_to_file 32 false newFileState32 3 (fun k => k + 1) 832).2 3
      (fun _ => 7)).2.1 208 = 0 := by
  decide

theorem make_inode_sectors_eq : ∀ (k : Nat) (s : FsState),
    make_inode_sectors k s = { s with ssmOut := s.ssmOut.drop k } := by
  intro k
  induction k with
  | zero => intro s; simp [make_inode_sectors]
  | succ k ih =>
    intro s
    rw [make_inode_sectors, ih]
    cases h : s.ssmOut with
    | nil => simp [ssm_allocate_sectors, h]
    | cons a t => simp [ssm_allocate_sectors, h]

/-- fs_create_file(0, name, NIL) when the bitmap has a free inode: the record
of that inode becomes a blank record of fileType 1, its bit is set, and
nothing else of the disk image, the inode table or the Sector Space Manager
changes. -/
theorem fs_create_file_plain (bs : Nat) (s : FsState) (junk name : Nat × Nat)
    (hmap : s.iMap.length ≤ NIL) (hfree : s.iMap.indexOf false < s.iMap.length) :
    (fs_create_file bs s junk 0 name NIL).2.disk = s.disk ∧
    (fs_create_file bs s junk 0 name NIL).2.ssmOut = s.ssmOut ∧
    (fs_create_file bs s junk 0 name NIL).2.iMap = s.iMap.set (s.iMap.indexOf false) true ∧
    (fs_create_file bs s junk 0 name NIL).2.itable (s.iMap.indexOf false)
      = { inode_init with fileType := 1 } ∧
    ∀ k, k ≠ s.iMap.indexOf false →
      (fs_create_file bs s junk 0 name NIL).2.itable k = s.itable k := by
  obtain ⟨h2, h3⟩ := get_inode_free s hmap hfree
  obtain ⟨-, g2, g3, g4⟩ := get_inode_freed s
  have hoff : BITS_PER_BYTE * (get_inode s).iMapOffset.1 + (get_inode s).iMapOffset.2
      = s.iMap.indexOf false := by
    have h1 : (get_inode s).iMapOffset =
        (s.iMap.indexOf false / BITS_PER_BYTE, s.iMap.indexOf false % BITS_PER_BYTE) := by
      simp [get_inode, hfree]
    rw [h1]
    simp only [BITS_PER_BYTE]
    omega
  unfold fs_create_file
  simp only [h2, Bool.false_eq_true, if_false, h3, create_file_nil_parent]
  refine ⟨?_, ?_, ?_, ?_, ?_⟩
  · simp [allocate_inode, inode_write, inode_read, get_inode_disk]
  · simp [allocate_inode, inode_write, inode_read, g3]
  · simp [allocate_inode, inode_write, inode_read, g4, hoff]
  · simp [allocate_inode, inode_write, inode_read]
  · intro k hk
    simp [allocate_inode, inode_write, inode_read, hk, g2]

theorem make_set_direct_eq (s : FsState) (n ptr : Nat) (hn : n ≠ NIL)
    (hty : 0 < (s.itable n).fileType) :
    (make_set_direct s n ptr).disk = s.disk ∧ (make_set_direct s n ptr).ssmOut = s.ssmOut ∧
    (make_set_direct s n ptr).iMap = s.iMap ∧
    (make_set_direct s n ptr).itable n
      = { s.itable n with directPtr := (s.itable n).directPtr.set 0 ptr } ∧
    ∀ k, k ≠ n → (make_set_direct s n ptr).itable k = s.itable k := by
  unfold make_set_direct
  rw [open_inode_eq s n hn hty]
  refine ⟨rfl, rfl, rfl, ?_, ?_⟩
  · simp [inode_write]
  · intro k hk
    simp [inode_write, hk]

/-- fs_create_file(1, name, NIL) when the bitmap has a free inode n and the
Sector Space Manager answers x, not NIL: the state left. -/
theorem fs_create_file_root_eq (bs : Nat) (s : FsState) (junk name : Nat × Nat) (x : Nat)
    (rest : List Nat) (hbs : 32 ≤ bs) (hmap : s.iMap.length ≤ NIL)
    (hfree : s.iMap.indexOf false < s.iMap.length)
    (hx : s.ssmOut = x :: rest) (hxn : x ≠ NIL) :
    (fs_create_file bs s junk 1 name NIL).2 =
      filledState bs
        (grownState bs (reservedState s (s.iMap.indexOf false)) (s.iMap.indexOf false)
          (strcpyWord [46] junk.1, junk.2) (s.iMap.indexOf false) 0 x rest)
        NIL (strcpyWord [46, 46] (strcpyWord [46] junk.1), junk.2) x 4 := by
  generalize hn' : s.iMap.indexOf false = n at *
  generalize hdot : (strcpyWord [46] junk.1, junk.2) = dot
  generalize hdd : (strcpyWord [46, 46] (strcpyWord [46] junk.1), junk.2) = dotdot
  have hn : n ≠ NIL := by
    have : NIL = 4294967295 := rfl
    omega
  have h8 : 8 ≤ bs / 4 := by omega
  obtain ⟨f1, f2, f3, f4⟩ := reservedState_facts s n
  have e1 : create_file bs (reservedState s n) n dot n
      = (true, grownState bs (reservedState s n) n dot n 0 x rest) := by
    apply create_file_grow_eq bs (reservedState s n) n dot n 0 x rest hn
    · rw [f3]; decide
    · rw [f3, (dirInode_facts bs _).1]
      intro b hb
      cases hb
    · rw [f3]; exact (dirInode_facts bs s.disk).2
    · rw [f2]; exact hx
    · exact hxn
  generalize hC1 : grownState bs (reservedState s n) n dot n 0 x rest = C1 at e1
  have c1d : C1.disk = writeBlock bs s.disk x (firstEntry dot n) := by
    subst hC1
    show writeBlock bs (reservedState s n).disk x (firstEntry dot n) = _
    rw [f1]
  have c1n : C1.itable n = grownInode bs dirInode 0 x := by
    subst hC1
    show (if n = n then grownInode bs ((reservedState s n).itable n) 0 x else _) = _
    rw [if_pos rfl, f3]
  have c1r : ∀ j, j < bs / 4 → readBlock C1.disk x j = firstEntry dot n j := by
    intro j hj
    show C1.disk (x + 4 * j) = _
    rw [c1d, writeBlock_inside bs _ _ _ j hj]
  have e2 : create_file bs C1 NIL dotdot n = (true, filledState bs C1 NIL dotdot x 4) := by
    apply create_file_slot_eq bs C1 NIL dotdot n x 4 hn
    · rw [c1n]
      show (0 : Int) < 2
      decide
    · rw [c1n]; rfl
    · exact hxn
    · apply freeSlot_second bs hbs
      · rw [c1r 3 (by omega)]
        show (1 : Nat) ≠ 0
        decide
      · rw [c1r 7 (by omega)]; rfl
  rw [fs_create_file_dir_eq bs s junk name NIL hmap (by rw [hn']; exact hfree), hn', hdot, hdd,
    e1, e2, create_file_nil_parent]

theorem filter_slots_two (m : Nat) (p : Nat → Bool) (f : Nat → Nat) (h0 : p 0 = true)
    (h1 : p 1 = true) (h : ∀ k, 2 ≤ k → p k = false) :
    ((List.range (m + 2)).filter p).map f = [f 0, f 1] := by
  have e : List.range (m + 2) = 0 :: 1 :: (List.range m).map (fun k => k + 2) := by
    rw [List.range_succ_eq_map, List.range_succ_eq_map]
    simp
  have t : ((List.range m).map (fun k => k + 2)).filter p = [] := by
    rw [List.filter_eq_nil_iff]
    intro a ha
    rw [List.mem_map] at ha
    obtain ⟨k, -, rfl⟩ := ha
    simp [h (k + 2) (by omega)]
  rw [e, List.filter_cons_of_pos h0, List.filter_cons_of_pos h1, t]
  rfl

/-- The entries of a directory whose only block is the direct block x. -/
theorem dirEntries_grown (bs : Nat) (d : Nat → Nat) (x : Nat) (hxn : x ≠ NIL) :
    dirEntries bs d (grownInode bs dirInode 0 x)
      = (List.range ((bs / 4 + 3) / 4)).map (fun k => x + 4 * (4 * k)) := by
  have h1 : liveDirect (grownInode bs dirInode 0 x) = [x] := by
    have hx' : is_not_null x = true := by simpa [is_not_null] using hxn
    simp [liveDirect, grownInode, dirInode, inode_init, INODE_DIRECT_PTRS, List.range_succ,
      List.replicate, hx']
    decide
  have h2 : is_not_null (grownInode bs dirInode 0 x).sIndirect = false := by
    show is_not_null NIL = false
    decide
  have h3 : is_not_null (grownInode bs dirInode 0 x).dIndirect = false := by
    show is_not_null NIL = false
    decide
  have h4 : is_not_null (grownInode bs dirInode 0 x).tIndirect = false := by
    show is_not_null NIL = false
    decide
  simp [dirEntries, directEntries, h1, h2, h3, h4, blockEntries, slotIdx]

theorem imap_three (n : Nat) (h : 3 ≤ n) :
    List.replicate n false = false :: false :: false :: List.replicate (n - 3) false := by
  obtain ⟨m, rfl⟩ : ∃ m, n = m + 3 := ⟨n - 3, by omega⟩
  simp [List.replicate_succ]

/-- C21: let BLOCK_SIZE be at least 32, let the inode bitmap have INODE_BLOCKS
>= 1 bytes, all inodes free (so that the Inode Store hands out 0, 1, 2), and
let x, not NIL, be the answer of the Sector Space Manager that follows the
answers for the boot and super block and for the inode table.  After fs_make
the inodes 0 and 1 have fileType 1 and directPtr[0] equal to 0 and BLOCK_SIZE,
inode 2 has fileType 2, and the entries in use of the root directory are the
two entries at x and x + 16: the first carries the name '.' and inode_num 2,
the second the name '..' and inode_num NIL. -/
theorem fs_make_state (bs IB a0 x : Nat) (pre rest : List Nat) (name junk : Nat × Nat)
    (hbs : 32 ≤ bs) (hIB : 1 ≤ IB) (hmax : BITS_PER_BYTE * IB ≤ NIL)
    (hpre : pre.length = IB / 32) (hxn : x ≠ NIL) :
    (fs_make bs IB (a0 :: pre ++ x :: rest) name junk).1 = true ∧
    ((fs_make bs IB (a0 :: pre ++ x :: rest) name junk).2.itable 0).fileType = 1 ∧
    ((fs_make bs IB (a0 :: pre ++ x :: rest) name junk).2.itable 0).directPtr.getD 0 NIL = 0 ∧
    ((fs_make bs IB (a0 :: pre ++ x :: rest) name junk).2.itable 1).fileType = 1 ∧
    ((fs_make bs IB (a0 :: pre ++ x :: rest) name junk).2.itable 1).directPtr.getD 0 NIL = bs ∧
    ((fs_make bs IB (a0 :: pre ++ x :: rest) name junk).2.itable 2).fileType = 2 ∧
    (dirEntries bs (fs_make bs IB (a0 :: pre ++ x :: rest) name junk).2.disk
      ((fs_make bs IB (a0 :: pre ++ x :: rest) name junk).2.itable 2)).filter
        (entryInUse (fs_make bs IB (a0 :: pre ++ x :: rest) name junk).2.disk) = [x, x + 16] ∧
    inUseCount bs (fs_make bs IB (a0 :: pre ++ x :: rest) name junk).2.disk
      ((fs_make bs IB (a0 :: pre ++ x :: rest) name junk).2.itable 2) = 2 ∧
    (fs_make bs IB (a0 :: pre ++ x :: rest) name junk).2.disk x % 65536 = 46 ∧
    (fs_make bs IB (a0 :: pre ++ x :: rest) name junk).2.disk (x + 8) = 2 ∧
    (fs_make bs IB (a0 :: pre ++ x :: rest) name junk).2.disk (x + 16) % 16777216 = 11822 ∧
    (fs_make bs IB (a0 :: pre ++ x :: rest) name junk).2.disk (x + 24) = NIL := by
  have hnil : NIL = 4294967295 := rfl
  have hmax8 : 8 * IB ≤ NIL := hmax
  -- the state before the three inodes are created
  generalize hs2 : make_inode_sectors (IB / 32)
    (ssm_allocate_sectors (initState IB (a0 :: pre ++ x :: rest))).2 = s2
  have a_d : s2.disk = fun _ => 0 := by
    rw [← hs2, make_inode_sectors_eq]; rfl
  have a_s : s2.ssmOut = x :: rest := by
    rw [← hs2, make_inode_sectors_eq]
    show List.drop (IB / 32) (pre ++ x :: rest) = _
    rw [← hpre, List.drop_left]
  have a_m : s2.iMap = false :: false :: false :: List.replicate (8 * IB - 3) false := by
    rw [← hs2, make_inode_sectors_eq]
    exact imap_three (8 * IB) (by omega)
  have a_t : s2.itable = fun _ => inode_init := by
    rw [← hs2, make_inode_sectors_eq]; rfl
  -- inode 0
  generalize ht1 : (fs_create_file bs s2 junk 0 name NIL).2 = t1
  have hl2 : s2.iMap.length = 8 * IB := by
    rw [a_m]; simp; omega
  have i2 : s2.iMap.indexOf false = 0 := by rw [a_m]; simp [List.indexOf_cons]
  obtain ⟨b_d, b_s, b_m, b_n, b_k⟩ := fs_create_file_plain bs s2 junk name (by omega) (by omega)
  rw [ht1] at b_d b_s b_m b_n b_k
  rw [i2] at b_m b_n b_k
  generalize hs3 : make_set_direct t1 0 0 = s3
  obtain ⟨c_d, c_s, c_m, c_n, c_k⟩ := make_set_direct_eq t1 0 0 (by omega) (by rw [b_n]; decide)
  rw [hs3] at c_d c_s c_m c_n c_k
  -- inode 1
  generalize ht2 : (fs_create_file bs s3 junk 0 name NIL).2 = t2
  have m3 : s3.iMap = true :: false :: false :: List.replicate (8 * IB - 3) false := by
    rw [c_m, b_m, a_m]; rfl
  have hl3 : s3.iMap.length = 8 * IB := by
    rw [m3]; simp; omega
  have i3 : s3.iMap.indexOf false = 1 := by rw [m3]; simp [List.indexOf_cons]
  obtain ⟨d_d, d_s, d_m, d_n, d_k⟩ := fs_create_file_plain bs s3 junk name (by omega) (by omega)
  rw [ht2] at d_d d_s d_m d_n d_k
  rw [i3] at d_m d_n d_k
  generalize hs4 : make_set_direct t2 1 (bs * 1) = s4
  obtain ⟨e_d, e_s, e_m, e_n, e_k⟩ :=
    make_set_direct_eq t2 1 (bs * 1) (by omega) (by rw [d_n]; decide)
  rw [hs4] at e_d e_s e_m e_n e_k
  -- the root directory
  have m4 : s4.iMap = true :: true :: false :: List.replicate (8 * IB - 3) false := by
    rw [e_m, d_m, m3]; rfl
  have hl4 : s4.iMap.length = 8 * IB := by
    rw [m4]; simp; omega
  have i4 : s4.iMap.indexOf false = 2 := by rw [m4]; simp [List.indexOf_cons]
  have s4s : s4.ssmOut = x :: rest := by rw [e_s, d_s, c_s, b_s, a_s]
  have s4d : s4.disk = fun _ => 0 := by rw [e_d, d_d, c_d, b_d, a_d]
  have hroot := fs_create_file_root_eq bs s4 junk name x rest hbs (by omega) (by omega) s4s hxn
  rw [i4] at hroot
  have hmk : (fs_make bs IB (a0 :: pre ++ x :: rest) name junk)
      = (true, (fs_create_file bs s4 junk 1 name NIL).2) := by
    unfold fs_make
    simp only []
    rw [hs2, ht1, hs3, ht2, hs4]
  rw [hmk, hroot]
  generalize hdot : (strcpyWord [46] junk.1, junk.2) = dot
  generalize hdd : (strcpyWord [46, 46] (strcpyWord [46] junk.1), junk.2) = dotdot
  obtain ⟨f1, f2, f3, f4⟩ := reservedState_facts s4 2
  -- the inode records
  have rk : ∀ k, k ≠ 2 →
      (filledState bs (grownState bs (reservedState s4 2) 2 dot 2 0 x rest) NIL dotdot x 4).itable k
        = s4.itable k := by
    intro k hk
    show (if k = 2 then grownInode bs ((reservedState s4 2).itable 2) 0 x
      else (reservedState s4 2).itable k) = _
    rw [if_neg hk, f4 k hk]
  have r0 : (filledState bs (grownState bs (reservedState s4 2) 2 dot 2 0 x rest) NIL dotdot x 4).itable 0
      = { ({ inode_init with fileType := 1 } : Inode) with
          directPtr := ({ inode_init with fileType := 1 } : Inode).directPtr.set 0 0 } := by
    rw [rk 0 (by decide), e_k 0 (by decide), d_k 0 (by decide), c_n, b_n]
  have r1 : (filledState bs (grownState bs (reservedState s4 2) 2 dot 2 0 x rest) NIL dotdot x 4).itable 1
      = { ({ inode_init with fileType := 1 } : Inode) with
          directPtr := ({ inode_init with fileType := 1 } : Inode).directPtr.set 0 (bs * 1) } := by
    rw [rk 1 (by decide), e_n, d_n]
  have r2 : (filledState bs (grownState bs (reservedState s4 2) 2 dot 2 0 x rest) NIL dotdot x 4).itable 2
      = grownInode bs dirInode 0 x := by
    show (if 2 = 2 then grownInode bs ((reservedState s4 2).itable 2) 0 x
      else (reservedState s4 2).itable 2) = _
    rw [if_pos rfl, f3]
  -- the disk image
  have hD : (filledState bs (grownState bs (reservedState s4 2) 2 dot 2 0 x rest) NIL dotdot x 4).disk
      = writeBlock bs (writeBlock bs (fun _ => 0) x (firstEntry dot 2)) x
          (putEntry (readBlock (writeBlock bs (fun _ => 0) x (firstEntry dot 2)) x) 4 dotdot NIL) := by
    show writeBlock bs (writeBlock bs (reservedState s4 2).disk x (firstEntry dot 2)) x
      (putEntry (readBlock (writeBlock bs (reservedState s4 2).disk x (firstEntry dot 2)) x)
        4 dotdot NIL) = _
    rw [f1, s4d]
  generalize filledState bs (grownState bs (reservedState s4 2) 2 dot 2 0 x rest) NIL dotdot x 4
    = r at r0 r1 r2 hD
  have hw : ∀ i, i < bs / 4 → r.disk (x + 4 * i) = dirBlock dot dotdot 2 NIL i := by
    intro i hi
    rw [hD, writeBlock_inside bs _ _ _ i hi]
    simp only [dirBlock, putEntry, bufSet, readBlock]
    split_ifs <;> first | rfl | exact writeBlock_inside bs _ _ _ i hi
  have hflag : ∀ k, entryInUse r.disk (x + 4 * (4 * k)) = decide (k < 2) := by
    intro k
    unfold entryInUse
    by_cases hk : 4 * k + 3 < bs / 4
    · have e : x + 4 * (4 * k) + 12 = x + 4 * (4 * k + 3) := by omega
      rw [e, hw _ hk]
      simp only [dirBlock, putEntry, firstEntry, bufSet]
      by_cases h0 : k = 0
      · subst h0; simp
      · by_cases h1 : k = 1
        · subst h1; simp
        · have e1 : ¬ 4 * k + 3 = 4 + 2 := by omega
          have e2 : ¬ 4 * k + 3 = 4 + 1 := by omega
          have e3 : ¬ 4 * k + 3 = 4 := by omega
          have e4 : ¬ 4 * k + 3 = 4 + 3 := by omega
          have e5 : ¬ 4 * k + 3 = 0 + 2 := by omega
          have e6 : ¬ 4 * k + 3 = 0 + 1 := by omega
          have e7 : ¬ 4 * k + 3 = 0 := by omega
          have e8 : ¬ 4 * k + 3 = 0 + 3 := by omega
          have e9 : ¬ k < 2 := by omega
          simp only [e1, e2, e3, e4, e5, e6, e7, e8, e9, if_false]
          rfl
    · have hk2 : ¬ k < 2 := by omega
      rw [hD]
      simp only [writeBlock, writeWords]
      rw [if_neg (by omega), if_neg (by omega)]
      simp [hk2]
  have hfil : (dirEntries bs r.disk (r.itable 2)).filter (entryInUse r.disk) = [x, x + 16] := by
    rw [r2, dirEntries_grown bs r.disk x hxn, List.filter_map]
    obtain ⟨m, hm⟩ : ∃ m, (bs / 4 + 3) / 4 = m + 2 := ⟨(bs / 4 + 3) / 4 - 2, by omega⟩
    have p0 : (entryInUse r.disk ∘ fun k => x + 4 * (4 * k)) 0 = true := by
      show entryInUse r.disk (x + 4 * (4 * 0)) = true
      rw [hflag]; rfl
    have p1 : (entryInUse r.disk ∘ fun k => x + 4 * (4 * k)) 1 = true := by
      show entryInUse r.disk (x + 4 * (4 * 1)) = true
      rw [hflag]; rfl
    have pk : ∀ k, 2 ≤ k → (entryInUse r.disk ∘ fun k => x + 4 * (4 * k)) k = false := by
      intro k hk
      show entryInUse r.disk (x + 4 * (4 * k)) = false
      rw [hflag]
      exact decide_eq_false (by omega)
    rw [hm, filter_slots_two m _ _ p0 p1 pk]
    rfl
  have w0 := hw 0 (by omega)
  have w2 := hw 2 (by omega)
  have w4 := hw 4 (by omega)
  have w6 := hw 6 (by omega)
  simp only [dirBlock, putEntry, firstEntry, bufSet] at w0 w2 w4 w6
  norm_num at w0 w2 w4 w6
  refine ⟨rfl, ?_, ?_, ?_, ?_, ?_, hfil, ?_, ?_, w2, ?_, w6⟩
  · rw [r0]
  · rw [r0]; rfl
  · rw [r1]
  · rw [r1]; simp [inode_init, INODE_DIRECT_PTRS, List.replicate]
  · rw [r2]; rfl
  · unfold inUseCount
    rw [List.countP_eq_length_filter, hfil]
    rfl
  · rw [w0, ← hdot]; exact strcpyWord_dot _
  · rw [w4, ← hdd]; exact strcpyWord_dotdot _

set_option maxRecDepth 1000000 in
/-- Instance of fs_make_state: 64-byte blocks, 32 inode blocks, the Sector
Space Manager giving sector 0, then sector 2 for the inode table, then the
block at byte offset 2176. -/
theorem fs_make_state_witness :
    (fs_make 64 32 [0, 128, 2176] (0, 0) (0, 0)).1 = true ∧
    ((fs_make 64 32 [0, 128, 2176] (0, 0) (0, 0)).2.itable 0).fileType = 1 ∧
    ((fs_make 64 32 [0, 128, 2176] (0, 0) (0, 0)).2.itable 0).directPtr.getD 0 NIL = 0 ∧
    ((fs_make 64 32 [0, 128, 2176] (0, 0) (0, 0)).2.itable 1).fileType = 1 ∧
    ((fs_make 64 32 [0, 128, 2176] (0, 0) (0, 0)).2.itable 1).directPtr.getD 0 NIL = 64 ∧
    ((fs_make 64 32 [0, 128, 2176] (0, 0) (0, 0)).2.itable 2).fileType = 2 ∧
    (dirEntries 64 (fs_make 64 32 [0, 128, 2176] (0, 0) (0, 0)).2.disk
      ((fs_make 64 32 [0, 128, 2176] (0, 0) (0, 0)).2.itable 2)).filter
        (entryInUse (fs_make 64 32 [0, 128, 2176] (0, 0) (0, 0)).2.disk) = [2176, 2176 + 16] ∧
    inUseCount 64 (fs_make 64 32 [0, 128, 2176] (0, 0) (0, 0)).2.disk
      ((fs_make 64 32 [0, 128, 2176] (0, 0) (0, 0)).2.itable 2) = 2 ∧
    (fs_make 64 32 [0, 128, 2176] (0, 0) (0, 0)).2.disk 2176 % 65536 = 46 ∧
    (fs_make 64 32 [0, 128, 2176] (0, 0) (0, 0)).2.disk (2176 + 8) = 2 ∧
    (fs_make 64 32 [0, 128, 2176] (0, 0) (0, 0)).2.disk (2176 + 16) % 16777216 = 11822 ∧
    (fs_make 64 32 [0, 128, 2176] (0, 0) (0, 0)).2.disk (2176 + 24) = NIL :=
  fs_make_state 64 32 0 2176 [128] [] (0, 0) (0, 0) (by decide) (by decide) (by decide)
    (by decide) (by decide)

theorem foldl_skip_nil {α : Type} (step : α → Nat → α) : ∀ (xs : List Nat) (init : α),
    xs.foldl (fun acc b => if is_not_null b then step acc b else acc) init
      = (xs.filter is_not_null).foldl step init := by
  intro xs
  induction xs with
  | nil => intro init; rfl
  | cons b t ih =>
    intro init
    by_cases hb : is_not_null b = true
    · rw [List.filter_cons_of_pos hb]
      simp only [List.foldl_cons, hb, if_true]
      exact ih _
    · rw [List.filter_cons_of_neg hb]
      simp only [List.foldl_cons, hb, if_false]
      exact ih _

theorem foldl_range_skip {α : Type} (step : α → Nat → α) (slot : Nat → Nat) (t : Nat)
    (init : α) :
    (List.range t).foldl (fun acc i => if is_not_null (slot i) then step acc (slot i) else acc)
      init = (((List.range t).map slot).filter is_not_null).foldl step init := by
  rw [← foldl_skip_nil, List.foldl_map]

/-- A loop that hands each block of L to rd and moves the cursor on by W. -/
theorem read_live_fold (rd : (Nat → Nat) → Nat → Nat → (Nat → Nat)) (W : Nat)
    (G : Nat → Nat → Nat → Prop) (h1 : ∀ b e v, G b e v → e < W)
    (h2 : ∀ b o p e v, G b e v → rd o p b (p + e) = v)
    (h3 : ∀ b o p q, (∀ e v, G b e v → q ≠ p + e) → rd o p b q = o q) :
    ∀ (L : List Nat) (out : Nat → Nat) (pos : Nat),
      (L.foldl (fun (acc : (Nat → Nat) × Nat) b => (rd acc.1 acc.2 b, acc.2 + W)) (out, pos)).2
        = pos + L.length * W ∧
      (∀ i e v, i < L.length → G (L.getD i NIL) e v →
        (L.foldl (fun (acc : (Nat → Nat) × Nat) b => (rd acc.1 acc.2 b, acc.2 + W))
          (out, pos)).1 (pos + i * W + e) = v) ∧
      (∀ q, (∀ i e v, i < L.length → G (L.getD i NIL) e v → q ≠ pos + i * W + e) →
        (L.foldl (fun (acc : (Nat → Nat) × Nat) b => (rd acc.1 acc.2 b, acc.2 + W))
          (out, pos)).1 q = out q) := by
  intro L
  induction L with
  | nil =>
    intro out pos
    refine ⟨by simp, ?_, ?_⟩
    · intro i e v hi
      simp at hi
    · intro q _
      rfl
  | cons b t ih =>
    intro out pos
    obtain ⟨c1, c2, c3⟩ := ih (rd out pos b) (pos + W)
    simp only [List.foldl_cons]
    refine ⟨?_, ?_, ?_⟩
    · rw [c1, List.length_cons]; ring
    · intro i e v hi hg
      cases i with
      | zero =>
        have hg' : G b e v := hg
        have he := h1 b e v hg'
        rw [c3]
        · have := h2 b out pos e v hg'
          simpa using this
        · intro i' e' v' hi' hg2
          have := h1 _ e' v' hg2
          simp only [Nat.zero_mul, Nat.add_zero]
          omega
      | succ i =>
        have hg' : G (t.getD i NIL) e v := hg
        have := c2 i e v (by simpa using hi) hg'
        have e1 : pos + (i + 1) * W + e = pos + W + i * W + e := by ring
        rw [e1]
        exact this
    · intro q hq
      rw [c3]
      · apply h3
        intro e v hg
        have := hq 0 e v (by simp) hg
        simpa using this
      · intro i e v hi hg
        have := hq (i + 1) e v (by simpa using hi) hg
        have e1 : pos + (i + 1) * W + e = pos + W + i * W + e := by ring
        rw [e1] at this
        exact this

theorem liveSlots_length_le (bs : Nat) (d : Nat → Nat) (c : Nat) :
    (liveSlots bs d c).length ≤ bs / 4 := by
  unfold liveSlots
  refine (List.length_filter_le _ _).trans ?_
  simp

/-- One level of the read path: the loop over the slots of the index block at
c, each slot that is not NIL handed to rd, the cursor moved on by W. -/
theorem read_level (bs : Nat) (d : Nat → Nat) (rd : (Nat → Nat) → Nat → Nat → (Nat → Nat))
    (W : Nat) (G : Nat → Nat → Nat → Prop) (h1 : ∀ b e v, G b e v → e < W)
    (h2 : ∀ b o p e v, G b e v → rd o p b (p + e) = v)
    (h3 : ∀ b o p q, (∀ e v, G b e v → q ≠ p + e) → rd o p b q = o q) :
    (∀ c e v, Under bs d W G c e v → e < bs / 4 * W) ∧
    (∀ c o p e v, Under bs d W G c e v →
      ((List.range (bs / 4)).foldl (fun (acc : (Nat → Nat) × Nat) i =>
        if is_not_null (readBlock d c i) then (rd acc.1 acc.2 (readBlock d c i), acc.2 + W)
        else acc) (o, p)).1 (p + e) = v) ∧
    (∀ c o p q, (∀ e v, Under bs d W G c e v → q ≠ p + e) →
      ((List.range (bs / 4)).foldl (fun (acc : (Nat → Nat) × Nat) i =>
        if is_not_null (readBlock d c i) then (rd acc.1 acc.2 (readBlock d c i), acc.2 + W)
        else acc) (o, p)).1 q = o q) := by
  have hfold : ∀ c o p,
      (List.range (bs / 4)).foldl (fun (acc : (Nat → Nat) × Nat) i =>
        if is_not_null (readBlock d c i) then (rd acc.1 acc.2 (readBlock d c i), acc.2 + W)
        else acc) (o, p)
      = (liveSlots bs d c).foldl
          (fun (acc : (Nat → Nat) × Nat) b => (rd acc.1 acc.2 b, acc.2 + W)) (o, p) := by
    intro c o p
    exact foldl_range_skip (fun (acc : (Nat → Nat) × Nat) b => (rd acc.1 acc.2 b, acc.2 + W))
      (readBlock d c) (bs / 4) (o, p)
  refine ⟨?_, ?_, ?_⟩
  · intro c e v hU
    obtain ⟨i, e', hi, hg, rfl⟩ := hU
    have := h1 _ _ _ hg
    have hl := liveSlots_length_le bs d c
    have : (i + 1) * W ≤ bs / 4 * W := Nat.mul_le_mul_right W (by omega)
    have e2 : (i + 1) * W = i * W + W := by ring
    omega
  · intro c o p e v hU
    obtain ⟨i, e', hi, hg, rfl⟩ := hU
    rw [hfold]
    have := (read_live_fold rd W G h1 h2 h3 (liveSlots bs d c) o p).2.1 i e' v hi hg
    rw [← Nat.add_assoc]
    exact this
  · intro c o p q hq
    rw [hfold]
    apply (read_live_fold rd W G h1 h2 h3 (liveSlots bs d c) o p).2.2
    intro i e v hi hg
    have := hq (i * W + e) v ⟨i, e, hi, hg, rfl⟩
    omega

theorem copyIn_level (bs : Nat) (d : Nat → Nat) :
    (∀ b e v, InBlock bs d b e v → e < bs / 4) ∧
    (∀ b o p e v, InBlock bs d b e v → copyIn bs d b o p (p + e) = v) ∧
    (∀ b o p q, (∀ e v, InBlock bs d b e v → q ≠ p + e) → copyIn bs d b o p q = o q) := by
  refine ⟨fun b e v h => h.1, ?_, ?_⟩
  · intro b o p e v h
    simp only [copyIn]
    rw [if_pos ⟨by omega, by have := h.1; omega⟩, h.2]
    congr 2
    omega
  · intro b o p q h
    simp only [copyIn]
    rw [if_neg]
    intro hc
    exact h (q - p) (d (b + 4 * (q - p))) ⟨by omega, rfl⟩ (by omega)

theorem read_single_level (bs : Nat) (d : Nat → Nat) :
    (∀ c e v, Under bs d (bs / 4) (InBlock bs d) c e v → e < bs / 4 * (bs / 4)) ∧
    (∀ c o p e v, Under bs d (bs / 4) (InBlock bs d) c e v →
      read_from_single_indirect_blocks bs d o p c (p + e) = v) ∧
    (∀ c o p q, (∀ e v, Under bs d (bs / 4) (InBlock bs d) c e v → q ≠ p + e) →
      read_from_single_indirect_blocks bs d o p c q = o q) := by
  obtain ⟨a1, a2, a3⟩ := copyIn_level bs d
  exact read_level bs d (fun o p b => copyIn bs d b o p) (bs / 4) (InBlock bs d) a1 a2 a3

theorem read_double_level (bs : Nat) (d : Nat → Nat) :
    (∀ c e v, Under bs d (bs / 4 * (bs / 4)) (Under bs d (bs / 4) (InBlock bs d)) c e v →
      e < bs / 4 * (bs / 4 * (bs / 4))) ∧
    (∀ c o p e v, Under bs d (bs / 4 * (bs / 4)) (Under bs d (bs / 4) (InBlock bs d)) c e v →
      read_from_double_indirect_blocks bs d o p c (p + e) = v) ∧
    (∀ c o p q,
      (∀ e v, Under bs d (bs / 4 * (bs / 4)) (Under bs d (bs / 4) (InBlock bs d)) c e v →
        q ≠ p + e) →
      read_from_double_indirect_blocks bs d o p c q = o q) := by
  obtain ⟨a1, a2, a3⟩ := read_single_level bs d
  exact read_level bs d (fun o p b => read_from_single_indirect_blocks bs d o p b)
    (bs / 4 * (bs / 4)) _
    (fun b e v h => a1 b e v h) (fun b o p e v h => a2 b o p e v h)
    (fun b o p q h => a3 b o p q h)

theorem read_triple_level (bs : Nat) (d : Nat → Nat) :
    (∀ c e v, Under bs d (bs / 4 * (bs / 4 * (bs / 4)))
        (Under bs d (bs / 4 * (bs / 4)) (Under bs d (bs / 4) (InBlock bs d))) c e v →
      e < bs / 4 * (bs / 4 * (bs / 4 * (bs / 4)))) ∧
    (∀ c o p e v, Under bs d (bs / 4 * (bs / 4 * (bs / 4)))
        (Under bs d (bs / 4 * (bs / 4)) (Under bs d (bs / 4) (InBlock bs d))) c e v →
      read_from_triple_indirect_blocks bs d o p c (p + e) = v) ∧
    (∀ c o p q,
      (∀ e v, Under bs d (bs / 4 * (bs / 4 * (bs / 4)))
        (Under bs d (bs / 4 * (bs / 4)) (Under bs d (bs / 4) (InBlock bs d))) c e v →
        q ≠ p + e) →
      read_from_triple_indirect_blocks bs d o p c q = o q) := by
  obtain ⟨a1, a2, a3⟩ := read_double_level bs d
  exact read_level bs d (fun o p b => read_from_double_indirect_blocks bs d o p b)
    (bs / 4 * (bs / 4 * (bs / 4))) _
    (fun b e v h => a1 b e v h) (fun b o p e v h => a2 b o p e v h)
    (fun b o p q h => a3 b o p q h)

theorem read_direct_live (bs : Nat) (d : Nat → Nat) (ino : Inode) (out : Nat → Nat) :
    (read_direct bs d ino out).2 = (liveDirect ino).length * (bs / 4) ∧
    (∀ i e, i < (liveDirect ino).length → e < bs / 4 →
      (read_direct bs d ino out).1 (i * (bs / 4) + e)
        = d ((liveDirect ino).getD i NIL + 4 * e)) ∧
    (∀ q, (liveDirect ino).length * (bs / 4) ≤ q → (read_direct bs d ino out).1 q = out q) := by
  have hfold : read_direct bs d ino out
      = (liveDirect ino).foldl
          (fun (acc : (Nat → Nat) × Nat) b => (copyIn bs d b acc.1 acc.2, acc.2 + bs / 4))
          (out, 0) :=
    foldl_range_skip
      (fun (acc : (Nat → Nat) × Nat) b => (copyIn bs d b acc.1 acc.2, acc.2 + bs / 4))
      (fun i => ino.directPtr.getD i NIL) INODE_DIRECT_PTRS (out, 0)
  obtain ⟨a1, a2, a3⟩ := copyIn_level bs d
  obtain ⟨c1, c2, c3⟩ := read_live_fold (fun o p b => copyIn bs d b o p) (bs / 4) (InBlock bs d)
    a1 a2 a3 (liveDirect ino) out 0
  rw [hfold]
  refine ⟨by rw [c1]; omega, ?_, ?_⟩
  · intro i e hi he
    have := c2 i e _ hi ⟨he, rfl⟩
    rw [Nat.zero_add] at this
    exact this
  · intro q hq
    apply c3
    intro i e v hi hg
    have he := hg.1
    have : (i + 1) * (bs / 4) ≤ (liveDirect ino).length * (bs / 4) :=
      Nat.mul_le_mul_right _ (by omega)
    have e2 : (i + 1) * (bs / 4) = i * (bs / 4) + bs / 4 := by ring
    omega

theorem not_null_iff (x : Nat) : is_not_null x = true ↔ x ≠ NIL := by
  simp [is_not_null]

/-- One of the three steps of fs_read_from_file that follow the direct
pointers: the region of an index pointer that is not NIL starts at the cursor,
the words below the cursor are kept, and the cursor moves on by W. -/
theorem read_step (rd : (Nat → Nat) → Nat → Nat → (Nat → Nat)) (W : Nat)
    (G : Nat → Nat → Nat → Prop)
    (h2 : ∀ b o p e v, G b e v → rd o p b (p + e) = v)
    (h3 : ∀ b o p q, (∀ e v, G b e v → q ≠ p + e) → rd o p b q = o q)
    (c : Nat) (r : (Nat → Nat) × Nat) :
    (∀ q, q < r.2 → (if is_not_null c = true then (rd r.1 r.2 c, r.2 + W) else r).1 q = r.1 q) ∧
    (c ≠ NIL → ∀ e v, G c e v →
      (if is_not_null c = true then (rd r.1 r.2 c, r.2 + W) else r).1 (r.2 + e) = v) ∧
    (if is_not_null c = true then (rd r.1 r.2 c, r.2 + W) else r).2
      = r.2 + (if c = NIL then 0 else W) := by
  by_cases hc : c = NIL
  · subst hc
    have : is_not_null NIL = false := by decide
    rw [this]
    refine ⟨fun _ _ => rfl, fun h => absurd rfl h, ?_⟩
    simp
  · have : is_not_null c = true := (not_null_iff c).mpr hc
    simp only [this, if_true, hc, if_false]
    refine ⟨?_, ?_, trivial⟩
    · intro q hq
      apply h3
      intro e v _
      omega
    · intro _ e v hg
      exact h2 c r.1 r.2 e v hg

/-- C25: fs_read_from_file on an inode that opens.  The direct pointers that
are not NIL are copied in index order to the consecutive slices 0, 1, ... of
the buffer (slices of BLOCK_SIZE / 4 words); the i-th slot of the
single-indirect index block that is not NIL goes to slice i after the last
direct slice; the double-indirect region starts S_INDIRECT_BLOCKS slices after
the start of the single-indirect region when sIndirect is not NIL (at the same
place when it is NIL), and in it the c-th single-indirect block that is not NIL
has a region of S_INDIRECT_BLOCKS slices of its own; the triple-indirect region
starts D_INDIRECT_BLOCKS slices after the start of the double-indirect region
when dIndirect is not NIL. -/
theorem fs_read_from_file_layout (bs : Nat) (s : FsState) (f : Nat) (out : Nat → Nat)
    (hf : f ≠ NIL) (hty : 0 < (s.itable f).fileType) :
    (fs_read_from_file bs s f out).1 = true ∧
    (∀ i j, i < (liveDirect (s.itable f)).length → j < bs / 4 →
      (fs_read_from_file bs s f out).2.1 (i * (bs / 4) + j)
        = s.disk ((liveDirect (s.itable f)).getD i NIL + 4 * j)) ∧
    ((s.itable f).sIndirect ≠ NIL → ∀ i j,
      i < (liveSlots bs s.disk (s.itable f).sIndirect).length → j < bs / 4 →
      (fs_read_from_file bs s f out).2.1
          ((liveDirect (s.itable f)).length * (bs / 4) + (i * (bs / 4) + j))
        = s.disk ((liveSlots bs s.disk (s.itable f).sIndirect).getD i NIL + 4 * j)) ∧
    ((s.itable f).dIndirect ≠ NIL → ∀ c i j,
      c < (liveSlots bs s.disk (s.itable f).dIndirect).length →
      i < (liveSlots bs s.disk
        ((liveSlots bs s.disk (s.itable f).dIndirect).getD c NIL)).length → j < bs / 4 →
      (fs_read_from_file bs s f out).2.1
          ((liveDirect (s.itable f)).length * (bs / 4)
            + (if (s.itable f).sIndirect = NIL then 0 else bs / 4 * S_INDIRECT_BLOCKS bs)
            + (c * (bs / 4 * S_INDIRECT_BLOCKS bs) + (i * (bs / 4) + j)))
        = s.disk ((liveSlots bs s.disk
            ((liveSlots bs s.disk (s.itable f).dIndirect).getD c NIL)).getD i NIL + 4 * j)) ∧
    ((s.itable f).tIndirect ≠ NIL → ∀ a c i j,
      a < (liveSlots bs s.disk (s.itable f).tIndirect).length →
      c < (liveSlots bs s.disk
        ((liveSlots bs s.disk (s.itable f).tIndirect).getD a NIL)).length →
      i < (liveSlots bs s.disk ((liveSlots bs s.disk
        ((liveSlots bs s.disk (s.itable f).tIndirect).getD a NIL)).getD c NIL)).length →
      j < bs / 4 →
      (fs_read_from_file bs s f out).2.1
          ((liveDirect (s.itable f)).length * (bs / 4)
            + (if (s.itable f).sIndirect = NIL then 0 else bs / 4 * S_INDIRECT_BLOCKS bs)
            + (if (s.itable f).dIndirect = NIL then 0 else bs / 4 * D_INDIRECT_BLOCKS bs)
            + (a * (bs / 4 * D_INDIRECT_BLOCKS bs)
              + (c * (bs / 4 * S_INDIRECT_BLOCKS bs) + (i * (bs / 4) + j))))
        = s.disk ((liveSlots bs s.disk ((liveSlots bs s.disk
            ((liveSlots bs s.disk (s.itable f).tIndirect).getD a NIL)).getD c NIL)).getD i NIL
              + 4 * j)) := by
  have hopen := open_inode_eq s f hf hty
  unfold fs_read_from_file
  simp only [hopen, Bool.not_true, Bool.false_eq_true, if_false, S_INDIRECT_BLOCKS,
    D_INDIRECT_BLOCKS, PTRS_PER_BLOCK]
  generalize s.itable f = ino
  generalize s.disk = d
  obtain ⟨z1, z2, -⟩ := read_direct_live bs d ino out
  generalize read_direct bs d ino out = r0 at z1 z2
  obtain ⟨s1, s2, s3⟩ := read_single_level bs d
  obtain ⟨d1, d2, d3⟩ := read_double_level bs d
  obtain ⟨t1, t2, t3⟩ := read_triple_level bs d
  -- the single-indirect pointer
  obtain ⟨k1, k2, k3⟩ := read_step (fun o p c => read_from_single_indirect_blocks bs d o p c)
    (bs / 4 * (bs / 4)) _ s2 s3 ino.sIndirect r0
  generalize (if is_not_null ino.sIndirect = true then
    (read_from_single_indirect_blocks bs d r0.1 r0.2 ino.sIndirect, r0.2 + bs / 4 * (bs / 4))
    else r0) = r1 at k1 k2 k3
  -- the double-indirect pointer
  obtain ⟨l1, l2, l3⟩ := read_step (fun o p c => read_from_double_indirect_blocks bs d o p c)
    (bs / 4 * (bs / 4 * (bs / 4))) _ d2 d3 ino.dIndirect r1
  generalize (if is_not_null ino.dIndirect = true then
    (read_from_double_indirect_blocks bs d r1.1 r1.2 ino.dIndirect,
      r1.2 + bs / 4 * (bs / 4 * (bs / 4))) else r1) = r2 at l1 l2 l3
  -- the triple-indirect pointer
  have m1 : ∀ q, q < r2.2 → (if is_not_null ino.tIndirect = true then
      read_from_triple_indirect_blocks bs d r2.1 r2.2 ino.tIndirect else r2.1) q = r2.1 q := by
    intro q hq
    split
    · apply t3
      intro e v _
      omega
    · rfl
  have m2 : ino.tIndirect ≠ NIL → ∀ e v,
      Under bs d (bs / 4 * (bs / 4 * (bs / 4)))
        (Under bs d (bs / 4 * (bs / 4)) (Under bs d (bs / 4) (InBlock bs d))) ino.tIndirect e v →
      (if is_not_null ino.tIndirect = true then
        read_from_triple_indirect_blocks bs d r2.1 r2.2 ino.tIndirect else r2.1) (r2.2 + e)
        = v := by
    intro hc e v hg
    rw [if_pos ((not_null_iff _).mpr hc)]
    exact t2 _ _ _ e v hg
  generalize (if is_not_null ino.tIndirect = true then
      read_from_triple_indirect_blocks bs d r2.1 r2.2 ino.tIndirect else r2.1) = r3 at m1 m2
  have hr1 : r0.2 ≤ r1.2 := by rw [k3]; omega
  have hr2 : r1.2 ≤ r2.2 := by rw [l3]; omega
  refine ⟨trivial, ?_, ?_, ?_, ?_⟩
  · intro i j hi hj
    have hlt : i * (bs / 4) + j < r0.2 := by
      rw [z1]
      have : (i + 1) * (bs / 4) ≤ (liveDirect ino).length * (bs / 4) :=
        Nat.mul_le_mul_right _ (by omega)
      have e2 : (i + 1) * (bs / 4) = i * (bs / 4) + bs / 4 := by ring
      omega
    rw [m1 _ (by omega), l1 _ (by omega), k1 _ hlt]
    exact z2 i j hi hj
  · intro hs i j hi hj
    have hU : Under bs d (bs / 4) (InBlock bs d) ino.sIndirect (i * (bs / 4) + j)
        (d ((liveSlots bs d ino.sIndirect).getD i NIL + 4 * j)) := ⟨i, j, hi, ⟨hj, rfl⟩, rfl⟩
    have hb := s1 _ _ _ hU
    have e3 : r1.2 = r0.2 + bs / 4 * (bs / 4) := by rw [k3, if_neg hs]
    rw [← z1, m1 _ (by omega), l1 _ (by omega)]
    exact k2 hs _ _ hU
  · intro hdn c i j hc hi hj
    have hU : Under bs d (bs / 4 * (bs / 4)) (Under bs d (bs / 4) (InBlock bs d)) ino.dIndirect
        (c * (bs / 4 * (bs / 4)) + (i * (bs / 4) + j))
        (d ((liveSlots bs d ((liveSlots bs d ino.dIndirect).getD c NIL)).getD i NIL + 4 * j)) :=
      ⟨c, i * (bs / 4) + j, hc, ⟨i, j, hi, ⟨hj, rfl⟩, rfl⟩, rfl⟩
    have hb := d1 _ _ _ hU
    have e3 : r2.2 = r1.2 + bs / 4 * (bs / 4 * (bs / 4)) := by rw [l3, if_neg hdn]
    rw [← z1, ← k3, m1 _ (by omega)]
    exact l2 hdn _ _ hU
  · intro htn a c i j ha hc hi hj
    have hU : Under bs d (bs / 4 * (bs / 4 * (bs / 4)))
        (Under bs d (bs / 4 * (bs / 4)) (Under bs d (bs / 4) (InBlock bs d))) ino.tIndirect
        (a * (bs / 4 * (bs / 4 * (bs / 4))) + (c * (bs / 4 * (bs / 4)) + (i * (bs / 4) + j)))
        (d ((liveSlots bs d ((liveSlots bs d
          ((liveSlots bs d ino.tIndirect).getD a NIL)).getD c NIL)).getD i NIL + 4 * j)) :=
      ⟨a, c * (bs / 4 * (bs / 4)) + (i * (bs / 4) + j), ha,
        ⟨c, i * (bs / 4) + j, hc, ⟨i, j, hi, ⟨hj, rfl⟩, rfl⟩, rfl⟩, rfl⟩
    rw [← z1, ← k3, ← l3]
    exact m2 htn _ _ hU

set_option maxRecDepth 1000000 in
/-- Instance of fs_read_from_file_layout: the file of eleven blocks of
fileState, inode 3, read into a zeroed buffer. -/
theorem fs_read_from_file_layout_witness :
    (fs_read_from_file 64 fileState 3 (fun _ => 0)).1 = true ∧
    (∀ i j, i < (liveDirect (fileState.itable 3)).length → j < 64 / 4 →
      (fs_read_from_file 64 fileState 3 (fun _ => 0)).2.1 (i * (64 / 4) + j)
        = fileState.disk ((liveDirect (fileState.itable 3)).getD i NIL + 4 * j)) :=
  ⟨(fs_read_from_file_layout 64 fileState 3 (fun _ => 0) (by decide) (by decide)).1,
    (fs_read_from_file_layout 64 fileState 3 (fun _ => 0) (by decide) (by decide)).2.1⟩

theorem single_loop_skip_head (bs f p dOff S : Nat) (ib : Nat → Nat) (s : FsState) (k : Nat)
    (is : List Nat)
    (h : ib k ≠ NIL → matchSlot bs (readBlock s.disk (ib k)) f = none) :
    remove_file_from_single_indirect_loop bs f p dOff S ib (k :: is) s
      = remove_file_from_single_indirect_loop bs f p dOff S ib is s := by
  rw [remove_file_from_single_indirect_loop]
  by_cases hn : is_not_null (ib k) = true
  · have hne : ib k ≠ NIL := by simpa [is_not_null] using hn
    simp only [hn, if_true, h hne]
  · simp only [hn]
    rfl

theorem single_loop_at (bs f p dOff S : Nat) (ib : Nat → Nat) (s : FsState) (i : Nat)
    (hskip : ∀ k, k < i → ib k ≠ NIL → matchSlot bs (readBlock s.disk (ib k)) f = none) :
    ∀ n lo, lo ≤ i → i < lo + n →
      remove_file_from_single_indirect_loop bs f p dOff S ib (List.range' lo n) s
        = remove_file_from_single_indirect_loop bs f p dOff S ib
            (i :: List.range' (i + 1) (lo + n - (i + 1))) s := by
  intro n
  induction n with
  | zero => intro lo h1 h2; omega
  | succ n ih =>
    intro lo h1 h2
    rw [List.range'_succ]
    by_cases hlo : lo = i
    · subst hlo
      have : lo + (n + 1) - (lo + 1) = n := by omega
      rw [this]
    · have hlt : lo < i := by omega
      have e : lo + (n + 1) - (i + 1) = lo + 1 + n - (i + 1) := by omega
      rw [e, ← ih (lo + 1) (by omega) (by omega)]
      exact single_loop_skip_head bs f p dOff S ib s lo _ (hskip lo hlt)

theorem single_loop_none (bs f p dOff S : Nat) (ib : Nat → Nat) (s : FsState) :
    ∀ is : List Nat,
      (∀ k ∈ is, ib k ≠ NIL → matchSlot bs (readBlock s.disk (ib k)) f = none) →
      remove_file_from_single_indirect_loop bs f p dOff S ib is s = (false, s) := by
  intro is
  induction is with
  | nil => intro _; rfl
  | cons k is ih =>
    intro h
    rw [single_loop_skip_head bs f p dOff S ib s k is (h k (List.mem_cons_self _ _))]
    exact ih (fun k' hk' => h k' (List.mem_cons_of_mem _ hk'))

/-- A single-indirect index block none of whose data blocks holds an entry for
f: remove_file_from_single_indirect returns False and changes nothing. -/
theorem remove_single_none (bs : Nat) (s : FsState) (f p dOff S : Nat)
    (h : ∀ b ∈ liveSlots bs s.disk S, matchSlot bs (readBlock s.disk b) f = none) :
    remove_file_from_single_indirect bs s f p dOff S = (false, s) := by
  unfold remove_file_from_single_indirect
  apply single_loop_none
  intro k hk hne
  exact h _ (mem_liveSlots bs s.disk S k hk hne)

theorem find_range_first (p : Nat → Bool) (c : Nat) (hp : p c = true)
    (hn : ∀ k, k < c → p k = false) :
    ∀ n lo, lo ≤ c → c < lo + n → (List.range' lo n).find? p = some c := by
  intro n
  induction n with
  | zero => intro lo h1 h2; omega
  | succ n ih =>
    intro lo h1 h2
    rw [List.range'_succ]
    by_cases hlo : lo = c
    · subst hlo
      rw [List.find?_cons_of_pos _ hp]
    · rw [List.find?_cons_of_neg _ (by rw [hn lo (by omega)]; simp)]
      exact ih (lo + 1) (by omega) (by omega)

theorem clearSlotOf_first (bs : Nat) (ib : Nat → Nat) (off c : Nat) (hc : c < bs / 4)
    (h1 : ib c = off) (h2 : ∀ k, k < c → ib k ≠ off) :
    clearSlotOf bs ib off = bufSet ib c NIL := by
  have hfind : (List.range (bs / 4)).find? (fun k => ib k == off) = some c := by
    rw [List.range_eq_range']
    exact find_range_first (fun k => ib k == off) c (by simpa using h1)
      (fun k hk => by simpa using h2 k hk) (bs / 4) 0 (by omega) (by omega)
  unfold clearSlotOf
  rw [hfind]

theorem allSlotsNil_iff (bs : Nat) (ib : Nat → Nat) :
    allSlotsNil bs ib = true ↔ ∀ k, k < bs / 4 → ib k = NIL := by
  simp [allSlotsNil, is_null]

theorem StateIs.start_s (s : FsState) (d : Nat → Nat) (ino : Inode) (p : Nat) :
    StateIs { s with inode := ino, disk := d } s d [] ino (s.itable p) p :=
  ⟨rfl, by simp, rfl, rfl, fun _ _ => rfl, rfl, rfl, rfl, rfl, rfl⟩

theorem StateIs.dealloc_s {r s : FsState} {d : Nat → Nat} {L : List Nat} {ino pers : Inode}
    {p : Nat} (h : StateIs r s d L ino pers p) (y : Nat) :
    StateIs (ssm_deallocate_sectors r y) s d (L ++ [y]) ino pers p := by
  obtain ⟨h1, h2, h3, h4, h5, h6, h7, h8, h9, h10⟩ := h
  refine ⟨h1, ?_, h3, h4, h5, h6, h7, h8, h9, h10⟩
  show r.ssmFreed ++ [y] = _
  rw [h2, List.append_assoc]

theorem StateIs.write_s {r s : FsState} {d : Nat → Nat} {L : List Nat} {ino pers : Inode}
    {p : Nat} (h : StateIs r s d L ino pers p) (bs x : Nat) (buf : Nat → Nat) :
    StateIs { r with disk := writeBlock bs r.disk x buf } s (writeBlock bs d x buf) L ino pers
      p := by
  obtain ⟨h1, h2, h3, h4, h5, h6, h7, h8, h9, h10⟩ := h
  refine ⟨?_, h2, h3, h4, h5, h6, h7, h8, h9, h10⟩
  show writeBlock bs r.disk x buf = _
  rw [h1]

theorem StateIs.persist {r s : FsState} {d : Nat → Nat} {L : List Nat} {ino pers : Inode}
    {p : Nat} (h : StateIs r s d L ino pers p) (ino' : Inode) :
    StateIs (inode_write { r with inode := ino' } p) s d L ino' ino' p := by
  obtain ⟨h1, h2, h3, h4, h5, h6, h7, h8, h9, h10⟩ := h
  refine ⟨h1, h2, rfl, ?_, ?_, h6, h7, h8, h9, h10⟩
  · show (if p = p then ino' else r.itable p) = ino'
    rw [if_pos rfl]
  · intro k hk
    show (if k = p then ino' else r.itable k) = _
    rw [if_neg hk]
    exact h5 k hk

theorem StateIs.persist_blocks {r s : FsState} {d : Nat → Nat} {L : List Nat}
    {ino pers : Inode} {p : Nat} (h : StateIs r s d L ino pers p) :
    StateIs
      (inode_write { r with inode := { r.inode with dataBlocks := decU32 r.inode.dataBlocks } } p)
      s d L { ino with dataBlocks := decU32 ino.dataBlocks }
      { ino with dataBlocks := decU32 ino.dataBlocks } p := by
  have h3 : r.inode = ino := h.2.2.1
  rw [h3]
  exact h.persist _

theorem StateIs.persist_single {r s : FsState} {d : Nat → Nat} {L : List Nat}
    {ino pers : Inode} {p : Nat} (h : StateIs r s d L ino pers p) :
    StateIs (inode_write { r with inode := { r.inode with sIndirect := NIL } } p)
      s d L { ino with sIndirect := NIL } { ino with sIndirect := NIL } p := by
  have h3 : r.inode = ino := h.2.2.1
  rw [h3]
  exact h.persist _

theorem StateIs.persist_double {r s : FsState} {d : Nat → Nat} {L : List Nat}
    {ino pers : Inode} {p : Nat} (h : StateIs r s d L ino pers p) :
    StateIs (inode_write { r with inode := { r.inode with dIndirect := NIL } } p)
      s d L { ino with dIndirect := NIL } { ino with dIndirect := NIL } p := by
  have h3 : r.inode = ino := h.2.2.1
  rw [h3]
  exact h.persist _

theorem StateIs.persist_triple {r s : FsState} {d : Nat → Nat} {L : List Nat}
    {ino pers : Inode} {p : Nat} (h : StateIs r s d L ino pers p) :
    StateIs (inode_write { r with inode := { r.inode with tIndirect := NIL } } p)
      s d L { ino with tIndirect := NIL } { ino with tIndirect := NIL } p := by
  have h3 : r.inode = ino := h.2.2.1
  rw [h3]
  exact h.persist _

theorem StateIs.write_parent {r s : FsState} {d : Nat → Nat} {L : List Nat} {ino pers : Inode}
    {p : Nat} (h : StateIs r s d L ino pers p) (bs x y : Nat) :
    StateIs { r with disk := writeBlock bs r.disk x (clearSlotOf bs (readBlock r.disk x) y) } s
      (writeBlock bs d x (clearSlotOf bs (readBlock d x) y)) L ino pers p := by
  have h1 : r.disk = d := h.1
  rw [h1]
  have := h.write_s bs x (clearSlotOf bs (readBlock d x) y)
  rw [h1] at this
  exact this

theorem single_found (bs : Nat) (s : FsState) (f p dOff S i j : Nat)
    (h : LastEntryAt bs s.disk f S i j) :
    ∃ ino, (remove_file_from_single_indirect bs s f p dOff S).1 = true ∧
    StateIs (remove_file_from_single_indirect bs s f p dOff S).2 s
      (if allSlotsNil bs (bufSet (readBlock s.disk S) i NIL) = true ∧ dOff ≠ NIL then
        writeBlock bs
          (writeBlock bs
            (writeBlock bs s.disk (s.disk (S + 4 * i))
              (clearEntry (readBlock s.disk (s.disk (S + 4 * i))) j))
            S (bufSet (readBlock s.disk S) i NIL))
          dOff (clearSlotOf bs
            (readBlock (writeBlock bs
              (writeBlock bs s.disk (s.disk (S + 4 * i))
                (clearEntry (readBlock s.disk (s.disk (S + 4 * i))) j))
              S (bufSet (readBlock s.disk S) i NIL)) dOff) S)
      else
        writeBlock bs
          (writeBlock bs s.disk (s.disk (S + 4 * i))
            (clearEntry (readBlock s.disk (s.disk (S + 4 * i))) j))
          S (bufSet (readBlock s.disk S) i NIL))
      ([s.disk (S + 4 * i) / bs] ++
        (if allSlotsNil bs (bufSet (readBlock s.disk S) i NIL) = true then [S / bs] else []))
      ino ino p ∧
    ino.sIndirect = (if allSlotsNil bs (bufSet (readBlock s.disk S) i NIL) = true ∧ dOff = NIL
      then NIL else s.inode.sIndirect) ∧
    ino.dIndirect = s.inode.dIndirect ∧ ino.tIndirect = s.inode.tIndirect := by
  obtain ⟨hi, hb, hskip, hm, he⟩ := h
  have hn : is_not_null (readBlock s.disk S i) = true := by
    simpa [is_not_null, readBlock] using hb
  unfold remove_file_from_single_indirect
  rw [List.range_eq_range', single_loop_at bs f p dOff S (readBlock s.disk S) s i hskip (bs / 4) 0
    (by omega) (by omega), remove_file_from_single_indirect_loop]
  have hm' : matchSlot bs (readBlock s.disk (readBlock s.disk S i)) f = some j := hm
  have he' : noEntryInUse bs (clearEntry (readBlock s.disk (readBlock s.disk S i)) j) = true := he
  simp only [hn, if_true, hm', he']
  by_cases hall : allSlotsNil bs (bufSet (readBlock s.disk S) i NIL) = true
  · simp only [hall, if_true, true_and]
    by_cases hd : dOff = NIL
    · subst hd
      have hd' : is_not_null NIL = false := by decide
      simp only [hd', Bool.false_eq_true, if_false, ne_eq, not_true_eq_false, if_true]
      refine ⟨?w1, trivial, ?hs1, ?_, ?_, ?_⟩
      case hs1 =>
        exact ((((StateIs.start_s s _ _ p).dealloc_s _).persist_blocks.write_s bs S _).dealloc_s
          _).persist_single
      all_goals rfl
    · have hd' : is_not_null dOff = true := by simpa [is_not_null] using hd
      simp only [hd', if_true, hd, ne_eq, not_false_eq_true, if_false]
      refine ⟨?w2, trivial, ?hs2, ?_, ?_, ?_⟩
      case hs2 =>
        exact ((((StateIs.start_s s _ _ p).dealloc_s _).persist_blocks.write_s bs S _).dealloc_s
          _).write_parent bs dOff S
      all_goals rfl
  · simp only [hall, Bool.false_eq_true, if_false, false_and]
    refine ⟨?w3, trivial, ?hs3, ?_, ?_, ?_⟩
    case hs3 =>
      exact ((StateIs.start_s s _ _ p).dealloc_s _).persist_blocks.write_s bs S _
    all_goals rfl

theorem DiskPatch.base (bs : Nat) (d : Nat → Nat) : DiskPatch bs d d [] :=
  ⟨fun q hq => (by cases hq), fun _ _ => rfl⟩

/-- A block away from the blocks of B is written. -/
theorem DiskPatch.write_p {bs : Nat} {d' d : Nat → Nat} {B : List (Nat × (Nat → Nat))}
    (h : DiskPatch bs d' d B) (x : Nat) (buf buf' : Nat → Nat) (hx : x % bs = 0)
    (hB : ∀ q ∈ B, q.1 % bs = 0 ∧ q.1 ≠ x) (hbuf : ∀ k, k < bs / 4 → buf k = buf' k) :
    DiskPatch bs (writeBlock bs d' x buf) d (B ++ [(x, buf')]) := by
  obtain ⟨h1, h2⟩ := h
  refine ⟨?_, ?_⟩
  · intro q hq k hk
    rcases List.mem_append.mp hq with hq | hq
    · have := aligned_disjoint bs q.1 x (hB q hq).1 hx (hB q hq).2
      rw [writeBlock_outside bs d' x buf _ (by omega)]
      exact h1 q hq k hk
    · rw [List.mem_singleton.mp hq]
      show writeBlock bs d' x buf (x + 4 * k) = buf' k
      rw [writeBlock_inside bs d' x buf k hk]
      exact hbuf k hk
  · intro a ha
    have hax := ha (x, buf') (List.mem_append_right _ (List.mem_singleton.mpr rfl))
    rw [writeBlock_outside bs d' x buf a hax]
    exact h2 a (fun q hq => ha q (List.mem_append_left _ hq))

/-- A block away from the blocks of B holds what it held. -/
theorem DiskPatch.read {bs : Nat} {d' d : Nat → Nat} {B : List (Nat × (Nat → Nat))}
    (h : DiskPatch bs d' d B) (x : Nat) (hx : x % bs = 0)
    (hB : ∀ q ∈ B, q.1 % bs = 0 ∧ q.1 ≠ x) (k : Nat) (hk : k < bs / 4) :
    d' (x + 4 * k) = d (x + 4 * k) := by
  apply h.2
  intro q hq
  have := aligned_disjoint bs q.1 x (hB q hq).1 hx (hB q hq).2
  omega

/-- A block away from the blocks of B that is not written may be listed with
the words it holds. -/
theorem DiskPatch.keep {bs : Nat} {d' d : Nat → Nat} {B : List (Nat × (Nat → Nat))}
    (h : DiskPatch bs d' d B) (x : Nat) (hx : x % bs = 0)
    (hB : ∀ q ∈ B, q.1 % bs = 0 ∧ q.1 ≠ x) :
    DiskPatch bs d' d (B ++ [(x, readBlock d x)]) := by
  refine ⟨?_, ?_⟩
  · intro q hq k hk
    rcases List.mem_append.mp hq with hq | hq
    · exact h.1 q hq k hk
    · rw [List.mem_singleton.mp hq]
      exact h.read x hx hB k hk
  · intro a ha
    exact h.2 a (fun q hq => ha q (List.mem_append_left _ hq))

theorem find_congr_mem {α : Type} (p q : α → Bool) :
    ∀ L : List α, (∀ x ∈ L, p x = q x) → L.find? p = L.find? q := by
  intro L
  induction L with
  | nil => intro _; rfl
  | cons a t ih =>
    intro h
    simp only [List.find?_cons, h a (List.mem_cons_self _ _)]
    rw [ih (fun x hx => h x (List.mem_cons_of_mem _ hx))]

theorem all_congr_mem {α : Type} (p q : α → Bool) :
    ∀ L : List α, (∀ x ∈ L, p x = q x) → L.all p = L.all q := by
  intro L
  induction L with
  | nil => intro _; rfl
  | cons a t ih =>
    intro h
    simp only [List.all_cons, h a (List.mem_cons_self _ _)]
    rw [ih (fun x hx => h x (List.mem_cons_of_mem _ hx))]

theorem clearSlotOf_congr (bs : Nat) (ib ib' : Nat → Nat) (off : Nat)
    (h : ∀ k, k < bs / 4 → ib k = ib' k) :
    ∀ k, k < bs / 4 → clearSlotOf bs ib off k = clearSlotOf bs ib' off k := by
  have hf : (List.range (bs / 4)).find? (fun k => ib k == off)
      = (List.range (bs / 4)).find? (fun k => ib' k == off) := by
    apply find_congr_mem
    intro k hk
    show (ib k == off) = (ib' k == off)
    rw [h k (List.mem_range.mp hk)]
  intro k hk
  unfold clearSlotOf
  rw [hf]
  cases (List.range (bs / 4)).find? (fun k => ib' k == off) with
  | none => exact h k hk
  | some c =>
    simp only [bufSet]
    split
    · rfl
    · exact h k hk

theorem allSlotsNil_congr (bs : Nat) (ib ib' : Nat → Nat)
    (h : ∀ k, k < bs / 4 → ib k = ib' k) : allSlotsNil bs ib = allSlotsNil bs ib' := by
  unfold allSlotsNil
  apply all_congr_mem
  intro k hk
  show is_null (ib k) = is_null (ib' k)
  rw [h k (List.mem_range.mp hk)]

theorem single_cascade (bs : Nat) (s : FsState) (f p dOff S i j c : Nat)
    (h : LastEntryAt bs s.disk f S i j)
    (hS : S % bs = 0) (hb : s.disk (S + 4 * i) % bs = 0) (hbS : s.disk (S + 4 * i) ≠ S)
    (hpar : dOff ≠ NIL → dOff % bs = 0 ∧ dOff ≠ s.disk (S + 4 * i) ∧ dOff ≠ S ∧ c < bs / 4 ∧
      s.disk (dOff + 4 * c) = S ∧ ∀ k, k < c → s.disk (dOff + 4 * k) ≠ S) :
    ∃ ino d1, (remove_file_from_single_indirect bs s f p dOff S).1 = true ∧
      StateIs (remove_file_from_single_indirect bs s f p dOff S).2 s d1
        ([s.disk (S + 4 * i) / bs] ++ (if onlySlot bs s.disk S i = true then [S / bs] else []))
        ino ino p ∧
      DiskPatch bs d1 s.disk
        ([(s.disk (S + 4 * i), clearEntry (readBlock s.disk (s.disk (S + 4 * i))) j),
          (S, bufSet (readBlock s.disk S) i NIL)] ++
          (if dOff = NIL then [] else
            [(dOff, if onlySlot bs s.disk S i = true then bufSet (readBlock s.disk dOff) c NIL
              else readBlock s.disk dOff)])) ∧
      ino.sIndirect = (if onlySlot bs s.disk S i = true ∧ dOff = NIL then NIL
        else s.inode.sIndirect) ∧
      ino.dIndirect = s.inode.dIndirect ∧ ino.tIndirect = s.inode.tIndirect := by
  obtain ⟨ino, h1, hst, f1, f2, f3⟩ := single_found bs s f p dOff S i j h
  have hB0 := ((DiskPatch.base bs s.disk).write_p (s.disk (S + 4 * i))
    (clearEntry (readBlock s.disk (s.disk (S + 4 * i))) j)
    (clearEntry (readBlock s.disk (s.disk (S + 4 * i))) j) hb (fun q hq => by cases hq)
    (fun _ _ => rfl)).write_p S (bufSet (readBlock s.disk S) i NIL)
    (bufSet (readBlock s.disk S) i NIL) hS
    (fun q hq => by
      rw [List.nil_append, List.mem_singleton] at hq
      rw [hq]
      exact ⟨hb, hbS⟩)
    (fun _ _ => rfl)
  rw [List.nil_append] at hB0
  have hB0' : ∀ q ∈ [(s.disk (S + 4 * i), clearEntry (readBlock s.disk (s.disk (S + 4 * i))) j)]
      ++ [(S, bufSet (readBlock s.disk S) i NIL)], dOff ≠ NIL → q.1 % bs = 0 ∧ q.1 ≠ dOff := by
    intro q hq hd
    obtain ⟨p1, p2, p3, -⟩ := hpar hd
    simp only [List.mem_append, List.mem_singleton] at hq
    rcases hq with hq | hq
    · rw [hq]; exact ⟨hb, fun e => p2 e.symm⟩
    · rw [hq]; exact ⟨hS, fun e => p3 e.symm⟩
  refine ⟨ino, _, h1, hst, ?_, f1, f2, f3⟩
  by_cases hd : dOff = NIL
  · simp only [hd, ne_eq, not_true_eq_false, and_false, if_false, if_true, List.append_nil]
    exact hB0
  · simp only [hd, if_false]
    obtain ⟨p1, p2, p3, p4, p5, p6⟩ := hpar hd
    by_cases hall : allSlotsNil bs (bufSet (readBlock s.disk S) i NIL) = true
    · have hall' : onlySlot bs s.disk S i = true := hall
      simp only [hall, hall', ne_eq, hd, not_false_eq_true, and_self, if_true]
      apply hB0.write_p dOff _ _ p1 (fun q hq => hB0' q hq hd)
      intro k hk
      refine (clearSlotOf_congr bs _ (readBlock s.disk dOff) S
        (fun k' hk' => hB0.read dOff p1 (fun q hq => hB0' q hq hd) k' hk') k hk).trans ?_
      rw [clearSlotOf_first bs (readBlock s.disk dOff) S c p4 p5 p6]
    · have hall' : ¬ onlySlot bs s.disk S i = true := hall
      simp only [hall, hall', false_and, if_false, Bool.false_eq_true]
      exact hB0.keep dOff p1 (fun q hq => hB0' q hq hd)

theorem double_loop_skip_head (bs f p tOff D : Nat) (ib : Nat → Nat) (s : FsState) (k : Nat)
    (is : List Nat)
    (h : ib k ≠ NIL → remove_file_from_single_indirect bs s f p D (ib k) = (false, s)) :
    remove_file_from_double_indirect_loop bs f p tOff D ib (k :: is) s
      = remove_file_from_double_indirect_loop bs f p tOff D ib is s := by
  rw [remove_file_from_double_indirect_loop]
  by_cases hn : is_not_null (ib k) = true
  · have hne : ib k ≠ NIL := by simpa [is_not_null] using hn
    simp only [hn, if_true, h hne, Bool.false_eq_true, if_false]
  · simp only [hn]
    rfl

theorem double_loop_at (bs f p tOff D : Nat) (ib : Nat → Nat) (s : FsState) (c : Nat)
    (hskip : ∀ k, k < c → ib k ≠ NIL →
      remove_file_from_single_indirect bs s f p D (ib k) = (false, s)) :
    ∀ n lo, lo ≤ c → c < lo + n →
      remove_file_from_double_indirect_loop bs f p tOff D ib (List.range' lo n) s
        = remove_file_from_double_indirect_loop bs f p tOff D ib
            (c :: List.range' (c + 1) (lo + n - (c + 1))) s := by
  intro n
  induction n with
  | zero => intro lo h1 h2; omega
  | succ n ih =>
    intro lo h1 h2
    rw [List.range'_succ]
    by_cases hlo : lo = c
    · subst hlo
      have : lo + (n + 1) - (lo + 1) = n := by omega
      rw [this]
    · have hlt : lo < c := by omega
      have e : lo + (n + 1) - (c + 1) = lo + 1 + n - (c + 1) := by omega
      rw [e, ← ih (lo + 1) (by omega) (by omega)]
      exact double_loop_skip_head bs f p tOff D ib s lo _ (hskip lo hlt)

theorem double_loop_none (bs f p tOff D : Nat) (ib : Nat → Nat) (s : FsState) :
    ∀ is : List Nat,
      (∀ k ∈ is, ib k ≠ NIL → remove_file_from_single_indirect bs s f p D (ib k) = (false, s)) →
      remove_file_from_double_indirect_loop bs f p tOff D ib is s = (false, s) := by
  intro is
  induction is with
  | nil => intro _; rfl
  | cons k is ih =>
    intro h
    rw [double_loop_skip_head bs f p tOff D ib s k is (h k (List.mem_cons_self _ _))]
    exact ih (fun k' hk' => h k' (List.mem_cons_of_mem _ hk'))

/-- A double-indirect index block none of whose data blocks holds an entry for
f: remove_file_from_double_indirect returns False and changes nothing. -/
theorem remove_double_none (bs : Nat) (s : FsState) (f p tOff D : Nat)
    (h : ∀ b ∈ doubleData bs s.disk D, matchSlot bs (readBlock s.disk b) f = none) :
    remove_file_from_double_indirect bs s f p tOff D = (false, s) := by
  unfold remove_file_from_double_indirect
  apply double_loop_none
  intro k hk hne
  apply remove_single_none
  intro b hb
  apply h
  unfold doubleData singleData
  rw [List.mem_flatMap]
  exact ⟨_, mem_liveSlots bs s.disk D k hk hne, hb⟩

theorem StateIs.freed_eq {r s : FsState} {d : Nat → Nat} {L L' : List Nat} {ino pers : Inode}
    {p : Nat} (h : StateIs r s d L ino pers p) (hL : L = L') : StateIs r s d L' ino pers p := by
  subst hL
  exact h

theorem lastEntry_live (bs : Nat) (d : Nat → Nat) (f S i j : Nat)
    (h : LastEntryAt bs d f S i j) :
    d (S + 4 * i) ∈ liveSlots bs d S ∧ matchSlot bs (readBlock d (d (S + 4 * i))) f = some j :=
  ⟨mem_liveSlots bs d S i (List.mem_range.mpr h.1) h.2.1, h.2.2.2.1⟩

theorem double_cascade (bs : Nat) (s : FsState) (f p tOff D c i j a : Nat)
    (h : LastEntryAt2 bs s.disk f D c i j)
    (hD : D ≠ NIL ∧ D % bs = 0) (hS : s.disk (D + 4 * c) % bs = 0)
    (hb : s.disk (s.disk (D + 4 * c) + 4 * i) % bs = 0)
    (hne : s.disk (s.disk (D + 4 * c) + 4 * i) ≠ s.disk (D + 4 * c) ∧
      D ≠ s.disk (s.disk (D + 4 * c) + 4 * i) ∧ D ≠ s.disk (D + 4 * c))
    (hpar : tOff ≠ NIL → tOff % bs = 0 ∧ tOff ≠ s.disk (s.disk (D + 4 * c) + 4 * i) ∧
      tOff ≠ s.disk (D + 4 * c) ∧ tOff ≠ D ∧ a < bs / 4 ∧
      s.disk (tOff + 4 * a) = D ∧ ∀ k, k < a → s.disk (tOff + 4 * k) ≠ D) :
    ∃ ino d2, (remove_file_from_double_indirect bs s f p tOff D).1 = true ∧
      StateIs (remove_file_from_double_indirect bs s f p tOff D).2 s d2
        ([s.disk (s.disk (D + 4 * c) + 4 * i) / bs] ++
          (if onlySlot bs s.disk (s.disk (D + 4 * c)) i = true then [s.disk (D + 4 * c) / bs]
            else []) ++
          (if (onlySlot bs s.disk (s.disk (D + 4 * c)) i && onlySlot bs s.disk D c) = true
            then [D / bs] else []))
        ino ino p ∧
      DiskPatch bs d2 s.disk
        ([(s.disk (s.disk (D + 4 * c) + 4 * i),
            clearEntry (readBlock s.disk (s.disk (s.disk (D + 4 * c) + 4 * i))) j),
          (s.disk (D + 4 * c), bufSet (readBlock s.disk (s.disk (D + 4 * c))) i NIL)] ++
          [(D, if onlySlot bs s.disk (s.disk (D + 4 * c)) i = true
            then bufSet (readBlock s.disk D) c NIL else readBlock s.disk D)] ++
          (if tOff = NIL then [] else
            [(tOff,
              if (onlySlot bs s.disk (s.disk (D + 4 * c)) i && onlySlot bs s.disk D c) = true
              then bufSet (readBlock s.disk tOff) a NIL else readBlock s.disk tOff)])) ∧
      ino.sIndirect = s.inode.sIndirect ∧
      ino.dIndirect = (if (onlySlot bs s.disk (s.disk (D + 4 * c)) i && onlySlot bs s.disk D c)
        = true ∧ tOff = NIL then NIL else s.inode.dIndirect) ∧
      ino.tIndirect = s.inode.tIndirect := by
  obtain ⟨hc, hSn, hskip, hL⟩ := h
  obtain ⟨hDn, hDa⟩ := hD
  obtain ⟨n1, n2, n3⟩ := hne
  -- slot c is the first slot of D that holds the single-indirect block
  have hfirst : ∀ k, k < c → s.disk (D + 4 * k) ≠ s.disk (D + 4 * c) := by
    intro k hk e
    have h1 := hskip k hk (by rw [e]; exact hSn)
    rw [e] at h1
    obtain ⟨m1, m2⟩ := lastEntry_live bs s.disk f _ i j hL
    rw [h1 _ m1] at m2
    cases m2
  obtain ⟨ino1, d1, r1, hst1, hB1, g1, g2, g3⟩ := single_cascade bs s f p D
    (s.disk (D + 4 * c)) i j c hL hS hb n1 (fun _ => ⟨hDa, n2, n3, hc, rfl, hfirst⟩)
  rw [if_neg hDn] at hB1
  rw [if_neg (fun e => hDn e.2)] at g1
  have hn : is_not_null (s.disk (D + 4 * c)) = true := by
    simpa [is_not_null] using hSn
  have hrd : readBlock s.disk D c = s.disk (D + 4 * c) := rfl
  unfold remove_file_from_double_indirect
  rw [List.range_eq_range', double_loop_at bs f p tOff D (readBlock s.disk D) s c
    (fun k hk hne => remove_single_none bs s f p D _ (hskip k hk hne)) (bs / 4) 0
    (by omega) (by omega), remove_file_from_double_indirect_loop, hrd]
  simp only [hn, if_true]
  generalize remove_file_from_single_indirect bs s f p D (s.disk (D + 4 * c)) = r
    at r1 hst1
  simp only [r1, if_true]
  have hdisk : r.2.disk = d1 := hst1.1
  rw [hdisk]
  -- the words of D after the single-indirect level
  have hmemD : (D, if onlySlot bs s.disk (s.disk (D + 4 * c)) i = true
      then bufSet (readBlock s.disk D) c NIL else readBlock s.disk D) ∈
      [(s.disk (s.disk (D + 4 * c) + 4 * i),
          clearEntry (readBlock s.disk (s.disk (s.disk (D + 4 * c) + 4 * i))) j),
        (s.disk (D + 4 * c), bufSet (readBlock s.disk (s.disk (D + 4 * c))) i NIL)] ++
        [(D, if onlySlot bs s.disk (s.disk (D + 4 * c)) i = true
          then bufSet (readBlock s.disk D) c NIL else readBlock s.disk D)] :=
    List.mem_append_right _ (List.mem_singleton.mpr rfl)
  have hall : allSlotsNil bs (readBlock d1 D)
      = (onlySlot bs s.disk (s.disk (D + 4 * c)) i && onlySlot bs s.disk D c) := by
    rw [allSlotsNil_congr bs (readBlock d1 D) _ (fun k hk => hB1.1 _ hmemD k hk)]
    by_cases he : onlySlot bs s.disk (s.disk (D + 4 * c)) i = true
    · simp only [he, if_true, Bool.true_and]
      rfl
    · simp only [he, if_false, Bool.false_eq_true]
      rw [Bool.false_and]
      apply Bool.eq_false_iff.mpr
      intro hnil
      exact hSn ((allSlotsNil_iff bs _).mp hnil c hc)
  rw [hall]
  have hBal : ∀ q ∈ [(s.disk (s.disk (D + 4 * c) + 4 * i),
          clearEntry (readBlock s.disk (s.disk (s.disk (D + 4 * c) + 4 * i))) j),
        (s.disk (D + 4 * c), bufSet (readBlock s.disk (s.disk (D + 4 * c))) i NIL)] ++
        [(D, if onlySlot bs s.disk (s.disk (D + 4 * c)) i = true
          then bufSet (readBlock s.disk D) c NIL else readBlock s.disk D)],
      tOff ≠ NIL → q.1 % bs = 0 ∧ q.1 ≠ tOff := by
    intro q hq ht
    obtain ⟨p1, p2, p3, p4, -⟩ := hpar ht
    simp only [List.mem_append, List.mem_cons, List.mem_singleton, List.not_mem_nil,
      or_false] at hq
    rcases hq with (hq | hq) | hq
    · rw [hq]; exact ⟨hb, fun e => p2 e.symm⟩
    · rw [hq]; exact ⟨hS, fun e => p3 e.symm⟩
    · rw [hq]; exact ⟨hDa, fun e => p4 e.symm⟩
  have hkeep : ∀ ino dd,
      (onlySlot bs s.disk (s.disk (D + 4 * c)) i && onlySlot bs s.disk D c) = false →
      ino = ino1 → dd = d1 →
      DiskPatch bs dd s.disk
        ([(s.disk (s.disk (D + 4 * c) + 4 * i),
            clearEntry (readBlock s.disk (s.disk (s.disk (D + 4 * c) + 4 * i))) j),
          (s.disk (D + 4 * c), bufSet (readBlock s.disk (s.disk (D + 4 * c))) i NIL)] ++
          [(D, if onlySlot bs s.disk (s.disk (D + 4 * c)) i = true
            then bufSet (readBlock s.disk D) c NIL else readBlock s.disk D)] ++
          (if tOff = NIL then [] else [(tOff, readBlock s.disk tOff)])) := by
    intro ino dd _ _ hdd
    subst hdd
    by_cases ht : tOff = NIL
    · simp only [ht, if_true, List.append_nil]
      exact hB1
    · simp only [ht, if_false]
      obtain ⟨p1, -⟩ := hpar ht
      exact hB1.keep tOff p1 (fun q hq => hBal q hq ht)
  cases he1 : onlySlot bs s.disk (s.disk (D + 4 * c)) i with
  | false =>
    have hk := hkeep ino1 d1 (by rw [he1]; rfl) rfl rfl
    rw [he1] at hst1 hk
    simp only [Bool.false_and, Bool.false_eq_true, if_false, false_and, List.append_nil] at hst1 hk ⊢
    exact ⟨ino1, d1, trivial, hst1, hk, g1, g2, g3⟩
  | true =>
    cases he2 : onlySlot bs s.disk D c with
    | false =>
      have hk := hkeep ino1 d1 (by rw [he1, he2]; rfl) rfl rfl
      rw [he1] at hst1 hk
      simp only [Bool.and_false, Bool.false_eq_true, if_false, false_and, List.append_nil,
        if_true] at hst1 hk ⊢
      exact ⟨ino1, d1, trivial, hst1, hk, g1, g2, g3⟩
    | true =>
      rw [he1] at hst1 hB1
      simp only [if_true] at hst1 hB1
      simp only [Bool.and_self, if_true, true_and]
      by_cases ht : tOff = NIL
      · subst ht
        have ht' : is_not_null NIL = false := by decide
        simp only [ht', Bool.false_eq_true, if_false, if_true, List.append_nil]
        exact ⟨{ ino1 with dIndirect := NIL }, d1, trivial,
          (hst1.dealloc_s (D / bs)).persist_double, hB1, g1, rfl, g3⟩
      · have ht' : is_not_null tOff = true := by simpa [is_not_null] using ht
        obtain ⟨p1, p2, p3, p4, p5, p6, p7⟩ := hpar ht
        simp only [ht', if_true, ht, if_false]
        have hBal' : ∀ q ∈ [(s.disk (s.disk (D + 4 * c) + 4 * i),
              clearEntry (readBlock s.disk (s.disk (s.disk (D + 4 * c) + 4 * i))) j),
            (s.disk (D + 4 * c), bufSet (readBlock s.disk (s.disk (D + 4 * c))) i NIL)] ++
            [(D, bufSet (readBlock s.disk D) c NIL)], q.1 % bs = 0 ∧ q.1 ≠ tOff := by
          intro q hq
          simp only [List.mem_append, List.mem_cons, List.mem_singleton, List.not_mem_nil,
            or_false] at hq
          rcases hq with (hq | hq) | hq
          · rw [hq]; exact ⟨hb, fun e => p2 e.symm⟩
          · rw [hq]; exact ⟨hS, fun e => p3 e.symm⟩
          · rw [hq]; exact ⟨hDa, fun e => p4 e.symm⟩
        refine ⟨ino1, _, trivial, (hst1.dealloc_s (D / bs)).write_parent bs tOff D, ?_, g1, g2,
          g3⟩
        apply hB1.write_p tOff _ _ p1 hBal'
        intro k hk
        refine (clearSlotOf_congr bs _ (readBlock s.disk tOff) D
          (fun k' hk' => hB1.read tOff p1 hBal' k' hk') k hk).trans ?_
        rw [clearSlotOf_first bs (readBlock s.disk tOff) D a p5 p6 p7]

theorem triple_loop_skip_head (bs f p T : Nat) (ib : Nat → Nat) (s : FsState) (k : Nat)
    (is : List Nat)
    (h : ib k ≠ NIL → remove_file_from_double_indirect bs s f p T (ib k) = (false, s)) :
    remove_file_from_triple_indirect_loop bs f p T ib (k :: is) s
      = remove_file_from_triple_indirect_loop bs f p T ib is s := by
  rw [remove_file_from_triple_indirect_loop]
  by_cases hn : is_not_null (ib k) = true
  · have hne : ib k ≠ NIL := by simpa [is_not_null] using hn
    simp only [hn, if_true, h hne, Bool.false_eq_true, if_false]
  · simp only [hn]
    rfl

theorem triple_loop_at (bs f p T : Nat) (ib : Nat → Nat) (s : FsState) (a : Nat)
    (hskip : ∀ k, k < a → ib k ≠ NIL →
      remove_file_from_double_indirect bs s f p T (ib k) = (false, s)) :
    ∀ n lo, lo ≤ a → a < lo + n →
      remove_file_from_triple_indirect_loop bs f p T ib (List.range' lo n) s
        = remove_file_from_triple_indirect_loop bs f p T ib
            (a :: List.range' (a + 1) (lo + n - (a + 1))) s := by
  intro n
  induction n with
  | zero => intro lo h1 h2; omega
  | succ n ih =>
    intro lo h1 h2
    rw [List.range'_succ]
    by_cases hlo : lo = a
    · subst hlo
      have : lo + (n + 1) - (lo + 1) = n := by omega
      rw [this]
    · have hlt : lo < a := by omega
      have e : lo + (n + 1) - (a + 1) = lo + 1 + n - (a + 1) := by omega
      rw [e, ← ih (lo + 1) (by omega) (by omega)]
      exact triple_loop_skip_head bs f p T ib s lo _ (hskip lo hlt)

theorem lastEntry2_live (bs : Nat) (d : Nat → Nat) (f D c i j : Nat)
    (h : LastEntryAt2 bs d f D c i j) :
    d (d (D + 4 * c) + 4 * i) ∈ doubleData bs d D ∧
    matchSlot bs (readBlock d (d (d (D + 4 * c) + 4 * i))) f = some j := by
  obtain ⟨hc, hSn, -, hL⟩ := h
  obtain ⟨m1, m2⟩ := lastEntry_live bs d f _ i j hL
  refine ⟨?_, m2⟩
  unfold doubleData singleData
  rw [List.mem_flatMap]
  exact ⟨_, mem_liveSlots bs d D c (List.mem_range.mpr hc) hSn, m1⟩

theorem triple_cascade (bs : Nat) (s : FsState) (f p T a c i j : Nat)
    (h : LastEntryAt3 bs s.disk f T a c i j)
    (hT : T ≠ NIL ∧ T % bs = 0) (hD : s.disk (T + 4 * a) % bs = 0)
    (hS : s.disk (s.disk (T + 4 * a) + 4 * c) % bs = 0)
    (hb : s.disk (s.disk (s.disk (T + 4 * a) + 4 * c) + 4 * i) % bs = 0)
    (hne : s.disk (s.disk (s.disk (T + 4 * a) + 4 * c) + 4 * i)
        ≠ s.disk (s.disk (T + 4 * a) + 4 * c) ∧
      s.disk (T + 4 * a) ≠ s.disk (s.disk (s.disk (T + 4 * a) + 4 * c) + 4 * i) ∧
      s.disk (T + 4 * a) ≠ s.disk (s.disk (T + 4 * a) + 4 * c) ∧
      T ≠ s.disk (s.disk (s.disk (T + 4 * a) + 4 * c) + 4 * i) ∧
      T ≠ s.disk (s.disk (T + 4 * a) + 4 * c) ∧ T ≠ s.disk (T + 4 * a)) :
    ∃ ino d3, (remove_file_from_triple_indirect bs s f p T).1 = true ∧
      StateIs (remove_file_from_triple_indirect bs s f p T).2 s d3
        ([s.disk (s.disk (s.disk (T + 4 * a) + 4 * c) + 4 * i) / bs] ++
          (if onlySlot bs s.disk (s.disk (s.disk (T + 4 * a) + 4 * c)) i = true
            then [s.disk (s.disk (T + 4 * a) + 4 * c) / bs] else []) ++
          (if (onlySlot bs s.disk (s.disk (s.disk (T + 4 * a) + 4 * c)) i &&
              onlySlot bs s.disk (s.disk (T + 4 * a)) c) = true
            then [s.disk (T + 4 * a) / bs] else []) ++
          (if ((onlySlot bs s.disk (s.disk (s.disk (T + 4 * a) + 4 * c)) i &&
              onlySlot bs s.disk (s.disk (T + 4 * a)) c) && onlySlot bs s.disk T a) = true
            then [T / bs] else []))
        ino ino p ∧
      DiskPatch bs d3 s.disk
        ([(s.disk (s.disk (s.disk (T + 4 * a) + 4 * c) + 4 * i),
            clearEntry (readBlock s.disk (s.disk (s.disk (s.disk (T + 4 * a) + 4 * c) + 4 * i)))
              j),
          (s.disk (s.disk (T + 4 * a) + 4 * c),
            bufSet (readBlock s.disk (s.disk (s.disk (T + 4 * a) + 4 * c))) i NIL)] ++
          [(s.disk (T + 4 * a),
            if onlySlot bs s.disk (s.disk (s.disk (T + 4 * a) + 4 * c)) i = true
            then bufSet (readBlock s.disk (s.disk (T + 4 * a))) c NIL
            else readBlock s.disk (s.disk (T + 4 * a)))] ++
          [(T,
            if (onlySlot bs s.disk (s.disk (s.disk (T + 4 * a) + 4 * c)) i &&
              onlySlot bs s.disk (s.disk (T + 4 * a)) c) = true
            then bufSet (readBlock s.disk T) a NIL else readBlock s.disk T)]) ∧
      ino.sIndirect = s.inode.sIndirect ∧ ino.dIndirect = s.inode.dIndirect ∧
      ino.tIndirect = (if ((onlySlot bs s.disk (s.disk (s.disk (T + 4 * a) + 4 * c)) i &&
          onlySlot bs s.disk (s.disk (T + 4 * a)) c) && onlySlot bs s.disk T a) = true
        then NIL else s.inode.tIndirect) := by
  obtain ⟨ha, hDn, hskip, hL⟩ := h
  obtain ⟨hTn, hTa⟩ := hT
  obtain ⟨n1, n2, n3, n4, n5, n6⟩ := hne
  have hfirst : ∀ k, k < a → s.disk (T + 4 * k) ≠ s.disk (T + 4 * a) := by
    intro k hk e
    have h1 := hskip k hk (by rw [e]; exact hDn)
    rw [e] at h1
    obtain ⟨m1, m2⟩ := lastEntry2_live bs s.disk f _ c i j hL
    rw [h1 _ m1] at m2
    cases m2
  obtain ⟨ino2, d2, r1, hst2, hB2, g1, g2, g3⟩ := double_cascade bs s f p T
    (s.disk (T + 4 * a)) c i j a hL ⟨hDn, hD⟩ hS hb ⟨n1, n2, n3⟩
    (fun _ => ⟨hTa, n4, n5, n6, ha, rfl, hfirst⟩)
  rw [if_neg hTn] at hB2
  rw [if_neg (fun e => hTn e.2)] at g2
  have hn : is_not_null (s.disk (T + 4 * a)) = true := by
    simpa [is_not_null] using hDn
  have hrd : readBlock s.disk T a = s.disk (T + 4 * a) := rfl
  unfold remove_file_from_triple_indirect
  rw [List.range_eq_range', triple_loop_at bs f p T (readBlock s.disk T) s a
    (fun k hk hne => remove_double_none bs s f p T _ (hskip k hk hne)) (bs / 4) 0
    (by omega) (by omega), remove_file_from_triple_indirect_loop, hrd]
  simp only [hn, if_true]
  generalize remove_file_from_double_indirect bs s f p T (s.disk (T + 4 * a)) = r
    at r1 hst2
  simp only [r1, if_true]
  have hdisk : r.2.disk = d2 := hst2.1
  rw [hdisk]
  have hall : allSlotsNil bs (readBlock d2 T)
      = ((onlySlot bs s.disk (s.disk (s.disk (T + 4 * a) + 4 * c)) i &&
          onlySlot bs s.disk (s.disk (T + 4 * a)) c) && onlySlot bs s.disk T a) := by
    rw [allSlotsNil_congr bs (readBlock d2 T) _
      (fun k hk => hB2.1 _ (List.mem_append_right _ (List.mem_singleton.mpr rfl)) k hk)]
    cases he : (onlySlot bs s.disk (s.disk (s.disk (T + 4 * a) + 4 * c)) i &&
          onlySlot bs s.disk (s.disk (T + 4 * a)) c) with
    | true =>
      simp only [if_true, Bool.true_and]
      rfl
    | false =>
      simp only [Bool.false_eq_true, if_false, Bool.false_and]
      apply Bool.eq_false_iff.mpr
      intro hnil
      exact hDn ((allSlotsNil_iff bs _).mp hnil a ha)
  rw [hall]
  cases he : ((onlySlot bs s.disk (s.disk (s.disk (T + 4 * a) + 4 * c)) i &&
          onlySlot bs s.disk (s.disk (T + 4 * a)) c) && onlySlot bs s.disk T a) with
  | false =>
    simp only [Bool.false_eq_true, if_false, List.append_nil]
    exact ⟨ino2, d2, trivial, hst2, hB2, g1, g2, g3⟩
  | true =>
    simp only [if_true]
    exact ⟨{ ino2 with tIndirect := NIL }, d2, trivial,
      (hst2.dealloc_s (T / bs)).persist_triple, hB2, g1, g2, rfl⟩

theorem direct_loop_none (bs f p : Nat) (s : FsState) :
    ∀ is : List Nat,
      (∀ k ∈ is, s.inode.directPtr.getD k NIL ≠ NIL →
        matchSlot bs (readBlock s.disk (s.inode.directPtr.getD k NIL)) f = none) →
      remove_from_dir_direct_loop bs f p is s = none := by
  intro is
  induction is with
  | nil => intro _; rfl
  | cons k is ih =>
    intro h
    rw [remove_from_dir_direct_loop]
    by_cases hn : is_not_null (s.inode.directPtr.getD k NIL) = true
    · have hne : s.inode.directPtr.getD k NIL ≠ NIL := by simpa [is_not_null] using hn
      simp only [hn, if_true, h k (List.mem_cons_self _ _) hne]
      exact ih (fun k' hk' => h k' (List.mem_cons_of_mem _ hk'))
    · simp only [hn]
      exact ih (fun k' hk' => h k' (List.mem_cons_of_mem _ hk'))

/-- fs_remove_file_from_dir on a directory none of whose direct blocks holds an
entry for f goes on to the index pointers. -/
theorem remove_from_dir_indirect (bs : Nat) (s : FsState) (f p : Nat) (hp : p ≠ NIL)
    (hty : (s.itable p).fileType = 2)
    (hdir : ∀ b ∈ liveDirect (s.itable p), matchSlot bs (readBlock s.disk b) f = none) :
    fs_remove_file_from_dir bs s f p =
      (if (remove_file_from_dir_indirect_pointers bs { s with mapId := p, inode := s.itable p }
          f p).1 = true then
        (true, (remove_file_from_dir_indirect_pointers bs
          { s with mapId := p, inode := s.itable p } f p).2)
      else (false, (remove_file_from_dir_indirect_pointers bs
          { s with mapId := p, inode := s.itable p } f p).2)) := by
  unfold fs_remove_file_from_dir
  rw [open_inode_eq s p hp (by rw [hty]; decide)]
  have hnone : remove_from_dir_direct_loop bs f p (List.range INODE_DIRECT_PTRS)
      { s with mapId := p, inode := s.itable p } = none := by
    apply direct_loop_none
    intro k hk hne
    apply hdir
    simp only [liveDirect, List.mem_filter, List.mem_map]
    exact ⟨⟨k, hk, rfl⟩, by simpa [is_not_null] using hne⟩
  simp only [Bool.not_true, Bool.false_eq_true, if_false, hty, if_true, hnone]

theorem released_of (bs : Nat) (r s : FsState) (m : Nat) (x : Inode) (d : Nat → Nat)
    (L : List Nat) (B : List (Nat × (Nat → Nat))) (ino : Inode) (p : Nat)
    (h : StateIs r { s with mapId := m, inode := x } d L ino ino p)
    (hB : DiskPatch bs d s.disk B) : Released bs r s L B p ∧ r.inode = ino := by
  obtain ⟨h1, h2, h3, h4, h5, h6, h7, h8, -, -⟩ := h
  refine ⟨⟨h2, ?_, ?_, h5, h6, h7, h8⟩, h3⟩
  · rw [h1]; exact hB
  · rw [h4, h3]

theorem apart_two (bs x y : Nat) (h : Apart bs [x, y]) :
    x % bs = 0 ∧ y % bs = 0 ∧ x ≠ y ∧ y ≠ NIL := by
  obtain ⟨h1, h2⟩ := h
  simp only [List.nodup_cons, List.mem_cons, List.mem_singleton, List.not_mem_nil,
    or_false, not_false_eq_true, List.nodup_nil, and_true] at h2
  simp only [List.mem_cons, List.mem_singleton, List.not_mem_nil, or_false,
    forall_eq_or_imp, forall_eq] at h1
  exact ⟨h1.1.2, h1.2.2, h2, h1.2.1⟩

theorem apart_three (bs x y z : Nat) (h : Apart bs [x, y, z]) :
    x % bs = 0 ∧ y % bs = 0 ∧ z % bs = 0 ∧ x ≠ y ∧ z ≠ x ∧ z ≠ y ∧ z ≠ NIL := by
  obtain ⟨h1, h2⟩ := h
  simp only [List.nodup_cons, List.mem_cons, List.mem_singleton, List.not_mem_nil,
    or_false, not_false_eq_true, List.nodup_nil, and_true, not_or] at h2
  simp only [List.mem_cons, List.mem_singleton, List.not_mem_nil, or_false,
    forall_eq_or_imp, forall_eq] at h1
  exact ⟨h1.1.2, h1.2.1.2, h1.2.2.2, h2.1.1, fun e => h2.1.2 e.symm, fun e => h2.2 e.symm,
    h1.2.2.1⟩

theorem apart_four (bs x y z w : Nat) (h : Apart bs [x, y, z, w]) :
    x % bs = 0 ∧ y % bs = 0 ∧ z % bs = 0 ∧ w % bs = 0 ∧ x ≠ y ∧ z ≠ x ∧ z ≠ y ∧
    w ≠ x ∧ w ≠ y ∧ w ≠ z ∧ w ≠ NIL := by
  obtain ⟨h1, h2⟩ := h
  simp only [List.nodup_cons, List.mem_cons, List.mem_singleton, List.not_mem_nil,
    or_false, not_false_eq_true, List.nodup_nil, and_true, not_or] at h2
  simp only [List.mem_cons, List.mem_singleton, List.not_mem_nil, or_false,
    forall_eq_or_imp, forall_eq] at h1
  exact ⟨h1.1.2, h1.2.1.2, h1.2.2.1.2, h1.2.2.2.2, h2.1.1, fun e => h2.1.2.1 e.symm,
    fun e => h2.2.1.1 e.symm, fun e => h2.1.2.2 e.symm, fun e => h2.2.1.2 e.symm,
    fun e => h2.2.2 e.symm, h1.2.2.2.1⟩

theorem indirect_single (bs : Nat) (s : FsState) (f p : Nat) (hn : s.inode.sIndirect ≠ NIL)
    (h : (remove_file_from_single_indirect bs s f p NIL s.inode.sIndirect).1 = true) :
    remove_file_from_dir_indirect_pointers bs s f p
      = (true, (remove_file_from_single_indirect bs s f p NIL s.inode.sIndirect).2) := by
  unfold remove_file_from_dir_indirect_pointers
  have hn' : is_not_null s.inode.sIndirect = true := (not_null_iff _).mpr hn
  simp only [hn', if_true, h]

theorem indirect_first_none (bs : Nat) (s : FsState) (f p : Nat)
    (hs : s.inode.sIndirect ≠ NIL →
      ∀ b ∈ singleData bs s.disk s.inode.sIndirect, matchSlot bs (readBlock s.disk b) f = none) :
    (if is_not_null s.inode.sIndirect = true then
      remove_file_from_single_indirect bs s f p NIL s.inode.sIndirect else (false, s))
      = (false, s) := by
  by_cases hn : s.inode.sIndirect = NIL
  · have : is_not_null s.inode.sIndirect = false := by simp [is_not_null, hn]
    simp only [this, Bool.false_eq_true, if_false]
  · rw [if_pos ((not_null_iff _).mpr hn)]
    exact remove_single_none bs s f p NIL _ (hs hn)

theorem indirect_double (bs : Nat) (s : FsState) (f p : Nat)
    (hs : s.inode.sIndirect ≠ NIL →
      ∀ b ∈ singleData bs s.disk s.inode.sIndirect, matchSlot bs (readBlock s.disk b) f = none)
    (hn : s.inode.dIndirect ≠ NIL)
    (h : (remove_file_from_double_indirect bs s f p NIL s.inode.dIndirect).1 = true) :
    remove_file_from_dir_indirect_pointers bs s f p
      = (true, (remove_file_from_double_indirect bs s f p NIL s.inode.dIndirect).2) := by
  unfold remove_file_from_dir_indirect_pointers
  have hn' : is_not_null s.inode.dIndirect = true := (not_null_iff _).mpr hn
  simp only [indirect_first_none bs s f p hs, Bool.false_eq_true, if_false, hn', if_true, h]

theorem indirect_triple (bs : Nat) (s : FsState) (f p : Nat)
    (hs : s.inode.sIndirect ≠ NIL →
      ∀ b ∈ singleData bs s.disk s.inode.sIndirect, matchSlot bs (readBlock s.disk b) f = none)
    (hd : s.inode.dIndirect ≠ NIL →
      ∀ b ∈ doubleData bs s.disk s.inode.dIndirect, matchSlot bs (readBlock s.disk b) f = none)
    (hn : s.inode.tIndirect ≠ NIL)
    (h : (remove_file_from_triple_indirect bs s f p s.inode.tIndirect).1 = true) :
    remove_file_from_dir_indirect_pointers bs s f p
      = (true, (remove_file_from_triple_indirect bs s f p s.inode.tIndirect).2) := by
  unfold remove_file_from_dir_indirect_pointers
  have hn' : is_not_null s.inode.tIndirect = true := (not_null_iff _).mpr hn
  have h2 : (if is_not_null s.inode.dIndirect = true then
      remove_file_from_double_indirect bs s f p NIL s.inode.dIndirect else (false, s))
      = (false, s) := by
    by_cases hx : s.inode.dIndirect = NIL
    · have : is_not_null s.inode.dIndirect = false := by simp [is_not_null, hx]
      simp only [this, Bool.false_eq_true, if_false]
    · rw [if_pos ((not_null_iff _).mpr hx)]
      exact remove_double_none bs s f p NIL _ (hd hx)
  simp only [indirect_first_none bs s f p hs, Bool.false_eq_true, if_false, h2, hn', if_true, h]

/-- C29: fs_remove_file_from_dir(f, p) on a directory p whose direct blocks hold
no entry for f, when the entry found is the last entry in use of its data
block b.  (1) The entry lies under sIndirect = S, slot i: the sector of b is
released and slot i of S set to NIL; when S has no other slot in use its
sector is released too and the persisted sIndirect is NIL, otherwise S is kept.
(2) The entry lies under dIndirect = D, slot c, single-indirect block S, slot
i: as before for b and S, the slot c of D being set to NIL when S is released;
when D has no other slot in use its sector is released and the persisted
dIndirect is NIL.  (3) The entry lies under tIndirect = T, slot a,
double-indirect block D: as before for b, S and D, the slot a of T being set to
NIL when D is released; when T has no other slot in use its sector is released
and the persisted tIndirect is NIL.  Nothing else of the disk image changes. -/
theorem fs_remove_file_from_dir_cascade :
    (∀ (bs : Nat) (s : FsState) (f p S i j : Nat), p ≠ NIL → (s.itable p).fileType = 2 →
      (∀ b ∈ liveDirect (s.itable p), matchSlot bs (readBlock s.disk b) f = none) →
      (s.itable p).sIndirect = S → LastEntryAt bs s.disk f S i j →
      Apart bs [s.disk (S + 4 * i), S] →
      (fs_remove_file_from_dir bs s f p).1 = true ∧
      Released bs (fs_remove_file_from_dir bs s f p).2 s
        ([s.disk (S + 4 * i) / bs] ++ (if onlySlot bs s.disk S i = true then [S / bs] else []))
        [(s.disk (S + 4 * i), clearEntry (readBlock s.disk (s.disk (S + 4 * i))) j),
          (S, bufSet (readBlock s.disk S) i NIL)] p ∧
      ((fs_remove_file_from_dir bs s f p).2.itable p).sIndirect
        = (if onlySlot bs s.disk S i = true then NIL else S)) ∧
    (∀ (bs : Nat) (s : FsState) (f p D c i j : Nat), p ≠ NIL → (s.itable p).fileType = 2 →
      (∀ b ∈ liveDirect (s.itable p), matchSlot bs (readBlock s.disk b) f = none) →
      ((s.itable p).sIndirect ≠ NIL → ∀ b ∈ singleData bs s.disk (s.itable p).sIndirect,
        matchSlot bs (readBlock s.disk b) f = none) →
      (s.itable p).dIndirect = D → LastEntryAt2 bs s.disk f D c i j →
      Apart bs [s.disk (s.disk (D + 4 * c) + 4 * i), s.disk (D + 4 * c), D] →
      (fs_remove_file_from_dir bs s f p).1 = true ∧
      Released bs (fs_remove_file_from_dir bs s f p).2 s
        ([s.disk (s.disk (D + 4 * c) + 4 * i) / bs] ++
          (if onlySlot bs s.disk (s.disk (D + 4 * c)) i = true then [s.disk (D + 4 * c) / bs]
            else []) ++
          (if (onlySlot bs s.disk (s.disk (D + 4 * c)) i && onlySlot bs s.disk D c) = true
            then [D / bs] else []))
        ([(s.disk (s.disk (D + 4 * c) + 4 * i),
            clearEntry (readBlock s.disk (s.disk (s.disk (D + 4 * c) + 4 * i))) j),
          (s.disk (D + 4 * c), bufSet (readBlock s.disk (s.disk (D + 4 * c))) i NIL)] ++
          [(D, if onlySlot bs s.disk (s.disk (D + 4 * c)) i = true
            then bufSet (readBlock s.disk D) c NIL else readBlock s.disk D)]) p ∧
      ((fs_remove_file_from_dir bs s f p).2.itable p).dIndirect
        = (if (onlySlot bs s.disk (s.disk (D + 4 * c)) i && onlySlot bs s.disk D c) = true
          then NIL else D)) ∧
    (∀ (bs : Nat) (s : FsState) (f p T a c i j : Nat), p ≠ NIL → (s.itable p).fileType = 2 →
      (∀ b ∈ liveDirect (s.itable p), matchSlot bs (readBlock s.disk b) f = none) →
      ((s.itable p).sIndirect ≠ NIL → ∀ b ∈ singleData bs s.disk (s.itable p).sIndirect,
        matchSlot bs (readBlock s.disk b) f = none) →
      ((s.itable p).dIndirect ≠ NIL → ∀ b ∈ doubleData bs s.disk (s.itable p).dIndirect,
        matchSlot bs (readBlock s.disk b) f = none) →
      (s.itable p).tIndirect = T → LastEntryAt3 bs s.disk f T a c i j →
      Apart bs [s.disk (s.disk (s.disk (T + 4 * a) + 4 * c) + 4 * i),
        s.disk (s.disk (T + 4 * a) + 4 * c), s.disk (T + 4 * a), T] →
      (fs_remove_file_from_dir bs s f p).1 = true ∧
      Released bs (fs_remove_file_from_dir bs s f p).2 s
        ([s.disk (s.disk (s.disk (T + 4 * a) + 4 * c) + 4 * i) / bs] ++
          (if onlySlot bs s.disk (s.disk (s.disk (T + 4 * a) + 4 * c)) i = true
            then [s.disk (s.disk (T + 4 * a) + 4 * c) / bs] else []) ++
          (if (onlySlot bs s.disk (s.disk (s.disk (T + 4 * a) + 4 * c)) i &&
              onlySlot bs s.disk (s.disk (T + 4 * a)) c) = true
            then [s.disk (T + 4 * a) / bs] else []) ++
          (if ((onlySlot bs s.disk (s.disk (s.disk (T + 4 * a) + 4 * c)) i &&
              onlySlot bs s.disk (s.disk (T + 4 * a)) c) && onlySlot bs s.disk T a) = true
            then [T / bs] else []))
        ([(s.disk (s.disk (s.disk (T + 4 * a) + 4 * c) + 4 * i),
            clearEntry (readBlock s.disk (s.disk (s.disk (s.disk (T + 4 * a) + 4 * c) + 4 * i)))
              j),
          (s.disk (s.disk (T + 4 * a) + 4 * c),
            bufSet (readBlock s.disk (s.disk (s.disk (T + 4 * a) + 4 * c))) i NIL)] ++
          [(s.disk (T + 4 * a),
            if onlySlot bs s.disk (s.disk (s.disk (T + 4 * a) + 4 * c)) i = true
            then bufSet (readBlock s.disk (s.disk (T + 4 * a))) c NIL
            else readBlock s.disk (s.disk (T + 4 * a)))] ++
          [(T,
            if (onlySlot bs s.disk (s.disk (s.disk (T + 4 * a) + 4 * c)) i &&
              onlySlot bs s.disk (s.disk (T + 4 * a)) c) = true
            then bufSet (readBlock s.disk T) a NIL else readBlock s.disk T)]) p ∧
      ((fs_remove_file_from_dir bs s f p).2.itable p).tIndirect
        = (if ((onlySlot bs s.disk (s.disk (s.disk (T + 4 * a) + 4 * c)) i &&
            onlySlot bs s.disk (s.disk (T + 4 * a)) c) && onlySlot bs s.disk T a) = true
          then NIL else T)) := by
  refine ⟨?_, ?_, ?_⟩
  · intro bs s f p S i j hp hty hdir hS hL hA
    obtain ⟨a1, a2, a3, a4⟩ := apart_two bs _ _ hA
    obtain ⟨ino, d1, r1, hst, hB, g1, -, -⟩ := single_cascade bs
      { s with mapId := p, inode := s.itable p } f p NIL S i j 0 hL a2 a1 a3
      (fun h => absurd rfl h)
    have hsi : ({ s with mapId := p, inode := s.itable p } : FsState).inode.sIndirect = S := hS
    have hind := indirect_single bs { s with mapId := p, inode := s.itable p } f p
      (by rw [hsi]; exact a4) (by rw [hsi]; exact r1)
    rw [hsi] at hind
    rw [remove_from_dir_indirect bs s f p hp hty hdir, hind]
    simp only [if_true]
    rw [if_pos rfl, List.append_nil] at hB
    obtain ⟨q1, q2⟩ := released_of bs _ s p (s.itable p) d1 _ _ ino p hst hB
    refine ⟨trivial, q1, ?_⟩
    rw [q1.2.2.1, q2, g1]
    simp only [and_true]
    rw [hsi]
  · intro bs s f p D c i j hp hty hdir hs hD hL hA
    obtain ⟨a1, a2, a3, a4, a5, a6, a7⟩ := apart_three bs _ _ _ hA
    obtain ⟨ino, d2, r1, hst, hB, -, g2, -⟩ := double_cascade bs
      { s with mapId := p, inode := s.itable p } f p NIL D c i j 0 hL ⟨a7, a3⟩ a2 a1
      ⟨a4, a5, a6⟩ (fun h => absurd rfl h)
    have hdi : ({ s with mapId := p, inode := s.itable p } : FsState).inode.dIndirect = D := hD
    have hind := indirect_double bs { s with mapId := p, inode := s.itable p } f p hs
      (by rw [hdi]; exact a7) (by rw [hdi]; exact r1)
    rw [hdi] at hind
    rw [remove_from_dir_indirect bs s f p hp hty hdir, hind]
    simp only [if_true]
    rw [if_pos rfl, List.append_nil] at hB
    obtain ⟨q1, q2⟩ := released_of bs _ s p (s.itable p) d2 _ _ ino p hst hB
    refine ⟨trivial, q1, ?_⟩
    rw [q1.2.2.1, q2, g2]
    simp only [and_true]
    rw [hdi]
  · intro bs s f p T a c i j hp hty hdir hs hd hT hL hA
    obtain ⟨a1, a2, a3, a4, a5, a6, a7, a8, a9, a10, a11⟩ := apart_four bs _ _ _ _ hA
    obtain ⟨ino, d3, r1, hst, hB, -, -, g3⟩ := triple_cascade bs
      { s with mapId := p, inode := s.itable p } f p T a c i j hL ⟨a11, a4⟩ a3 a2 a1
      ⟨a5, a6, a7, a8, a9, a10⟩
    have hti : ({ s with mapId := p, inode := s.itable p } : FsState).inode.tIndirect = T := hT
    have hind := indirect_triple bs { s with mapId := p, inode := s.itable p } f p hs hd
      (by rw [hti]; exact a11) (by rw [hti]; exact r1)
    rw [hti] at hind
    rw [remove_from_dir_indirect bs s f p hp hty hdir, hind]
    simp only [if_true]
    obtain ⟨q1, q2⟩ := released_of bs _ s p (s.itable p) d3 _ _ ino p hst hB
    refine ⟨trivial, q1, ?_⟩
    rw [q1.2.2.1, q2, g3, hti]

set_option maxRecDepth 1000000 in
/-- Instance of fs_remove_file_from_dir_cascade on cascadeState (16-byte
blocks): the entry of file 7 is the only entry of the data block 256, which
lies under the single-indirect block 192 (directory 3), under the
double-indirect block 128 (directory 4) and under the triple-indirect block 64
(directory 2). -/
theorem fs_remove_file_from_dir_cascade_witness :
    ((fs_remove_file_from_dir 16 cascadeState 7 3).1 = true ∧
      ((fs_remove_file_from_dir 16 cascadeState 7 3).2.itable 3).sIndirect
        = (if onlySlot 16 cascadeState.disk 192 0 = true then NIL else 192)) ∧
    ((fs_remove_file_from_dir 16 cascadeState 7 4).1 = true ∧
      ((fs_remove_file_from_dir 16 cascadeState 7 4).2.itable 4).dIndirect
        = (if (onlySlot 16 cascadeState.disk (cascadeState.disk (128 + 4 * 0)) 0 &&
            onlySlot 16 cascadeState.disk 128 0) = true then NIL else 128)) ∧
    ((fs_remove_file_from_dir 16 cascadeState 7 2).1 = true ∧
      ((fs_remove_file_from_dir 16 cascadeState 7 2).2.itable 2).tIndirect
        = (if ((onlySlot 16 cascadeState.disk
              (cascadeState.disk (cascadeState.disk (64 + 4 * 0) + 4 * 0)) 0 &&
            onlySlot 16 cascadeState.disk (cascadeState.disk (64 + 4 * 0)) 0) &&
            onlySlot 16 cascadeState.disk 64 0) = true then NIL else 64)) :=
  ⟨⟨(fs_remove_file_from_dir_cascade.1 16 cascadeState 7 3 192 0 0 (by decide) (by decide)
        (by decide) (by decide) (by decide) (by decide)).1,
      (fs_remove_file_from_dir_cascade.1 16 cascadeState 7 3 192 0 0 (by decide) (by decide)
        (by decide) (by decide) (by decide) (by decide)).2.2⟩,
    ⟨(fs_remove_file_from_dir_cascade.2.1 16 cascadeState 7 4 128 0 0 0 (by decide) (by decide)
        (by decide) (by decide) (by decide) (by decide) (by decide)).1,
      (fs_remove_file_from_dir_cascade.2.1 16 cascadeState 7 4 128 0 0 0 (by decide) (by decide)
        (by decide) (by decide) (by decide) (by decide) (by decide)).2.2⟩,
    ⟨(fs_remove_file_from_dir_cascade.2.2 16 cascadeState 7 2 64 0 0 0 0 (by decide) (by decide)
        (by decide) (by decide) (by decide) (by decide) (by decide) (by decide)).1,
      (fs_remove_file_from_dir_cascade.2.2 16 cascadeState 7 2 64 0 0 0 0 (by decide) (by decide)
        (by decide) (by decide) (by decide) (by decide) (by decide) (by decide)).2.2⟩⟩

theorem FreedOnly.refl_f (s : FsState) : FreedOnly s [] s :=
  ⟨rfl, rfl, rfl, rfl, by simp, rfl, rfl⟩

theorem FreedOnly.trans_f {s t r : FsState} {L L' : List Nat} (h1 : FreedOnly s L t)
    (h2 : FreedOnly t L' r) : FreedOnly s (L ++ L') r := by
  obtain ⟨a1, a2, a3, a4, a5, a6, a7⟩ := h1
  obtain ⟨b1, b2, b3, b4, b5, b6, b7⟩ := h2
  refine ⟨b1.trans a1, b2.trans a2, b3.trans a3, b4.trans a4, ?_, b6.trans a6, b7.trans a7⟩
  rw [b5, a5, List.append_assoc]

theorem FreedOnly.dealloc_f {s t : FsState} {L : List Nat} (h : FreedOnly s L t) (x : Nat) :
    FreedOnly s (L ++ [x]) (ssm_deallocate_sectors t x) := by
  obtain ⟨a1, a2, a3, a4, a5, a6, a7⟩ := h
  refine ⟨a1, a2, a3, a4, ?_, a6, a7⟩
  show t.ssmFreed ++ [x] = _
  rw [a5, List.append_assoc]

/-- fs_remove_file on an inode that does not open: False, and only the working
slot may change. -/
theorem fs_remove_file_closed (bs fuel : Nat) (t : FsState) (c q : Nat)
    (h : c = NIL ∨ (t.itable c).fileType ≤ 0) :
    ∃ r, fs_remove_file bs (fuel + 1) t c q = some (false, r) ∧ FreedOnly t [] r := by
  have ho := open_inode_fails t c h
  refine ⟨(open_inode t c).2, ?_, ?_⟩
  · simp [fs_remove_file, fs_remove_file_body, ho]
  · unfold open_inode fs_open_file
    by_cases hn : is_null c = true
    · simp only [hn, if_true]
      exact ⟨rfl, rfl, rfl, rfl, by simp, rfl, rfl⟩
    · simp only [hn, Bool.false_eq_true, if_false]
      split <;> exact ⟨rfl, rfl, rfl, rfl, by simp, rfl, rfl⟩

theorem remove_children_fail (bs fuel : Nat) (s : FsState) (d : Nat) (buffer : Nat → Nat)
    (L : List Nat) :
    ∀ (js : List Nat) (t : FsState), FreedOnly s L t →
      (∀ j ∈ js, buffer (j + 3) = 1 →
        buffer (j + 2) = NIL ∨ (s.itable (buffer (j + 2))).fileType ≤ 0) →
      ∃ t', remove_children (fs_remove_file bs (fuel + 1)) buffer d js t = some t' ∧
        FreedOnly s L t' := by
  intro js
  induction js with
  | nil => intro t ht _; exact ⟨t, rfl, ht⟩
  | cons j js ih =>
    intro t ht h
    rw [remove_children]
    by_cases hu : buffer (j + 3) = 1
    · rw [if_pos hu]
      have hc := h j (List.mem_cons_self _ _) hu
      rw [← ht.2.1] at hc
      obtain ⟨r, hr, hrel⟩ := fs_remove_file_closed bs fuel t (buffer (j + 2)) d hc
      rw [hr]
      have := ht.trans_f hrel
      rw [List.append_nil] at this
      exact ih r this (fun j' hj' => h j' (List.mem_cons_of_mem _ hj'))
    · rw [if_neg hu]
      exact ih t ht (fun j' hj' => h j' (List.mem_cons_of_mem _ hj'))

theorem remove_data_block_fail (bs fuel : Nat) (s : FsState) (d b : Nat) (L : List Nat)
    (t : FsState) (ht : FreedOnly s L t) (hb : ChildrenFail bs s b) :
    ∃ t', remove_data_block bs (fs_remove_file bs (fuel + 1)) 2 d b t = some t' ∧
      FreedOnly s (L ++ [b / bs]) t' := by
  obtain ⟨t1, h1, h2⟩ := remove_children_fail bs fuel s d (readBlock t.disk b) L
    (slotIdx bs 2) t ht (by
      intro j hj hu
      rw [ht.1] at hu ⊢
      exact hb j hj hu)
  refine ⟨ssm_deallocate_sectors t1 (b / bs), ?_, h2.dealloc_f _⟩
  simp only [remove_data_block, if_true, h1]

theorem remove_single_loop_fail (bs fuel : Nat) (s : FsState) (d : Nat) (ib : Nat → Nat) :
    ∀ (is : List Nat) (L : List Nat) (t : FsState), FreedOnly s L t →
      (∀ i ∈ is, ib i ≠ NIL → ChildrenFail bs s (ib i)) →
      ∃ t', remove_file_single_indirect_loop bs (fs_remove_file bs (fuel + 1)) 2 d ib is t
          = some t' ∧
        FreedOnly s (L ++ ((is.map ib).filter is_not_null).map (fun b => b / bs)) t' := by
  intro is
  induction is with
  | nil =>
    intro L t ht _
    exact ⟨t, rfl, by simpa using ht⟩
  | cons i is ih =>
    intro L t ht h
    rw [remove_file_single_indirect_loop]
    by_cases hn : is_not_null (ib i) = true
    · have hne : ib i ≠ NIL := by simpa [is_not_null] using hn
      obtain ⟨t1, h1, h2⟩ := remove_data_block_fail bs fuel s d (ib i) L t ht
        (h i (List.mem_cons_self _ _) hne)
      obtain ⟨t2, h3, h4⟩ := ih _ t1 h2 (fun k hk => h k (List.mem_cons_of_mem _ hk))
      refine ⟨t2, ?_, ?_⟩
      · simp only [hn, if_true, h1, h3]
      · simp only [List.map_cons, List.filter_cons, hn, if_true]
        rw [List.append_assoc] at h4
        exact h4
    · obtain ⟨t2, h3, h4⟩ := ih L t ht (fun k hk => h k (List.mem_cons_of_mem _ hk))
      refine ⟨t2, ?_, ?_⟩
      · simp only [hn, Bool.false_eq_true, if_false, h3]
      · simp only [List.map_cons, List.filter_cons, hn, Bool.false_eq_true, if_false]
        exact h4

theorem remove_single_blocks_fail (bs fuel : Nat) (s : FsState) (d off : Nat) (L : List Nat)
    (t : FsState) (ht : FreedOnly s L t)
    (h : ∀ b ∈ liveSlots bs s.disk off, ChildrenFail bs s b) :
    ∃ t', remove_file_single_indirect_blocks bs (fs_remove_file bs (fuel + 1)) t 2 d off
        = some t' ∧
      FreedOnly s (L ++ (singleFree bs s.disk off).map (fun b => b / bs)) t' := by
  obtain ⟨t1, h1, h2⟩ := remove_single_loop_fail bs fuel s d (readBlock s.disk off)
    (List.range (bs / 4)) L t ht (fun i hi hne => h _ (mem_liveSlots bs s.disk off i hi hne))
  refine ⟨ssm_deallocate_sectors t1 (off / bs), ?_, ?_⟩
  · simp only [remove_file_single_indirect_blocks, ht.1, h1]
  · have := h2.dealloc_f (off / bs)
    rw [List.append_assoc] at this
    simp only [singleFree, liveSlots, List.map_append, List.map_cons, List.map_nil]
    exact this

theorem remove_double_loop_fail (bs fuel : Nat) (s : FsState) (d : Nat) (ib : Nat → Nat) :
    ∀ (is : List Nat) (L : List Nat) (t : FsState), FreedOnly s L t →
      (∀ i ∈ is, ib i ≠ NIL → ∀ b ∈ liveSlots bs s.disk (ib i), ChildrenFail bs s b) →
      ∃ t', remove_file_double_indirect_loop bs (fs_remove_file bs (fuel + 1)) 2 d ib is t
          = some t' ∧
        FreedOnly s (L ++ (((is.map ib).filter is_not_null).flatMap
          (singleFree bs s.disk)).map (fun b => b / bs)) t' := by
  intro is
  induction is with
  | nil =>
    intro L t ht _
    exact ⟨t, rfl, by simpa using ht⟩
  | cons i is ih =>
    intro L t ht h
    rw [remove_file_double_indirect_loop]
    by_cases hn : is_not_null (ib i) = true
    · have hne : ib i ≠ NIL := by simpa [is_not_null] using hn
      obtain ⟨t1, h1, h2⟩ := remove_single_blocks_fail bs fuel s d (ib i) L t ht
        (h i (List.mem_cons_self _ _) hne)
      obtain ⟨t2, h3, h4⟩ := ih _ t1 h2 (fun k hk => h k (List.mem_cons_of_mem _ hk))
      refine ⟨t2, ?_, ?_⟩
      · simp only [hn, if_true, h1, h3]
      · simp only [List.map_cons, List.filter_cons, hn, if_true, List.flatMap_cons,
          List.map_append]
        rw [List.append_assoc] at h4
        exact h4
    · obtain ⟨t2, h3, h4⟩ := ih L t ht (fun k hk => h k (List.mem_cons_of_mem _ hk))
      refine ⟨t2, ?_, ?_⟩
      · simp only [hn, Bool.false_eq_true, if_false, h3]
      · simp only [List.map_cons, List.filter_cons, hn, Bool.false_eq_true, if_false]
        exact h4

theorem remove_double_blocks_fail (bs fuel : Nat) (s : FsState) (d off : Nat) (L : List Nat)
    (t : FsState) (ht : FreedOnly s L t)
    (h : ∀ c ∈ liveSlots bs s.disk off, ∀ b ∈ liveSlots bs s.disk c, ChildrenFail bs s b) :
    ∃ t', remove_file_double_indirect_blocks bs (fs_remove_file bs (fuel + 1)) t 2 d off
        = some t' ∧
      FreedOnly s (L ++ (doubleFree bs s.disk off).map (fun b => b / bs)) t' := by
  obtain ⟨t1, h1, h2⟩ := remove_double_loop_fail bs fuel s d (readBlock s.disk off)
    (List.range (bs / 4)) L t ht (fun i hi hne => h _ (mem_liveSlots bs s.disk off i hi hne))
  refine ⟨ssm_deallocate_sectors t1 (off / bs), ?_, ?_⟩
  · simp only [remove_file_double_indirect_blocks, ht.1, h1]
  · have := h2.dealloc_f (off / bs)
    rw [List.append_assoc] at this
    simp only [doubleFree, liveSlots, List.map_append, List.map_cons, List.map_nil]
    exact this

theorem remove_triple_loop_fail (bs fuel : Nat) (s : FsState) (d : Nat) (ib : Nat → Nat) :
    ∀ (is : List Nat) (L : List Nat) (t : FsState), FreedOnly s L t →
      (∀ i ∈ is, ib i ≠ NIL → ∀ c ∈ liveSlots bs s.disk (ib i),
        ∀ b ∈ liveSlots bs s.disk c, ChildrenFail bs s b) →
      ∃ t', remove_file_triple_indirect_loop bs (fs_remove_file bs (fuel + 1)) 2 d ib is t
          = some t' ∧
        FreedOnly s (L ++ (((is.map ib).filter is_not_null).flatMap
          (doubleFree bs s.disk)).map (fun b => b / bs)) t' := by
  intro is
  induction is with
  | nil =>
    intro L t ht _
    exact ⟨t, rfl, by simpa using ht⟩
  | cons i is ih =>
    intro L t ht h
    rw [remove_file_triple_indirect_loop]
    by_cases hn : is_not_null (ib i) = true
    · have hne : ib i ≠ NIL := by simpa [is_not_null] using hn
      obtain ⟨t1, h1, h2⟩ := remove_double_blocks_fail bs fuel s d (ib i) L t ht
        (h i (List.mem_cons_self _ _) hne)
      obtain ⟨t2, h3, h4⟩ := ih _ t1 h2 (fun k hk => h k (List.mem_cons_of_mem _ hk))
      refine ⟨t2, ?_, ?_⟩
      · simp only [hn, if_true, h1, h3]
      · simp only [List.map_cons, List.filter_cons, hn, if_true, List.flatMap_cons,
          List.map_append]
        rw [List.append_assoc] at h4
        exact h4
    · obtain ⟨t2, h3, h4⟩ := ih L t ht (fun k hk => h k (List.mem_cons_of_mem _ hk))
      refine ⟨t2, ?_, ?_⟩
      · simp only [hn, Bool.false_eq_true, if_false, h3]
      · simp only [List.map_cons, List.filter_cons, hn, Bool.false_eq_true, if_false]
        exact h4

theorem remove_triple_blocks_fail (bs fuel : Nat) (s : FsState) (d off : Nat) (L : List Nat)
    (t : FsState) (ht : FreedOnly s L t)
    (h : ∀ x ∈ liveSlots bs s.disk off, ∀ c ∈ liveSlots bs s.disk x,
      ∀ b ∈ liveSlots bs s.disk c, ChildrenFail bs s b) :
    ∃ t', remove_file_triple_indirect_blocks bs (fs_remove_file bs (fuel + 1)) t 2 d off
        = some t' ∧
      FreedOnly s (L ++ (tripleFree bs s.disk off).map (fun b => b / bs)) t' := by
  obtain ⟨t1, h1, h2⟩ := remove_triple_loop_fail bs fuel s d (readBlock s.disk off)
    (List.range (bs / 4)) L t ht (fun i hi hne => h _ (mem_liveSlots bs s.disk off i hi hne))
  refine ⟨ssm_deallocate_sectors t1 (off / bs), ?_, ?_⟩
  · simp only [remove_file_triple_indirect_blocks, ht.1, h1]
  · have := h2.dealloc_f (off / bs)
    rw [List.append_assoc] at this
    simp only [tripleFree, liveSlots, List.map_append, List.map_cons, List.map_nil]
    exact this

theorem remove_direct_loop_fail (bs fuel : Nat) (s : FsState) (d : Nat) (ptrs : List Nat) :
    ∀ (is : List Nat) (L : List Nat) (t : FsState), FreedOnly s L t →
      (∀ i ∈ is, ptrs.getD i NIL ≠ NIL → ChildrenFail bs s (ptrs.getD i NIL)) →
      ∃ t', remove_file_direct_loop bs (fs_remove_file bs (fuel + 1)) 2 d ptrs is t = some t' ∧
        FreedOnly s (L ++ ((is.map (fun i => ptrs.getD i NIL)).filter is_not_null).map
          (fun b => b / bs)) t' := by
  intro is
  induction is with
  | nil =>
    intro L t ht _
    exact ⟨t, rfl, by simpa using ht⟩
  | cons i is ih =>
    intro L t ht h
    rw [remove_file_direct_loop]
    by_cases hn : is_not_null (ptrs.getD i NIL) = true
    · have hne : ptrs.getD i NIL ≠ NIL := by simpa [is_not_null] using hn
      obtain ⟨t1, h1, h2⟩ := remove_data_block_fail bs fuel s d (ptrs.getD i NIL) L t ht
        (h i (List.mem_cons_self _ _) hne)
      obtain ⟨t2, h3, h4⟩ := ih _ t1 h2 (fun k hk => h k (List.mem_cons_of_mem _ hk))
      refine ⟨t2, ?_, ?_⟩
      · simp only [hn, if_true, h1, h3]
      · simp only [List.map_cons, List.filter_cons, hn, if_true]
        rw [List.append_assoc] at h4
        exact h4
    · obtain ⟨t2, h3, h4⟩ := ih L t ht (fun k hk => h k (List.mem_cons_of_mem _ hk))
      refine ⟨t2, ?_, ?_⟩
      · simp only [hn, Bool.false_eq_true, if_false, h3]
      · simp only [List.map_cons, List.filter_cons, hn, Bool.false_eq_true, if_false]
        exact h4

theorem remove_children_same (rm rm2 : FsState → Nat → Nat → Option (Bool × FsState))
    (h : SameStates rm rm2) (buffer : Nat → Nat) (dirNum : Nat) :
    ∀ (js : List Nat) (s : FsState),
      remove_children rm buffer dirNum js s = remove_children rm2 buffer dirNum js s := by
  intro js
  induction js with
  | nil => intro s; rfl
  | cons j js ih =>
    intro s
    rw [remove_children, remove_children]
    by_cases hu : buffer (j + 3) = 1
    · rw [if_pos hu, if_pos hu]
      have := h s (buffer (j + 2)) dirNum
      cases h1 : rm s (buffer (j + 2)) dirNum with
      | none =>
        cases h2 : rm2 s (buffer (j + 2)) dirNum with
        | none => rfl
        | some r2 => rw [h1, h2] at this; cases this
      | some r1 =>
        cases h2 : rm2 s (buffer (j + 2)) dirNum with
        | none => rw [h1, h2] at this; cases this
        | some r2 =>
          rw [h1, h2] at this
          simp only [Option.map_some', Option.some.injEq] at this
          show remove_children rm buffer dirNum js r1.2 = remove_children rm2 buffer dirNum js r2.2
          rw [this]
          exact ih r2.2
    · rw [if_neg hu, if_neg hu]
      exact ih s

theorem remove_data_block_same (bs : Nat)
    (rm rm2 : FsState → Nat → Nat → Option (Bool × FsState)) (h : SameStates rm rm2)
    (fileType : Int) (dirNum diskOffset : Nat) (s : FsState) :
    remove_data_block bs rm fileType dirNum diskOffset s
      = remove_data_block bs rm2 fileType dirNum diskOffset s := by
  simp only [remove_data_block, remove_children_same rm rm2 h]

theorem remove_single_loop_same (bs : Nat)
    (rm rm2 : FsState → Nat → Nat → Option (Bool × FsState)) (h : SameStates rm rm2)
    (fileType : Int) (d : Nat) (ib : Nat → Nat) :
    ∀ (is : List Nat) (s : FsState),
      remove_file_single_indirect_loop bs rm fileType d ib is s
        = remove_file_single_indirect_loop bs rm2 fileType d ib is s := by
  intro is
  induction is with
  | nil => intro s; rfl
  | cons i is ih =>
    intro s
    rw [remove_file_single_indirect_loop, remove_file_single_indirect_loop,
      remove_data_block_same bs rm rm2 h]
    split
    · split
      · rfl
      · exact ih _
    · exact ih _

theorem remove_single_blocks_same (bs : Nat)
    (rm rm2 : FsState → Nat → Nat → Option (Bool × FsState)) (h : SameStates rm rm2)
    (s : FsState) (fileType : Int) (d off : Nat) :
    remove_file_single_indirect_blocks bs rm s fileType d off
      = remove_file_single_indirect_blocks bs rm2 s fileType d off := by
  simp only [remove_file_single_indirect_blocks, remove_single_loop_same bs rm rm2 h]

theorem remove_double_loop_same (bs : Nat)
    (rm rm2 : FsState → Nat → Nat → Option (Bool × FsState)) (h : SameStates rm rm2)
    (fileType : Int) (d : Nat) (ib : Nat → Nat) :
    ∀ (is : List Nat) (s : FsState),
      remove_file_double_indirect_loop bs rm fileType d ib is s
        = remove_file_double_indirect_loop bs rm2 fileType d ib is s := by
  intro is
  induction is with
  | nil => intro s; rfl
  | cons i is ih =>
    intro s
    rw [remove_file_double_indirect_loop, remove_file_double_indirect_loop,
      remove_single_blocks_same bs rm rm2 h]
    split
    · split
      · rfl
      · exact ih _
    · exact ih _

theorem remove_double_blocks_same (bs : Nat)
    (rm rm2 : FsState → Nat → Nat → Option (Bool × FsState)) (h : SameStates rm rm2)
    (s : FsState) (fileType : Int) (d off : Nat) :
    remove_file_double_indirect_blocks bs rm s fileType d off
      = remove_file_double_indirect_blocks bs rm2 s fileType d off := by
  simp only [remove_file_double_indirect_blocks, remove_double_loop_same bs rm rm2 h]

theorem remove_triple_loop_same (bs : Nat)
    (rm rm2 : FsState → Nat → Nat → Option (Bool × FsState)) (h : SameStates rm rm2)
    (fileType : Int) (d : Nat) (ib : Nat → Nat) :
    ∀ (is : List Nat) (s : FsState),
      remove_file_triple_indirect_loop bs rm fileType d ib is s
        = remove_file_triple_indirect_loop bs rm2 fileType d ib is s := by
  intro is
  induction is with
  | nil => intro s; rfl
  | cons i is ih =>
    intro s
    rw [remove_file_triple_indirect_loop, remove_file_triple_indirect_loop,
      remove_double_blocks_same bs rm rm2 h]
    split
    · split
      · rfl
      · exact ih _
    · exact ih _

theorem remove_triple_blocks_same (bs : Nat)
    (rm rm2 : FsState → Nat → Nat → Option (Bool × FsState)) (h : SameStates rm rm2)
    (s : FsState) (fileType : Int) (d off : Nat) :
    remove_file_triple_indirect_blocks bs rm s fileType d off
      = remove_file_triple_indirect_blocks bs rm2 s fileType d off := by
  simp only [remove_file_triple_indirect_blocks, remove_triple_loop_same bs rm rm2 h]

theorem remove_direct_loop_same (bs : Nat)
    (rm rm2 : FsState → Nat → Nat → Option (Bool × FsState)) (h : SameStates rm rm2)
    (fileType : Int) (d : Nat) (ptrs : List Nat) :
    ∀ (is : List Nat) (s : FsState),
      remove_file_direct_loop bs rm fileType d ptrs is s
        = remove_file_direct_loop bs rm2 fileType d ptrs is s := by
  intro is
  induction is with
  | nil => intro s; rfl
  | cons i is ih =>
    intro s
    rw [remove_file_direct_loop, remove_file_direct_loop,
      remove_data_block_same bs rm rm2 h]
    split
    · split
      · rfl
      · exact ih _
    · exact ih _

theorem remove_indirect_blocks_same (bs : Nat)
    (rm rm2 : FsState → Nat → Nat → Option (Bool × FsState)) (h : SameStates rm rm2)
    (s : FsState) (ty : PointerType) (indirect : Nat) (fileType : Int) (a b : Nat) :
    remove_file_indirect_blocks bs rm s ty indirect fileType a b
      = remove_file_indirect_blocks bs rm2 s ty indirect fileType a b := by
  cases ty <;>
  simp only [remove_file_indirect_blocks, remove_single_blocks_same bs rm rm2 h,
    remove_double_blocks_same bs rm rm2 h, remove_triple_blocks_same bs rm rm2 h]

/-- One activation of fs_remove_file does not consult the Boolean returned by
the calls on the children. -/
theorem fs_remove_file_body_same (bs : Nat)
    (rm rm2 : FsState → Nat → Nat → Option (Bool × FsState)) (h : SameStates rm rm2)
    (s : FsState) (d p : Nat) :
    fs_remove_file_body bs rm s d p = fs_remove_file_body bs rm2 s d p := by
  unfold fs_remove_file_body
  simp only [remove_direct_loop_same bs rm rm2 h, remove_indirect_blocks_same bs rm rm2 h]

/-- The traversal of fs_remove_file on a directory whose visited entries in
use all name inodes that do not open: every block in release order goes to
ssm_deallocate_sectors, nothing else changes but the working slot, and the
rest of fs_remove_file (here K) runs on that state. -/
theorem remove_dir_traversal {α : Type} (bs fuel : Nat) (s t : FsState) (d p : Nat)
    (ino : Inode) (ht : FreedOnly s [] t)
    (h : ∀ b ∈ dataBlocksOf bs s.disk ino, ChildrenFail bs s b) :
    ∃ t4, FreedOnly s ((freeOrder bs s.disk ino).map (fun b => b / bs)) t4 ∧
      ∀ K : FsState → Option α,
        ((remove_file_direct_loop bs (fs_remove_file bs (fuel + 1)) 2 d ino.directPtr
            (List.range INODE_DIRECT_PTRS) t).bind fun s1 =>
          (remove_file_indirect_blocks bs (fs_remove_file bs (fuel + 1)) s1 .SINGLE
            ino.sIndirect 2 d p).bind fun s2 =>
          (remove_file_indirect_blocks bs (fs_remove_file bs (fuel + 1)) s2 .DOUBLE
            ino.dIndirect 2 d p).bind fun s3 =>
          (remove_file_indirect_blocks bs (fs_remove_file bs (fuel + 1)) s3 .TRIPLE
            ino.tIndirect 2 d p).bind K) = K t4 := by
  have hdata : ∀ b, b ∈ dataBlocksOf bs s.disk ino → ChildrenFail bs s b := h
  -- direct pointers
  obtain ⟨t1, e1, r1⟩ := remove_direct_loop_fail bs fuel s d ino.directPtr
    (List.range INODE_DIRECT_PTRS) [] t ht (by
      intro i hi hne
      apply hdata
      simp only [dataBlocksOf, liveDirect, List.mem_append, List.mem_filter, List.mem_map]
      left; left; left
      exact ⟨⟨i, hi, rfl⟩, by simpa [is_not_null] using hne⟩)
  rw [List.nil_append] at r1
  -- single-indirect
  have hS : ∃ t2, remove_file_indirect_blocks bs (fs_remove_file bs (fuel + 1)) t1 .SINGLE
      ino.sIndirect 2 d p = some t2 ∧
      FreedOnly s ((liveDirect ino
        ++ (if is_not_null ino.sIndirect then singleFree bs s.disk ino.sIndirect else [])).map
          (fun b => b / bs)) t2 := by
    by_cases hn : is_not_null ino.sIndirect = true
    · obtain ⟨t2, e2, r2⟩ := remove_single_blocks_fail bs fuel s d ino.sIndirect _ t1 r1 (by
        intro b hb
        apply hdata
        simp only [dataBlocksOf, hn, if_true, singleData, List.mem_append]
        left; left; right
        exact hb)
      refine ⟨t2, ?_, ?_⟩
      · simp only [remove_file_indirect_blocks, hn, if_true]
        exact e2
      · simp only [hn, if_true, List.map_append]
        exact r2
    · refine ⟨t1, ?_, ?_⟩
      · simp only [remove_file_indirect_blocks, hn, Bool.false_eq_true, if_false]
      · simp only [hn, Bool.false_eq_true, if_false, List.append_nil]
        exact r1
  obtain ⟨t2, e2, r2⟩ := hS
  -- double-indirect
  have hD : ∃ t3, remove_file_indirect_blocks bs (fs_remove_file bs (fuel + 1)) t2 .DOUBLE
      ino.dIndirect 2 d p = some t3 ∧
      FreedOnly s ((liveDirect ino
        ++ (if is_not_null ino.sIndirect then singleFree bs s.disk ino.sIndirect else [])
        ++ (if is_not_null ino.dIndirect then doubleFree bs s.disk ino.dIndirect else [])).map
          (fun b => b / bs)) t3 := by
    by_cases hn : is_not_null ino.dIndirect = true
    · obtain ⟨t3, e3, r3⟩ := remove_double_blocks_fail bs fuel s d ino.dIndirect _ t2 r2 (by
        intro c hc b hb
        apply hdata
        simp only [dataBlocksOf, hn, if_true, doubleData, singleData, List.mem_append,
          List.mem_flatMap]
        left; right
        exact ⟨c, hc, hb⟩)
      refine ⟨t3, ?_, ?_⟩
      · simp only [remove_file_indirect_blocks, hn, if_true]
        exact e3
      · simp only [hn, if_true]
        rw [List.map_append]
        exact r3
    · refine ⟨t2, ?_, ?_⟩
      · simp only [remove_file_indirect_blocks, hn, Bool.false_eq_true, if_false]
      · simp only [hn, Bool.false_eq_true, if_false, List.append_nil]
        exact r2
  obtain ⟨t3, e3, r3⟩ := hD
  -- triple-indirect
  have hT : ∃ t4, remove_file_indirect_blocks bs (fs_remove_file bs (fuel + 1)) t3 .TRIPLE
      ino.tIndirect 2 d p = some t4 ∧
      FreedOnly s ((freeOrder bs s.disk ino).map (fun b => b / bs)) t4 := by
    by_cases hn : is_not_null ino.tIndirect = true
    · obtain ⟨t4, e4, r4⟩ := remove_triple_blocks_fail bs fuel s d ino.tIndirect _ t3 r3 (by
        intro x hx c hc b hb
        apply hdata
        simp only [dataBlocksOf, hn, if_true, tripleData, doubleData, singleData,
          List.mem_append, List.mem_flatMap]
        right
        exact ⟨x, hx, c, hc, hb⟩)
      refine ⟨t4, ?_, ?_⟩
      · simp only [remove_file_indirect_blocks, hn, if_true]
        exact e4
      · simp only [freeOrder, hn, if_true]
        rw [List.map_append]
        exact r4
    · refine ⟨t3, ?_, ?_⟩
      · simp only [remove_file_indirect_blocks, hn, Bool.false_eq_true, if_false]
      · simp only [freeOrder, hn, Bool.false_eq_true, if_false, List.append_nil]
        exact r3
  obtain ⟨t4, e4, r4⟩ := hT
  refine ⟨t4, r4, ?_⟩
  intro K
  rw [e1, Option.some_bind, e2, Option.some_bind, e3, Option.some_bind, e4, Option.some_bind]

/-- C28: let d be a directory (fileType 2) every one of whose entries in use
that the loops of fs_remove_file visit (word 8 onwards of each data block)
names an inode that does not open (NIL, or a record whose fileType is 0 or
less), and let p be another directory that opens, holds an in-use entry for d
and has a well-formed block tree; let the blocks reachable from d lie on
pairwise distinct sectors, none of them a sector that the removal of an entry
of p may release.  Then the recursive call on each such child returns False,
and fs_remove_file(d, p) nevertheless returns True: after the sectors logged
before, ssm_deallocate_sectors receives a list in which offset / BLOCK_SIZE
occurs exactly once for every data block and every index block reachable from
d; the record written back for d is the initial inode; deallocate_inode(d) is
called; and the four words of the first in-use entry of p that carries d are
zero (BLOCK_SIZE a multiple of 16).  For any directory, the result of one
activation of fs_remove_file does not depend on the Booleans returned by the
calls on the children, only on the states they leave. -/
theorem fs_remove_file_best_effort (bs : Nat) (hbs : bs % 16 = 0) (fuel : Nat) (s : FsState)
    (d p : Nat) (hd : d ≠ NIL) (hty : (s.itable d).fileType = 2)
    (hp : p ≠ NIL) (hpty : (s.itable p).fileType = 2) (hdp : d ≠ p)
    (hfail : ∀ b ∈ dataBlocksOf bs s.disk (s.itable d), ChildrenFail bs s b)
    (hent : ∃ a ∈ dirEntries bs s.disk (s.itable p), entryIs s.disk d a = true)
    (hwfp : TreeWellFormed bs s.disk (s.itable p))
    (hnd : ((freeOrder bs s.disk (s.itable d)).map (fun b => b / bs)).Nodup)
    (hsep : ∀ b ∈ freeOrder bs s.disk (s.itable d), b / bs ∉ dirSectors bs s.disk (s.itable p)) :
    (∀ b ∈ dataBlocksOf bs s.disk (s.itable d), ∀ j ∈ slotIdx bs 2,
      s.disk (b + 4 * (j + 3)) = 1 → ∀ t : FsState, t.itable = s.itable →
        ∃ r, fs_remove_file bs (fuel + 1) t (s.disk (b + 4 * (j + 2))) d = some (false, r)) ∧
    (∃ r, fs_remove_file bs (fuel + 2) s d p = some (true, r) ∧
      (∃ seg, r.ssmFreed = s.ssmFreed ++ seg ∧
        ∀ b ∈ dataBlocksOf bs s.disk (s.itable d) ++ indexBlocksOf bs s.disk (s.itable d),
          seg.count (b / bs) = 1) ∧
      r.itable d = inode_init ∧
      r.inodeFreed = s.inodeFreed ++ [d] ∧
      ∃ e, (dirEntries bs s.disk (s.itable p)).find? (entryIs s.disk d) = some e ∧
        r.disk e = 0 ∧ r.disk (e + 4) = 0 ∧ r.disk (e + 8) = 0 ∧ r.disk (e + 12) = 0) ∧
    (∀ rm rm2 : FsState → Nat → Nat → Option (Bool × FsState), SameStates rm rm2 →
      fs_remove_file_body bs rm s d p = fs_remove_file_body bs rm2 s d p) := by
  refine ⟨?_, ?_, fun rm rm2 h => fs_remove_file_body_same bs rm rm2 h s d p⟩
  · intro b hb j hj hu t ht
    have hc := hfail b hb j hj hu
    rw [← ht] at hc
    obtain ⟨r, hr, _⟩ := fs_remove_file_closed bs fuel t (s.disk (b + 4 * (j + 2))) d hc
    exact ⟨r, hr⟩
  -- the entry found by the scan
  obtain ⟨e, hfind⟩ : ∃ e, (dirEntries bs s.disk (s.itable p)).find? (entryIs s.disk d) = some e := by
    obtain ⟨a, ha, hpa⟩ := hent
    cases hc : (dirEntries bs s.disk (s.itable p)).find? (entryIs s.disk d) with
    | some e => exact ⟨e, rfl⟩
    | none =>
      rw [List.find?_eq_none] at hc
      exact absurd hpa (hc a ha)
  -- the state handed to fs_remove_file_from_dir
  have hrun : ∃ s6 : FsState, fs_remove_file bs (fuel + 2) s d p
      = some (true, (fs_remove_file_from_dir bs s6 d p).2) ∧
      s6.disk = s.disk ∧ s6.itable p = s.itable p ∧ s6.itable d = inode_init ∧
      s6.ssmFreed = s.ssmFreed ++ (freeOrder bs s.disk (s.itable d)).map (fun b => b / bs) ∧
      s6.inodeFreed = s.inodeFreed ++ [d] := by
    obtain ⟨t4, r4, hK⟩ := @remove_dir_traversal (Bool × FsState) bs fuel s
      { s with mapId := d, inode := s.itable d } d p (s.itable d)
      ⟨rfl, rfl, rfl, rfl, by simp, rfl, rfl⟩ hfail
    refine ⟨deallocate_inode (inode_write
      { t4 with mapId := d, inode := inode_init } d) d, ?_, ?_, ?_, ?_, ?_, ?_⟩
    · rw [fs_remove_file]
      simp only [fs_remove_file_body]
      rw [open_inode_eq s d hd (by omega)]
      simp only [Bool.not_true, Bool.false_eq_true, if_false, hty]
      rw [hK]
      rw [open_inode_eq t4 d hd (by rw [r4.2.1]; omega)]
      rfl
    · exact r4.1
    · show (if p = d then _ else t4.itable p) = _
      rw [if_neg (fun h => hdp h.symm), r4.2.1]
    · show (if d = d then _ else t4.itable d) = _
      rw [if_pos rfl]
    · exact r4.2.2.2.2.1
    · show t4.inodeFreed ++ [d] = _
      rw [r4.2.2.2.2.2.1]
  obtain ⟨s6, hrun, h6d, h6p, h6i, h6f, h6n⟩ := hrun
  have hpost := fs_remove_file_from_dir_post bs hbs s6 d p hp (by rw [h6p]; exact hpty) e
    (by rw [h6d, h6p]; exact hfind)
  rw [h6d, h6p] at hpost
  obtain ⟨_, hdisk, ⟨seg, hseg, hsegA⟩, hit, _, _, hif⟩ := hpost
  refine ⟨_, hrun, ⟨(freeOrder bs s.disk (s.itable d)).map (fun b => b / bs) ++ seg, ?_, ?_⟩,
    ?_, ?_, e, hfind, ?_⟩
  · rw [hseg, h6f, List.append_assoc]
  · intro b hb
    have hbm := mem_freeOrder bs s.disk (s.itable d) b hb
    rw [List.count_append]
    have h1 : ((freeOrder bs s.disk (s.itable d)).map (fun b => b / bs)).count (b / bs) = 1 :=
      List.count_eq_one_of_mem hnd (List.mem_map.mpr ⟨b, hbm, rfl⟩)
    have h2 : seg.count (b / bs) = 0 :=
      List.count_eq_zero_of_not_mem (fun hh => hsep b hbm (hsegA _ hh))
    rw [h1, h2]
  · rw [hit d hdp]
    exact h6i
  · rw [hif]
    exact h6n
  · -- the four words of the entry lie in a data block, outside every index block
    obtain ⟨b, hb, j, hj, rfl⟩ := mem_dirEntries bs s.disk (s.itable p) e
      (List.mem_of_find?_eq_some hfind)
    have hjs := mem_slotIdx bs j hbs hj
    have hout : ∀ a, b ≤ a → a < b + bs →
        ∀ x ∈ indexBlocksOf bs s.disk (s.itable p), a < x ∨ x + bs ≤ a := by
      intro a h1 h2 x hx
      have hxa := hwfp.2 x hx
      have hne : x ≠ b := fun hh => hxa.2 (hh ▸ hb)
      have := aligned_disjoint bs x b hxa.1 (hwfp.1 b hb) hne
      omega
    refine ⟨?_, ?_, ?_, ?_⟩
    · rw [hdisk _ (hout _ (by omega) (by omega))]; simp [clearAt]
    · rw [hdisk _ (hout _ (by omega) (by omega))]; simp [clearAt]
    · rw [hdisk _ (hout _ (by omega) (by omega))]; simp [clearAt]
    · rw [hdisk _ (hout _ (by omega) (by omega))]; simp [clearAt]

set_option maxRecDepth 1000000 in
/-- Instance of fs_remove_file_best_effort: the directory 3 of staleDirState,
whose two visited entries name the inodes 4 and 5 with fileType 0, removed from
the root. -/
theorem fs_remove_file_best_effort_witness :
    (staleDirState.itable 3).fileType = 2 ∧ (staleDirState.itable 2).fileType = 2 ∧
    dataBlocksOf 64 staleDirState.disk (staleDirState.itable 3) = [2240] ∧
    staleDirState.disk (2240 + 4 * 10) = 4 ∧ staleDirState.disk (2240 + 4 * 11) = 1 ∧
    staleDirState.disk (2240 + 4 * 14) = 5 ∧ staleDirState.disk (2240 + 4 * 15) = 1 ∧
    (staleDirState.itable 4).fileType = 0 ∧ (staleDirState.itable 5).fileType = 0 ∧
    ((∀ b ∈ dataBlocksOf 64 staleDirState.disk (staleDirState.itable 3), ∀ j ∈ slotIdx 64 2,
      staleDirState.disk (b + 4 * (j + 3)) = 1 → ∀ t : FsState, t.itable = staleDirState.itable →
        ∃ r, fs_remove_file 64 1 t (staleDirState.disk (b + 4 * (j + 2))) 3 = some (false, r)) ∧
    (∃ r, fs_remove_file 64 2 staleDirState 3 2 = some (true, r) ∧
      (∃ seg, r.ssmFreed = staleDirState.ssmFreed ++ seg ∧
        ∀ b ∈ dataBlocksOf 64 staleDirState.disk (staleDirState.itable 3)
            ++ indexBlocksOf 64 staleDirState.disk (staleDirState.itable 3),
          seg.count (b / 64) = 1) ∧
      r.itable 3 = inode_init ∧
      r.inodeFreed = staleDirState.inodeFreed ++ [3] ∧
      ∃ e, (dirEntries 64 staleDirState.disk (staleDirState.itable 2)).find?
          (entryIs staleDirState.disk 3) = some e ∧
        r.disk e = 0 ∧ r.disk (e + 4) = 0 ∧ r.disk (e + 8) = 0 ∧ r.disk (e + 12) = 0) ∧
    (∀ rm rm2 : FsState → Nat → Nat → Option (Bool × FsState), SameStates rm rm2 →
      fs_remove_file_body 64 rm staleDirState 3 2
        = fs_remove_file_body 64 rm2 staleDirState 3 2)) :=
  ⟨by decide, by decide, by decide, by decide, by decide, by decide, by decide, by decide,
    by decide,
    fs_remove_file_best_effort 64 (by decide) 0 staleDirState 3 2 (by decide) (by decide)
      (by decide) (by decide) (by decide) (by decide) (by decide) (by decide) (by decide)
      (by decide)⟩

theorem no_alloc_loop_quiet (bs : Nat) (ib : Nat → Nat) (f : Nat) (n : Nat × Nat) :
    ∀ (is : List Nat) (s : FsState),
      ((add_file_to_single_indirect_no_alloc_loop bs ib f n is s).2 = s ∨
        (add_file_to_single_indirect_no_alloc_loop bs ib f n is s).2.inode = inode_init) ∧
      ∀ L, add_file_to_single_indirect_no_alloc_loop bs ib f n is { s with ssmOut := L }
        = ((add_file_to_single_indirect_no_alloc_loop bs ib f n is s).1,
          { (add_file_to_single_indirect_no_alloc_loop bs ib f n is s).2 with ssmOut := L }) := by
  intro is
  induction is with
  | nil => intro s; exact ⟨Or.inl rfl, fun _ => rfl⟩
  | cons i is ih =>
    intro s
    by_cases hn : is_not_null (ib i) = true
    · cases hf : freeSlot bs (readBlock s.disk (ib i)) with
      | none =>
        have e : ∀ t : FsState, t.disk = s.disk →
            add_file_to_single_indirect_no_alloc_loop bs ib f n (i :: is) t
              = add_file_to_single_indirect_no_alloc_loop bs ib f n is t := by
          intro t ht
          rw [add_file_to_single_indirect_no_alloc_loop]
          simp only [hn, if_true, ht, hf]
        rw [e s rfl]
        refine ⟨(ih s).1, fun L => ?_⟩
        rw [e { s with ssmOut := L } rfl]
        exact (ih s).2 L
      | some j =>
        have e : ∀ t : FsState, t.disk = s.disk →
            add_file_to_single_indirect_no_alloc_loop bs ib f n (i :: is) t
              = (true, (fs_close_file { t with
                  inode := { t.inode with linkCount := (t.inode.linkCount + 1) % U32 },
                  disk := writeBlock bs t.disk (ib i)
                    (putEntry (readBlock t.disk (ib i)) j n f) }).2) := by
          intro t ht
          rw [add_file_to_single_indirect_no_alloc_loop]
          simp only [hn, if_true, ht, hf]
        rw [e s rfl]
        refine ⟨Or.inr rfl, fun L => ?_⟩
        rw [e { s with ssmOut := L } rfl]
        rfl
    · have e : ∀ t : FsState,
          add_file_to_single_indirect_no_alloc_loop bs ib f n (i :: is) t
            = add_file_to_single_indirect_no_alloc_loop bs ib f n is t := by
        intro t
        rw [add_file_to_single_indirect_no_alloc_loop]
        simp only [hn, Bool.false_eq_true, if_false]
      rw [e s]
      refine ⟨(ih s).1, fun L => ?_⟩
      rw [e]
      exact (ih s).2 L

theorem add_single_quiet (bs : Nat) (f : Nat) (n : Nat × Nat) (off : Nat) :
    Quiet (fun s => add_file_to_single_indirect bs s f n off false) := by
  intro s
  have h := no_alloc_loop_quiet bs (readBlock s.disk off) f n (List.range (bs / 4)) s
  refine ⟨rfl, h.1, fun L => ?_⟩
  show (false, (add_file_to_single_indirect_no_alloc_loop bs (readBlock s.disk off) f n
    (List.range (bs / 4)) { s with ssmOut := L }).2) = _
  rw [h.2 L]
  rfl

/-- Two quiet steps in sequence are a quiet step. -/
theorem Quiet.seq {g h : FsState → Bool × FsState} (hg : Quiet g) (hh : Quiet h) :
    Quiet (fun s => h (g s).2) := by
  intro s
  obtain ⟨_, g2, g3⟩ := hg s
  obtain ⟨h1, h2, h3⟩ := hh (g s).2
  refine ⟨h1, ?_, fun L => ?_⟩
  · rcases g2 with g2 | g2
    · rcases h2 with h2 | h2
      · left; rw [h2, g2]
      · right; exact h2
    · rcases h2 with h2 | h2
      · right; rw [h2]; exact g2
      · right; exact h2
  · show h (g { s with ssmOut := L }).2 = _
    rw [g3 L]
    exact h3 L

theorem Quiet.id_q : Quiet (fun s => (false, s)) :=
  fun _ => ⟨rfl, Or.inl rfl, fun _ => rfl⟩

theorem add_double_scan_quiet (bs : Nat) (f : Nat) (n : Nat × Nat) (ib : Nat → Nat) :
    ∀ is : List Nat, Quiet (fun s => add_double_scan bs f n false ib is s) := by
  intro is
  induction is with
  | nil => exact Quiet.id_q
  | cons i is ih =>
    by_cases hn : is_not_null (ib i) = true
    · have e : (fun s => add_double_scan bs f n false ib (i :: is) s)
          = fun s => add_double_scan bs f n false ib is
              (add_file_to_single_indirect bs s f n (ib i) false).2 := by
        funext s
        rw [add_double_scan]
        simp only [hn, if_true, (add_single_quiet bs f n (ib i) s).1, Bool.false_eq_true,
          if_false]
      rw [e]
      exact Quiet.seq (add_single_quiet bs f n (ib i)) ih
    · have e : (fun s => add_double_scan bs f n false ib (i :: is) s)
          = fun s => add_double_scan bs f n false ib is s := by
        funext s
        rw [add_double_scan]
        simp only [hn, Bool.false_eq_true, if_false]
      rw [e]
      exact ih

theorem add_double_quiet (bs : Nat) (f : Nat) (n : Nat × Nat) (off : Nat) :
    Quiet (fun s => add_file_to_double_indirect bs s f n off false) := by
  intro s
  have h := add_double_scan_quiet bs f n (readBlock s.disk off) (List.range (bs / 4)) s
  have e : ∀ t : FsState, t.disk = s.disk → add_file_to_double_indirect bs t f n off false
      = (false, (add_double_scan bs f n false (readBlock s.disk off) (List.range (bs / 4)) t).2) := by
    intro t ht
    have h1 := (add_double_scan_quiet bs f n (readBlock s.disk off) (List.range (bs / 4)) t).1
    simp only [add_file_to_double_indirect, ht, h1, Bool.false_eq_true, if_false]
  refine ⟨?_, ?_, fun L => ?_⟩
  · beta_reduce; rw [e s rfl]
  · beta_reduce; rw [e s rfl]; exact h.2.1
  · beta_reduce; rw [e { s with ssmOut := L } rfl, e s rfl]
    exact congrArg (fun x => (false, x.2)) (h.2.2 L)

theorem add_triple_scan_quiet (bs : Nat) (f : Nat) (n : Nat × Nat) (ib : Nat → Nat) :
    ∀ is : List Nat, Quiet (fun s => add_triple_scan bs f n false ib is s) := by
  intro is
  induction is with
  | nil => exact Quiet.id_q
  | cons i is ih =>
    by_cases hn : is_not_null (ib i) = true
    · have e : (fun s => add_triple_scan bs f n false ib (i :: is) s)
          = fun s => add_triple_scan bs f n false ib is
              (add_file_to_double_indirect bs s f n (ib i) false).2 := by
        funext s
        rw [add_triple_scan]
        simp only [hn, if_true, (add_double_quiet bs f n (ib i) s).1, Bool.false_eq_true,
          if_false]
      rw [e]
      exact Quiet.seq (add_double_quiet bs f n (ib i)) ih
    · have e : (fun s => add_triple_scan bs f n false ib (i :: is) s)
          = fun s => add_triple_scan bs f n false ib is s := by
        funext s
        rw [add_triple_scan]
        simp only [hn, Bool.false_eq_true, if_false]
      rw [e]
      exact ih

theorem add_triple_quiet (bs : Nat) (f : Nat) (n : Nat × Nat) (off : Nat) :
    Quiet (fun s => add_file_to_triple_indirect bs s f n off false) := by
  intro s
  have h := add_triple_scan_quiet bs f n (readBlock s.disk off) (List.range (bs / 4)) s
  have e : ∀ t : FsState, t.disk = s.disk → add_file_to_triple_indirect bs t f n off false
      = (false, (add_triple_scan bs f n false (readBlock s.disk off) (List.range (bs / 4)) t).2) := by
    intro t ht
    have h1 := (add_triple_scan_quiet bs f n (readBlock s.disk off) (List.range (bs / 4)) t).1
    simp only [add_file_to_triple_indirect, ht, h1, Bool.false_eq_true, if_false]
  refine ⟨?_, ?_, fun L => ?_⟩
  · beta_reduce; rw [e s rfl]
  · beta_reduce; rw [e s rfl]; exact h.2.1
  · beta_reduce; rw [e { s with ssmOut := L } rfl, e s rfl]
    exact congrArg (fun x => (false, x.2)) (h.2.2 L)

theorem Quiet.guard (c : FsState → Nat) (g : Nat → FsState → Bool × FsState)
    (hg : ∀ off, Quiet (g off)) (hc : ∀ s L, c { s with ssmOut := L } = c s) :
    Quiet (fun s => if is_not_null (c s) then g (c s) s else (false, s)) := by
  intro s
  beta_reduce
  by_cases h : is_not_null (c s) = true
  · obtain ⟨h1, h2, h3⟩ := hg (c s) s
    refine ⟨?_, ?_, fun L => ?_⟩
    · rw [if_pos h]; exact h1
    · rw [if_pos h]; exact h2
    · rw [hc s L, if_pos h, if_pos h]; exact h3 L
  · refine ⟨?_, ?_, fun L => ?_⟩
    · rw [if_neg h]
    · rw [if_neg h]; exact Or.inl rfl
    · rw [hc s L, if_neg h, if_neg h]

/-- The scan create_file_in_avail_indirect_loc(..., False) returns False, leaves
the state as it was or the working inode closed, and does not touch the Sector
Space Manager. -/
theorem avail_indirect_quiet (bs : Nat) (f : Nat) (n : Nat × Nat) :
    Quiet (fun s => create_file_in_avail_indirect_loc bs s f n false) := by
  have q1 := Quiet.guard (fun s => s.inode.sIndirect)
    (fun off s => add_file_to_single_indirect bs s f n off false)
    (fun off => add_single_quiet bs f n off) (fun _ _ => rfl)
  have q2 := Quiet.guard (fun s => s.inode.dIndirect)
    (fun off s => add_file_to_double_indirect bs s f n off false)
    (fun off => add_double_quiet bs f n off) (fun _ _ => rfl)
  have q3 := Quiet.guard (fun s => s.inode.tIndirect)
    (fun off s => add_file_to_triple_indirect bs s f n off false)
    (fun off => add_triple_quiet bs f n off) (fun _ _ => rfl)
  have q := (q1.seq q2).seq q3
  have e : (fun s => create_file_in_avail_indirect_loc bs s f n false)
      = fun s =>
        (fun s => if is_not_null s.inode.tIndirect
          then add_file_to_triple_indirect bs s f n s.inode.tIndirect false else (false, s))
        ((fun s => if is_not_null s.inode.dIndirect
          then add_file_to_double_indirect bs s f n s.inode.dIndirect false else (false, s))
          ((fun s => if is_not_null s.inode.sIndirect
            then add_file_to_single_indirect bs s f n s.inode.sIndirect false
            else (false, s)) s).2).2 := by
    funext s
    have h1 := (q1 s).1
    have h2 := ((q1.seq q2) s).1
    have h3 := (q s).1
    beta_reduce at h1 h2 h3 ⊢
    simp only [create_file_in_avail_indirect_loc, h1, h2, h3, Bool.false_eq_true, if_false]
    exact Prod.ext h3.symm rfl
  rw [e]
  exact q

/-- With the working inode closed no indirect pointer is set and the scan does
nothing. -/
theorem avail_indirect_closed (bs : Nat) (s : FsState) (f : Nat) (n : Nat × Nat) (a : Bool)
    (h : s.inode = inode_init) :
    create_file_in_avail_indirect_loc bs s f n a = (false, s) := by
  have h1 : is_not_null s.inode.sIndirect = false := by rw [h]; decide
  have h2 : is_not_null s.inode.dIndirect = false := by rw [h]; decide
  have h3 : is_not_null s.inode.tIndirect = false := by rw [h]; decide
  simp only [create_file_in_avail_indirect_loc, h1, h2, h3, Bool.false_eq_true, if_false]

/-- A failed create_file_in_unavail_direct_loc changes at most the answers left
in the Sector Space Manager. -/
theorem unavail_direct_false (bs : Nat) (s : FsState) (f p : Nat) (n : Nat × Nat)
    (h : (create_file_in_unavail_direct_loc bs s f p n).1 = false) :
    ∃ L, (create_file_in_unavail_direct_loc bs s f p n).2 = { s with ssmOut := L } := by
  unfold create_file_in_unavail_direct_loc at h ⊢
  cases hfind : (List.range INODE_DIRECT_PTRS).find?
      (fun i => is_null (s.inode.directPtr.getD i NIL)) with
  | none => exact ⟨s.ssmOut, by simp only [hfind]⟩
  | some i =>
    simp only [hfind] at h ⊢
    cases hs : s.ssmOut with
    | nil =>
      have hr : ssm_allocate_sectors s = (NIL, s) := by simp only [ssm_allocate_sectors, hs]
      have hnull : is_null NIL = true := by decide
      refine ⟨[], ?_⟩
      simp only [hr, hnull, if_true]
      rw [← hs]
    | cons x xs =>
      have hr : ssm_allocate_sectors s = (x, { s with ssmOut := xs }) := by
        simp only [ssm_allocate_sectors, hs]
      rw [hr] at h ⊢
      by_cases hx : is_null x = true
      · exact ⟨xs, by simp only [hx, if_true]⟩
      · simp only [hx, Bool.false_eq_true, if_false] at h
        cases h

/-- C32: create_file is the same function as its variant without the second
create_file_in_avail_indirect_loc(..., False) call: for every block size, state
(disk image, inode records, working inode, Sector Space Manager) and arguments
the two return the same Boolean and leave the same state. -/
theorem create_file_second_scan_redundant (bs : Nat) (s : FsState) (f : Nat) (n : Nat × Nat)
    (p : Nat) : create_file bs s f n p = create_file_one_scan bs s f n p := by
  simp only [create_file, create_file_one_scan]
  generalize open_inode s p = o
  by_cases h0 : o.1 = true
  swap
  · simp only [h0, Bool.not_false, if_true]
  simp only [h0, Bool.not_true, Bool.false_eq_true, if_false]
  generalize create_file_in_avail_direct_loc bs o.2 f n = a1
  by_cases h1 : a1.1 = true
  · simp only [h1, if_true]
  simp only [h1, Bool.false_eq_true, if_false]
  have hq := avail_indirect_quiet bs f n a1.2
  beta_reduce at hq
  generalize create_file_in_avail_indirect_loc bs a1.2 f n false = a2 at hq ⊢
  simp only [hq.1, Bool.false_eq_true, if_false]
  by_cases h3 : (create_file_in_unavail_direct_loc bs a2.2 f p n).1 = true
  · simp only [h3, if_true]
  simp only [h3, Bool.false_eq_true, if_false]
  obtain ⟨L, hL⟩ := unavail_direct_false bs a2.2 f p n (by simpa using h3)
  have h4 : create_file_in_avail_indirect_loc bs
      (create_file_in_unavail_direct_loc bs a2.2 f p n).2 f n false
      = (false, (create_file_in_unavail_direct_loc bs a2.2 f p n).2) := by
    rw [hL]
    rcases hq.2.1 with hsame | hclosed
    · have h5 := hq.2.2 L
      rw [hsame] at h5 ⊢
      exact h5
    · exact avail_indirect_closed bs _ f n false hclosed
  rw [h4]
  simp only [Bool.false_eq_true, if_false]

/-- A directory whose first data block holds, in a slot that the loop of
fs_remove_file visits first, an entry in use that names the directory itself:
no bound on the depth of the recursion is enough for fs_remove_file. -/
theorem fs_remove_file_self_entry (bs : Nat) (d b : Nat) (rest : List Nat) (hd : d ≠ NIL)
    (hb : b ≠ NIL) (hslot : slotIdx bs 2 = 8 :: rest) :
    ∀ (fuel : Nat) (s : FsState) (q : Nat), (s.itable d).fileType = 2 →
      (s.itable d).directPtr.getD 0 NIL = b → s.disk (b + 4 * 11) = 1 →
      s.disk (b + 4 * 10) = d → fs_remove_file bs fuel s d q = none := by
  intro fuel
  induction fuel with
  | zero => intro s q _ _ _ _; rfl
  | succ fuel ih =>
    intro s q hty hptr hin hnum
    have hrange : List.range INODE_DIRECT_PTRS = 0 :: List.range' 1 9 := by decide
    have hnn : is_not_null b = true := by simpa [is_not_null] using hb
    have hchild : remove_children (fs_remove_file bs fuel)
        (readBlock s.disk b) d (slotIdx bs 2) { s with mapId := d, inode := s.itable d }
        = none := by
      rw [hslot, remove_children]
      have h11 : readBlock s.disk b (8 + 3) = 1 := hin
      have h10 : readBlock s.disk b (8 + 2) = d := hnum
      rw [if_pos h11, h10, ih { s with mapId := d, inode := s.itable d } d hty hptr hin hnum]
    rw [fs_remove_file]
    simp only [fs_remove_file_body]
    rw [open_inode_eq s d hd (by omega)]
    simp only [Bool.not_true, Bool.false_eq_true, if_false, hty, hrange]
    rw [remove_file_direct_loop]
    simp only [hptr, hnn, if_true, remove_data_block, hchild]
    rfl

set_option maxRecDepth 1000000 in
/-- C38 (code evaluated at the failing input): inode 3 of dirState is a
directory made by fs_create_file in the root of a fresh file system, with the
data block 2240; fs_remove_file(3, 2) on it returns True.  fs_write_to_file(3,
loopBuf, 64) returns True and overwrites that block, whose third slot then
holds an entry in use with inode_num 3.  On the state so reached
fs_remove_file(3, 2) calls fs_remove_file(3, 3) from its loop over the entries,
which does the same again: for no bound on the depth of the recursion does the
call give a result. -/
theorem fs_remove_file_never_returns :
    (dirState.itable 3).fileType = 2 ∧
    (dirState.itable 3).directPtr.getD 0 NIL = 2240 ∧
    (fs_remove_file 64 1 dirState 3 2).map (fun r => r.1) = some true ∧
    (fs_write_to_file 64 false dirState 3 loopBuf 64).1 = true ∧
    (loopState.itable 3).fileType = 2 ∧
    (loopState.itable 3).directPtr.getD 0 NIL = 2240 ∧
    (List.range 4).map (fun k => loopState.disk (2240 + 4 * (8 + k))) = [120, 0, 3, 1] ∧
    ∀ fuel, fs_remove_file 64 fuel loopState 3 2 = none := by
  refine ⟨by decide, by decide, by decide, by decide, by decide, by decide, by decide, ?_⟩
  intro fuel
  exact fs_remove_file_self_entry 64 3 2240 [12] (by decide) (by decide) (by decide) fuel
    loopState 2 (by decide) (by decide) (by decide) (by decide)

set_option maxRecDepth 1000000 in
/-- C39 (code evaluated at the failing input): the directory 3 of smallDir has
the data blocks 2240 (sector 35) and 2304 (sector 36); the only entry in use of
the block 2304 is the one for file 8.  No sector has been released so far.
fs_remove_file(8, 3) alone releases sector 36, because the removal of the entry
empties the block.  fs_remove_file(3, 2) returns True and hands sector 36 to
ssm_deallocate_sectors twice: once from the removal of the child 8, once from
its own loop over the pointers it copied on entry. -/
theorem fs_remove_file_frees_sector_twice :
    (smallDir.itable 3).fileType = 2 ∧
    dataBlocksOf 64 smallDir.disk (smallDir.itable 3) = [2240, 2304] ∧
    (blockEntries 64 2304).filter (entryInUse smallDir.disk) = [2304 + 32] ∧
    entryIs smallDir.disk 8 (2304 + 32) = true ∧
    (smallDir.itable 8).fileType = 1 ∧
    smallDir.ssmFreed = [] ∧
    (fs_remove_file 64 1 smallDir 8 3).map (fun r => (r.1, r.2.ssmFreed)) = some (true, [36]) ∧
    (fs_remove_file 64 2 smallDir 3 2).map (fun r => (r.1, r.2.ssmFreed))
      = some (true, [35, 36, 36]) ∧
    2304 / 64 = 36 := by
  decide

set_option maxRecDepth 1000000 in
/-- C31 (code evaluated at the failing input): on 32-byte blocks
(PTRS_PER_BLOCK = S_INDIRECT_BLOCKS = 8, D_INDIRECT_BLOCKS = 64), with sectors
left for every request.  aloc_double_indirect(9) fills two slots of its index
block and each of the two single-indirect blocks gets eight data sectors: the
second one is built by aloc_single_indirect(9), not by aloc_single_indirect(1),
and 16 data sectors are reachable instead of 9; aloc_double_indirect(8) also
reaches 16.  aloc_triple_indirect(65) builds two full double-indirect trees,
128 data sectors instead of 65. -/
theorem aloc_double_indirect_budget_not_spent :
    (madeState32 20).ssmOut.length = 19 ∧
    (aloc_double_indirect 32 (madeState32 20) 9).1 = 1120 ∧
    liveSlots 32 (aloc_double_indirect 32 (madeState32 20) 9).2.disk 1120 = [1152, 1440] ∧
    (liveSlots 32 (aloc_double_indirect 32 (madeState32 20) 9).2.disk 1152).length = 8 ∧
    (liveSlots 32 (aloc_double_indirect 32 (madeState32 20) 9).2.disk 1440).length = 8 ∧
    (doubleData 32 (aloc_double_indirect 32 (madeState32 20) 9).2.disk 1120).length = 16 ∧
    (aloc_double_indirect 32 (madeState32 20) 9).2.ssmOut = [] ∧
    (doubleData 32 (aloc_double_indirect 32 (madeState32 20) 8).2.disk 1120).length = 16 ∧
    (madeState32 150).ssmOut.length = 149 ∧
    (aloc_triple_indirect 32 (madeState32 150) 65).1 = 1120 ∧
    (liveSlots 32 (aloc_triple_indirect 32 (madeState32 150) 65).2.disk 1120).length = 2 ∧
    (tripleData 32 (aloc_triple_indirect 32 (madeState32 150) 65).2.disk 1120).length = 128 ∧
    (aloc_triple_indirect 32 (madeState32 150) 65).2.ssmOut.length = 2 := by
  decide

set_option maxRecDepth 1000000 in
/-- C33 (code evaluated at the failing input): when the first answer of the
Sector Space Manager is NIL, write_to_file_using_single_indirect_blocks stores
NIL in inode.sIndirect and calls write_to_single_indirect_blocks with the base
offset NIL, which reads its index block from byte offset NIL.  On
nilWordState v the file 3 has no block and ten sectors are left; a write of
eleven blocks of 64 bytes uses them for the direct pointers, gets NIL for the
index block and returns True with sIndirect = NIL persisted.  The block the
eleventh block of the buffer goes to is the one named by the word at offset
NIL: with v = 2176 the data block of the root directory is overwritten, with
v = 0 the boot block at offset 0, with v = NIL nothing. -/
theorem fs_write_to_file_reads_index_at_nil :
    (∀ (bs : Nat) (s : FsState) (buf : Nat → Nat) (pos : Nat) (fileSize : Int),
      (ssm_allocate_sectors s).1 = NIL →
        (write_to_file_using_single_indirect_blocks bs s buf pos fileSize).inode.sIndirect = NIL ∧
        (write_to_file_using_single_indirect_blocks bs s buf pos fileSize).disk
          = write_single_loop bs (readBlock s.disk NIL) buf
              (List.range (blocksFor bs fileSize)) pos s.disk) ∧
    ((nilWordState 2176).itable 3).fileType = 1 ∧
    ((nilWordState 2176).itable 3).directPtr = List.replicate 10 NIL ∧
    (nilWordState 2176).ssmOut.length = 10 ∧
    ((nilWordState 2176).itable 2).directPtr.getD 0 NIL = 2176 ∧
    (List.range 4).map (fun k => (nilWordState 2176).disk (2176 + 4 * k)) = [46, 0, 2, 1] ∧
    (fs_write_to_file 64 false (nilWordState 2176) 3 (fun k => k + 1) 704).1 = true ∧
    ((fs_write_to_file 64 false (nilWordState 2176) 3 (fun k => k + 1) 704).2.itable 3).sIndirect
      = NIL ∧
    (List.range 4).map (fun k =>
      (fs_write_to_file 64 false (nilWordState 2176) 3 (fun k => k + 1) 704).2.disk
        (2176 + 4 * k)) = [161, 162, 163, 164] ∧
    (List.range 4).map (fun k =>
      (fs_write_to_file 64 false (nilWordState 0) 3 (fun k => k + 1) 704).2.disk (0 + 4 * k))
      = [161, 162, 163, 164] ∧
    (List.range 4).map (fun k =>
      (fs_write_to_file 64 false (nilWordState NIL) 3 (fun k => k + 1) 704).2.disk
        (2176 + 4 * k)) = [46, 0, 2, 1] ∧
    (List.range 4).map (fun k =>
      (fs_write_to_file 64 false (nilWordState NIL) 3 (fun k => k + 1) 704).2.disk (0 + 4 * k))
      = [0, 0, 0, 0] := by
  refine ⟨?_, by decide, by decide, by decide, by decide, by decide, by decide, by decide,
    by decide, by decide, by decide, by decide⟩
  intro bs s buf pos fileSize h
  have hn : is_not_null NIL = false := by decide
  cases hs : s.ssmOut with
  | nil =>
    have hr : ssm_allocate_sectors s = (NIL, s) := by simp only [ssm_allocate_sectors, hs]
    simp only [write_to_file_using_single_indirect_blocks, aloc_single_indirect, hr, hn,
      Bool.false_eq_true, if_false, write_to_single_indirect_blocks]
    exact ⟨trivial, trivial⟩
  | cons x xs =>
    have hr : ssm_allocate_sectors s = (x, { s with ssmOut := xs }) := by
      simp only [ssm_allocate_sectors, hs]
    rw [hr] at h
    have hx : x = NIL := h
    subst hx
    simp only [write_to_file_using_single_indirect_blocks, aloc_single_indirect, hr, hn,
      Bool.false_eq_true, if_false, write_to_single_indirect_blocks]
    exact ⟨trivial, trivial⟩

set_option maxRecDepth 1000000 in
/-- C34 (code evaluated at the failing input): the root of wornState, a state
reached from fs_make by fs_create_file and fs_remove_file, has nineteen entries
in use, the one for file 19 at offset 1376.  fs_remove_file_from_dir(19, 2)
returns True; the eighteen other entries are still in use on the disk image,
but the inode persisted for the root has no pointer left, so that none of them
is reachable from it. -/
theorem fs_remove_file_from_dir_unlinks_others :
    (wornState.itable 2).fileType = 2 ∧
    (dirEntries 32 wornState.disk (wornState.itable 2)).filter (entryInUse wornState.disk)
      = (List.range 19).map (fun k => 1088 + 16 * k) ∧
    (dirEntries 32 wornState.disk (wornState.itable 2)).find? (entryIs wornState.disk 19)
      = some 1376 ∧
    (fs_remove_file_from_dir 32 wornState 19 2).1 = true ∧
    ((List.range 18).map (fun k => 1088 + 16 * k)).all
      (entryInUse (fs_remove_file_from_dir 32 wornState 19 2).2.disk) = true ∧
    ((List.range 18).map (fun k => 1088 + 16 * k)).all (fun a =>
      (List.range 4).all (fun k =>
        (fs_remove_file_from_dir 32 wornState 19 2).2.disk (a + 4 * k)
          = wornState.disk (a + 4 * k))) = true ∧
    dirEntries 32 (fs_remove_file_from_dir 32 wornState 19 2).2.disk
      ((fs_remove_file_from_dir 32 wornState 19 2).2.itable 2) = [] ∧
    ((fs_remove_file_from_dir 32 wornState 19 2).2.itable 2).directPtr
      = List.replicate 10 NIL := by
  decide

set_option maxRecDepth 1000000 in
/-- C35 (code evaluated at the failing input): the root of bigDirState has 21
entries in use; the slot at offset 1456, in the data block 1440 under its
single-indirect index block, is free.  create_file(22, name, 2) returns True
and sets two slots in use, the one at 1456 and the first slot of the sector
1472 that it takes from the Sector Space Manager; from the inode it persists
for the root only the entry at 1472 is reachable, none of the 21 entries that
were in use before. -/
theorem create_file_unlinks_entries :
    (dirEntries 32 (bigDirState 3).disk ((bigDirState 3).itable 2)).filter
      (entryInUse (bigDirState 3).disk)
      = (List.range 20).map (fun k => 1088 + 16 * k) ++ [1440] ∧
    entryInUse (bigDirState 3).disk 1456 = false ∧
    entryInUse (bigDirState 3).disk 1472 = false ∧
    (create_file 32 (bigDirState 3) 22 (98, 0) 2).1 = true ∧
    entryIs (create_file 32 (bigDirState 3) 22 (98, 0) 2).2.disk 22 1456 = true ∧
    entryIs (create_file 32 (bigDirState 3) 22 (98, 0) 2).2.disk 22 1472 = true ∧
    ((List.range 20).map (fun k => 1088 + 16 * k) ++ [1440]).all
      (entryInUse (create_file 32 (bigDirState 3) 22 (98, 0) 2).2.disk) = true ∧
    dirEntries 32 (create_file 32 (bigDirState 3) 22 (98, 0) 2).2.disk
      ((create_file 32 (bigDirState 3) 22 (98, 0) 2).2.itable 2) = [1472, 1488] ∧
    (dirEntries 32 (create_file 32 (bigDirState 3) 22 (98, 0) 2).2.disk
      ((create_file 32 (bigDirState 3) 22 (98, 0) 2).2.itable 2)).filter
      (entryInUse (create_file 32 (bigDirState 3) 22 (98, 0) 2).2.disk) = [1472] := by
  decide

set_option maxRecDepth 1000000 in
/-- C36 (code evaluated at the failing input): inode 3 is a regular file
(fileType 1).  On newFileState it has no block: fs_create_file(0, name, 3)
returns the new inode 4, takes sector 2240 from the Sector Space Manager for
directPtr[0] of inode 3, writes the entry for inode 4 into it and persists
linkCount 1, fileSize 64 and dataBlocks 1 for inode 3.  On zeroFile the file
has one data block whose first four words are zero: the same call overwrites
these four words with the entry. -/
theorem fs_create_file_into_regular_file :
    ((newFileState 3).itable 3).fileType = 1 ∧
    ((newFileState 3).itable 3).directPtr = List.replicate 10 NIL ∧
    (((newFileState 3).itable 3).linkCount, ((newFileState 3).itable 3).fileSize,
      ((newFileState 3).itable 3).dataBlocks) = (0, 0, 0) ∧
    (newFileState 3).ssmOut = [2240, 2304] ∧
    (fs_create_file 64 (newFileState 3) (0, 0) 0 (98, 0) 3).1 = 4 ∧
    (fs_create_file 64 (newFileState 3) (0, 0) 0 (98, 0) 3).2.ssmOut = [2304] ∧
    ((fs_create_file 64 (newFileState 3) (0, 0) 0 (98, 0) 3).2.itable 3).fileType = 1 ∧
    ((fs_create_file 64 (newFileState 3) (0, 0) 0 (98, 0) 3).2.itable 3).directPtr
      = 2240 :: List.replicate 9 NIL ∧
    (((fs_create_file 64 (newFileState 3) (0, 0) 0 (98, 0) 3).2.itable 3).linkCount,
      ((fs_create_file 64 (newFileState 3) (0, 0) 0 (98, 0) 3).2.itable 3).fileSize,
      ((fs_create_file 64 (newFileState 3) (0, 0) 0 (98, 0) 3).2.itable 3).dataBlocks)
      = (1, 64, 1) ∧
    (List.range 4).map (fun k =>
      (fs_create_file 64 (newFileState 3) (0, 0) 0 (98, 0) 3).2.disk (2240 + 4 * k))
      = [98, 0, 4, 1] ∧
    (zeroFile.itable 3).fileType = 1 ∧
    (zeroFile.itable 3).directPtr = 2240 :: List.replicate 9 NIL ∧
    (List.range 8).map (fun k => zeroFile.disk (2240 + 4 * k)) = [0, 0, 0, 0, 5, 6, 7, 8] ∧
    (fs_create_file 64 zeroFile (0, 0) 0 (98, 0) 3).1 = 4 ∧
    (List.range 8).map (fun k =>
      (fs_create_file 64 zeroFile (0, 0) 0 (98, 0) 3).2.disk (2240 + 4 * k))
      = [98, 0, 4, 1, 5, 6, 7, 8] := by
  decide

set_option maxRecDepth 1000000 in
/-- C37 (code evaluated at the failing input): file 3 of writtenOnce holds
eleven blocks of 64 bytes, ten direct ones and the data block 2944 under the
index block 2880; three sectors are left.  A second fs_write_to_file of the
same 704 bytes returns True, leaves the direct pointers as they were, but
takes the sectors 3008 and 3072 from the Sector Space Manager: sIndirect
changes from 2880 to 3008, the new index block pointing to 3072, and the
blocks 2880 and 2944 are no longer reachable from the inode.  A second write
of 640 bytes, ten direct blocks, takes no sector. -/
theorem fs_write_to_file_twice_allocates :
    (writtenOnce.itable 3).fileType = 1 ∧
    (writtenOnce.itable 3).fileSize = 704 ∧
    freeOrder 64 writtenOnce.disk (writtenOnce.itable 3)
      = (List.range 10).map (fun k => 2240 + 64 * k) ++ [2944, 2880] ∧
    writtenOnce.ssmOut = [3008, 3072, 3136] ∧
    (fs_write_to_file 64 false writtenOnce 3 (fun k => k + 1) 704).1 = true ∧
    (fs_write_to_file 64 false writtenOnce 3 (fun k => k + 1) 704).2.ssmOut = [3136] ∧
    ((fs_write_to_file 64 false writtenOnce 3 (fun k => k + 1) 704).2.itable 3).directPtr
      = (writtenOnce.itable 3).directPtr ∧
    (writtenOnce.itable 3).sIndirect = 2880 ∧
    ((fs_write_to_file 64 false writtenOnce 3 (fun k => k + 1) 704).2.itable 3).sIndirect
      = 3008 ∧
    freeOrder 64 (fs_write_to_file 64 false writtenOnce 3 (fun k => k + 1) 704).2.disk
      ((fs_write_to_file 64 false writtenOnce 3 (fun k => k + 1) 704).2.itable 3)
      = (List.range 10).map (fun k => 2240 + 64 * k) ++ [3072, 3008] ∧
    (fs_write_to_file 64 false writtenOnce 3 (fun k => k + 1) 704).2.ssmFreed = [] ∧
    (fs_write_to_file 64 true writtenOnce 3 (fun k => k + 1) 704).2.ssmOut = [3136] ∧
    (fs_write_to_file 64 false writtenOnce 3 (fun k => k + 1) 640).2.ssmOut
      = [3008, 3072, 3136] := by
  decide

/-! ### The size fields after a write, an insertion and a removal -/

/-- The record create_file persists for the parent when it has to take a new
direct block. -/
theorem create_file_grown_record (bs : Nat) (s : FsState) (f : Nat) (name : Nat × Nat)
    (p i x : Nat) (rest : List Nat) (hp : p ≠ NIL) (hty : 0 < (s.itable p).fileType)
    (hfull : ∀ b ∈ dataBlocksOf bs s.disk (s.itable p), freeSlot bs (readBlock s.disk b) = none)
    (hi : (List.range INODE_DIRECT_PTRS).find?
      (fun i => is_null ((s.itable p).directPtr.getD i NIL)) = some i)
    (hx : s.ssmOut = x :: rest) (hxn : x ≠ NIL) :
    (create_file bs s f name p).1 = true ∧
    (create_file bs s f name p).2.itable p = grownInode bs (s.itable p) i x := by
  let S1 : FsState :=
    { s with
      mapId := p, ssmOut := rest, inode := grownInode bs (s.itable p) i x,
      disk := writeBlock bs s.disk x (firstEntry name f) }
  have key : create_file bs s f name p = (true, (fs_close_file (inode_write (S1 : FsState) p)).2) := by
    unfold create_file
    rw [open_inode_eq s p hp hty]
    have e1 : create_file_in_avail_direct_loc bs { s with mapId := p, inode := s.itable p } f name
        = (false, { s with mapId := p, inode := s.itable p }) := by
      unfold create_file_in_avail_direct_loc
      apply avail_direct_loop_none
      intro j hj hne
      exact hfull _ (mem_dataBlocksOf_direct bs s.disk (s.itable p) j hj hne)
    have e2 : create_file_in_avail_indirect_loc bs { s with mapId := p, inode := s.itable p }
        f name false = (false, { s with mapId := p, inode := s.itable p }) :=
      avail_indirect_none bs _ f name hfull
    have hxn' : is_null x = false := by simpa [is_null] using hxn
    have e3 : create_file_in_unavail_direct_loc bs { s with mapId := p, inode := s.itable p }
        f p name = (true, (fs_close_file (inode_write (S1 : FsState) p)).2) := by
      unfold create_file_in_unavail_direct_loc
      simp only [hi, ssm_allocate_sectors, hx, hxn', Bool.false_eq_true, if_false]
      rfl
    simp only [Bool.not_true, Bool.false_eq_true, if_false, e1, e2, e3, if_true]
  rw [key]
  refine ⟨rfl, ?_⟩
  simp [fs_close_file, inode_write, S1]

/-- The direct-pointer loop of fs_remove_file_from_dir does at the first
pointer whose block holds the entry what it does when started there. -/
theorem remove_from_dir_direct_loop_first (bs f p : Nat) (s : FsState) (i : Nat) :
    ∀ l : List Nat,
      l.find? (fun k => is_not_null (s.inode.directPtr.getD k NIL) &&
        (matchSlot bs (readBlock s.disk (s.inode.directPtr.getD k NIL)) f).isSome) = some i →
      remove_from_dir_direct_loop bs f p l s = remove_from_dir_direct_loop bs f p [i] s := by
  intro l
  induction l with
  | nil => intro h; cases h
  | cons k ks ih =>
    intro h
    rw [List.find?_cons] at h
    cases hn : is_not_null (s.inode.directPtr.getD k NIL) with
    | false =>
      rw [hn] at h
      simp only [Bool.false_and] at h
      rw [remove_from_dir_direct_loop, if_neg (by rw [hn]; decide)]
      exact ih h
    | true =>
      rw [hn] at h
      simp only [Bool.true_and] at h
      cases hm : matchSlot bs (readBlock s.disk (s.inode.directPtr.getD k NIL)) f with
      | none =>
        rw [hm] at h
        simp only [Option.isSome_none] at h
        rw [remove_from_dir_direct_loop, if_pos hn]
        simp only [hm]
        exact ih h
      | some j =>
        rw [hm] at h
        simp only [Option.isSome_some] at h
        cases h
        conv_rhs => rw [remove_from_dir_direct_loop]
        conv_lhs => rw [remove_from_dir_direct_loop]
        simp only [hn, if_true, hm]

theorem inode_write_itable_self (s : FsState) (n : Nat) :
    (inode_write s n).itable n = s.inode := by
  simp [inode_write]

/-- The record fs_remove_file_from_dir persists when the entry is found in a
direct block and the block holds no other entry in use. -/
theorem remove_from_dir_direct_frees (bs f p : Nat) (s : FsState) (i j : Nat)
    (hn : is_not_null (s.inode.directPtr.getD i NIL) = true)
    (hm : matchSlot bs (readBlock s.disk (s.inode.directPtr.getD i NIL)) f = some j)
    (he : noEntryInUse bs (clearEntry (readBlock s.disk (s.inode.directPtr.getD i NIL)) j)
      = true) :
    ∃ r, remove_from_dir_direct_loop bs f p [i] s = some r ∧
      (r.itable p).dataBlocks = decU32 s.inode.dataBlocks ∧
      (r.itable p).fileSize
        = (if decU32 s.inode.linkCount = 0 then 0 else s.inode.fileSize) ∧
      r.ssmFreed = s.ssmFreed ++
        [(if decU32 s.inode.linkCount = 0 then NIL else s.inode.directPtr.getD i NIL) / bs] := by
  obtain ⟨disk, itable, ⟨ft, fsz, db, lc, dp, si, di, ti⟩, mapId, off, iMap, out, freed,
    ifreed⟩ := s
  rw [remove_from_dir_direct_loop]
  simp only [hn, if_true, hm]
  rw [if_pos he]
  refine ⟨_, rfl, ?_⟩
  by_cases h0 : decU32 lc = 0
  · rw [if_pos h0, if_pos h0, if_pos h0]
    simp only [inode_write, ssm_deallocate_sectors, if_true, inode_init_ptrs]
    refine ⟨trivial, trivial, ?_⟩
    simp
  · rw [if_neg h0, if_neg h0, if_neg h0, inode_write_itable_self]
    exact ⟨rfl, rfl, rfl⟩

/-- A removal that empties a direct block: fs_remove_file_from_dir returns True
and persists the record with dataBlocks - 1 and with fileSize as it was, or 0
when linkCount has come down to 0. -/
theorem fs_remove_file_from_dir_frees_direct (bs : Nat) (u : FsState) (g q k : Nat)
    (hq : q ≠ NIL) (hdir : (u.itable q).fileType = 2)
    (hk : (List.range INODE_DIRECT_PTRS).find? (fun i =>
        is_not_null ((u.itable q).directPtr.getD i NIL) &&
        (matchSlot bs (readBlock u.disk ((u.itable q).directPtr.getD i NIL)) g).isSome) = some k)
    (hempty : ∀ j,
      matchSlot bs (readBlock u.disk ((u.itable q).directPtr.getD k NIL)) g = some j →
      noEntryInUse bs (clearEntry (readBlock u.disk ((u.itable q).directPtr.getD k NIL)) j)
        = true) :
    (fs_remove_file_from_dir bs u g q).1 = true ∧
    ((fs_remove_file_from_dir bs u g q).2.itable q).dataBlocks
      = decU32 (u.itable q).dataBlocks ∧
    ((fs_remove_file_from_dir bs u g q).2.itable q).fileSize
      = (if decU32 (u.itable q).linkCount = 0 then 0 else (u.itable q).fileSize) ∧
    (fs_remove_file_from_dir bs u g q).2.ssmFreed = u.ssmFreed ++
      [(if decU32 (u.itable q).linkCount = 0 then NIL
        else (u.itable q).directPtr.getD k NIL) / bs] := by
  have hP := List.find?_some hk
  simp only [Bool.and_eq_true] at hP
  obtain ⟨hn, hs⟩ := hP
  obtain ⟨j, hm⟩ := Option.isSome_iff_exists.mp hs
  obtain ⟨r, hr, h1, h2, h3⟩ := remove_from_dir_direct_frees bs g q
    { u with mapId := q, inode := u.itable q } k j hn hm (hempty j hm)
  have hl := remove_from_dir_direct_loop_first bs g q
    { u with mapId := q, inode := u.itable q } k _ hk
  have key : fs_remove_file_from_dir bs u g q = (true, r) := by
    unfold fs_remove_file_from_dir
    rw [open_inode_eq u q hq (by rw [hdir]; decide)]
    simp only [Bool.not_true, Bool.false_eq_true, if_false]
    rw [if_pos hdir, hl, hr]
  rw [key]
  exact ⟨rfl, h1, h2, h3⟩

/-- C16 (as amended): fileSize = dataBlocks * BLOCK_SIZE is not kept by the
three operations; what they persist is this.  (a) fs_write_to_file of size
bytes to an inode n that opens: fileSize = size mod 2^32 and dataBlocks =
fileSize / BLOCK_SIZE rounded down, so the equation holds exactly when
BLOCK_SIZE divides that fileSize.  (b) create_file into a parent p that opens,
when no data block reachable from p has a free slot, direct pointer i is the
first that is NIL and the Sector Space Manager answers x, not NIL: fileSize =
old fileSize + BLOCK_SIZE mod 2^32 and dataBlocks = that fileSize / BLOCK_SIZE
(whatever dataBlocks was), so the equation holds exactly when BLOCK_SIZE
divides the new fileSize.  (c) fs_remove_file_from_dir(g, q) on a directory q
whose first direct block holding an in-use entry for g is block k, that block
holding no other entry in use: the result is True, the sector is handed back,
dataBlocks = old dataBlocks - 1 mod 2^32, and fileSize is left as it was, or
is 0 when linkCount has come down to 0. -/
theorem size_fields_after_write_insert_remove (bs : Nat)
    (wide : Bool) (s : FsState) (n : Nat) (buf : Nat → Nat) (size : Int)
    (hn : n ≠ NIL) (hf : 0 < (s.itable n).fileType)
    (t : FsState) (f : Nat) (name : Nat × Nat) (p i x : Nat) (rest : List Nat)
    (hp : p ≠ NIL) (hty : 0 < (t.itable p).fileType)
    (hfull : ∀ b ∈ dataBlocksOf bs t.disk (t.itable p), freeSlot bs (readBlock t.disk b) = none)
    (hi : (List.range INODE_DIRECT_PTRS).find?
      (fun i => is_null ((t.itable p).directPtr.getD i NIL)) = some i)
    (hx : t.ssmOut = x :: rest) (hxn : x ≠ NIL)
    (u : FsState) (g q k : Nat) (hq : q ≠ NIL) (hdir : (u.itable q).fileType = 2)
    (hk : (List.range INODE_DIRECT_PTRS).find? (fun i =>
        is_not_null ((u.itable q).directPtr.getD i NIL) &&
        (matchSlot bs (readBlock u.disk ((u.itable q).directPtr.getD i NIL)) g).isSome) = some k)
    (hempty : ∀ j,
      matchSlot bs (readBlock u.disk ((u.itable q).directPtr.getD k NIL)) g = some j →
      noEntryInUse bs (clearEntry (readBlock u.disk ((u.itable q).directPtr.getD k NIL)) j)
        = true) :
    (((fs_write_to_file bs wide s n buf size).2.itable n).fileSize = (size % (U32 : Int)).toNat ∧
      ((fs_write_to_file bs wide s n buf size).2.itable n).dataBlocks
        = (size % (U32 : Int)).toNat / bs ∧
      (((fs_write_to_file bs wide s n buf size).2.itable n).fileSize
          = ((fs_write_to_file bs wide s n buf size).2.itable n).dataBlocks * bs ↔
        (size % (U32 : Int)).toNat % bs = 0)) ∧
    ((create_file bs t f name p).1 = true ∧
      ((create_file bs t f name p).2.itable p).fileSize = ((t.itable p).fileSize + bs) % U32 ∧
      ((create_file bs t f name p).2.itable p).dataBlocks
        = ((t.itable p).fileSize + bs) % U32 / bs ∧
      (((create_file bs t f name p).2.itable p).fileSize
          = ((create_file bs t f name p).2.itable p).dataBlocks * bs ↔
        ((t.itable p).fileSize + bs) % U32 % bs = 0)) ∧
    ((fs_remove_file_from_dir bs u g q).1 = true ∧
      ((fs_remove_file_from_dir bs u g q).2.itable q).dataBlocks
        = decU32 (u.itable q).dataBlocks ∧
      ((fs_remove_file_from_dir bs u g q).2.itable q).fileSize
        = (if decU32 (u.itable q).linkCount = 0 then 0 else (u.itable q).fileSize) ∧
      (fs_remove_file_from_dir bs u g q).2.ssmFreed = u.ssmFreed ++
        [(if decU32 (u.itable q).linkCount = 0 then NIL
          else (u.itable q).directPtr.getD k NIL) / bs]) := by
  refine ⟨fs_write_to_file_size bs wide s n buf size hn hf, ?_,
    fs_remove_file_from_dir_frees_direct bs u g q k hq hdir hk hempty⟩
  obtain ⟨h1, h2⟩ := create_file_grown_record bs t f name p i x rest hp hty hfull hi hx hxn
  have e1 : ((create_file bs t f name p).2.itable p).fileSize
      = ((t.itable p).fileSize + bs) % U32 := by
    rw [h2]; rfl
  have e2 : ((create_file bs t f name p).2.itable p).dataBlocks
      = ((t.itable p).fileSize + bs) % U32 / bs := by
    rw [h2]; rfl
  refine ⟨h1, e1, e2, ?_⟩
  rw [e1, e2]
  constructor
  · intro h
    rw [h]
    exact Nat.mul_mod_left _ _
  · intro h
    exact (Nat.div_mul_cancel (Nat.dvd_of_mod_eq_zero h)).symm

set_option maxRecDepth 1000000 in
/-- Instance of size_fields_after_write_insert_remove on 64-byte blocks: 100
bytes written to file 3 of newFileState leave fileSize 100 and dataBlocks 1;
the insertion of file 5 into the root of shrunkState (fileSize 128, dataBlocks
1) leaves fileSize 192 and dataBlocks 3; the removal of file 5 from the root of
threeFilesState (fileSize 128, dataBlocks 2, file 5 alone in block 2240) hands
back sector 35 and leaves fileSize 128 and dataBlocks 1. -/
theorem size_fields_after_write_insert_remove_witness :
    (((fs_write_to_file 64 false (newFileState 12) 3 (fun k => k + 1) 100).2.itable 3).fileSize
        = 100 ∧
      ((fs_write_to_file 64 false (newFileState 12) 3 (fun k => k + 1) 100).2.itable 3).dataBlocks
        = 1) ∧
    (((create_file 64 shrunkState 5 (100, 0) 2).2.itable 2).fileSize = 192 ∧
      ((create_file 64 shrunkState 5 (100, 0) 2).2.itable 2).dataBlocks = 3) ∧
    ((fs_remove_file_from_dir 64 threeFilesState 5 2).1 = true ∧
      ((fs_remove_file_from_dir 64 threeFilesState 5 2).2.itable 2).dataBlocks = 1 ∧
      ((fs_remove_file_from_dir 64 threeFilesState 5 2).2.itable 2).fileSize = 128 ∧
      (fs_remove_file_from_dir 64 threeFilesState 5 2).2.ssmFreed = [35]) :=
  have h := size_fields_after_write_insert_remove 64
    false (newFileState 12) 3 (fun k => k + 1) 100 (by decide) (by decide)
    shrunkState 5 (100, 0) 2 1 2304 [2368]
    (by decide) (by decide) (by decide) (by decide) (by decide) (by decide)
    threeFilesState 5 2 1 (by decide) (by decide) (by decide)
    (by
      have e : matchSlot 64 (readBlock threeFilesState.disk
          ((threeFilesState.itable 2).directPtr.getD 1 NIL)) 5 = some 0 := by decide
      intro j hj
      rw [e] at hj
      cases hj
      decide)
  ⟨⟨h.1.1.trans (by decide), h.1.2.1.trans (by decide)⟩,
    ⟨h.2.1.2.1.trans (by decide), h.2.1.2.2.1.trans (by decide)⟩,
    ⟨h.2.2.1, h.2.2.2.1.trans (by decide), h.2.2.2.2.1.trans (by decide),
      h.2.2.2.2.2.trans (by decide)⟩⟩

/-! ### The pointer fields of inode records: an invariant of all operations -/

theorem Good.nil_g (ok : Nat → Prop) : Good ok NIL := Or.inl rfl

/-- A state whose answers, working inode and inode records are those of a state
that satisfies PtrInv satisfies it. -/
theorem PtrInv.of_eq {ok : Nat → Prop} {s r : FsState} (h : PtrInv ok s)
    (h1 : r.ssmOut = s.ssmOut) (h2 : r.inode = s.inode) (h3 : r.itable = s.itable) :
    PtrInv ok r := by
  unfold PtrInv
  rw [h1, h2, h3]
  exact h

end Fsm
